import Mathlib

/-!
# GPI-2 group engine

A shallow embedding of the group utilities and the two group collectives of
`src/GPI2_GRP.c` (barrier and allreduce) together with the group device calls of
`src/devices/tcp/GPI2_TCP_GRP.c`.

Conventions of the embedding.

* C `int` counters that never go negative in the modelled paths are `Nat`; fields
  that hold the marker `-1` (`id`, `rank`, `tmprank`, entries of `rank_grp`) are `Int`.
* A `NULL` array is the empty list.
* The staging buffer `rrcd[gctx->rank].data.buf` of a group is a byte map
  `Nat → Nat` indexed by the offset from the start of the buffer; a remote address
  `rrcd[dst].data.addr + off` is the pair of the target rank and the offset `off`.
* Calls that leave the process (system calls, the control plane, the transport) take
  their outcome from an environment record.
* A result `none` stands for a call that does not return (an endless loop) or leaves
  the range of the C type.
* The debug-only argument checks `gaspi_verify_*` are preconditions of the calls.
-/

namespace GPI2

/-! ## Return codes and constants -/

/-- Return codes of the public calls (`gaspi_return_t`). -/
inductive gaspi_return_t
  | GASPI_SUCCESS
  | GASPI_TIMEOUT
  | GASPI_ERROR
  | GASPI_ERR_INV_GROUP
  | GASPI_ERR_INV_RANK
  | GASPI_ERR_INV_NUM
  | GASPI_ERR_INV_SIZE
  | GASPI_ERR_MANY_GRP
  | GASPI_ERR_MEMALLOC
  | GASPI_ERR_ACTIVE_COLL
  | GASPI_ERR_DEVICE
  deriving DecidableEq, Repr

open gaspi_return_t

/-- Capacity of the group table (`GPI2_Types.h`). -/
def GASPI_MAX_GROUPS : Nat := 32

/-- Modelled from the spec: the id of the group of all ranks (`GASPI.h` is not part of
the sources); it is the first slot of the group table. -/
def GASPI_GROUP_ALL : Nat := 0

/-- Modelled from the spec: the collective kinds of `coll_op` (`GPI2_Coll.h` is not part
of the sources). The admission test of the collectives is `coll_op & KIND`, so the
kinds are one-bit flags and `GASPI_NONE` carries all of them. -/
def GASPI_BARRIER : Nat := 1

/-- Modelled from the spec: collective kind of `pgaspi_allreduce` (see `GASPI_BARRIER`). -/
def GASPI_ALLREDUCE : Nat := 2

/-- Modelled from the spec: collective kind of `pgaspi_allreduce_user` (see `GASPI_BARRIER`). -/
def GASPI_ALLREDUCE_USER : Nat := 4

/-- Modelled from the spec: the value of `coll_op` while no collective holds the group
(see `GASPI_BARRIER`). -/
def GASPI_NONE : Nat := 7

/-- Upper bound on the element count of an allreduce (`GPI2_ALLREDUCE_ELEM_MAX`). -/
def GPI2_ALLREDUCE_ELEM_MAX : Nat := (1 <<< 8) - 1

/-- Element sizes by datatype index (`glb_gaspi_typ_size`). -/
def glb_gaspi_typ_size : List Nat := [4, 4, 4, 8, 8, 8]

/-- Size of the two-byte togle pair of a sync slot (`TOGGLE_SIZE`). -/
def TOGGLE_SIZE : Nat := 2

/-! ## Data model -/

/-- Staging memory: byte at each offset of `rrcd[gctx->rank].data.buf`. -/
abbrev Mem := Nat → Nat

/-- Modelled from the spec: the group context `gaspi_group_ctx_t` (`GPI2_GRP.h` is not
part of the sources), with the fields the functions of `GPI2_GRP.c` use. `rrcd` says
whether the descriptor array is allocated and `buf` is the local staging buffer. -/
structure gaspi_group_ctx_t where
  id : Int
  barrier_cnt : Nat
  togle : Nat
  coll_op : Nat
  lastmask : Nat
  level : Nat
  tmprank : Int
  dsize : Nat
  bid : Nat
  rank : Int
  tnc : Nat
  next_pof2 : Nat
  pof2_exp : Nat
  rank_grp : List Int
  committed_rank : List Nat
  rrcd : Bool
  buf : Mem

/-- Modelled from the spec: the macro `GASPI_RESET_GROUP` (`GPI2_GRP.h` is not part of the
sources). The slot is marked free (`id = -1`), the counters are cleared, the arrays
are `NULL`, and the resumption fields take the idle values that the collectives
restore on success (`coll_op = NONE`, `lastmask = 1`, `level = dsize = bid = 0`). -/
def GASPI_RESET_GROUP (c : gaspi_group_ctx_t) : gaspi_group_ctx_t :=
  { c with
    id := -1, barrier_cnt := 0, togle := 0, coll_op := GASPI_NONE, lastmask := 1,
    level := 0, tmprank := 0, dsize := 0, bid := 0, rank := 0, tnc := 0,
    next_pof2 := 0, pof2_exp := 0, rank_grp := [], committed_rank := [], rrcd := false }

/-- The fields of the process context `gaspi_context_t` (`GPI2_Types.h`) that the group
engine uses. `ep_conn r` holds when the endpoint to `r` is connected and
`qp_corrupt r` when `qp_state_vec[GASPI_COLL_QP][r]` is `GASPI_STATE_CORRUPT`. -/
structure gaspi_context_t where
  rank : Nat
  tnc : Nat
  group_cnt : Int
  ne_count_grp : Nat
  ep_conn : Nat → Bool
  qp_corrupt : Nat → Bool

/-- Process state of the group utilities: the context `glb_gaspi_ctx` and the group
table `glb_gaspi_group_ctx` (slots `0 .. GASPI_MAX_GROUPS - 1`). -/
structure Glb where
  gctx : gaspi_context_t
  groups : Nat → gaspi_group_ctx_t

/-- Pointwise update of a table. -/
def upd {α : Type} (f : Nat → α) (i : Nat) (v : α) : Nat → α :=
  fun j => if j = i then v else f j

/-! ## Group utilities -/

/-- Outcomes of the calls `pgaspi_group_create` makes outside the process state. -/
structure CreateEnv where
  page_size_ok : Bool
  calloc_rrcd_ok : Bool
  memalign_ok : Bool
  register_ok : Bool
  malloc_rank_grp_ok : Bool
  calloc_committed_ok : Bool
  unregister_ok : Bool

/-- Release of the memory of a group slot (`_gaspi_release_group_mem`). -/
def _gaspi_release_group_mem (unregister_ok : Bool) (c : gaspi_group_ctx_t) :
    gaspi_return_t × gaspi_group_ctx_t :=
  if c.rrcd then
    if !unregister_ok then (GASPI_ERR_DEVICE, c)
    else (GASPI_SUCCESS, { c with rrcd := false, rank_grp := [], committed_rank := [] })
  else (GASPI_SUCCESS, { c with rank_grp := [], committed_rank := [] })

/-- The scan for a free slot in `pgaspi_group_create`: the first index `i`, from `i` on
and within `n` steps, whose `id` is `-1`; `GASPI_MAX_GROUPS` when there is none. -/
def find_free_slot (groups : Nat → gaspi_group_ctx_t) : Nat → Nat → Nat
  | _, 0 => GASPI_MAX_GROUPS
  | i, n + 1 => if (groups i).id = -1 then i else find_free_slot groups (i + 1) n

/-- Group creation (`pgaspi_group_create`). The result carries the id written to
`*group` on success. -/
def pgaspi_group_create (E : CreateEnv) (s : Glb) : gaspi_return_t × Option Nat × Glb :=
  if s.gctx.group_cnt ≥ (GASPI_MAX_GROUPS : Int) then (GASPI_ERR_MANY_GRP, none, s)
  else
    let id := find_free_slot s.groups 0 GASPI_MAX_GROUPS
    if id = GASPI_MAX_GROUPS then (GASPI_ERR_MANY_GRP, none, s)
    else
      let errL (eret : gaspi_return_t) (c : gaspi_group_ctx_t) : gaspi_return_t × Option Nat × Glb :=
        (eret, none, { s with groups := upd s.groups id (_gaspi_release_group_mem E.unregister_ok c).2 })
      if !E.page_size_ok then errL GASPI_ERROR (s.groups id)
      else
        let c0 := GASPI_RESET_GROUP (s.groups id)
        if !E.calloc_rrcd_ok then errL GASPI_ERR_MEMALLOC c0
        else
          let c1 := { c0 with rrcd := true }
          if !E.memalign_ok then errL GASPI_ERR_MEMALLOC c1
          else
            let c2 := { c1 with buf := fun _ => 0 }
            if !E.register_ok then errL GASPI_ERR_DEVICE c2
            else if !E.malloc_rank_grp_ok then errL GASPI_ERR_MEMALLOC c2
            else if !E.calloc_committed_ok then errL GASPI_ERR_MEMALLOC c2
            else
              let c3 := { c2 with
                rank_grp := List.replicate s.gctx.tnc (-1),
                committed_rank := List.replicate s.gctx.tnc 0 }
              (GASPI_SUCCESS, some id,
                { gctx := { s.gctx with group_cnt := s.gctx.group_cnt + 1 },
                  groups := upd s.groups id { c3 with id := (id : Int) } })

/-- The C library sort as called by `pgaspi_group_add`: ascending order under
`gaspi_comp_ranks`, the difference of the two ranks. -/
def qsort (l : List Int) : List Int := l.insertionSort (fun a b => a ≤ b)

/-- Adding a rank to a group (`pgaspi_group_add`). -/
def pgaspi_group_add (s : Glb) (g : Nat) (rank : Nat) : gaspi_return_t × Glb :=
  let grp_ctx := s.groups g
  if (grp_ctx.rank_grp.take grp_ctx.tnc).any (fun x => x = (rank : Int)) then
    (GASPI_ERR_INV_RANK, s)
  else
    let a := grp_ctx.rank_grp.set grp_ctx.tnc (rank : Int)
    let n := grp_ctx.tnc + 1
    let c := { grp_ctx with tnc := n, rank_grp := qsort (a.take n) ++ a.drop n }
    (GASPI_SUCCESS, { s with groups := upd s.groups g c })

/-- Number of ranks of a group (`pgaspi_group_size`). -/
def pgaspi_group_size (s : Glb) (g : Nat) : gaspi_return_t × Option Nat :=
  if (g : Int) < s.gctx.group_cnt then (GASPI_SUCCESS, some (s.groups g).tnc)
  else (GASPI_ERR_INV_GROUP, none)

/-- The ranks of a group (`pgaspi_group_ranks`): the entries written to `group_ranks`. -/
def pgaspi_group_ranks (s : Glb) (g : Nat) : gaspi_return_t × List Int :=
  if (g : Int) < s.gctx.group_cnt then
    (GASPI_SUCCESS, (s.groups g).rank_grp.take (s.groups g).tnc)
  else (GASPI_ERR_INV_GROUP, [])

/-- The loop `while (next_pof2 <= tnc) next_pof2 <<= 1` on the C `int` field; `none`
when the shift leaves the range of `int`. -/
def pof2_loop (tnc : Nat) : Nat → Nat → Option Nat
  | _, 0 => none
  | p, n + 1 =>
    if p ≤ tnc then
      if p <<< 1 < 2 ^ 31 then pof2_loop tnc (p <<< 1) n else none
    else some p

/-- Leading zero bits below bit `k` of a word. -/
def clz_loop (x : Nat) : Nat → Nat
  | 0 => 0
  | k + 1 => if x.testBit k then 0 else 1 + clz_loop x k

/-- The compiler builtin `__builtin_clz` on a 32-bit word: the number of leading zero
bits. -/
def __builtin_clz (x : Nat) : Nat := clz_loop x 32

/-- The computation of `next_pof2` and `pof2_exp` shared by `pgaspi_group_commit` and
`pgaspi_group_all_local_create`. -/
def set_pof2 (c : gaspi_group_ctx_t) : Option gaspi_group_ctx_t :=
  match pof2_loop c.tnc 1 32 with
  | none => none
  | some p =>
    let q := p >>> 1
    some { c with next_pof2 := q, pof2_exp := __builtin_clz q ^^^ 31 }

/-- The fast path for `GASPI_GROUP_ALL` (`pgaspi_group_all_local_create`); `lock_ok`
says whether the context lock was acquired within the timeout. -/
def pgaspi_group_all_local_create (E : CreateEnv) (lock_ok : Bool) (s : Glb) :
    Option (gaspi_return_t × Glb) :=
  match pgaspi_group_create E s with
  | (GASPI_SUCCESS, some g0, s1) =>
    if g0 ≠ GASPI_GROUP_ALL then some (GASPI_ERR_INV_GROUP, s1)
    else if !lock_ok then some (GASPI_TIMEOUT, s1)
    else
      let c := s1.groups GASPI_GROUP_ALL
      let c1 := { c with
        rank_grp := (List.range s1.gctx.tnc).map Int.ofNat ++ c.rank_grp.drop s1.gctx.tnc,
        tnc := s1.gctx.tnc,
        rank := (s1.gctx.rank : Int) }
      match set_pof2 c1 with
      | none => none
      | some c2 => some (GASPI_SUCCESS, { s1 with groups := upd s1.groups GASPI_GROUP_ALL c2 })
  | (eret, _, s1) => some (eret, s1)

/-- Outcomes of the control-plane commands of `pgaspi_group_commit`, by target rank. -/
structure CommitEnv where
  lock_ok : Bool
  grp_check : Nat → gaspi_return_t
  grp_connect : Nat → gaspi_return_t

/-- Connection of a group to one peer (`_pgaspi_group_commit_to`). -/
def _pgaspi_group_commit_to (grp_connect : Nat → gaspi_return_t) (c : gaspi_group_ctx_t)
    (i : Nat) : gaspi_return_t × gaspi_group_ctx_t :=
  if grp_connect i ≠ GASPI_SUCCESS then (grp_connect i, c)
  else (GASPI_SUCCESS, { c with committed_rank := c.committed_rank.set i 1 })

/-- The search for the calling rank in `pgaspi_group_commit`: the first index below
`tnc`, starting at `i`, whose entry is the rank; `-1` when there is none. -/
def find_rank (rank_grp : List Int) (rank : Nat) : Nat → Nat → Int
  | _, 0 => -1
  | i, n + 1 =>
    if rank_grp.getD i (-1) = (rank : Int) then (i : Int) else find_rank rank_grp rank (i + 1) n

/-- The loop over the peers in `pgaspi_group_commit`, for the offsets `r` of the list. -/
def commit_loop (E : CommitEnv) (gctx : gaspi_context_t) :
    List Nat → gaspi_group_ctx_t → gaspi_return_t × gaspi_group_ctx_t
  | [], c => (GASPI_SUCCESS, c)
  | r :: rs, c =>
    let rg := (c.rank.toNat + r) % c.tnc
    let peer := c.rank_grp.getD rg (-1)
    if peer = (gctx.rank : Int) then commit_loop E gctx rs c
    else if E.grp_check peer.toNat ≠ GASPI_SUCCESS then (E.grp_check peer.toNat, c)
    else
      let r1 := _pgaspi_group_commit_to E.grp_connect c peer.toNat
      if r1.1 ≠ GASPI_SUCCESS then (GASPI_ERROR, r1.2)
      else commit_loop E gctx rs r1.2

/-- Commit of a group (`pgaspi_group_commit`). -/
def pgaspi_group_commit (E : CommitEnv) (s : Glb) (g : Nat) : Option (gaspi_return_t × Glb) :=
  let c := s.groups g
  if !E.lock_ok then some (GASPI_TIMEOUT, s)
  else if c.tnc < 2 ∧ s.gctx.tnc ≠ 1 then some (GASPI_ERR_INV_GROUP, s)
  else
    let c1 := { c with rank := find_rank c.rank_grp s.gctx.rank 0 c.tnc }
    if c1.rank = -1 then some (GASPI_ERR_INV_GROUP, { s with groups := upd s.groups g c1 })
    else
      match set_pof2 c1 with
      | none => none
      | some c2 =>
        let r := commit_loop E s.gctx (List.range' 1 c2.tnc) c2
        some (r.1, { s with groups := upd s.groups g r.2 })

/-! ## Group device calls (`devices/tcp/GPI2_TCP_GRP.c`) -/

/-- Modelled from the spec: the opcodes of a work request (`tcp_device.h` is not part of
the sources); the names are those used by `tcp_device.c`. -/
inductive tcp_dev_wr_opcode
  | REGISTER_MASTER
  | REGISTER_WORKER
  | POST_RDMA_WRITE
  | POST_RDMA_WRITE_INLINED
  | POST_RDMA_READ
  | POST_ATOMIC_CMP_AND_SWP
  | POST_ATOMIC_FETCH_AND_ADD
  | POST_SEND
  | POST_SEND_INLINED
  | POST_RECV
  | NOTIFICATION_RDMA_WRITE
  | NOTIFICATION_SEND
  | REQUEST_RDMA_READ
  | REQUEST_ATOMIC_CMP_AND_SWP
  | REQUEST_ATOMIC_FETCH_AND_ADD
  | RESPONSE_RDMA_READ
  | RESPONSE_ATOMIC_CMP_AND_SWP
  | RESPONSE_ATOMIC_FETCH_AND_ADD
  | RESPONSE_SEND
  | STOP_DEVICE
  deriving DecidableEq, Repr

/-- Modelled from the spec: completion status (`tcp_device.h` is not part of the
sources). -/
inductive tcp_dev_wc_status
  | TCP_WC_SUCCESS
  | TCP_WC_REM_OP_ERROR
  deriving DecidableEq, Repr

/-- Modelled from the spec: completion opcode (`tcp_device.h` is not part of the
sources). -/
inductive tcp_dev_wc_opcode
  | TCP_DEV_WC_RDMA_WRITE
  | TCP_DEV_WC_RDMA_READ
  | TCP_DEV_WC_CMP_SWAP
  | TCP_DEV_WC_FETCH_ADD
  | TCP_DEV_WC_SEND
  | TCP_DEV_WC_RECV
  deriving DecidableEq, Repr

/-- Modelled from the spec: the work request record `tcp_dev_wr_t` (`tcp_device.h` is not
part of the sources). `local_addr` is an offset in the staging buffer of the source
rank and `remote_addr` an offset in the staging buffer of the target rank. -/
structure tcp_dev_wr_t where
  wr_id : Nat
  cq_handle : Nat
  opcode : tcp_dev_wr_opcode
  source : Nat
  target : Nat
  local_addr : Nat
  remote_addr : Nat
  length : Nat
  compare_add : Nat
  swap : Nat
  deriving DecidableEq, Repr

/-- Modelled from the spec: the work completion record `tcp_dev_wc_t` (`tcp_device.h` is
not part of the sources). -/
structure tcp_dev_wc_t where
  wr_id : Nat
  status : tcp_dev_wc_status
  opcode : tcp_dev_wc_opcode
  sender : Nat
  deriving DecidableEq, Repr

/-- What a process does that its peers or its caller can see, in program order: a work
request written to the group queue, a reduction applied (stage index, addresses of
the local operand, of the received operand and of the result), a sync token observed
by `_gaspi_sync_wait` (polled offset, value). -/
inductive Event
  | write (wr : tcp_dev_wr_t)
  | redux (bid local_val dst_val out : Nat)
  | polled (addr val : Nat)
  deriving DecidableEq, Repr

/-- State of one process during a collective on the group `g`: the process context, the
context of the group, the number of completions taken so far from the group
completion queue `scqGroups` and the record of its actions. -/
structure Proc where
  gctx : gaspi_context_t
  grp : gaspi_group_ctx_t
  cq_rpos : Nat
  log : List Event

/-- What the surroundings answer during one call of a collective.

* `lock_ok`: the group lock was acquired within the timeout;
* `poll a`: the byte that the spin loop of `_gaspi_sync_wait` reads at staging offset
  `a` before it gives up (the byte is written by the peers);
* `connect r`: the result of `pgaspi_connect` to rank `r`;
* `grp_connect r`: the result of the control-plane command `GASPI_SN_GRP_CONNECT`;
* `write_ok wr`: the `write` of the record to the queue socket was complete;
* `valid_state r`: `rank_state[r]` of the transport is set;
* `scq_num`: the handle of the group completion queue;
* `cq k`: the completion that the transport posts to the group completion queue as
  its `k`-th one, `none` when it never posts that many. -/
structure Env where
  lock_ok : Bool
  poll : Nat → Nat
  connect : Nat → gaspi_return_t
  grp_connect : Nat → gaspi_return_t
  write_ok : tcp_dev_wr_t → Bool
  valid_state : Nat → Bool
  scq_num : Nat
  cq : Nat → Option tcp_dev_wc_t

/-- Marks the collectives queue to `dst` corrupt
(`gctx->qp_state_vec[GASPI_COLL_QP][dst] = GASPI_STATE_CORRUPT`). -/
def set_corrupt (p : Proc) (dst : Nat) : Proc :=
  { p with gctx := { p.gctx with qp_corrupt := upd p.gctx.qp_corrupt dst true } }

/-- Posting of a group write (`pgaspi_dev_post_group_write`); the result is the C return
value, `0` on success. -/
def pgaspi_dev_post_group_write (E : Env) (p : Proc) (local_addr length dst remote_addr : Nat) :
    Nat × Proc :=
  let wr : tcp_dev_wr_t :=
    { cq_handle := E.scq_num, source := p.gctx.rank, local_addr := local_addr, length := length,
      swap := 0, compare_add := 0, opcode := tcp_dev_wr_opcode.POST_RDMA_WRITE, target := dst,
      remote_addr := remote_addr, wr_id := dst }
  if !E.write_ok wr then (1, p)
  else (0, { p with gctx := { p.gctx with ne_count_grp := p.gctx.ne_count_grp + 1 },
                    log := p.log ++ [Event.write wr] })

/-- The loop of `pgaspi_dev_poll_groups` over `n` completions, from position `pos` of
the queue on: `none` when the queue stays empty (the inner loop spins), otherwise
the rank of the failed request, if any, and the position reached. -/
def poll_groups_loop (E : Env) : Nat → Nat → Option (Option Nat × Nat)
  | 0, pos => some (none, pos)
  | n + 1, pos =>
    match E.cq pos with
    | none => none
    | some wc =>
      if wc.status ≠ tcp_dev_wc_status.TCP_WC_SUCCESS then
        if !E.valid_state wc.wr_id then poll_groups_loop E n (pos + 1)
        else some (some wc.wr_id, pos + 1)
      else poll_groups_loop E n (pos + 1)

/-- Draining of the group completion queue (`pgaspi_dev_poll_groups`). -/
def pgaspi_dev_poll_groups (E : Env) (p : Proc) : Option (Int × Proc) :=
  let nr := p.gctx.ne_count_grp
  match poll_groups_loop E nr p.cq_rpos with
  | none => none
  | some (some r, pos) => some (-1, set_corrupt { p with cq_rpos := pos } r)
  | some (none, pos) =>
    some ((nr : Int),
      { p with cq_rpos := pos, gctx := { p.gctx with ne_count_grp := p.gctx.ne_count_grp - nr } })

/-! ## Barrier -/

/-- The poll loop `_gaspi_sync_wait`: success when the polled byte shows the expected
value before the time is up. -/
def _gaspi_sync_wait (E : Env) (poll_buf : Nat) (expected_val : Nat) : gaspi_return_t :=
  if E.poll poll_buf = expected_val then GASPI_SUCCESS else GASPI_TIMEOUT

/-- Offset of the local sync flag (`GPI2_GRP_LOCAL_SYNC_ADDR`). -/
def GPI2_GRP_LOCAL_SYNC_ADDR (c : gaspi_group_ctx_t) : Nat := TOGGLE_SIZE * c.tnc + c.togle

/-- Offset, in the buffer of the target, of the sync slot this process writes
(`GPI2_GRP_REMOTE_SYNC_ADDR`). -/
def GPI2_GRP_REMOTE_SYNC_ADDR (c : gaspi_group_ctx_t) : Nat := TOGGLE_SIZE * c.rank.toNat + c.togle

/-- Offset of the sync slot polled for the member `src_rank`
(`GPI2_GRP_SYNC_POLL_ADDR`). -/
def GPI2_GRP_SYNC_POLL_ADDR (c : gaspi_group_ctx_t) (src_rank : Nat) : Nat :=
  TOGGLE_SIZE * src_rank + c.togle

/-- The increment of the 8-bit `barrier_cnt` at the first entry of a collective, with
the second increment when it wraps to zero. -/
def bump_barrier_cnt (c : Nat) : Nat :=
  if (c + 1) % 256 = 0 then ((c + 1) % 256 + 1) % 256 else (c + 1) % 256

/-- Modelled from the spec: `pgaspi_connect` (its file is not part of the sources): on
success the endpoint to `dst` is connected. -/
def pgaspi_connect (E : Env) (p : Proc) (dst : Nat) : gaspi_return_t × Proc :=
  if E.connect dst ≠ GASPI_SUCCESS then (E.connect dst, p)
  else (GASPI_SUCCESS, { p with gctx := { p.gctx with ep_conn := upd p.gctx.ep_conn dst true } })

/-- Sequencing of two steps of which the first may make the function return: the second
step runs only after the first gave `GASPI_SUCCESS`. -/
def andThen (r : gaspi_return_t × Proc) (f : Proc → gaspi_return_t × Proc) : gaspi_return_t × Proc :=
  if r.1 ≠ GASPI_SUCCESS then r else f r.2

/-- The block `if (GASPI_ENDPOINT_DISCONNECTED == gctx->ep_conn[dst].cstat)` of a
collective: the endpoint is connected when it is not yet. -/
def connect_if_needed (E : Env) (p : Proc) (dst : Nat) : gaspi_return_t × Proc :=
  if !p.gctx.ep_conn dst then pgaspi_connect E p dst else (GASPI_SUCCESS, p)

/-- The block `if (!grp_ctx->committed_rank[dst])` of a collective: the group is
connected to the peer when it is not yet. -/
def commit_if_needed (E : Env) (p : Proc) (dst : Nat) : gaspi_return_t × Proc :=
  if p.grp.committed_rank.getD dst 0 = 0 then
    ((_pgaspi_group_commit_to E.grp_connect p.grp dst).1,
      { p with grp := (_pgaspi_group_commit_to E.grp_connect p.grp dst).2 })
  else (GASPI_SUCCESS, p)

/-- The block `if (pgaspi_dev_post_group_write(...) != 0)` of a collective: a failed
post marks the queue to `dst` corrupt and gives `GASPI_ERR_DEVICE`. -/
def post_or_corrupt (E : Env) (p : Proc) (local_addr length dst remote_addr : Nat) :
    gaspi_return_t × Proc :=
  if (pgaspi_dev_post_group_write E p local_addr length dst remote_addr).1 ≠ 0 then
    (GASPI_ERR_DEVICE, set_corrupt (pgaspi_dev_post_group_write E p local_addr length dst remote_addr).2 dst)
  else (GASPI_SUCCESS, (pgaspi_dev_post_group_write E p local_addr length dst remote_addr).2)

/-- The steps of a barrier round before the poll: connect and commit to `dst` when
needed, then post the one-byte write of the local sync flag. -/
def barrier_post (E : Env) (p : Proc) (dst : Nat) : gaspi_return_t × Proc :=
  andThen (connect_if_needed E p dst) fun p1 =>
  andThen (commit_if_needed E p1 dst) fun p2 =>
  post_or_corrupt E p2 (GPI2_GRP_LOCAL_SYNC_ADDR p2.grp) 1 dst (GPI2_GRP_REMOTE_SYNC_ADDR p2.grp)

/-- How a loop of a collective ends: it runs to its end, or the function returns from
inside it. -/
inductive LoopEnd (α : Type)
  | fallthrough (a : α)
  | returned (r : gaspi_return_t) (p : Proc)

/-- Records a token observed by a successful `_gaspi_sync_wait`. -/
def observe (p : Proc) (addr : Nat) : Proc :=
  { p with log := p.log ++ [Event.polled addr p.grp.barrier_cnt] }

/-- Destination rank of the barrier round with the given mask. -/
def barrier_dst (c : gaspi_group_ctx_t) (mask : Nat) : Nat :=
  (c.rank_grp.getD ((c.rank.toNat + mask) % c.tnc) (-1)).toNat

/-- Source index of the barrier round with the given mask,
`(rank_in_grp - mask + grp_size) % grp_size`, written without a negative intermediate
value. -/
def barrier_src (c : gaspi_group_ctx_t) (mask : Nat) : Nat :=
  (c.rank.toNat + c.tnc - mask) % c.tnc

/-- The part of a barrier round before the label `B0`, skipped when `jmp` is set. -/
def barrier_pre (E : Env) (mask : Nat) (jmp : Bool) (p : Proc) : gaspi_return_t × Proc :=
  if jmp then (GASPI_SUCCESS, p) else barrier_post E p (barrier_dst p.grp mask)

/-- One round of the loop of `pgaspi_barrier`: the body of `while (mask < grp_size)`
without the final shift of `mask`; with `jmp` set the round starts at the label `B0`. -/
def barrier_round (E : Env) (mask : Nat) (jmp : Bool) (p : Proc) : LoopEnd Proc :=
  let src := barrier_src p.grp mask
  let r := barrier_pre E mask jmp p
  if r.1 ≠ GASPI_SUCCESS then LoopEnd.returned r.1 r.2
  else if _gaspi_sync_wait E (GPI2_GRP_SYNC_POLL_ADDR r.2.grp src) r.2.grp.barrier_cnt ≠ GASPI_SUCCESS then
    LoopEnd.returned GASPI_TIMEOUT { r.2 with grp := { r.2.grp with lastmask := mask ||| 0x80000000 } }
  else LoopEnd.fallthrough (observe r.2 (GPI2_GRP_SYNC_POLL_ADDR r.2.grp src))

/-- The rounds of `pgaspi_barrier` (`while (mask < grp_size)`); the first argument bounds
the number of rounds. -/
def barrier_loop (E : Env) : Nat → Nat → Bool → Proc → Option (LoopEnd Proc)
  | 0, mask, _, p => if mask < p.grp.tnc then none else some (LoopEnd.fallthrough p)
  | n + 1, mask, jmp, p =>
    if mask < p.grp.tnc then
      match barrier_round E mask jmp p with
      | LoopEnd.returned r q => some (LoopEnd.returned r q)
      | LoopEnd.fallthrough q => barrier_loop E n (mask <<< 1) false q
    else some (LoopEnd.fallthrough p)

/-- The entry of `pgaspi_barrier` after the admission test: the group is marked as held
by a barrier, `barrier_cnt` is incremented on a first entry, and the local sync flag
is set. -/
def barrier_enter (p : Proc) : Proc :=
  let c1 := { p.grp with coll_op := GASPI_BARRIER }
  let c2 := if c1.lastmask = 0x1 then { c1 with barrier_cnt := bump_barrier_cnt c1.barrier_cnt } else c1
  { p with grp := { c2 with buf := upd c2.buf (GPI2_GRP_LOCAL_SYNC_ADDR c2) c2.barrier_cnt } }

/-- The end of `pgaspi_barrier` after its rounds: the completion queue is drained and
the group returns to idle. -/
def barrier_finish (E : Env) (p1 : Proc) : Option (gaspi_return_t × Proc) :=
  match pgaspi_dev_poll_groups E p1 with
  | none => none
  | some (pret, p2) =>
    if pret < 0 then some (GASPI_ERR_DEVICE, p2)
    else
      some (GASPI_SUCCESS,
        { p2 with grp := { p2.grp with togle := p2.grp.togle ^^^ 0x1, coll_op := GASPI_NONE, lastmask := 0x1 } })

/-- What follows the rounds of a barrier: a return from inside the loop, or the end of
the function. -/
def barrier_after (E : Env) : Option (LoopEnd Proc) → Option (gaspi_return_t × Proc)
  | none => none
  | some (LoopEnd.returned r p1) => some (r, p1)
  | some (LoopEnd.fallthrough p1) => barrier_finish E p1

/-- The barrier (`pgaspi_barrier`). -/
def pgaspi_barrier (E : Env) (p : Proc) : Option (gaspi_return_t × Proc) :=
  if !E.lock_ok then some (GASPI_TIMEOUT, p)
  else if p.grp.coll_op &&& GASPI_BARRIER = 0 then some (GASPI_ERR_ACTIVE_COLL, p)
  else
    let p3 := barrier_enter p
    let mask := p3.grp.lastmask &&& 0x7fffffff
    let jmp := p3.grp.lastmask >>> 31
    barrier_after E (barrier_loop E p3.grp.tnc mask (jmp ≠ 0) p3)

/-! ## Allreduce -/

/-- The parts of `GPI2_Coll.h` and `GPI2_Coll.c` that the allreduce uses and that are not
part of the sources, taken as parameters: the offsets of the send and receive
regions of the staging buffer, the size of a stage buffer, the number of operator
table entries, and the operator table `fctArrayGASPI`, whose entry `i` maps the bytes
of the two operands and the element count to the bytes of the result. -/
structure Cfg where
  COLL_MEM_SEND : Nat
  COLL_MEM_RECV : Nat
  GPI2_REDUX_BUF_SIZE : Nat
  GASPI_COLL_OP_TYPES : Nat
  fctArrayGASPI : Nat → List Nat → List Nat → Nat → List Nat

/-- The `n` bytes of a buffer from offset `a` on. -/
def readBytes (m : Mem) (a n : Nat) : List Nat := (List.range n).map (fun i => m (a + i))

/-- A buffer after the bytes `bs` are stored from offset `a` on. -/
def writeBytes (m : Mem) (a : Nat) (bs : List Nat) : Mem :=
  fun x => if a ≤ x ∧ x < a + bs.length then bs.getD (x - a) 0 else m x

/-- The reduction to apply (`f_type` and `f_args` of `struct redux_args`): an entry of the
operator table, or a function of the caller, which maps the bytes of the two operands,
the element count and the element size to its return code and the bytes of the
result. -/
inductive redux_f_args
  | GASPI_OP (op type : Nat)
  | GASPI_USER (user_fct : List Nat → List Nat → Nat → Nat → gaspi_return_t × List Nat)

/-- The arguments of a reduction (`struct redux_args`). -/
structure redux_args where
  f_args : redux_f_args
  elem_size : Nat
  elem_cnt : Nat

/-- The product `elem_size * elem_cnt` as C computes it: `elem_size` is a `gaspi_size_t`
(`unsigned long`, 64 bits) and `elem_cnt` a `gaspi_number_t` (`unsigned int`), so the
product is taken in 64 bits and wraps at `2^64`. -/
def size_product (elem_size elem_cnt : Nat) : Nat := (elem_size * elem_cnt) % 2 ^ 64

/-- The local `const int dsize = r_args->elem_size * r_args->elem_cnt` of the engine and
of `_gaspi_apply_redux`: the conversion to `int` keeps the low 32 bits of the product.
A value of `2^31` or more stands for a negative `int`; `_gaspi_allreduce` does not get
past its first copy with such a size. -/
def redux_dsize (r_args : redux_args) : Nat :=
  size_product r_args.elem_size r_args.elem_cnt % 2 ^ 32

/-- The store `barrier_ptr[0] = grp_ctx->barrier_cnt` of the local sync flag. -/
def set_sync_flag (p : Proc) : Proc :=
  { p with grp := { p.grp with buf := upd p.grp.buf (GPI2_GRP_LOCAL_SYNC_ADDR p.grp) p.grp.barrier_cnt } }

/-- Write of the allreduce data and of the sync flag (`_gaspi_allreduce_write_and_sync`). -/
def _gaspi_allreduce_write_and_sync (K : Cfg) (E : Env) (p : Proc) (send_ptr buf_size dst bid : Nat) :
    gaspi_return_t × Proc :=
  andThen (connect_if_needed E p dst) fun p1 =>
  andThen (commit_if_needed E p1 dst) fun p2 =>
  andThen (post_or_corrupt E p2 send_ptr buf_size dst
    (K.COLL_MEM_RECV + (TOGGLE_SIZE * bid + p2.grp.togle) * K.GPI2_REDUX_BUF_SIZE)) fun p3 =>
  post_or_corrupt E (set_sync_flag p3) (GPI2_GRP_LOCAL_SYNC_ADDR p3.grp) 1 dst
    (GPI2_GRP_REMOTE_SYNC_ADDR p3.grp)

/-- The result of the reduction function on the two operands: of the entry `op * 6 + type`
of the operator table, which has no return code, or of the function of the caller. -/
def redux_result (K : Cfg) (r_args : redux_args) (a b : List Nat) : gaspi_return_t × List Nat :=
  match r_args.f_args with
  | redux_f_args.GASPI_OP op type => (GASPI_SUCCESS, K.fctArrayGASPI (op * 6 + type) a b r_args.elem_cnt)
  | redux_f_args.GASPI_USER user_fct => user_fct a b r_args.elem_cnt r_args.elem_size

/-- Application of the reduction (`_gaspi_apply_redux`); the result carries the advanced
`send_ptr`. -/
def _gaspi_apply_redux (K : Cfg) (p : Proc) (send_ptr recv_ptr bid : Nat) (r_args : redux_args) :
    gaspi_return_t × Nat × Proc :=
  let dst_val := recv_ptr + (2 * bid + p.grp.togle) * K.GPI2_REDUX_BUF_SIZE
  let local_val := send_ptr
  let dsize := redux_dsize r_args
  let send_ptr1 := send_ptr + dsize
  let res := redux_result K r_args (readBytes p.grp.buf local_val dsize) (readBytes p.grp.buf dst_val dsize)
  (res.1, send_ptr1,
    { p with
      grp := { p.grp with dsize := p.grp.dsize + dsize, buf := writeBytes p.grp.buf send_ptr1 res.2 },
      log := p.log ++ [Event.redux bid local_val dst_val send_ptr1] })

/-- The local variables of `_gaspi_allreduce` that live across its three phases. -/
structure Loc where
  send_ptr : Nat
  bid : Nat
  tmprank : Int

/-- The block `rank_in_grp < 2 * rest` of the first phase of `_gaspi_allreduce`, up to
the stores of `tmprank`, `bid` and `level = 2`. -/
def allreduce_L1_body (K : Cfg) (E : Env) (r_args : redux_args) (p : Proc) (l : Loc) :
    LoopEnd (Proc × Loc) :=
  let c := p.grp
  let rank_in_grp := c.rank.toNat
  let rest := c.tnc - c.next_pof2
  let dsize := redux_dsize r_args
  if rank_in_grp < 2 * rest then
    if rank_in_grp % 2 = 0 then
      let dst := (c.rank_grp.getD (rank_in_grp + 1) (-1)).toNat
      let w := _gaspi_allreduce_write_and_sync K E p l.send_ptr dsize dst l.bid
      if w.1 ≠ GASPI_SUCCESS then LoopEnd.returned GASPI_ERR_DEVICE (set_corrupt w.2 dst)
      else LoopEnd.fallthrough (w.2, { l with tmprank := -1, bid := l.bid + 1 })
    else
      if _gaspi_sync_wait E (GPI2_GRP_SYNC_POLL_ADDR c (rank_in_grp - 1)) c.barrier_cnt ≠ GASPI_SUCCESS then
        LoopEnd.returned GASPI_TIMEOUT { p with grp := { c with level := 1 } }
      else
        let a := _gaspi_apply_redux K (observe p (GPI2_GRP_SYNC_POLL_ADDR c (rank_in_grp - 1)))
          l.send_ptr K.COLL_MEM_RECV l.bid r_args
        if a.1 ≠ GASPI_SUCCESS then LoopEnd.returned GASPI_ERROR a.2.2
        else LoopEnd.fallthrough
          (a.2.2, { send_ptr := a.2.1, tmprank := ((rank_in_grp >>> 1 : Nat) : Int), bid := l.bid + 1 })
  else
    LoopEnd.fallthrough
      (p, { l with tmprank := ((rank_in_grp - rest : Nat) : Int), bid := if rest ≠ 0 then l.bid + 1 else l.bid })

/-- The stores `grp_ctx->tmprank = tmprank; grp_ctx->bid = bid; grp_ctx->level = 2`. -/
def enter_L2 (x : Proc × Loc) : Proc × Loc :=
  ({ x.1 with grp := { x.1.grp with tmprank := x.2.tmprank, bid := x.2.bid, level := 2 } }, x.2)

/-- First phase of `_gaspi_allreduce` (reduction to a power of two). -/
def allreduce_L1 (K : Cfg) (E : Env) (r_args : redux_args) (p : Proc) (l : Loc) :
    LoopEnd (Proc × Loc) :=
  match allreduce_L1_body K E r_args p l with
  | LoopEnd.returned e q => LoopEnd.returned e q
  | LoopEnd.fallthrough x => LoopEnd.fallthrough (enter_L2 x)

/-- Member index of the partner in the butterfly round with the given mask (`idst`). -/
def allreduce_idst (c : gaspi_group_ctx_t) (tmprank : Int) (mask : Nat) : Nat :=
  let rest := c.tnc - c.next_pof2
  let tmpdst := tmprank.toNat ^^^ mask
  if tmpdst < rest then tmpdst * 2 + 1 else tmpdst + rest

/-- The part of a butterfly round before the label `J2`, skipped when `jmp` is set. -/
def allreduce_L2_pre (K : Cfg) (E : Env) (r_args : redux_args) (mask : Nat) (jmp : Bool)
    (p : Proc) (l : Loc) : gaspi_return_t × Proc :=
  if jmp then (GASPI_SUCCESS, p)
  else _gaspi_allreduce_write_and_sync K E p l.send_ptr (redux_dsize r_args)
    (p.grp.rank_grp.getD (allreduce_idst p.grp l.tmprank mask) (-1)).toNat l.bid

/-- One butterfly round: the body of `while (mask < grp_ctx->next_pof2)` without the
final shift of `mask`; with `jmp` set the round starts at the label `J2`. -/
def allreduce_L2_round (K : Cfg) (E : Env) (r_args : redux_args) (mask : Nat) (jmp : Bool)
    (p : Proc) (l : Loc) : LoopEnd (Proc × Loc) :=
  let idst := allreduce_idst p.grp l.tmprank mask
  let dst := (p.grp.rank_grp.getD idst (-1)).toNat
  let w := allreduce_L2_pre K E r_args mask jmp p l
  if w.1 ≠ GASPI_SUCCESS then LoopEnd.returned GASPI_ERR_DEVICE (set_corrupt w.2 dst)
  else if _gaspi_sync_wait E (GPI2_GRP_SYNC_POLL_ADDR w.2.grp idst) w.2.grp.barrier_cnt ≠ GASPI_SUCCESS then
    LoopEnd.returned GASPI_TIMEOUT
      { w.2 with grp := { w.2.grp with lastmask := mask ||| 0x80000000, bid := l.bid } }
  else
    let a := _gaspi_apply_redux K (observe w.2 (GPI2_GRP_SYNC_POLL_ADDR w.2.grp idst))
      l.send_ptr K.COLL_MEM_RECV l.bid r_args
    if a.1 ≠ GASPI_SUCCESS then LoopEnd.returned GASPI_ERROR a.2.2
    else LoopEnd.fallthrough (a.2.2, { l with send_ptr := a.2.1, bid := l.bid + 1 })

/-- The butterfly rounds of the second phase (`while (mask < grp_ctx->next_pof2)`); the
first argument bounds the number of rounds. -/
def allreduce_L2_loop (K : Cfg) (E : Env) (r_args : redux_args) :
    Nat → Nat → Bool → Proc → Loc → Option (LoopEnd (Proc × Loc))
  | 0, mask, _, p, l => if mask < p.grp.next_pof2 then none else some (LoopEnd.fallthrough (p, l))
  | n + 1, mask, jmp, p, l =>
    if mask < p.grp.next_pof2 then
      match allreduce_L2_round K E r_args mask jmp p l with
      | LoopEnd.returned e q => some (LoopEnd.returned e q)
      | LoopEnd.fallthrough x => allreduce_L2_loop K E r_args n (mask <<< 1) false x.1 x.2
    else some (LoopEnd.fallthrough (p, l))

/-- The stores `grp_ctx->bid = bid; grp_ctx->level = 3`. -/
def enter_L3 (x : Proc × Loc) : Proc × Loc :=
  ({ x.1 with grp := { x.1.grp with bid := x.2.bid, level := 3 } }, x.2)

/-- Second phase of `_gaspi_allreduce` (label `L2`, the butterfly). -/
def allreduce_L2 (K : Cfg) (E : Env) (r_args : redux_args) (p : Proc) (l : Loc) :
    Option (LoopEnd (Proc × Loc)) :=
  let r : Option (LoopEnd (Proc × Loc)) :=
    if l.tmprank ≠ -1 then
      allreduce_L2_loop K E r_args p.grp.next_pof2 (p.grp.lastmask &&& 0x7fffffff)
        (p.grp.lastmask >>> 31 ≠ 0) p l
    else some (LoopEnd.fallthrough (p, l))
  match r with
  | none => none
  | some (LoopEnd.returned e q) => some (LoopEnd.returned e q)
  | some (LoopEnd.fallthrough x) => some (LoopEnd.fallthrough (enter_L3 x))

/-- Third phase of `_gaspi_allreduce` (label `L3`, the redistribution). -/
def allreduce_L3 (K : Cfg) (E : Env) (r_args : redux_args) (p : Proc) (l : Loc) :
    LoopEnd (Proc × Loc) :=
  let c := p.grp
  let rank_in_grp := c.rank.toNat
  let rest := c.tnc - c.next_pof2
  let dsize := redux_dsize r_args
  if rank_in_grp < 2 * rest then
    if rank_in_grp % 2 ≠ 0 then
      let dst := (c.rank_grp.getD (rank_in_grp - 1) (-1)).toNat
      let w := _gaspi_allreduce_write_and_sync K E p l.send_ptr dsize dst l.bid
      if w.1 ≠ GASPI_SUCCESS then LoopEnd.returned GASPI_ERR_DEVICE (set_corrupt w.2 dst)
      else LoopEnd.fallthrough (w.2, l)
    else
      if _gaspi_sync_wait E (GPI2_GRP_SYNC_POLL_ADDR c rank_in_grp) c.barrier_cnt ≠ GASPI_SUCCESS then
        LoopEnd.returned GASPI_TIMEOUT p
      else
        LoopEnd.fallthrough
          (observe p (GPI2_GRP_SYNC_POLL_ADDR c rank_in_grp),
            { l with
              bid := l.bid + c.pof2_exp,
              send_ptr := K.COLL_MEM_RECV + (2 * (l.bid + c.pof2_exp) + c.togle) * K.GPI2_REDUX_BUF_SIZE })
  else LoopEnd.fallthrough (p, l)

/-- The end of `_gaspi_allreduce`: the completion queue is drained, the group returns
to idle and the result is copied to the receive buffer of the caller. -/
def allreduce_finish (E : Env) (r_args : redux_args) (p : Proc) (l : Loc) (buf_recv : List Nat) :
    Option (gaspi_return_t × Proc × List Nat) :=
  match pgaspi_dev_poll_groups E p with
  | none => none
  | some (pret, p1) =>
    if pret < 0 then some (GASPI_ERR_DEVICE, p1, buf_recv)
    else
      some (GASPI_SUCCESS,
        { p1 with grp := { p1.grp with togle := p1.grp.togle ^^^ 0x1, coll_op := GASPI_NONE,
                                       lastmask := 0x1, level := 0, dsize := 0, bid := 0 } },
        readBytes p1.grp.buf l.send_ptr (redux_dsize r_args) ++
          buf_recv.drop (redux_dsize r_args))

/-- Offset of the send staging of the current togle
(`COLL_MEM_SEND + togle * GASPI_COLL_OP_TYPES * GPI2_REDUX_BUF_SIZE`). -/
def send_base (K : Cfg) (c : gaspi_group_ctx_t) : Nat :=
  K.COLL_MEM_SEND + c.togle * K.GASPI_COLL_OP_TYPES * K.GPI2_REDUX_BUF_SIZE

/-- The entry of `_gaspi_allreduce`: `barrier_cnt` is incremented at level 0 and the send
buffer of the caller is copied to the send staging. -/
def allreduce_enter (K : Cfg) (p : Proc) (buf_send : List Nat) (r_args : redux_args) : Proc :=
  let c0 := p.grp
  let c1 := if c0.level = 0 then { c0 with barrier_cnt := bump_barrier_cnt c0.barrier_cnt } else c0
  { p with grp := { c1 with buf := writeBytes c1.buf (send_base K c1)
                                     (buf_send.take (redux_dsize r_args)) } }

/-- The local variables of `_gaspi_allreduce` after its entry: those of a first entry, or
the ones restored from the group context at level 2 and above. -/
def allreduce_locals (K : Cfg) (c : gaspi_group_ctx_t) : Loc :=
  if c.level ≥ 2 then { send_ptr := send_base K c + c.dsize, bid := c.bid, tmprank := c.tmprank }
  else { send_ptr := send_base K c, bid := 0, tmprank := c.tmprank }

/-- The phases of `_gaspi_allreduce` from the third on. -/
def allreduce_from_L3 (K : Cfg) (E : Env) (r_args : redux_args) (buf_recv : List Nat)
    (x : Proc × Loc) : Option (gaspi_return_t × Proc × List Nat) :=
  match allreduce_L3 K E r_args x.1 x.2 with
  | LoopEnd.returned e q => some (e, q, buf_recv)
  | LoopEnd.fallthrough y => allreduce_finish E r_args y.1 y.2 buf_recv

/-- The phases of `_gaspi_allreduce` from the second on. -/
def allreduce_from_L2 (K : Cfg) (E : Env) (r_args : redux_args) (buf_recv : List Nat)
    (x : Proc × Loc) : Option (gaspi_return_t × Proc × List Nat) :=
  match allreduce_L2 K E r_args x.1 x.2 with
  | none => none
  | some (LoopEnd.returned e q) => some (e, q, buf_recv)
  | some (LoopEnd.fallthrough y) => allreduce_from_L3 K E r_args buf_recv y

/-- The phases of `_gaspi_allreduce` from its entry on: after the entry the stored level
selects the phase to go on with. The result carries the receive buffer of the caller
after the call. -/
def allreduce_from_L0 (K : Cfg) (E : Env) (p : Proc) (buf_send buf_recv : List Nat)
    (r_args : redux_args) : Option (gaspi_return_t × Proc × List Nat) :=
  let p2 := allreduce_enter K p buf_send r_args
  let l0 := allreduce_locals K p2.grp
  if p2.grp.level = 2 then allreduce_from_L2 K E r_args buf_recv (p2, l0)
  else if p2.grp.level = 3 then allreduce_from_L3 K E r_args buf_recv (p2, l0)
  else
    match allreduce_L1 K E r_args p2 l0 with
    | LoopEnd.returned e q => some (e, q, buf_recv)
    | LoopEnd.fallthrough x => allreduce_from_L2 K E r_args buf_recv x

/-- The allreduce engine (`_gaspi_allreduce`). When the `int dsize` of the call is
negative, the copy `memcpy (send_ptr, buf_send, dsize)` at the entry is asked for
`(size_t) dsize`, more than `2^63`, bytes, and the call does not return. -/
def _gaspi_allreduce (K : Cfg) (E : Env) (p : Proc) (buf_send buf_recv : List Nat)
    (r_args : redux_args) : Option (gaspi_return_t × Proc × List Nat) :=
  if 2 ^ 31 ≤ redux_dsize r_args then none
  else allreduce_from_L0 K E p buf_send buf_recv r_args

/-- The allreduce of the operator table (`pgaspi_allreduce`). -/
def pgaspi_allreduce (K : Cfg) (E : Env) (p : Proc) (buf_send buf_recv : List Nat)
    (elem_cnt op type : Nat) : Option (gaspi_return_t × Proc × List Nat) :=
  if elem_cnt > GPI2_ALLREDUCE_ELEM_MAX then some (GASPI_ERR_INV_NUM, p, buf_recv)
  else if !E.lock_ok then some (GASPI_TIMEOUT, p, buf_recv)
  else if p.grp.coll_op &&& GASPI_ALLREDUCE = 0 then some (GASPI_ERR_ACTIVE_COLL, p, buf_recv)
  else
    _gaspi_allreduce K E { p with grp := { p.grp with coll_op := GASPI_ALLREDUCE } } buf_send buf_recv
      { f_args := redux_f_args.GASPI_OP op type,
        elem_size := glb_gaspi_typ_size.getD type 0,
        elem_cnt := elem_cnt }

/-- The allreduce with a reduction of the caller (`pgaspi_allreduce_user`); the size check
compares the 64-bit product `elem_size * elem_cnt`. -/
def pgaspi_allreduce_user (K : Cfg) (E : Env) (p : Proc) (buf_send buf_recv : List Nat)
    (elem_cnt elem_size : Nat)
    (user_fct : List Nat → List Nat → Nat → Nat → gaspi_return_t × List Nat) :
    Option (gaspi_return_t × Proc × List Nat) :=
  if elem_cnt > GPI2_ALLREDUCE_ELEM_MAX then some (GASPI_ERR_INV_NUM, p, buf_recv)
  else if size_product elem_size elem_cnt > K.GPI2_REDUX_BUF_SIZE then
    some (GASPI_ERR_INV_SIZE, p, buf_recv)
  else if !E.lock_ok then some (GASPI_TIMEOUT, p, buf_recv)
  else if p.grp.coll_op &&& GASPI_ALLREDUCE_USER = 0 then some (GASPI_ERR_ACTIVE_COLL, p, buf_recv)
  else
    _gaspi_allreduce K E { p with grp := { p.grp with coll_op := GASPI_ALLREDUCE_USER } } buf_send buf_recv
      { f_args := redux_f_args.GASPI_USER user_fct, elem_size := elem_size, elem_cnt := elem_cnt }

/-! ## A run of all members of a group

The members of `GASPI_GROUP_ALL` take turns; each turn is one call of the collective
with the sync bytes as they stand in the staging buffer of the caller (a call with a
timeout too short for anything to arrive during it). After the call the transport
carries out the writes the call posted. -/

/-- Little-endian value of a byte list. -/
def le_decode : List Nat → Nat
  | [] => 0
  | b :: bs => b + 256 * le_decode bs

/-- The `n` little-endian bytes of a value. -/
def le_encode : Nat → Nat → List Nat
  | 0, _ => []
  | n + 1, v => v % 256 :: le_encode n (v / 256)

/-- The first `cnt` elements of `size` bytes of a byte list. -/
def chunks (size : Nat) : Nat → List Nat → List (List Nat)
  | 0, _ => []
  | n + 1, bs => bs.take size :: chunks size n (bs.drop size)

/-- Modelled from the spec: index of the operation `MIN` in the operator table
(`GASPI.h` is not part of the sources; the spec lists the operations as MIN, MAX, SUM). -/
def GASPI_OP_MIN : Nat := 0

/-- Modelled from the spec: index of the operation `MAX` (see `GASPI_OP_MIN`). -/
def GASPI_OP_MAX : Nat := 1

/-- Modelled from the spec: index of the operation `SUM` (see `GASPI_OP_MIN`). -/
def GASPI_OP_SUM : Nat := 2

/-- Modelled from the spec: index of the 64-bit unsigned datatype (`GASPI.h` is not part
of the sources; the spec lists the types as int32, uint32, float32, int64, uint64,
float64, and `glb_gaspi_typ_size` gives 8 bytes at this index). -/
def GASPI_TYPE_ULONG : Nat := 4

/-- Modelled from the spec: an operation of the operator table on two unsigned elements of
`w` bytes, the sum wrapping at the width of the type. -/
def uint_op (op : Nat) (w : Nat) (x y : Nat) : Nat :=
  if op = GASPI_OP_MIN then min x y
  else if op = GASPI_OP_MAX then max x y
  else (x + y) % 2 ^ (8 * w)

/-- Modelled from the spec: the entries of the operator table `fctArrayGASPI`
(`GPI2_Coll.c` is not part of the sources) for unsigned elements: entry `op * 6 + type`
applies the operation element by element. -/
def fctArrayGASPI_uint (i : Nat) (a b : List Nat) (cnt : Nat) : List Nat :=
  let w := glb_gaspi_typ_size.getD (i % 6) 0
  ((chunks w cnt a).zip (chunks w cnt b)).flatMap
    (fun ab => le_encode w (uint_op (i / 6) w (le_decode ab.1) (le_decode ab.2)))

/-- Modelled from the spec: a staging layout (`GPI2_Coll.h` is not part of the sources):
the sync slots first, then the send region and the receive region, with stage buffers
of 2048 bytes and 18 operator table entries. -/
def layout : Cfg :=
  { COLL_MEM_SEND := 131136, COLL_MEM_RECV := 204864, GPI2_REDUX_BUF_SIZE := 2048,
    GASPI_COLL_OP_TYPES := 18, fctArrayGASPI := fctArrayGASPI_uint }

/-- The surroundings of a call in the run: the lock is free, the control plane and the
queue socket work, every posted write completes, and the sync bytes are read as they
stand in the staging buffer. -/
def env_of (p : Proc) : Env :=
  { lock_ok := true, poll := p.grp.buf, connect := fun _ => GASPI_SUCCESS,
    grp_connect := fun _ => GASPI_SUCCESS, write_ok := fun _ => true,
    valid_state := fun _ => true, scq_num := 0,
    cq := fun _ => some { wr_id := 0, status := tcp_dev_wc_status.TCP_WC_SUCCESS,
                          opcode := tcp_dev_wc_opcode.TCP_DEV_WC_RDMA_WRITE, sender := 0 } }

/-- Every system call of `pgaspi_group_create` succeeds. -/
def create_env_ok : CreateEnv :=
  { page_size_ok := true, calloc_rrcd_ok := true, memalign_ok := true, register_ok := true,
    malloc_rank_grp_ok := true, calloc_committed_ok := true, unregister_ok := true }

/-- A free slot of the group table. -/
def free_slot : gaspi_group_ctx_t :=
  GASPI_RESET_GROUP
    { id := -1, barrier_cnt := 0, togle := 0, coll_op := GASPI_NONE, lastmask := 1, level := 0,
      tmprank := 0, dsize := 0, bid := 0, rank := 0, tnc := 0, next_pof2 := 0, pof2_exp := 0,
      rank_grp := [], committed_rank := [], rrcd := false, buf := fun _ => 0 }

/-- The process state of rank `rank` of `tnc` before any group exists. -/
def boot (tnc rank : Nat) : Glb :=
  { gctx := { rank := rank, tnc := tnc, group_cnt := 0, ne_count_grp := 0,
              ep_conn := fun _ => false, qp_corrupt := fun _ => false },
    groups := fun _ => free_slot }

/-- Rank `rank` of `tnc` after `pgaspi_group_all_local_create`, as a member of
`GASPI_GROUP_ALL`. -/
def member (tnc rank : Nat) : Proc :=
  match pgaspi_group_all_local_create create_env_ok true (boot tnc rank) with
  | some (_, s) => { gctx := s.gctx, grp := s.groups GASPI_GROUP_ALL, cq_rpos := 0, log := [] }
  | none => { gctx := (boot tnc rank).gctx, grp := free_slot, cq_rpos := 0, log := [] }

/-- Replaces the entry at a position of a list. -/
def modifyAt {α : Type} (f : α → α) : Nat → List α → List α
  | _, [] => []
  | 0, a :: l => f a :: l
  | n + 1, a :: l => a :: modifyAt f n l

/-- A member in the run: its process state, the result of its latest call and its
receive buffer. -/
structure Member where
  proc : Proc
  last : Option gaspi_return_t
  recv : List Nat

/-- The effect of the transport on a posted write of the process with staging buffer
`data`: the bytes at `local_addr` are stored at `remote_addr` in the staging buffer of
the target. -/
def deliver (data : Mem) (w : List Member) : Event → List Member
  | Event.write wr =>
    modifyAt (fun m => { m with proc := { m.proc with grp := { m.proc.grp with
        buf := writeBytes m.proc.grp.buf wr.remote_addr (readBytes data wr.local_addr wr.length) } } })
      wr.target w
  | _ => w

/-- One turn of member `i`: unless its collective has returned `GASPI_SUCCESS`, it calls
`call` once, and the writes posted by the call are delivered. -/
def turn (call : Member → Option (gaspi_return_t × Proc × List Nat)) (i : Nat) (w : List Member) :
    List Member :=
  match w.get? i with
  | none => w
  | some m =>
    if m.last = some GASPI_SUCCESS then w
    else
      match call m with
      | none => w
      | some (r, q, recv) =>
        (q.log.drop m.proc.log.length).foldl (deliver q.grp.buf)
          (modifyAt (fun _ => { proc := q, last := some r, recv := recv }) i w)

/-- A call of `pgaspi_barrier` by a member of the run. -/
def call_barrier (m : Member) : Option (gaspi_return_t × Proc × List Nat) :=
  match pgaspi_barrier (env_of m.proc) m.proc with
  | none => none
  | some (r, q) => some (r, q, m.recv)

/-- A call of `pgaspi_allreduce` by a member of the run: one element, sent from `send`. -/
def call_allreduce (K : Cfg) (op type : Nat) (send : Nat → List Nat) (m : Member) :
    Option (gaspi_return_t × Proc × List Nat) :=
  pgaspi_allreduce K (env_of m.proc) m.proc (send m.proc.gctx.rank) m.recv 1 op type

/-- The `tnc` members of `GASPI_GROUP_ALL` before their first call, each with a receive
buffer of eight zero bytes. -/
def world (tnc : Nat) : List Member :=
  (List.range tnc).map (fun r => { proc := member tnc r, last := none, recv := List.replicate 8 0 })

/-- `n` rounds of turns, the members taking their turn in the order of their ranks. -/
def rounds (call : Member → Option (gaspi_return_t × Proc × List Nat)) (tnc : Nat) :
    Nat → List Member → List Member
  | 0, w => w
  | n + 1, w => rounds call tnc n ((List.range tnc).foldl (fun w i => turn call i w) w)

/-- The run of the scenario "non-pof2 allreduce" of the spec: six ranks, SUM of one
64-bit unsigned element, rank `r` sends `r`. -/
def allreduce_six (n : Nat) : List Member :=
  rounds (call_allreduce layout GASPI_OP_SUM GASPI_TYPE_ULONG (fun r => le_encode 8 r)) 6 n (world 6)

/-- The run of a barrier of four ranks. -/
def barrier_four (n : Nat) : List Member := rounds call_barrier 4 n (world 4)

/-- The sync tokens observed in a record of actions, as pairs of polled offset and
value, in order. -/
def polled_tokens : List Event → List (Nat × Nat)
  | [] => []
  | Event.polled a v :: l => (a, v) :: polled_tokens l
  | _ :: l => polled_tokens l

/-- Surroundings in which every sync byte reads `v` and everything else works. -/
def env_token (v : Nat) : Env :=
  { lock_ok := true, poll := fun _ => v, connect := fun _ => GASPI_SUCCESS,
    grp_connect := fun _ => GASPI_SUCCESS, write_ok := fun _ => true,
    valid_state := fun _ => true, scq_num := 0,
    cq := fun _ => some { wr_id := 0, status := tcp_dev_wc_status.TCP_WC_SUCCESS,
                          opcode := tcp_dev_wc_opcode.TCP_DEV_WC_RDMA_WRITE, sender := 0 } }

/-- The state a barrier call leaves, the state before the call when it does not return. -/
def after_barrier (E : Env) (p : Proc) : Proc :=
  match pgaspi_barrier E p with
  | some (_, q) => q
  | none => p


/-- The state of rank 0 of four right after its first `pgaspi_group_create`. -/
def fresh_group : Glb := (pgaspi_group_create create_env_ok (boot 4 0)).2.2

/-- The outcome of a `pgaspi_allreduce` call: return value, state and receive buffer; the
state and buffer before the call, with `GASPI_ERROR`, when the call does not return. -/
def allreduce_outcome (K : Cfg) (E : Env) (p : Proc) (buf_send buf_recv : List Nat)
    (elem_cnt op type : Nat) : gaspi_return_t × Proc × List Nat :=
  match pgaspi_allreduce K E p buf_send buf_recv elem_cnt op type with
  | some x => x
  | none => (GASPI_ERROR, p, buf_recv)

/-- Three interrupted calls of the allreduce of rank 0 of four, SUM of one 64-bit
unsigned element with value 5: no token has arrived; the token of the first round has
arrived, at offset 2, but not the one of the second; the lock is not acquired. -/
def interrupted : List ((Nat → Nat) × Bool) :=
  [(fun _ => 0, true), (fun a => if a = 2 then 1 else 0, true), (fun _ => 1, false)]

/-- The state of a process after the calls of `pgaspi_allreduce` that the list gives,
the state before the first call that does not return. -/
def after_calls (K : Cfg) (E : Env) (bs br : List Nat) (elem_cnt op type : Nat) :
    List ((Nat → Nat) × Bool) → Proc → Proc
  | [], p => p
  | fb :: fs, p =>
    match pgaspi_allreduce K { E with poll := fb.1, lock_ok := fb.2 } p bs br elem_cnt op type with
    | none => p
    | some x => after_calls K E bs br elem_cnt op type fs x.2.1

/-- Every peer answers the control-plane commands of `pgaspi_group_commit` with success. -/
def commit_env_ok : CommitEnv :=
  { lock_ok := true, grp_check := fun _ => GASPI_SUCCESS, grp_connect := fun _ => GASPI_SUCCESS }


/-! ## The virtual transport (`devices/tcp/tcp_device.c`) -/

/-- Modelled from the spec: the states of the read half and of the write half of a
connection (`tcp_device.h` is not part of the sources); the names are those used by
`tcp_device.c`. -/
inductive tcp_dev_state_opcode
  | RECV_HEADER
  | RECV_RDMA_WRITE
  | RECV_RDMA_READ
  | RECV_SEND
  | SEND_DISABLED
  | SEND_RDMA_WRITE
  | SEND_RDMA_READ
  | SEND_SEND
  deriving DecidableEq, Repr

/-- Modelled from the spec: one half, `read` or `write`, of a connection state
(`tcp_device.h` is not part of the sources), with the fields `tcp_device.c` uses. -/
structure tcp_dev_half_t where
  wr_id : Nat
  cq_handle : Nat
  opcode : tcp_dev_state_opcode
  addr : Nat
  length : Nat
  done : Nat
  deriving DecidableEq, Repr

/-- Modelled from the spec: the connection state `tcp_dev_conn_state_t` (`tcp_device.h`
is not part of the sources), with the fields `tcp_device.c` uses. `rank` is `-1` for
a connection whose peer is not known. -/
structure tcp_dev_conn_state_t where
  fd : Nat
  rank : Int
  read : tcp_dev_half_t
  write : tcp_dev_half_t
  wr_buff : tcp_dev_wr_t
  deriving DecidableEq, Repr

/-- Modelled from the spec: the ring buffer of a completion queue (its header is not
part of the sources): `ncells` allocated cells, slot index `pos &&& mask`, position
`ipos` of the producer and `rpos` of the consumer. A cell holds the completion record
whose address was stored in it, `none` before the first store. -/
structure ringbuffer where
  cells : Nat → Option tcp_dev_wc_t
  ncells : Nat
  mask : Nat
  ipos : Nat
  rpos : Nat

/-- Modelled from the spec: insertion into a ring buffer, `none` for the negative return
value of a full buffer (`ipos - rpos ≥ mask`); otherwise the record is written to
`cells[ipos & mask]` and `ipos` is incremented. -/
def insert_ringbuffer (rb : ringbuffer) (wc : tcp_dev_wc_t) : Option ringbuffer :=
  if rb.ipos - rb.rpos ≥ rb.mask then none
  else some { rb with cells := upd rb.cells (rb.ipos &&& rb.mask) (some wc), ipos := rb.ipos + 1 }

/-- Modelled from the spec: removal from a ring buffer, `none` for the negative return
value of an empty buffer (`ipos = rpos`); otherwise the content of `cells[rpos & mask]`
is given and `rpos` is incremented. -/
def remove_ringbuffer (rb : ringbuffer) : Option (Option tcp_dev_wc_t × ringbuffer) :=
  if rb.ipos = rb.rpos then none
  else some (rb.cells (rb.rpos &&& rb.mask), { rb with rpos := rb.rpos + 1 })

/-- Modelled from the spec: the two ends of the pipe of a passive channel, `struct
tcp_passive_channel` of `tcp_device.h`, which is not part of the sources; the fields are
those `tcp_device.c` uses. -/
structure tcp_passive_channel where
  read : Nat
  write : Nat
  deriving DecidableEq, Repr

/-- Modelled from the spec: a completion queue, `struct tcp_cq` of `tcp_device.h`, which is
not part of the sources, with the fields `tcp_device.c` uses: ring buffer, `NULL` or
not, its number, and the channel of its consumer. -/
structure tcp_cq where
  rbuf : Option ringbuffer
  num : Nat
  pchannel : Option tcp_passive_channel

/-- What the transport does that is visible outside it, in program order: a completion
inserted into the queue with a handle, a byte written to the pipe of a consumer, the
header of a request or a payload of `length` bytes at `addr` written to a socket, a
socket closed, a buffer released. -/
inductive DevEvent
  | posted (cq_handle : Nat) (wc : tcp_dev_wc_t)
  | notified (fd : Nat)
  | header (fd : Nat) (wr : tcp_dev_wr_t)
  | payload (fd addr length : Nat)
  | closed (fd : Nat)
  | freed (addr : Nat)
  deriving DecidableEq, Repr

/-- State of the transport of one process: the globals of `tcp_device.c` and what they
point to.

* `rank`, `tnc`: `glb_gaspi_ctx.rank` and `glb_gaspi_ctx.tnc`;
* `rank_state`: the table of connection states per rank, `none` while it is `NULL`;
  an entry is `none` for `NULL` and otherwise names a connection state; the table is
  read at ranks below `tnc` only;
* `conns`: the connection states, by name;
* `delayedList`, `recvList`: the two lists of work requests, first node first;
* `cqs_map`, `cq_ref_counter`: the completion queues by handle;
* `mem`: the memory of the process outside the records of the transport;
* `epollout fd`: whether `EPOLLOUT` is part of the interest registered for `fd`;
* `connected_to_all`: `tcp_dev_connected_to_all`;
* `tick`: the number of answers taken from the surroundings so far;
* `log`: the record of visible actions. -/
structure Dev where
  rank : Nat
  tnc : Nat
  rank_state : Option (Nat → Option Nat)
  conns : Nat → tcp_dev_conn_state_t
  delayedList : List tcp_dev_wr_t
  recvList : List tcp_dev_wr_t
  cqs_map : Nat → Option tcp_cq
  cq_ref_counter : Nat
  mem : Mem
  epollout : Nat → Bool
  connected_to_all : Bool
  tick : Nat
  log : List DevEvent

/-- Constants of `tcp_device.h`, which is not part of the sources, and what the
surroundings answer to the transport; an answer is indexed by the number of answers
taken before it.

* `CQ_HANDLE_NONE`, `CQ_MAX_SIZE`, `CQ_MAX_NUM`, `sizeof_wr`: the constants and
  `sizeof(tcp_dev_wr_t)`;
* `wr_buff_addr c`: the address of the field `wr_buff` of the connection state `c`;
* `malloc_wc`: `none` when `malloc` of a completion record fails, otherwise the value
  that the `sender` field of the new record happens to hold;
* `malloc_ok`: whether another `malloc` succeeds;
* `malloc_conn`: the new connection state, `none` when `malloc` fails;
* `pipe_write`: whether the byte is written to the pipe;
* `sock_write`: how a loop of `write` calls on a socket ends: `some true` when all
  bytes are written, `some false` on an error other than `EAGAIN`, `none` when the
  socket never takes the bytes;
* `write_ok`: whether a single `write` of a record does not fail;
* `epoll_ctl`: whether `epoll_ctl` succeeds;
* `connect2port r`: the socket connected to rank `r`, `none` on failure. -/
structure DevEnv where
  CQ_HANDLE_NONE : Nat
  CQ_MAX_SIZE : Nat
  CQ_MAX_NUM : Nat
  sizeof_wr : Nat
  wr_buff_addr : Nat → Nat
  malloc_wc : Nat → Option Nat
  malloc_ok : Nat → Bool
  malloc_conn : Nat → Option Nat
  pipe_write : Nat → Bool
  sock_write : Nat → Option Bool
  write_ok : Nat → Bool
  epoll_ctl : Nat → Bool
  connect2port : Nat → Nat → Option Nat

/-- An answer of the surroundings has been taken. -/
def next_tick (D : Dev) : Dev := { D with tick := D.tick + 1 }

/-- Adds an action to the record. -/
def dev_log (D : Dev) (e : DevEvent) : Dev := { D with log := D.log ++ [e] }

/-- A store to a connection state. -/
def set_conn (D : Dev) (c : Nat) (v : tcp_dev_conn_state_t) : Dev :=
  { D with conns := upd D.conns c v }

/-- Whether a rank has a connection state (`tcp_dev_is_valid_state`). -/
def tcp_dev_is_valid_state (D : Dev) (i : Nat) : Bool :=
  match D.rank_state with
  | none => false
  | some tbl => (tbl i).isSome

/-- Creation of a completion queue (`tcp_dev_create_cq`): the handle of the new queue,
`none` for a `NULL` result. The result is `none` when the store to `cqs_map` is outside
the array. -/
def tcp_dev_create_cq (E : DevEnv) (D : Dev) (elems : Nat) (pchannel : Option tcp_passive_channel) :
    Option (Option Nat × Dev) :=
  if elems > E.CQ_MAX_SIZE then some (none, D)
  else if D.cq_ref_counter > E.CQ_MAX_NUM then some (none, D)
  else if !E.malloc_ok D.tick then some (none, next_tick D)
  else if !E.malloc_ok (D.tick + 1) then some (none, next_tick (next_tick D))
  else if !E.malloc_ok (D.tick + 2) then some (none, next_tick (next_tick (next_tick D)))
  else if D.cq_ref_counter ≥ E.CQ_MAX_NUM then none
  else
    let rb : ringbuffer :=
      { cells := fun _ => none, ncells := elems * 2 + 1, mask := elems + 1, ipos := 0, rpos := 0 }
    let cq : tcp_cq := { rbuf := some rb, num := D.cq_ref_counter, pchannel := pchannel }
    some (some D.cq_ref_counter,
      { next_tick (next_tick (next_tick D)) with
        cqs_map := upd D.cqs_map D.cq_ref_counter (some cq),
        cq_ref_counter := D.cq_ref_counter + 1 })

/-- Allocation of the table of connection states (`_tcp_dev_alloc_remote_states`). -/
def _tcp_dev_alloc_remote_states (E : DevEnv) (D : Dev) : Nat × Dev :=
  if D.rank_state.isSome then (0, D)
  else if !E.malloc_ok D.tick then (1, next_tick D)
  else (0, { next_tick D with rank_state := some (fun _ => none) })

/-- A new connection state for a socket (`_tcp_dev_add_new_conn`): its name, `none` for
a `NULL` result. -/
def _tcp_dev_add_new_conn (E : DevEnv) (D : Dev) (rank : Int) (conn_sock : Nat) : Option Nat × Dev :=
  match E.malloc_conn D.tick with
  | none => (none, dev_log (next_tick D) (DevEvent.closed conn_sock))
  | some nstate =>
    let c : tcp_dev_conn_state_t :=
      { fd := conn_sock, rank := rank,
        read := { wr_id := 0, cq_handle := E.CQ_HANDLE_NONE,
                  opcode := tcp_dev_state_opcode.RECV_HEADER, addr := E.wr_buff_addr nstate,
                  length := E.sizeof_wr, done := 0 },
        write := { wr_id := 0, opcode := tcp_dev_state_opcode.SEND_DISABLED,
                   cq_handle := E.CQ_HANDLE_NONE, addr := 0, length := 0, done := 0 },
        wr_buff := (D.conns nstate).wr_buff }
    let D1 := { next_tick D with conns := upd D.conns nstate c }
    if !E.epoll_ctl D1.tick then (none, dev_log (next_tick D1) (DevEvent.closed conn_sock))
    else (some nstate, { next_tick D1 with epollout := upd D1.epollout conn_sock false })

/-- The loop of `_tcp_dev_connect_all` over the ranks of the list: `none` when the table
of connection states is `NULL`, otherwise the return value, if the function returns
from inside the loop, and the state. -/
def connect_all_loop (E : DevEnv) : List Nat → Dev → Option (Option Nat × Dev)
  | [], D => some (none, D)
  | i :: rest, D =>
    match D.rank_state with
    | none => none
    | some tbl =>
      if (tbl i).isSome then connect_all_loop E rest D
      else
        match E.connect2port D.tick i with
        | none => some (some 1, next_tick D)
        | some conn_sock =>
          let wr : tcp_dev_wr_t :=
            { wr_id := D.tnc, cq_handle := E.CQ_HANDLE_NONE, source := D.rank, local_addr := 0,
              target := i, remote_addr := 0, length := E.sizeof_wr,
              opcode := if D.rank = 0 then tcp_dev_wr_opcode.REGISTER_MASTER
                        else tcp_dev_wr_opcode.REGISTER_WORKER,
              compare_add := 0, swap := 0 }
          let D1 := next_tick D
          if !E.write_ok D1.tick then some (some 1, dev_log (next_tick D1) (DevEvent.closed conn_sock))
          else
            let D2 := dev_log (next_tick D1) (DevEvent.header conn_sock wr)
            match _tcp_dev_add_new_conn E D2 (i : Int) conn_sock with
            | (none, D3) => some (some 1, D3)
            | (some nstate, D3) =>
              connect_all_loop E rest { D3 with rank_state := some (upd tbl i (some nstate)) }

/-- Connection to all ranks above the own one (`_tcp_dev_connect_all`). -/
def _tcp_dev_connect_all (E : DevEnv) (D : Dev) : Option (Nat × Dev) :=
  match connect_all_loop E (List.range' (D.rank + 1) (D.tnc - (D.rank + 1))) D with
  | none => none
  | some (some r, D1) => some (r, D1)
  | some (none, D1) => some (0, { D1 with connected_to_all := true })

/-- Posting of a work completion (`_tcp_dev_post_wc`): the return value and the state.
The result is `none` when the function does not return: the queue of the handle does
not exist, or it is full, in which case the loop spins until a consumer removes a
record. -/
def _tcp_dev_post_wc (E : DevEnv) (D : Dev) (wr_id : Nat) (status : tcp_dev_wc_status)
    (opcode : tcp_dev_wc_opcode) (cq_handle : Nat) : Option (Nat × Dev) :=
  match E.malloc_wc D.tick with
  | none => some (1, next_tick D)
  | some g =>
    match D.cqs_map cq_handle with
    | none => none
    | some cq =>
      match cq.rbuf with
      | none => none
      | some rb =>
        let wc : tcp_dev_wc_t :=
          { wr_id := wr_id, status := status, opcode := opcode,
            sender := if opcode = tcp_dev_wc_opcode.TCP_DEV_WC_RECV then wr_id else g }
        match insert_ringbuffer rb wc with
        | none => none
        | some rb1 =>
          let D1 := dev_log { next_tick D with
            cqs_map := upd D.cqs_map cq_handle (some { cq with rbuf := some rb1 }) }
            (DevEvent.posted cq_handle wc)
          if opcode = tcp_dev_wc_opcode.TCP_DEV_WC_RECV then
            match cq.pchannel with
            | none => none
            | some ch =>
              if !E.pipe_write D1.tick then some (1, next_tick D1)
              else some (0, dev_log (next_tick D1) (DevEvent.notified ch.write))
          else some (0, D1)

/-- Removal of a completion by the consumer of a queue (`tcp_dev_return_wc`): the
return value, the completion, and the state. -/
def tcp_dev_return_wc (D : Dev) (cq_handle : Nat) : Option (Int × Option tcp_dev_wc_t × Dev) :=
  match D.cqs_map cq_handle with
  | none => none
  | some cq =>
    match cq.rbuf with
    | none => some (-1, none, D)
    | some rb =>
      match remove_ringbuffer rb with
      | none => some (0, none, D)
      | some (none, _) => none
      | some (some wc, rb1) =>
        some (1, some wc, { D with cqs_map := upd D.cqs_map cq_handle (some { cq with rbuf := some rb1 }) })

/-- The default of the read half (`_tcp_dev_set_default_read_conn_state`). -/
def _tcp_dev_set_default_read_conn_state (E : DevEnv) (D : Dev) (estate : Nat) : Dev :=
  set_conn D estate
      { D.conns estate with
        read := { wr_id := 0, cq_handle := E.CQ_HANDLE_NONE,
                  opcode := tcp_dev_state_opcode.RECV_HEADER, addr := E.wr_buff_addr estate,
                  length := E.sizeof_wr, done := 0 } }

/-- Modelled from the spec: `list_insert` on the delayed queue (`list.h` is not part of
the sources): the request becomes the last node. -/
def delayed_insert (D : Dev) (wr : tcp_dev_wr_t) : Dev :=
  { D with delayedList := D.delayedList ++ [wr] }

/-- The C library copy of `n` bytes, `none` when the two ranges overlap. -/
def memcpy (m : Mem) (dest src n : Nat) : Option Mem :=
  if n = 0 ∨ dest + n ≤ src ∨ src + n ≤ dest then some (writeBytes m dest (readBytes m src n))
  else none

/-- The 64-bit word at an address. -/
def load64 (m : Mem) (a : Nat) : Nat := le_decode (readBytes m a 8)

/-- A store of a 64-bit word. -/
def store64 (m : Mem) (a v : Nat) : Mem := writeBytes m a (le_encode 8 v)

/-- A call of `_tcp_dev_post_wc` whose failure makes the caller return 1. -/
def post_then (r : Option (Nat × Dev)) (k : Dev → Option (Int × Dev)) : Option (Int × Dev) :=
  match r with
  | none => none
  | some (rc, D1) => if rc ≠ 0 then some (1, D1) else k D1

/-- The cases `REGISTER_MASTER` and `REGISTER_WORKER` of `_tcp_dev_process_recv_data`. -/
def recv_register (E : DevEnv) (D : Dev) (estate : Nat) : Option (Int × Dev) :=
  let a := _tcp_dev_alloc_remote_states E D
  if a.1 ≠ 0 then some (1, a.2)
  else
    let D1 := a.2
    let c := D1.conns estate
    let r : Nat :=
      if c.wr_buff.opcode = tcp_dev_wr_opcode.REGISTER_MASTER then 0 else c.wr_buff.source
    let D2 := { D1 with
      conns := upd D1.conns estate { c with rank := (r : Int) },
      rank_state := D1.rank_state.map (fun tbl => upd tbl r (some estate)) }
    if c.wr_buff.opcode = tcp_dev_wr_opcode.REGISTER_MASTER then
      match _tcp_dev_connect_all E D2 with
      | none => none
      | some (rc, D3) =>
        if rc ≠ 0 then some (1, D3) else some (0, _tcp_dev_set_default_read_conn_state E D3 estate)
    else some (0, _tcp_dev_set_default_read_conn_state E D2 estate)

/-- The cases `POST_RDMA_WRITE`, `POST_RDMA_WRITE_INLINED` and `POST_RDMA_READ` of
`_tcp_dev_process_recv_data`. -/
def recv_post_rdma (E : DevEnv) (D : Dev) (estate : Nat) : Option (Int × Dev) :=
  let wr_buff := (D.conns estate).wr_buff
  let op := if wr_buff.opcode = tcp_dev_wr_opcode.POST_RDMA_READ
    then tcp_dev_wc_opcode.TCP_DEV_WC_RDMA_READ else tcp_dev_wc_opcode.TCP_DEV_WC_RDMA_WRITE
  if wr_buff.target = D.rank then
    let src := if wr_buff.opcode = tcp_dev_wr_opcode.POST_RDMA_READ
      then wr_buff.remote_addr else wr_buff.local_addr
    let dest := if wr_buff.opcode = tcp_dev_wr_opcode.POST_RDMA_READ
      then wr_buff.local_addr else wr_buff.remote_addr
    match memcpy D.mem dest src wr_buff.length with
    | none => none
    | some m =>
      post_then
        (_tcp_dev_post_wc E { D with mem := m } wr_buff.wr_id tcp_dev_wc_status.TCP_WC_SUCCESS op
          wr_buff.cq_handle)
        (fun D1 =>
          let D2 := if wr_buff.opcode = tcp_dev_wr_opcode.POST_RDMA_WRITE_INLINED
            then dev_log D1 (DevEvent.freed src) else D1
          some (0, _tcp_dev_set_default_read_conn_state E D2 estate))
  else
    let wr : tcp_dev_wr_t :=
      { wr_id := wr_buff.wr_id, cq_handle := wr_buff.cq_handle, source := wr_buff.source,
        target := wr_buff.target, local_addr := wr_buff.local_addr,
        remote_addr := wr_buff.remote_addr, length := wr_buff.length, swap := 0,
        opcode := if wr_buff.opcode = tcp_dev_wr_opcode.POST_RDMA_READ
          then tcp_dev_wr_opcode.REQUEST_RDMA_READ else tcp_dev_wr_opcode.NOTIFICATION_RDMA_WRITE,
        compare_add := if wr_buff.opcode = tcp_dev_wr_opcode.POST_RDMA_READ then 0
          else if wr_buff.opcode = tcp_dev_wr_opcode.POST_RDMA_WRITE then 0 else 1 }
    some (0, _tcp_dev_set_default_read_conn_state E (delayed_insert D wr) estate)

/-- The cases `POST_ATOMIC_CMP_AND_SWP` and `POST_ATOMIC_FETCH_AND_ADD` of
`_tcp_dev_process_recv_data`. -/
def recv_post_atomic (E : DevEnv) (D : Dev) (estate : Nat) : Option (Int × Dev) :=
  let wr_buff := (D.conns estate).wr_buff
  let op := if wr_buff.opcode = tcp_dev_wr_opcode.POST_ATOMIC_FETCH_AND_ADD
    then tcp_dev_wc_opcode.TCP_DEV_WC_FETCH_ADD else tcp_dev_wc_opcode.TCP_DEV_WC_CMP_SWAP
  if wr_buff.target = D.rank then
    let ptr := wr_buff.remote_addr
    let dest := wr_buff.local_addr
    let m1 := store64 D.mem dest (load64 D.mem ptr)
    let m2 :=
      if wr_buff.opcode = tcp_dev_wr_opcode.POST_ATOMIC_CMP_AND_SWP then
        if load64 m1 ptr = wr_buff.compare_add then store64 m1 ptr wr_buff.swap else m1
      else if wr_buff.opcode = tcp_dev_wr_opcode.POST_ATOMIC_FETCH_AND_ADD then
        store64 m1 ptr ((load64 m1 ptr + wr_buff.compare_add) % 2 ^ 64)
      else m1
    post_then
      (_tcp_dev_post_wc E { D with mem := m2 } wr_buff.wr_id tcp_dev_wc_status.TCP_WC_SUCCESS op
        wr_buff.cq_handle)
      (fun D1 => some (0, _tcp_dev_set_default_read_conn_state E D1 estate))
  else
    let wr : tcp_dev_wr_t :=
      { wr_id := wr_buff.wr_id, cq_handle := wr_buff.cq_handle, source := wr_buff.source,
        target := wr_buff.target, local_addr := wr_buff.local_addr,
        remote_addr := wr_buff.remote_addr, length := wr_buff.length,
        compare_add := wr_buff.compare_add,
        swap := if op = tcp_dev_wc_opcode.TCP_DEV_WC_FETCH_ADD then 0 else wr_buff.swap,
        opcode := if op = tcp_dev_wc_opcode.TCP_DEV_WC_FETCH_ADD
          then tcp_dev_wr_opcode.REQUEST_ATOMIC_FETCH_AND_ADD
          else tcp_dev_wr_opcode.REQUEST_ATOMIC_CMP_AND_SWP }
    some (0, _tcp_dev_set_default_read_conn_state E (delayed_insert D wr) estate)

/-- The cases `POST_SEND` and `POST_SEND_INLINED` of `_tcp_dev_process_recv_data`. -/
def recv_post_send (E : DevEnv) (D : Dev) (estate : Nat) : Option (Int × Dev) :=
  let wr_buff := (D.conns estate).wr_buff
  let wr : tcp_dev_wr_t :=
    { wr_id := wr_buff.wr_id, cq_handle := wr_buff.cq_handle,
      opcode := tcp_dev_wr_opcode.NOTIFICATION_SEND, source := wr_buff.source,
      target := wr_buff.target, local_addr := wr_buff.local_addr,
      remote_addr := wr_buff.remote_addr, length := wr_buff.length,
      compare_add := wr_buff.compare_add, swap := 0 }
  some (0, _tcp_dev_set_default_read_conn_state E (delayed_insert D wr) estate)

/-- The cases `NOTIFICATION_RDMA_WRITE` and `RESPONSE_RDMA_READ` of
`_tcp_dev_process_recv_data`: the read half is set up for the payload. -/
def recv_payload_header (D : Dev) (estate : Nat) (opcode : tcp_dev_state_opcode) : Option (Int × Dev) :=
  let c := D.conns estate
  some (0, set_conn D estate
    { c with read := { wr_id := c.wr_buff.wr_id, cq_handle := c.wr_buff.cq_handle, opcode := opcode,
                       addr := c.wr_buff.remote_addr, length := c.wr_buff.length, done := 0 } })

/-- The case `REQUEST_RDMA_READ` of `_tcp_dev_process_recv_data`. -/
def recv_request_rdma_read (E : DevEnv) (D : Dev) (estate : Nat) : Option (Int × Dev) :=
  let wr_buff := (D.conns estate).wr_buff
  let wr : tcp_dev_wr_t :=
    { wr_id := wr_buff.wr_id, cq_handle := wr_buff.cq_handle,
      opcode := tcp_dev_wr_opcode.RESPONSE_RDMA_READ, source := wr_buff.target,
      target := wr_buff.source, local_addr := wr_buff.remote_addr,
      remote_addr := wr_buff.local_addr, length := wr_buff.length,
      compare_add := wr_buff.compare_add, swap := wr_buff.swap }
  some (0, _tcp_dev_set_default_read_conn_state E (delayed_insert D wr) estate)

/-- The cases `REQUEST_ATOMIC_CMP_AND_SWP` and `REQUEST_ATOMIC_FETCH_AND_ADD` of
`_tcp_dev_process_recv_data`. -/
def recv_request_atomic (E : DevEnv) (D : Dev) (estate : Nat) : Option (Int × Dev) :=
  let wr_buff := (D.conns estate).wr_buff
  let ptr := wr_buff.remote_addr
  let old := load64 D.mem ptr
  let wr : tcp_dev_wr_t :=
    { wr_id := wr_buff.wr_id, cq_handle := wr_buff.cq_handle,
      opcode := if wr_buff.opcode = tcp_dev_wr_opcode.REQUEST_ATOMIC_CMP_AND_SWP
        then tcp_dev_wr_opcode.RESPONSE_ATOMIC_CMP_AND_SWP
        else tcp_dev_wr_opcode.RESPONSE_ATOMIC_FETCH_AND_ADD,
      source := wr_buff.target, target := wr_buff.source, local_addr := wr_buff.remote_addr,
      remote_addr := wr_buff.local_addr, length := wr_buff.length,
      compare_add := old, swap := wr_buff.swap }
  let m :=
    if wr_buff.opcode = tcp_dev_wr_opcode.REQUEST_ATOMIC_CMP_AND_SWP then
      if old = wr_buff.compare_add then store64 D.mem ptr wr_buff.swap else D.mem
    else store64 D.mem ptr ((old + wr_buff.compare_add) % 2 ^ 64)
  some (0, _tcp_dev_set_default_read_conn_state E (delayed_insert { D with mem := m } wr) estate)

/-- The cases `RESPONSE_ATOMIC_CMP_AND_SWP` and `RESPONSE_ATOMIC_FETCH_AND_ADD` of
`_tcp_dev_process_recv_data`. -/
def recv_response_atomic (E : DevEnv) (D : Dev) (estate : Nat) : Option (Int × Dev) :=
  let wr_buff := (D.conns estate).wr_buff
  let m := store64 D.mem wr_buff.remote_addr wr_buff.compare_add
  let op := if wr_buff.opcode = tcp_dev_wr_opcode.RESPONSE_ATOMIC_CMP_AND_SWP
    then tcp_dev_wc_opcode.TCP_DEV_WC_CMP_SWAP else tcp_dev_wc_opcode.TCP_DEV_WC_FETCH_ADD
  post_then
    (_tcp_dev_post_wc E { D with mem := m } wr_buff.wr_id tcp_dev_wc_status.TCP_WC_SUCCESS op
      wr_buff.cq_handle)
    (fun D1 => some (0, _tcp_dev_set_default_read_conn_state E D1 estate))

/-- The search of the case `NOTIFICATION_SEND` through the posted receives: the first
node whose length is at least `n`, and the list without it. -/
def first_fit (n : Nat) : List tcp_dev_wr_t → Option (tcp_dev_wr_t × List tcp_dev_wr_t)
  | [] => none
  | r :: rs =>
    if n ≤ r.length then some (r, rs)
    else
      match first_fit n rs with
      | none => none
      | some (x, rest) => some (x, r :: rest)

/-- The case `NOTIFICATION_SEND` of `_tcp_dev_process_recv_data`. -/
def recv_notification_send (D : Dev) (estate : Nat) : Option (Int × Dev) :=
  let c := D.conns estate
  if D.recvList.length ≠ 0 then
    let swr := c.wr_buff
    match first_fit swr.length D.recvList with
    | none => some (0, D)
    | some (rwr, rest) =>
      let wr : tcp_dev_wr_t :=
        { wr_id := swr.wr_id, cq_handle := swr.cq_handle,
          opcode := tcp_dev_wr_opcode.RESPONSE_SEND, source := swr.target, target := swr.source,
          local_addr := swr.local_addr, remote_addr := swr.remote_addr, length := swr.length,
          compare_add := swr.compare_add, swap := swr.swap }
      let D1 := delayed_insert { D with recvList := rest } wr
      some (0, set_conn D1 estate
        { c with read := { wr_id := (c.rank % 2 ^ 64).toNat, cq_handle := rwr.cq_handle,
                           opcode := tcp_dev_state_opcode.RECV_SEND, addr := rwr.local_addr,
                           length := swr.length, done := 0 } })
  else some (0, D)

/-- Processing of a header or payload that was read in full
(`_tcp_dev_process_recv_data`) on the connection state `estate`: the return value and
the state, `none` when the function does not return. -/
def _tcp_dev_process_recv_data (E : DevEnv) (D : Dev) (estate : Nat) : Option (Int × Dev) :=
  let c := D.conns estate
  if c.read.opcode = tcp_dev_state_opcode.RECV_HEADER then
    match c.wr_buff.opcode with
    | tcp_dev_wr_opcode.REGISTER_MASTER => recv_register E D estate
    | tcp_dev_wr_opcode.REGISTER_WORKER => recv_register E D estate
    | tcp_dev_wr_opcode.POST_RDMA_WRITE => recv_post_rdma E D estate
    | tcp_dev_wr_opcode.POST_RDMA_WRITE_INLINED => recv_post_rdma E D estate
    | tcp_dev_wr_opcode.POST_RDMA_READ => recv_post_rdma E D estate
    | tcp_dev_wr_opcode.POST_ATOMIC_CMP_AND_SWP => recv_post_atomic E D estate
    | tcp_dev_wr_opcode.POST_ATOMIC_FETCH_AND_ADD => recv_post_atomic E D estate
    | tcp_dev_wr_opcode.POST_SEND => recv_post_send E D estate
    | tcp_dev_wr_opcode.POST_SEND_INLINED => recv_post_send E D estate
    | tcp_dev_wr_opcode.POST_RECV =>
      some (0, _tcp_dev_set_default_read_conn_state E
        { D with recvList := D.recvList ++ [c.wr_buff] } estate)
    | tcp_dev_wr_opcode.NOTIFICATION_RDMA_WRITE =>
      recv_payload_header D estate tcp_dev_state_opcode.RECV_RDMA_WRITE
    | tcp_dev_wr_opcode.REQUEST_RDMA_READ => recv_request_rdma_read E D estate
    | tcp_dev_wr_opcode.RESPONSE_RDMA_READ =>
      recv_payload_header D estate tcp_dev_state_opcode.RECV_RDMA_READ
    | tcp_dev_wr_opcode.REQUEST_ATOMIC_CMP_AND_SWP => recv_request_atomic E D estate
    | tcp_dev_wr_opcode.REQUEST_ATOMIC_FETCH_AND_ADD => recv_request_atomic E D estate
    | tcp_dev_wr_opcode.RESPONSE_ATOMIC_CMP_AND_SWP => recv_response_atomic E D estate
    | tcp_dev_wr_opcode.RESPONSE_ATOMIC_FETCH_AND_ADD => recv_response_atomic E D estate
    | tcp_dev_wr_opcode.NOTIFICATION_SEND => recv_notification_send D estate
    | tcp_dev_wr_opcode.RESPONSE_SEND =>
      post_then
        (_tcp_dev_post_wc E D c.wr_buff.wr_id tcp_dev_wc_status.TCP_WC_SUCCESS
          tcp_dev_wc_opcode.TCP_DEV_WC_SEND c.wr_buff.cq_handle)
        (fun D1 => some (0, _tcp_dev_set_default_read_conn_state E D1 estate))
    | tcp_dev_wr_opcode.STOP_DEVICE => some (-1, D)
  else if c.read.opcode = tcp_dev_state_opcode.RECV_RDMA_WRITE then
    some (0, _tcp_dev_set_default_read_conn_state E D estate)
  else if c.read.opcode = tcp_dev_state_opcode.RECV_RDMA_READ then
    post_then
      (_tcp_dev_post_wc E D c.read.wr_id tcp_dev_wc_status.TCP_WC_SUCCESS
        tcp_dev_wc_opcode.TCP_DEV_WC_RDMA_READ c.read.cq_handle)
      (fun D1 => some (0, _tcp_dev_set_default_read_conn_state E D1 estate))
  else if c.read.opcode = tcp_dev_state_opcode.RECV_SEND then
    post_then
      (_tcp_dev_post_wc E D c.read.wr_id tcp_dev_wc_status.TCP_WC_SUCCESS
        tcp_dev_wc_opcode.TCP_DEV_WC_RECV c.read.cq_handle)
      (fun D1 => some (0, _tcp_dev_set_default_read_conn_state E D1 estate))
  else some (1, D)

/-- Completion of the transfer of the write half (`_tcp_dev_process_sent_data`) of the
connection state `estate`. -/
def _tcp_dev_process_sent_data (E : DevEnv) (D : Dev) (estate : Nat) : Option (Int × Dev) :=
  let c := D.conns estate
  post_then
    (if c.write.opcode = tcp_dev_state_opcode.SEND_RDMA_WRITE then
      _tcp_dev_post_wc E D c.write.wr_id tcp_dev_wc_status.TCP_WC_SUCCESS
        tcp_dev_wc_opcode.TCP_DEV_WC_RDMA_WRITE c.write.cq_handle
     else some (0, D))
    (fun D1 =>
      if !E.epoll_ctl D1.tick then some (1, next_tick D1)
      else
        let D2 := { next_tick D1 with epollout := upd D1.epollout (D1.conns estate).fd false }
        some (0, set_conn D2 estate
          { D2.conns estate with
            write := { wr_id := 0, cq_handle := E.CQ_HANDLE_NONE,
                       opcode := tcp_dev_state_opcode.SEND_DISABLED, addr := 0, length := 0,
                       done := 0 } }))

/-- How the body of the loop of `_tcp_dev_process_delayed` ends for one node: the
function returns `code`, or the loop goes on to the next node, after which the node is
removed from the queue if `delete` is set. -/
inductive DevStep
  | ret (code : Int) (D : Dev)
  | next (delete : Bool) (D : Dev)

/-- A call of `_tcp_dev_post_wc` in the loop of `_tcp_dev_process_delayed`, whose failure
makes the function return 1. -/
def post_step (r : Option (Nat × Dev)) (k : Dev → Option DevStep) : Option DevStep :=
  match r with
  | none => none
  | some (rc, D1) => if rc ≠ 0 then some (DevStep.ret 1 D1) else k D1

/-- The branch of the loop of `_tcp_dev_process_delayed` for a node whose target has a
connection state `state` with an idle write half: the header is written to the socket,
an inlined payload follows at once, and otherwise the write half is set up for the
payload. The result is `none` when a write never ends or the process exits. -/
def delayed_send (E : DevEnv) (D : Dev) (state : Nat) (wr : tcp_dev_wr_t) : Option DevStep :=
  let fd := (D.conns state).fd
  match E.sock_write D.tick with
  | none => none
  | some false => some (DevStep.ret 1 (dev_log (next_tick D) (DevEvent.closed fd)))
  | some true =>
    let D1 := dev_log (next_tick D) (DevEvent.header fd wr)
    if (wr.opcode = tcp_dev_wr_opcode.NOTIFICATION_RDMA_WRITE ∧ wr.compare_add = 1)
        ∨ (wr.opcode = tcp_dev_wr_opcode.NOTIFICATION_SEND ∧ wr.compare_add = 1) then
      match (if wr.length = 0 then some true else E.sock_write D1.tick) with
      | none => none
      | some false => some (DevStep.ret 1 (dev_log (next_tick D1) (DevEvent.closed fd)))
      | some true =>
        let D2 := if wr.length = 0 then D1
          else dev_log (next_tick D1) (DevEvent.payload fd wr.local_addr wr.length)
        post_step
          (_tcp_dev_post_wc E D2 wr.wr_id tcp_dev_wc_status.TCP_WC_SUCCESS
            tcp_dev_wc_opcode.TCP_DEV_WC_RDMA_WRITE wr.cq_handle)
          (fun D3 => some (DevStep.next true (dev_log D3 (DevEvent.freed wr.local_addr))))
    else if wr.opcode = tcp_dev_wr_opcode.NOTIFICATION_RDMA_WRITE
        ∨ wr.opcode = tcp_dev_wr_opcode.RESPONSE_RDMA_READ
        ∨ wr.opcode = tcp_dev_wr_opcode.NOTIFICATION_SEND then
      let op :=
        if wr.opcode = tcp_dev_wr_opcode.NOTIFICATION_RDMA_WRITE then tcp_dev_state_opcode.SEND_RDMA_WRITE
        else if wr.opcode = tcp_dev_wr_opcode.RESPONSE_RDMA_READ then tcp_dev_state_opcode.SEND_RDMA_READ
        else tcp_dev_state_opcode.SEND_SEND
      let D2 := set_conn D1 state
        { D1.conns state with
          write := { wr_id := wr.wr_id, cq_handle := wr.cq_handle, opcode := op,
                     addr := wr.local_addr, length := wr.length, done := 0 } }
      if !E.epoll_ctl D2.tick then none
      else some (DevStep.next true { next_tick D2 with epollout := upd D2.epollout fd true })
    else some (DevStep.next true D1)

/-- The body of the loop of `_tcp_dev_process_delayed` for the node with the request
`wr`, with the table `tbl` of connection states. -/
def delayed_entry (E : DevEnv) (D : Dev) (tbl : Nat → Option Nat) (wr : tcp_dev_wr_t) :
    Option DevStep :=
  if tbl wr.target = none
      ∧ ¬ (wr.opcode = tcp_dev_wr_opcode.NOTIFICATION_SEND ∧ wr.target = D.rank) then
    post_step
      (_tcp_dev_post_wc E D wr.wr_id tcp_dev_wc_status.TCP_WC_REM_OP_ERROR
        tcp_dev_wc_opcode.TCP_DEV_WC_RDMA_WRITE wr.cq_handle)
      (fun D1 => some (DevStep.next true D1))
  else if wr.opcode = tcp_dev_wr_opcode.NOTIFICATION_SEND ∧ wr.target = D.rank then
    match D.recvList with
    | [] => some (DevStep.next false D)
    | rwr :: rest =>
      if rwr.length < wr.length then some (DevStep.ret 1 D)
      else
        match memcpy D.mem rwr.local_addr wr.local_addr wr.length with
        | none => none
        | some m =>
          let D0 := { D with recvList := rest, mem := m }
          let cq := D0.cqs_map rwr.cq_handle
          post_step
            (_tcp_dev_post_wc E D0 wr.wr_id tcp_dev_wc_status.TCP_WC_SUCCESS
              tcp_dev_wc_opcode.TCP_DEV_WC_SEND wr.cq_handle)
            (fun D1 =>
              post_step
                (_tcp_dev_post_wc E D1 rwr.wr_id tcp_dev_wc_status.TCP_WC_SUCCESS
                  tcp_dev_wc_opcode.TCP_DEV_WC_RECV
                  (match cq with
                   | some q => q.num
                   | none => E.CQ_HANDLE_NONE))
                (fun D2 =>
                  some (DevStep.next true
                    (if wr.compare_add = 1 then dev_log D2 (DevEvent.freed wr.local_addr) else D2))))
  else
    match tbl wr.target with
    | none => none
    | some state =>
      if (D.conns state).write.opcode = tcp_dev_state_opcode.SEND_DISABLED then delayed_send E D state wr
      else some (DevStep.next false D)

/-- The loop of `_tcp_dev_process_delayed` over the nodes still to visit, `k` being the
position in the queue of the first of them: a node whose body asks for it is removed
from the queue before the next one is visited. -/
def delayed_loop (E : DevEnv) (tbl : Nat → Option Nat) :
    List tcp_dev_wr_t → Nat → Dev → Option (Int × Dev)
  | [], _, D => some (0, D)
  | wr :: rest, k, D =>
    match delayed_entry E D tbl wr with
    | none => none
    | some (DevStep.ret code D1) => some (code, D1)
    | some (DevStep.next true D1) =>
      delayed_loop E tbl rest k { D1 with delayedList := D1.delayedList.eraseIdx k }
    | some (DevStep.next false D1) => delayed_loop E tbl rest (k + 1) D1

/-- One scan of the delayed queue (`_tcp_dev_process_delayed`): the return value and the
state, `none` when the function does not return. -/
def _tcp_dev_process_delayed (E : DevEnv) (D : Dev) : Option (Int × Dev) :=
  if D.delayedList.length = 0 then some (0, D)
  else
    match D.rank_state with
    | none => some (0, D)
    | some tbl => delayed_loop E tbl D.delayedList 0 D

/-- What a process sees of its transport when it drains the group completion queue with
the handle `h`: the completions in the order of their positions, and the ranks that
have a connection state. -/
def dev_env (D : Dev) (h : Nat) (E0 : Env) : Env :=
  { E0 with
    valid_state := fun r => tcp_dev_is_valid_state D r,
    scq_num := h,
    cq := fun k =>
      match D.cqs_map h with
      | none => none
      | some q =>
        match q.rbuf with
        | none => none
        | some rb => if k < rb.ipos then rb.cells (k &&& rb.mask) else none }

/-- The header `wr` has been read in full on the connection state `estate`. -/
def header_read (D : Dev) (estate : Nat) (wr : tcp_dev_wr_t) : Dev :=
  set_conn D estate
    { D.conns estate with
      wr_buff := wr,
      read := { (D.conns estate).read with done := (D.conns estate).read.length } }

/-- What the event loop of `tcp_virt_dev` does for a peer of known rank that closed its
connection: `rank_state[event_rank] = NULL`. -/
def peer_closed (D : Dev) (event_rank : Nat) : Dev :=
  { D with rank_state := D.rank_state.map (fun tbl => upd tbl event_rank none) }

/-! ## Deletion of a group (`GPI2_GRP.c`) -/

/-- Deletion of a group (`pgaspi_group_delete`): the memory of the slot is released, the
slot is reset and `group_cnt` is decremented, also when the release fails. -/
def pgaspi_group_delete (E : CreateEnv) (s : Glb) (g : Nat) : gaspi_return_t × Glb :=
  if g = GASPI_GROUP_ALL then (GASPI_ERR_INV_GROUP, s)
  else
    let r := _gaspi_release_group_mem E.unregister_ok (s.groups g)
    (r.1, { gctx := { s.gctx with group_cnt := s.gctx.group_cnt - 1 },
            groups := upd s.groups g (GASPI_RESET_GROUP r.2) })

/-! ## The control plane (`GPI2_SN.c`) -/

/-- What a process does on the sockets of the control plane, in program order: a value
written to or read from the socket of a rank, a call of `gaspi_sn_recv_topology` or of
`gaspi_sn_send_topology` to `dst`, each with the value of `mask` at the call. -/
inductive SnEvent
  | writen (rank : Nat)
  | readn (rank : Nat)
  | recv_topology (mask : Nat)
  | send_topology (dst mask : Nat)
  deriving DecidableEq, Repr

/-- What the surroundings answer to the control plane: whether `gaspi_sn_writen` and
`gaspi_sn_readn` on the socket of a rank transfer all bytes, and the return values of
`gaspi_sn_recv_topology` and of `gaspi_sn_send_topology` to a rank. -/
structure SnEnv where
  writen_ok : Nat → Bool
  readn_ok : Nat → Bool
  recv_topology : Int
  send_topology : Nat → Int

/-- The loop of `gaspi_sn_barrier` (`while (mask < size)`): the return value and the
actions. The first argument bounds the number of rounds; the result is `none` when
`mask <<= 1` leaves the range of `int`. In the loop `mask < size`, so that
`rank - mask + size` is positive and is written `rank + size - mask`. -/
def sn_barrier_loop (E : SnEnv) (rank size : Nat) : Nat → Nat → List SnEvent → Option (Int × List SnEvent)
  | 0, mask, evs => if mask < size then none else some (0, evs)
  | n + 1, mask, evs =>
    if mask < size then
      let dst := (rank + mask) % size
      let src := (rank + size - mask) % size
      if !E.writen_ok dst then some (-1, evs ++ [SnEvent.writen dst])
      else if !E.readn_ok src then some (-1, evs ++ [SnEvent.writen dst, SnEvent.readn src])
      else if mask <<< 1 ≥ 2 ^ 31 then none
      else sn_barrier_loop E rank size n (mask <<< 1) (evs ++ [SnEvent.writen dst, SnEvent.readn src])
    else some (0, evs)

/-- The barrier of the control plane (`gaspi_sn_barrier`) on rank `rank` of `size`. An
`int` mask takes at most 31 values in the loop. -/
def gaspi_sn_barrier (E : SnEnv) (rank size : Nat) : Option (Int × List SnEvent) :=
  sn_barrier_loop E rank size 32 0x1 []

/-- The first loop of `gaspi_sn_broadcast_topology` (`while (mask <= gctx->tnc)`): the
return value, if the function returns from the loop, the value of `mask` after the
loop and the actions. The result is `none` when `mask <<= 1` leaves the range of `int`.
The local `src` is computed and not used by `gaspi_sn_recv_topology`. -/
def topology_recv_loop (E : SnEnv) (tnc rank : Nat) :
    Nat → Nat → Option (Option gaspi_return_t × Nat × List SnEvent)
  | 0, mask => if mask ≤ tnc then none else some (none, mask, [])
  | n + 1, mask =>
    if mask ≤ tnc then
      if rank &&& mask ≠ 0 then
        if E.recv_topology ≠ 0 then some (some GASPI_ERROR, mask, [SnEvent.recv_topology mask])
        else some (none, mask, [SnEvent.recv_topology mask])
      else if mask <<< 1 ≥ 2 ^ 31 then none
      else topology_recv_loop E tnc rank n (mask <<< 1)
    else some (none, mask, [])

/-- The second loop of `gaspi_sn_broadcast_topology` (`while (mask > 0)`). -/
def topology_send_loop (E : SnEnv) (tnc rank : Nat) :
    Nat → Nat → List SnEvent → Option (gaspi_return_t × List SnEvent)
  | 0, mask, evs => if mask > 0 then none else some (GASPI_SUCCESS, evs)
  | n + 1, mask, evs =>
    if mask > 0 then
      if rank + mask < tnc then
        let dst0 := rank + mask
        let dst := if dst0 ≥ tnc then dst0 - tnc else dst0
        let sres := E.send_topology dst
        if sres = 1 then some (GASPI_TIMEOUT, evs ++ [SnEvent.send_topology dst mask])
        else if sres < 0 then some (GASPI_ERROR, evs ++ [SnEvent.send_topology dst mask])
        else topology_send_loop E tnc rank n (mask >>> 1) (evs ++ [SnEvent.send_topology dst mask])
      else topology_send_loop E tnc rank n (mask >>> 1) evs
    else some (GASPI_SUCCESS, evs)

/-- The broadcast of the topology (`gaspi_sn_broadcast_topology`) on rank `rank` of
`tnc`: the return value and the calls made. An `int` mask takes at most 31 values in
each of the two loops. -/
def gaspi_sn_broadcast_topology (E : SnEnv) (tnc rank : Nat) : Option (gaspi_return_t × List SnEvent) :=
  match topology_recv_loop E tnc rank 32 0x1 with
  | none => none
  | some (some r, _, evs) => some (r, evs)
  | some (none, mask, evs) => topology_send_loop E tnc rank 32 (mask >>> 1) evs
/-! ## Predicates used in the statements -/

/-- Successive calls of `pgaspi_barrier` on a group, one for each entry of the list of
surroundings, whatever they return; the result is the state after the last call. -/
def barrier_calls : List Env → Proc → Option Proc
  | [], p => some p
  | E :: Es, p =>
    match pgaspi_barrier E p with
    | none => none
    | some (_, q) => barrier_calls Es q

/-- Between two collectives and while a barrier is interrupted, the record of the process
holds, among the events from position `n0` on, the observation of the token of every
round below the stored mask. -/
def BarrierInv (n0 : Nat) (p : Proc) : Prop :=
  ∃ J, p.grp.lastmask &&& 0x7fffffff = 2 ^ J ∧ n0 ≤ p.log.length ∧
    ∀ j, j < J →
      Event.polled (GPI2_GRP_SYNC_POLL_ADDR p.grp (barrier_src p.grp (2 ^ j))) p.grp.barrier_cnt ∈
        p.log.drop n0

/-- The fields of a group context that the posting steps of a round may change: only
`committed_rank`. -/
def PostFrame (c d : gaspi_group_ctx_t) : Prop :=
  ∃ cr, d = { c with committed_rank := cr }

/-- The fields of a group context that the rounds of a barrier may change:
`committed_rank` and `lastmask`. -/
def RoundFrame (c d : gaspi_group_ctx_t) : Prop :=
  ∃ cr lm, d = { c with committed_rank := cr, lastmask := lm }

/-- The record of actions only grows. -/
def LogExt (p q : Proc) : Prop := ∃ new, q.log = p.log ++ new

/-- A step of a round: it changes the group context at most in `committed_rank`, leaves the
position in the completion queue, and only adds to the record of actions. -/
def StepOk (p q : Proc) : Prop := PostFrame p.grp q.grp ∧ LogExt p q ∧ q.cq_rpos = p.cq_rpos

/-- The return codes of the part of a round before the poll: success, a code of the
control plane, or the device error of a failed post. -/
def PreCode (E : Env) (r : gaspi_return_t) : Prop :=
  r = GASPI_SUCCESS ∨ r = GASPI_ERR_DEVICE ∨ (∃ d, r = E.connect d) ∨ ∃ d, r = E.grp_connect d

/-- The members of a group as `pgaspi_group_ranks` reports them: the first `tnc` entries of
`rank_grp`. -/
def members (c : gaspi_group_ctx_t) : List Int := c.rank_grp.take c.tnc

/-- Successive calls of `pgaspi_group_add` on the group `g`, one for each rank of the
list; the result carries the return codes in order. -/
def group_adds (g : Nat) : List Nat → Glb → List gaspi_return_t × Glb
  | [], s => ([], s)
  | r :: rs, s =>
    ((pgaspi_group_add s g r).1 :: (group_adds g rs (pgaspi_group_add s g r).2).1,
      (group_adds g rs (pgaspi_group_add s g r).2).2)

/-- The ranks of a list of `pgaspi_group_add` calls whose call returned `GASPI_SUCCESS`. -/
def added : List Nat → List gaspi_return_t → List Nat
  | r :: rs, e :: es => if e = GASPI_SUCCESS then r :: added rs es else added rs es
  | _, _ => []

/-- Number of slots of the group table in use. -/
def live_count (groups : Nat → gaspi_group_ctx_t) : Nat :=
  ((List.range GASPI_MAX_GROUPS).filter (fun i => (groups i).id ≠ -1)).length

/-- The state of a group in which ranks can be added: the array has `cap` entries, and
the members are in strictly ascending order and are ranks below `cap`. -/
def AddInv (cap : Nat) (c : gaspi_group_ctx_t) : Prop :=
  c.rank_grp.length = cap ∧ (members c).Sorted (· < ·) ∧ ∀ x ∈ members c, ∃ r : Nat, r < cap ∧ x = (r : Int)


/-- The fields `next_pof2` and `pof2_exp` of a group of size `T` as the collectives need
them: `next_pof2` is the power of two with `next_pof2 ≤ T < 2 * next_pof2`, the only
one, and `pof2_exp` is its exponent. -/
def Pof2 (c : gaspi_group_ctx_t) (T : Nat) : Prop :=
  c.tnc = T ∧ c.next_pof2 ≤ T ∧ T < 2 * c.next_pof2 ∧ 2 ^ c.pof2_exp = c.next_pof2 ∧
    ∀ k, 2 ^ k ≤ T → T < 2 * 2 ^ k → 2 ^ k = c.next_pof2 ∧ k = c.pof2_exp

/-- The surroundings `E` with other answers of the polls and of the lock: what may differ
between the calls of one collective. -/
def with_poll (E : Env) (f : Nat → Nat) (b : Bool) : Env := { E with poll := f, lock_ok := b }

/-- A process state with other values of the checkpoint fields `lastmask`, `bid` and
`level`; `none` keeps a field. -/
def ovr (a b c : Option Nat) (p : Proc) : Proc :=
  { p with grp := { p.grp with lastmask := a.getD p.grp.lastmask, bid := b.getD p.grp.bid,
                               level := c.getD p.grp.level } }

/-- The end of a phase with other values of the checkpoint fields. -/
def ovrEnd (a b c : Option Nat) : LoopEnd (Proc × Loc) → LoopEnd (Proc × Loc)
  | LoopEnd.fallthrough x => LoopEnd.fallthrough (ovr a b c x.1, x.2)
  | LoopEnd.returned r p => LoopEnd.returned r (ovr a b c p)

/-- The fields of a group context that the steps of an allreduce phase may change:
`committed_rank`, the staging buffer and `dsize`. -/
def FrameW (c d : gaspi_group_ctx_t) : Prop :=
  ∃ cr b ds, d = { c with committed_rank := cr, buf := b, dsize := ds }

/-- The send staging of the current togle holds the bytes `data` of the caller. -/
def BaseHolds (K : Cfg) (data : List Nat) (c : gaspi_group_ctx_t) : Prop :=
  ∀ i, i < data.length → c.buf (send_base K c + i) = data.getD i 0

/-- The state of a process and of the local variables inside an allreduce call with
token `t` and send data `data`, each reduction taking `dsz` bytes: `barrier_cnt` is the
token, the send staging holds the data of the caller, which is at most `dsz` bytes,
the sync flag lies below the send staging, `send_ptr` is `dsize` bytes after the
start of the send staging, and `next_pof2` fits the 31 bits of the mask. -/
def Stage (K : Cfg) (t : Nat) (data : List Nat) (dsz : Nat) (p : Proc) (l : Loc) : Prop :=
  p.grp.barrier_cnt = t ∧ BaseHolds K data p.grp ∧ data.length ≤ dsz ∧
    GPI2_GRP_LOCAL_SYNC_ADDR p.grp < K.COLL_MEM_SEND ∧
    l.send_ptr = send_base K p.grp + p.grp.dsize ∧ p.grp.next_pof2 ≤ 2 ^ 31

/-- The calls of a collective that return `GASPI_TIMEOUT`, one for each entry of the
list, which gives what the polls read and whether the lock is acquired during the
call; the result is the state after the last of them, `none` when one of the calls
does not return `GASPI_TIMEOUT`. -/
def timeout_calls (call : (Nat → Nat) → Bool → Proc → Option (gaspi_return_t × Proc × List Nat)) :
    List ((Nat → Nat) × Bool) → Proc → Option Proc
  | [], p => some p
  | fb :: fs, p =>
    match call fb.1 fb.2 p with
    | none => none
    | some x => if x.1 = GASPI_TIMEOUT then timeout_calls call fs x.2.1 else none

/-- What the write of data and sync flag may change of a process state: in the group
context `committed_rank` and the byte of the local sync flag. -/
def SyncOk (p q : Proc) : Prop :=
  ∃ cr b, q.grp = { p.grp with committed_rank := cr, buf := b } ∧
    ∀ x, x ≠ GPI2_GRP_LOCAL_SYNC_ADDR p.grp → b x = p.grp.buf x

/-- The part of a butterfly round after the write, for the partner with member index
`idst` and rank `dst`; `w` is the outcome of the part before. -/
def allreduce_L2_post (K : Cfg) (E : Env) (r_args : redux_args) (mask idst dst : Nat)
    (w : gaspi_return_t × Proc) (l : Loc) : LoopEnd (Proc × Loc) :=
  if w.1 ≠ GASPI_SUCCESS then LoopEnd.returned GASPI_ERR_DEVICE (set_corrupt w.2 dst)
  else if _gaspi_sync_wait E (GPI2_GRP_SYNC_POLL_ADDR w.2.grp idst) w.2.grp.barrier_cnt ≠ GASPI_SUCCESS then
    LoopEnd.returned GASPI_TIMEOUT
      { w.2 with grp := { w.2.grp with lastmask := mask ||| 0x80000000, bid := l.bid } }
  else
    let a := _gaspi_apply_redux K (observe w.2 (GPI2_GRP_SYNC_POLL_ADDR w.2.grp idst))
      l.send_ptr K.COLL_MEM_RECV l.bid r_args
    if a.1 ≠ GASPI_SUCCESS then LoopEnd.returned GASPI_ERROR a.2.2
    else LoopEnd.fallthrough (a.2.2, { l with send_ptr := a.2.1, bid := l.bid + 1 })

/-- What follows the butterfly rounds of an allreduce: a return from inside the loop, or
the third phase and the end of the function. -/
def allreduce_after_L2 (K : Cfg) (E : Env) (r_args : redux_args) (buf_recv : List Nat) :
    Option (LoopEnd (Proc × Loc)) → Option (gaspi_return_t × Proc × List Nat)
  | none => none
  | some (LoopEnd.returned e q) => some (e, q, buf_recv)
  | some (LoopEnd.fallthrough x) => allreduce_from_L3 K E r_args buf_recv (enter_L3 x)

/-- A state from which a call of the allreduce with token `t` goes on: idle (level 0,
`dsize = 0`, the next `barrier_cnt` is `t`) or left by a timeout (`barrier_cnt` is
`t`), with a mask of at least 1, `next_pof2` within the 31 bits of the mask, and the
sync flag below the send staging. -/
def Resumable (K : Cfg) (t : Nat) (q : Proc) : Prop :=
  1 ≤ q.grp.lastmask &&& 0x7fffffff ∧ q.grp.next_pof2 ≤ 2 ^ 31 ∧
    GPI2_GRP_LOCAL_SYNC_ADDR q.grp < K.COLL_MEM_SEND ∧ q.grp.level ≤ 3 ∧
    (q.grp.level ≤ 1 → q.grp.dsize = 0) ∧
    (if q.grp.level = 0 then bump_barrier_cnt q.grp.barrier_cnt else q.grp.barrier_cnt) = t

/-- How the outcome `(e, q, rb)` of an allreduce call relates to the outcome `ref` of the
run in which every poll reads the token `t`: a call that returns `GASPI_SUCCESS` has
the outcome of that run; a call that returns `GASPI_TIMEOUT` leaves the receive
buffer `br` and the holder `c0` of the group as they are, and a resumable state from
which the engine, when every poll reads the token, ends as that run does. -/
def Resumes (K : Cfg) (E : Env) (t : Nat) (ra : redux_args) (bs br : List Nat) (c0 : Nat)
    (ref : Option (gaspi_return_t × Proc × List Nat)) (e : gaspi_return_t) (q : Proc)
    (rb : List Nat) : Prop :=
  (e = GASPI_SUCCESS → ref = some (GASPI_SUCCESS, q, rb)) ∧
  (e = GASPI_TIMEOUT → Resumable K t q ∧ q.grp.level ≠ 0 ∧ q.grp.coll_op = c0 ∧ rb = br ∧
    ∀ x rb2, allreduce_from_L0 K (with_poll E (fun _ => t) true) q bs br ra = some (GASPI_SUCCESS, x, rb2) →
      ref = some (GASPI_SUCCESS, x, rb2))

/-- The frame shared by `pgaspi_allreduce` and `pgaspi_allreduce_user` around the engine:
the argument checks, whose outcome is `g`, the lock, the admission test for the kind
`kind` of collective, and the engine; `f` is what the polls read and `b` whether the
lock is acquired. -/
def guarded_call (K : Cfg) (E : Env) (g : Option gaspi_return_t) (kind : Nat) (ra : redux_args)
    (bs br : List Nat) (f : Nat → Nat) (b : Bool) (p : Proc) :
    Option (gaspi_return_t × Proc × List Nat) :=
  match g with
  | some err => some (err, p, br)
  | none =>
    if !b then some (GASPI_TIMEOUT, p, br)
    else if p.grp.coll_op &&& kind = 0 then some (GASPI_ERR_ACTIVE_COLL, p, br)
    else _gaspi_allreduce K (with_poll E f b) { p with grp := { p.grp with coll_op := kind } } bs br ra

/-- A call of a collective resumes: from a resumable state, a call that returns
`GASPI_SUCCESS` has the outcome of the call in which every poll reads the token `t`, and
leaves `barrier_cnt = t` at level 0; a call that returns `GASPI_TIMEOUT` keeps the
receive buffer `br` and leaves a resumable state from which the call in which every
poll reads the token ends as it does from the state before. -/
def CallResumes (K : Cfg) (t : Nat) (br : List Nat)
    (call : (Nat → Nat) → Bool → Proc → Option (gaspi_return_t × Proc × List Nat)) : Prop :=
  ∀ f b p e q rb, Resumable K t p → call f b p = some (e, q, rb) →
    (e = GASPI_SUCCESS →
      call (fun _ => t) true p = some (GASPI_SUCCESS, q, rb) ∧ q.grp.barrier_cnt = t ∧ q.grp.level = 0) ∧
    (e = GASPI_TIMEOUT → Resumable K t q ∧ rb = br ∧
      ∀ x rb2, call (fun _ => t) true q = some (GASPI_SUCCESS, x, rb2) →
        call (fun _ => t) true p = some (GASPI_SUCCESS, x, rb2))

/-- The state of rank 2 of four after it created a group and added the ranks 1 and 2. -/
def group_of_two : Glb :=
  (group_adds 0 [2, 1] (pgaspi_group_create create_env_ok (boot 4 2)).2.2).2

/-- The values of the resumption fields of a group that no collective holds: a group
held by no collective or by a barrier has `level = bid = dsize = 0`, a group held by
no collective has `lastmask = 1`, and the holder is one of the four kinds. -/
def IdleInv (c : gaspi_group_ctx_t) : Prop :=
  (c.coll_op = GASPI_NONE ∨ c.coll_op = GASPI_BARRIER → c.level = 0 ∧ c.bid = 0 ∧ c.dsize = 0) ∧
    (c.coll_op = GASPI_NONE → c.lastmask = 1) ∧
    (c.coll_op = GASPI_NONE ∨ c.coll_op = GASPI_BARRIER ∨ c.coll_op = GASPI_ALLREDUCE ∨
      c.coll_op = GASPI_ALLREDUCE_USER)

/-- A call of one of the collectives, with its surroundings and arguments. -/
inductive CollCall
  | barrier (E : Env)
  | allreduce (K : Cfg) (E : Env) (bs br : List Nat) (elem_cnt op type : Nat)
  | allreduce_user (K : Cfg) (E : Env) (bs br : List Nat) (elem_cnt elem_size : Nat)
      (user_fct : List Nat → List Nat → Nat → Nat → gaspi_return_t × List Nat)

/-- The state a call of a collective leaves, whatever it returns; `none` when it does not
return. -/
def run_call : CollCall → Proc → Option Proc
  | CollCall.barrier E, p => (pgaspi_barrier E p).map (fun x => x.2)
  | CollCall.allreduce K E bs br elem_cnt op type, p =>
    (pgaspi_allreduce K E p bs br elem_cnt op type).map (fun x => x.2.1)
  | CollCall.allreduce_user K E bs br elem_cnt elem_size user_fct, p =>
    (pgaspi_allreduce_user K E p bs br elem_cnt elem_size user_fct).map (fun x => x.2.1)

/-- The state after a sequence of calls of the collectives. -/
def run_calls : List CollCall → Proc → Option Proc
  | [], p => some p
  | c :: cs, p =>
    match run_call c p with
    | none => none
    | some q => run_calls cs q

/-- The state after a sequence of calls of the collectives, the state before them when
one of them does not return. -/
def after_run (cs : List CollCall) (p : Proc) : Proc := (run_calls cs p).getD p

/-! ### Transport -/

/-- A ring buffer after one more record is stored at the position of the producer. -/
def ring_put (rb : ringbuffer) (wc : tcp_dev_wc_t) : ringbuffer :=
  { rb with cells := upd rb.cells (rb.ipos &&& rb.mask) (some wc), ipos := rb.ipos + 1 }

/-- The state of the transport after exactly one completion `wc` is inserted into the
ring buffer `rb` of the queue `cq` with the handle `h`: one answer of the surroundings
is taken, the insertion is recorded, and nothing else changes. -/
def completed (D : Dev) (h : Nat) (cq : tcp_cq) (rb : ringbuffer) (wc : tcp_dev_wc_t) : Dev :=
  dev_log { next_tick D with cqs_map := upd D.cqs_map h (some { cq with rbuf := some (ring_put rb wc) }) }
    (DevEvent.posted h wc)

/-- What a step of the transport other than a registration leaves alone: the own rank,
the table of connection states and the delayed queue; the posted receives are only
taken from the front, a busy write half stays busy, and the record of actions only
grows. -/
def DevKeeps (D D1 : Dev) : Prop :=
  D1.rank = D.rank ∧ D1.rank_state = D.rank_state ∧ D1.delayedList = D.delayedList ∧
    (∃ n, D1.recvList = D.recvList.drop n) ∧
    (∀ c, (D.conns c).write.opcode ≠ tcp_dev_state_opcode.SEND_DISABLED →
      (D1.conns c).write.opcode ≠ tcp_dev_state_opcode.SEND_DISABLED) ∧
    ∃ new, D1.log = D.log ++ new

/-- An example of surroundings of the transport in which every call succeeds. -/
def dev_env_ok : DevEnv :=
  { CQ_HANDLE_NONE := 65, CQ_MAX_SIZE := 4096, CQ_MAX_NUM := 64, sizeof_wr := 64,
    wr_buff_addr := fun c => 4096 + 256 * c, malloc_wc := fun _ => some 0,
    malloc_ok := fun _ => true, malloc_conn := fun _ => some 1, pipe_write := fun _ => true,
    sock_write := fun _ => some true, write_ok := fun _ => true, epoll_ctl := fun _ => true,
    connect2port := fun _ r => some (100 + r) }

/-- A work request with all fields zero but the opcode. -/
def wr_zero (op : tcp_dev_wr_opcode) : tcp_dev_wr_t :=
  { wr_id := 0, cq_handle := 0, opcode := op, source := 0, target := 0, local_addr := 0,
    remote_addr := 0, length := 0, compare_add := 0, swap := 0 }

/-- The transport of rank `rank` of `tnc` before any connection: no table of connection
states, empty lists, no completion queue, memory that holds the byte `a % 256` at the
address `a`. -/
def dev_boot (tnc rank : Nat) : Dev :=
  { rank := rank, tnc := tnc, rank_state := none,
    conns := fun c =>
      { fd := c, rank := -1,
        read := { wr_id := 0, cq_handle := 65, opcode := tcp_dev_state_opcode.RECV_HEADER,
                  addr := 4096 + 256 * c, length := 64, done := 0 },
        write := { wr_id := 0, cq_handle := 65, opcode := tcp_dev_state_opcode.SEND_DISABLED,
                   addr := 0, length := 0, done := 0 },
        wr_buff := wr_zero tcp_dev_wr_opcode.STOP_DEVICE },
    delayedList := [], recvList := [], cqs_map := fun _ => none, cq_ref_counter := 0,
    mem := fun a => a % 256, epollout := fun _ => false, connected_to_all := false, tick := 0,
    log := [] }

/-- The ring buffer of a new completion queue for 8 elements. -/
def ring8 : ringbuffer :=
  { cells := fun _ => none, ncells := 17, mask := 9, ipos := 0, rpos := 0 }

/-- A new completion queue for 8 elements with the number 0 and no channel. -/
def cq8 : tcp_cq := { rbuf := some ring8, num := 0, pchannel := none }

/-- The transport of rank 0 of two after `tcp_dev_create_cq` created the queue 0 for 8
elements. -/
def dev_with_cq : Dev :=
  match tcp_dev_create_cq dev_env_ok (dev_boot 2 0) 8 none with
  | some (_, D) => D
  | none => dev_boot 2 0

/-- A write of the 4 bytes at address 0 to address 16 of the own rank 0, posted with
`wr_id = 7` on the queue 0. -/
def self_write_wr : tcp_dev_wr_t :=
  { wr_zero tcp_dev_wr_opcode.POST_RDMA_WRITE with wr_id := 7, remote_addr := 16, length := 4 }

/-- The transport of rank 0 after the header of `self_write_wr` was read on the
connection state 0. -/
def dev_self_write : Dev := header_read dev_with_cq 0 self_write_wr

/-- A fetch-and-add of 5 on the word at address 16 of the own rank 0, the old value to be
stored at address 32, posted with `wr_id = 9` on the queue 0. -/
def self_fetch_add_wr : tcp_dev_wr_t :=
  { wr_zero tcp_dev_wr_opcode.POST_ATOMIC_FETCH_AND_ADD with
    wr_id := 9, local_addr := 32, remote_addr := 16, length := 8, compare_add := 5 }

/-- The transport of rank 0 after the header of `self_fetch_add_wr` was read on the
connection state 0. -/
def dev_self_fetch_add : Dev := header_read dev_with_cq 0 self_fetch_add_wr

/-- The state after a scan of the delayed queue in the example surroundings, the state
before it when the scan does not return. -/
def after_scan (D : Dev) : Dev :=
  match _tcp_dev_process_delayed dev_env_ok D with
  | some (_, D1) => D1
  | none => D

/-- The state after `_tcp_dev_process_recv_data` on a connection state in the example
surroundings, the state before it when the function does not return. -/
def after_recv (D : Dev) (estate : Nat) : Dev :=
  match _tcp_dev_process_recv_data dev_env_ok D estate with
  | some (_, D1) => D1
  | none => D

/-- The transport of rank 0 of two after it allocated the table of connection states and
connected to rank 1, as the transport thread of rank 0 does at its start: the
connection state 1 is the one of rank 1. -/
def dev_connected : Dev :=
  match _tcp_dev_connect_all dev_env_ok (_tcp_dev_alloc_remote_states dev_env_ok dev_with_cq).2 with
  | some (_, D) => D
  | none => dev_with_cq

/-- A send of 4 bytes at address 0 to rank 1, posted with `wr_id = 7` on the queue 0. -/
def send_wr : tcp_dev_wr_t :=
  { wr_zero tcp_dev_wr_opcode.POST_SEND with wr_id := 7, target := 1, length := 4 }

/-- The write loop of the transport thread has written all bytes of the write half of a
connection state (`done = length`). -/
def transfer_done (D : Dev) (c : Nat) : Dev :=
  set_conn D c { D.conns c with write := { (D.conns c).write with done := (D.conns c).write.length } }

/-- The transport of rank 0 of two after the header of `send_wr` was read and processed,
the delayed queue was scanned, and the payload was written to the socket of rank 1. -/
def dev_send_done : Dev :=
  transfer_done (after_scan (after_recv (header_read dev_connected 0 send_wr) 0)) 1

/-- The disabled write half that `_tcp_dev_process_sent_data` leaves. -/
def write_disabled (E : DevEnv) : tcp_dev_half_t :=
  { wr_id := 0, cq_handle := E.CQ_HANDLE_NONE, opcode := tcp_dev_state_opcode.SEND_DISABLED,
    addr := 0, length := 0, done := 0 }

/-- The position of the producer in the ring buffer of a queue. -/
def cq_ipos (D : Dev) (h : Nat) : Option Nat :=
  match D.cqs_map h with
  | none => none
  | some q =>
    match q.rbuf with
    | none => none
    | some rb => some rb.ipos

/-- A write of 4 bytes at address 0 to address 16 of rank 1, posted with `wr_id = 1` on
the queue 0, as `pgaspi_dev_post_group_write` posts it. -/
def peer_write_wr : tcp_dev_wr_t :=
  { wr_zero tcp_dev_wr_opcode.POST_RDMA_WRITE with wr_id := 1, target := 1, remote_addr := 16, length := 4 }

/-- The transport of rank 0 of two after the header of `peer_write_wr` was read and
processed, the delayed queue was scanned, and the payload was written to the socket of
rank 1. -/
def dev_write_done : Dev :=
  transfer_done (after_scan (after_recv (header_read dev_connected 0 peer_write_wr) 0)) 1

/-- A request in the delayed queue whose target has no connection state in the table
`tbl` and which is not a `NOTIFICATION_SEND` addressed to the own rank. -/
def no_state (rank : Nat) (tbl : Nat → Option Nat) (wr : tcp_dev_wr_t) : Bool :=
  decide (tbl wr.target = none ∧
    ¬ (wr.opcode = tcp_dev_wr_opcode.NOTIFICATION_SEND ∧ wr.target = rank))

/-- A target for which the scan of the delayed queue can pass nothing on at present: the
own rank when no receive is posted, another rank when it has a connection state whose
write half is busy. -/
def Blocked (D : Dev) (tbl : Nat → Option Nat) (T : Nat) : Prop :=
  (T = D.rank ∧ D.recvList = []) ∨
    (T ≠ D.rank ∧ ∃ c, tbl T = some c ∧
      (D.conns c).write.opcode ≠ tcp_dev_state_opcode.SEND_DISABLED)

/-- The requests of a list for the target `T`, in the order of the list. -/
def for_target (T : Nat) (q : List tcp_dev_wr_t) : List tcp_dev_wr_t :=
  q.filter (fun e => e.target = T)

/-- What the record of actions says about a failed remote operation: the handle of the
queue and the `wr_id` of a completion posted with status `TCP_WC_REM_OP_ERROR`. -/
def rem_op_error : DevEvent → Option (Nat × Nat)
  | DevEvent.posted h wc =>
    if wc.status = tcp_dev_wc_status.TCP_WC_REM_OP_ERROR then some (h, wc.wr_id) else none
  | _ => none

/-- The steps of a scan add to the record of actions only actions that satisfy `P`. -/
def LogAdds (P : DevEvent → Prop) (D D1 : Dev) : Prop :=
  ∃ new, D1.log = D.log ++ new ∧ ∀ e ∈ new, P e

/-- An action of a scan at the request `wr` that does not stem from a missing connection
state: no completion with status `TCP_WC_REM_OP_ERROR`, and a header written to a
socket is the one of `wr`. -/
def Regular (wr : tcp_dev_wr_t) (e : DevEvent) : Prop :=
  rem_op_error e = none ∧ ∀ fd w, e = DevEvent.header fd w → w = wr

/-- The state in which a step of the scan of the delayed queue ends. -/
def step_dev : DevStep → Dev
  | DevStep.ret _ D => D
  | DevStep.next _ D => D

/-- A send of 4 bytes at address 0 to the own rank 0, posted with `wr_id = 7` on the
queue 0. -/
def self_send_wr : tcp_dev_wr_t :=
  { wr_zero tcp_dev_wr_opcode.POST_SEND with wr_id := 7, length := 4 }

/-- The opcodes and targets of the requests of a list. -/
def kinds (q : List tcp_dev_wr_t) : List (tcp_dev_wr_opcode × Nat) :=
  q.map (fun e => (e.opcode, e.target))

/-- The transport of rank 0 of two, connected to rank 1, after it processed the headers
of two writes to rank 1 from its own process. -/
def dev_two_writes : Dev :=
  after_recv (header_read (after_recv (header_read dev_connected 0 peer_write_wr) 0) 0
    { peer_write_wr with wr_id := 2, remote_addr := 32 }) 0

/-- The table of connection states of a transport, empty while it is not allocated. -/
def table_of (D : Dev) : Nat → Option Nat :=
  match D.rank_state with
  | some tbl => tbl
  | none => fun _ => none

/-- The completion that the scan of the delayed queue posts for a request whose target
has no connection state; `g` is what the `sender` field of the record happens to
hold. -/
def rem_error_wc (wr : tcp_dev_wr_t) (g : Nat) : tcp_dev_wc_t :=
  { wr_id := wr.wr_id, status := tcp_dev_wc_status.TCP_WC_REM_OP_ERROR,
    opcode := tcp_dev_wc_opcode.TCP_DEV_WC_RDMA_WRITE, sender := g }

/-- The work request that a process wrote last to the queue socket. -/
def last_write (p : Proc) : tcp_dev_wr_t :=
  match p.log.getLast? with
  | some (Event.write wr) => wr
  | _ => wr_zero tcp_dev_wr_opcode.STOP_DEVICE

/-- Rank 0 of two after it posted the group write of a barrier round to rank 1. -/
def proc_posted : Proc := (pgaspi_dev_post_group_write (env_token 1) (member 2 0) 0 1 1 2).2

/-- The transport of rank 0 of two after rank 1 closed its connection and the header of
the group write of `proc_posted` was read. -/
def dev_peer_gone : Dev := header_read (peer_closed dev_connected 1) 0 (last_write proc_posted)

/-- The transport `dev_peer_gone` after the header was processed and the delayed queue
was scanned. -/
def dev_cleared_peer : Dev := after_scan (after_recv dev_peer_gone 0)

/-- A receive of `length` bytes into the buffer at `local_addr`, posted with `wr_id` on
the queue 0. -/
def recv_wr (wr_id local_addr length : Nat) : tcp_dev_wr_t :=
  { wr_zero tcp_dev_wr_opcode.POST_RECV with wr_id := wr_id, local_addr := local_addr, length := length }

/-- The header of a send of 4 bytes from rank 1 to rank 0, as the transport of rank 1
writes it to the socket. -/
def send_notification : tcp_dev_wr_t :=
  { wr_zero tcp_dev_wr_opcode.NOTIFICATION_SEND with wr_id := 7, source := 1, length := 4 }

/-- The transport of rank 0 of two, connected to rank 1, after its process posted a
receive of 10 bytes at address 100 and then one of 5 bytes at address 200, and the
header of `send_notification` was read on the connection to rank 1. -/
def dev_two_recvs : Dev :=
  header_read
    (after_recv (header_read (after_recv (header_read dev_connected 0 (recv_wr 1 100 10)) 0) 0
      (recv_wr 2 200 5)) 0)
    1 send_notification

/-- What the claim says of the receive matched with a send of `n` bytes: it is a posted
receive that takes `n` bytes, and no posted receive that takes `n` bytes is shorter. -/
def smallest_fit (n : Nat) (posted : List tcp_dev_wr_t) (r : tcp_dev_wr_t) : Prop :=
  r ∈ posted ∧ n ≤ r.length ∧ ∀ x ∈ posted, n ≤ x.length → r.length ≤ x.length

/-- The `RESPONSE_SEND` that answers a send notification: the request of the sender with
source and target exchanged. -/
def response_send (swr : tcp_dev_wr_t) : tcp_dev_wr_t :=
  { swr with opcode := tcp_dev_wr_opcode.RESPONSE_SEND, source := swr.target, target := swr.source }

/-- The transport of rank 0 of two after `tcp_dev_create_cq` created the queue 0 for 4
elements. -/
def dev_cq4 : Dev :=
  match tcp_dev_create_cq dev_env_ok (dev_boot 2 0) 4 none with
  | some (_, D) => D
  | none => dev_boot 2 0

/-- The state after `_tcp_dev_post_wc` posted a successful write completion with `wr_id`
on the queue `h` in the example surroundings, the state before it when the call does
not return. -/
def after_post (D : Dev) (wr_id h : Nat) : Dev :=
  match _tcp_dev_post_wc dev_env_ok D wr_id tcp_dev_wc_status.TCP_WC_SUCCESS
      tcp_dev_wc_opcode.TCP_DEV_WC_RDMA_WRITE h with
  | some (_, D1) => D1
  | none => D

/-- The `wr_id` of the completions that up to `n` calls of `tcp_dev_return_wc` on the
queue `h` take, in the order of the calls; the calls end at the first one that takes
none. -/
def drained (h : Nat) : Nat → Dev → List Nat
  | 0, _ => []
  | n + 1, D =>
    match tcp_dev_return_wc D h with
    | some (_, some wc, D1) => wc.wr_id :: drained h n D1
    | _ => []

/-- The ring buffer of a queue of the transport. -/
def ring_of (D : Dev) (h : Nat) : Option ringbuffer :=
  match D.cqs_map h with
  | none => none
  | some q => q.rbuf

/-- The request that the handler of a `POST_ATOMIC_*` header enqueues for another rank:
the fields of the posted request, with the opcode `REQUEST_ATOMIC_*` and, for the
fetch-and-add, `swap = 0`. -/
def atomic_request (wr : tcp_dev_wr_t) : tcp_dev_wr_t :=
  { wr with
    opcode := if wr.opcode = tcp_dev_wr_opcode.POST_ATOMIC_FETCH_AND_ADD
      then tcp_dev_wr_opcode.REQUEST_ATOMIC_FETCH_AND_ADD
      else tcp_dev_wr_opcode.REQUEST_ATOMIC_CMP_AND_SWP,
    swap := if wr.opcode = tcp_dev_wr_opcode.POST_ATOMIC_FETCH_AND_ADD then 0 else wr.swap }

/-- The response of the target to the request of the atomic `wr`: opcode
`RESPONSE_ATOMIC_*`, source and target exchanged, local and remote address exchanged,
and the previous value `old` of the word in `compare_add`. -/
def atomic_response (wr : tcp_dev_wr_t) (old : Nat) : tcp_dev_wr_t :=
  { wr with
    opcode := if wr.opcode = tcp_dev_wr_opcode.POST_ATOMIC_FETCH_AND_ADD
      then tcp_dev_wr_opcode.RESPONSE_ATOMIC_FETCH_AND_ADD
      else tcp_dev_wr_opcode.RESPONSE_ATOMIC_CMP_AND_SWP,
    source := wr.target, target := wr.source,
    local_addr := wr.remote_addr, remote_addr := wr.local_addr,
    compare_add := old,
    swap := if wr.opcode = tcp_dev_wr_opcode.POST_ATOMIC_FETCH_AND_ADD then 0 else wr.swap }

/-- The value of a 64-bit word that held `x` after the atomic `wr`. -/
def atomic_value (wr : tcp_dev_wr_t) (x : Nat) : Nat :=
  if wr.opcode = tcp_dev_wr_opcode.POST_ATOMIC_FETCH_AND_ADD then (x + wr.compare_add) % 2 ^ 64
  else if x = wr.compare_add then wr.swap % 2 ^ 64 else x

/-- The successful completion of the atomic `wr`; `g` is what the `sender` field of the
record happens to hold. -/
def atomic_wc (wr : tcp_dev_wr_t) (g : Nat) : tcp_dev_wc_t :=
  { wr_id := wr.wr_id, status := tcp_dev_wc_status.TCP_WC_SUCCESS,
    opcode := if wr.opcode = tcp_dev_wr_opcode.POST_ATOMIC_FETCH_AND_ADD
      then tcp_dev_wc_opcode.TCP_DEV_WC_FETCH_ADD else tcp_dev_wc_opcode.TCP_DEV_WC_CMP_SWAP,
    sender := g }

/-- A fetch-and-add of 5 on the word at address 16 of rank 1, the old value to be stored
at address 32 of the requester, posted with `wr_id = 9` on the queue 0. -/
def remote_fetch_add_wr : tcp_dev_wr_t :=
  { wr_zero tcp_dev_wr_opcode.POST_ATOMIC_FETCH_AND_ADD with
    wr_id := 9, target := 1, local_addr := 32, remote_addr := 16, length := 8, compare_add := 5 }

/-- The transport of rank 1 of two after `tcp_dev_create_cq` created the queue 0 for 8
elements. -/
def dev_with_cq_1 : Dev :=
  match tcp_dev_create_cq dev_env_ok (dev_boot 2 1) 8 none with
  | some (_, D) => D
  | none => dev_boot 2 1

/-- Surroundings of the control plane in which every call succeeds. -/
def sn_env_ok : SnEnv :=
  { writen_ok := fun _ => true, readn_ok := fun _ => true, recv_topology := 0,
    send_topology := fun _ => 0 }

/-- The state of rank 0 of four after three calls of `pgaspi_group_create`, which give
the groups 0, 1 and 2, the addition of the ranks 0 and 1 to the group 2, and the
deletion of the group 1. -/
def groups_after_delete : Glb :=
  (pgaspi_group_delete create_env_ok
    (pgaspi_group_add (pgaspi_group_add
      (pgaspi_group_create create_env_ok (pgaspi_group_create create_env_ok
        (pgaspi_group_create create_env_ok (boot 4 0)).2.2).2.2).2.2 2 0).2 2 1).2 1).2

/-- The masks of the rounds of a barrier of `T` members: the powers of two below `T`, in
ascending order (an `int` mask is at most `2 ^ 30`). -/
def round_masks (T : Nat) : List Nat :=
  ((List.range 31).map (fun k => 2 ^ k)).filter (fun m => decide (m < T))

/-- The actions of one round of the barrier of the control plane on rank `r` of `T`, as
the claim states them: a write to the socket of `(r + mask) mod T`, then a read from
the socket of `(r - mask + T) mod T`. -/
def sn_round (T r mask : Nat) : List SnEvent :=
  [SnEvent.writen ((r + mask) % T), SnEvent.readn ((r + T - mask) % T)]

/-- The work request of a group write, as `pgaspi_dev_post_group_write` writes it to the
queue socket. -/
def group_wr (scq_num rank local_addr length dst remote_addr : Nat) : tcp_dev_wr_t :=
  { cq_handle := scq_num, source := rank, local_addr := local_addr, length := length,
    swap := 0, compare_add := 0, opcode := tcp_dev_wr_opcode.POST_RDMA_WRITE, target := dst,
    remote_addr := remote_addr, wr_id := dst }

/-- A step of a collective that posts nothing: the record of actions and the own rank
stay, and the group context changes at most in `committed_rank`. -/
def Quiet (p q : Proc) : Prop :=
  q.log = p.log ∧ PostFrame p.grp q.grp ∧ q.gctx.rank = p.gctx.rank

/-- The write of the sync flag that a member posts in a barrier round to `dst`. -/
def sync_wr (E : Env) (p : Proc) (dst : Nat) : tcp_dev_wr_t :=
  group_wr E.scq_num p.gctx.rank (GPI2_GRP_LOCAL_SYNC_ADDR p.grp) 1 dst (GPI2_GRP_REMOTE_SYNC_ADDR p.grp)

/-- The state in which a barrier round that starts with its post ends. -/
def after_round (E : Env) (mask : Nat) (p : Proc) : Proc :=
  match barrier_round E mask false p with
  | LoopEnd.fallthrough q => q
  | LoopEnd.returned _ q => q

/-- A run of an allreduce of three ranks: SUM of one 64-bit unsigned element, rank `r`
sends `r`. The group has `next_pof2 = 2` and `rest = 1`: the members 0 and 1 are the
pair below `2 * rest`. -/
def allreduce_three (n : Nat) : List Member :=
  rounds (call_allreduce layout GASPI_OP_SUM GASPI_TYPE_ULONG (fun r => le_encode 8 r)) 3 n (world 3)

/-- What the claim says of level 1 of the allreduce: the index in the butterfly that the
member `r` of a group with `rest` members above the power of two gets; `-1` for a member
that drops out. -/
def level1_tmprank (rest r : Nat) : Int :=
  if r < 2 * rest then (if r % 2 = 0 then -1 else ((r >>> 1 : Nat) : Int))
  else ((r - rest : Nat) : Int)

/-- What the claim says of level 2 of the allreduce: the member index of the index `t` of
the butterfly. -/
def level2_idst (rest t : Nat) : Nat := if t < rest then 2 * t + 1 else t + rest

/-- The sends of the schedule of the topology broadcast, as the claim states them, for the
rank `s` of `tnc`: to the rank `s + 2 ^ j`, for `j` from `K - 1` down to 0, where that
rank exists. -/
def topology_sends (tnc s : Nat) : Nat → List SnEvent
  | 0 => []
  | j + 1 =>
    (if s + 2 ^ j < tnc then [SnEvent.send_topology (s + 2 ^ j) (2 ^ j)] else []) ++
      topology_sends tnc s j

/-- The destinations of the calls of `gaspi_sn_send_topology` in a list of actions. -/
def send_dsts (evs : List SnEvent) : List Nat :=
  evs.filterMap (fun e =>
    match e with
    | SnEvent.send_topology d _ => some d
    | _ => none)

/-- The masks of the steps at which `gaspi_sn_recv_topology` is called in a list of
actions. -/
def recv_steps (evs : List SnEvent) : List Nat :=
  evs.filterMap (fun e =>
    match e with
    | SnEvent.recv_topology m => some m
    | _ => none)

/-- Offset of the stage `bid` of the receive region of the staging buffer at a togle. -/
def stage_addr (K : Cfg) (togle bid : Nat) : Nat :=
  K.COLL_MEM_RECV + (2 * bid + togle) * K.GPI2_REDUX_BUF_SIZE

/-- The two writes of a member to `dst` with the stage index `bid`: the `dsize` bytes at
`send_ptr` go to the stage `bid` of the buffer of `dst`, then the sync flag goes to the
slot of the member in the buffer of `dst`. -/
def stage_write (K : Cfg) (E : Env) (p : Proc) (send_ptr dsize dst bid : Nat) : List Event :=
  [Event.write (group_wr E.scq_num p.gctx.rank send_ptr dsize dst (stage_addr K p.grp.togle bid)),
   Event.write (sync_wr E p dst)]

/-- The wait of a member for the token of the member `src` and the reduction that
follows it with the stage index `bid`: the operand at `send_ptr` and the one in the
stage `bid` of the own buffer give the result behind `send_ptr`. -/
def stage_reduce (K : Cfg) (p : Proc) (send_ptr dsize src bid : Nat) : List Event :=
  [Event.polled (GPI2_GRP_SYNC_POLL_ADDR p.grp src) p.grp.barrier_cnt,
   Event.redux bid send_ptr (stage_addr K p.grp.togle bid) (send_ptr + dsize)]

/-- The actions of `n` butterfly rounds of the member with the index `t` of the
butterfly, from the round `k` on, which uses the stage index `bid` and sends from
`send_ptr`: in each round the write to the partner and the reduction from the own
stage, both with the stage index of the round, which grows by one from round to
round. -/
def butterfly_events (K : Cfg) (E : Env) (p : Proc) (dsize : Nat) (t : Int) :
    Nat → Nat → Nat → Nat → List Event
  | 0, _, _, _ => []
  | n + 1, k, bid, send_ptr =>
    stage_write K E p send_ptr dsize
        (p.grp.rank_grp.getD (allreduce_idst p.grp t (2 ^ k)) (-1)).toNat bid ++
      stage_reduce K p send_ptr dsize (allreduce_idst p.grp t (2 ^ k)) bid ++
      butterfly_events K E p dsize t n (k + 1) (bid + 1) (send_ptr + dsize)

/-- What the steps of an allreduce leave of a process: the own rank, and the group
context but for `committed_rank`, the staging buffer and `dsize`. -/
def Same (p q : Proc) : Prop := FrameW p.grp q.grp ∧ q.gctx.rank = p.gctx.rank

/-- The actions of an uninterrupted allreduce of `dsize` bytes by the member `r` of a
group with `rest` members above the power of two `2 ^ e`; `p` is the state after the
entry of the call and `sp` the start of the send staging. An even member below
`2 * rest` writes to its partner with the stage index 0 and waits at level 3. An odd
member below `2 * rest` reduces from the stage 0, takes part in the butterfly from the
stage index 1 on, and writes the result to its partner with the stage index `1 + e`.
A member from `2 * rest` on takes part in the butterfly, from the stage index 1 on if
`rest > 0` and from 0 on otherwise. -/
def allreduce_events (K : Cfg) (E : Env) (p : Proc) (dsize sp : Nat) : List Event :=
  let r := p.grp.rank.toNat
  let rest := p.grp.tnc - p.grp.next_pof2
  let e := p.grp.pof2_exp
  if r < 2 * rest then
    if r % 2 = 0 then
      stage_write K E p sp dsize (p.grp.rank_grp.getD (r + 1) (-1)).toNat 0 ++
        [Event.polled (GPI2_GRP_SYNC_POLL_ADDR p.grp r) p.grp.barrier_cnt]
    else
      stage_reduce K p sp dsize (r - 1) 0 ++
        butterfly_events K E p dsize ((r >>> 1 : Nat) : Int) e 0 1 (sp + dsize) ++
        stage_write K E p (sp + dsize + e * dsize) dsize (p.grp.rank_grp.getD (r - 1) (-1)).toNat (1 + e)
  else
    butterfly_events K E p dsize ((r - rest : Nat) : Int) e 0 (if rest ≠ 0 then 1 else 0) sp

/-- The outcome of a call of the allreduce engine: return value, state and receive
buffer; the state and buffer before the call, with `GASPI_ERROR`, when the call does
not return. -/
def engine_result (K : Cfg) (E : Env) (p : Proc) (buf_send buf_recv : List Nat) (ra : redux_args) :
    gaspi_return_t × Proc × List Nat :=
  match _gaspi_allreduce K E p buf_send buf_recv ra with
  | some x => x
  | none => (GASPI_ERROR, p, buf_recv)

/-- What a call of the allreduce leaves of a process until it ends: the own rank and the
fields of the group context that say who the members are and which slots they use. -/
def Shape (p q : Proc) : Prop :=
  q.gctx.rank = p.gctx.rank ∧ q.grp.rank = p.grp.rank ∧ q.grp.tnc = p.grp.tnc ∧
    q.grp.next_pof2 = p.grp.next_pof2 ∧ q.grp.pof2_exp = p.grp.pof2_exp ∧
    q.grp.togle = p.grp.togle ∧ q.grp.rank_grp = p.grp.rank_grp ∧
    q.grp.barrier_cnt = p.grp.barrier_cnt ∧ q.grp.lastmask = p.grp.lastmask

/-- The arguments of a SUM reduction of one 64-bit unsigned element. -/
def sum_ulong : redux_args :=
  { f_args := redux_f_args.GASPI_OP GASPI_OP_SUM GASPI_TYPE_ULONG, elem_size := 8, elem_cnt := 1 }

/-- The stage indices of the reductions in a record of actions, in order. -/
def redux_bids (log : List Event) : List Nat :=
  log.filterMap (fun e =>
    match e with
    | Event.redux bid _ _ _ => some bid
    | _ => none)

/-- The offsets in the buffer of the target of the writes of more than one byte in a
record of actions, in order. -/
def data_offsets (log : List Event) : List Nat :=
  log.filterMap (fun e =>
    match e with
    | Event.write wr => if wr.length = 1 then none else some wr.remote_addr
    | _ => none)

/-- One collective of a run: the members listed in `who` start a call of `call` and take
`n` rounds of turns, in the order of the list; the other members make no call. -/
def collective (call : Member → Option (gaspi_return_t × Proc × List Nat)) (who : List Nat)
    (n : Nat) (w : List Member) : List Member :=
  (List.range n).foldl (fun w _ => who.foldl (fun w i => turn call i w) w)
    (who.foldl (fun w i => modifyAt (fun m => { m with last := none }) i w) w)

/-- A call of `pgaspi_allreduce` in the run: SUM of one 64-bit unsigned element, rank `r`
sends `r`. -/
def allreduce_sum (m : Member) : Option (gaspi_return_t × Proc × List Nat) :=
  call_allreduce layout GASPI_OP_SUM GASPI_TYPE_ULONG (fun r => le_encode 8 r) m

/-- The first four collectives of a run of four ranks on `GASPI_GROUP_ALL`: a barrier, then
three allreduces, each entered by every rank. -/
def four_collectives : List Member :=
  collective allreduce_sum [0, 1, 2, 3] 3
    (collective allreduce_sum [0, 1, 2, 3] 3
      (collective allreduce_sum [0, 1, 2, 3] 3
        (collective call_barrier [0, 1, 2, 3] 2 (world 4))))

/-- Sets the field `barrier_cnt` of every member. -/
def with_barrier_cnt (c : Nat) (w : List Member) : List Member :=
  w.map (fun m => { m with proc := { m.proc with grp := { m.proc.grp with barrier_cnt := c } } })

/-- The four ranks after `four_collectives` with the counter `barrier_cnt` advanced as 506
further collectives advance it (an even number, so that `togle` is the same). The sync
slots are kept as the four collectives left them: a further allreduce stores its token
in the slots that the three allreduces have written, and in no other. -/
def after_510 : List Member :=
  with_barrier_cnt (Nat.iterate bump_barrier_cnt 506 4) four_collectives

/-- What a member shows of a collective: the result of its latest call, and the fields
`barrier_cnt`, `togle` and `coll_op` of the group, the number of its recorded actions
and the eight sync slots of its staging buffer (slot `2 * r + t` for the member `r`
and the toggle `t`). -/
def sync_state (m : Member) : Option gaspi_return_t × List Nat :=
  (m.last, [m.proc.grp.barrier_cnt, m.proc.grp.togle, m.proc.grp.coll_op, m.proc.log.length] ++
    (List.range 8).map m.proc.grp.buf)

/-- The outcome of a `pgaspi_allreduce_user` call: return value, state and receive buffer;
the state and buffer before the call, with `GASPI_ERROR`, when the call does not
return. -/
def user_outcome (K : Cfg) (E : Env) (p : Proc) (buf_send buf_recv : List Nat)
    (elem_cnt elem_size : Nat)
    (user_fct : List Nat → List Nat → Nat → Nat → gaspi_return_t × List Nat) :
    gaspi_return_t × Proc × List Nat :=
  match pgaspi_allreduce_user K E p buf_send buf_recv elem_cnt elem_size user_fct with
  | some x => x
  | none => (GASPI_ERROR, p, buf_recv)

/-- The state of a process after the calls of `pgaspi_allreduce_user` that the list gives,
the state before the first call that does not return. -/
def after_user_calls (K : Cfg) (E : Env) (bs br : List Nat) (elem_cnt elem_size : Nat)
    (user_fct : List Nat → List Nat → Nat → Nat → gaspi_return_t × List Nat) :
    List ((Nat → Nat) × Bool) → Proc → Proc
  | [], p => p
  | fb :: fs, p =>
    match pgaspi_allreduce_user K { E with poll := fb.1, lock_ok := fb.2 } p bs br elem_cnt elem_size
        user_fct with
    | none => p
    | some x => after_user_calls K E bs br elem_cnt elem_size user_fct fs x.2.1

/-- A reduction of a caller: the maximum of the two operands, byte by byte. -/
def bytewise_max (a b : List Nat) (_cnt _size : Nat) : gaspi_return_t × List Nat :=
  (GASPI_SUCCESS, (a.zip b).map (fun x => max x.1 x.2))

/-- An element size whose product with the element count 2 wraps in 64 bits:
`2 * (2^63 + 4) = 2^64 + 8`, which C computes as 8. -/
def wrapping_size : Nat := 2 ^ 63 + 4

/-- What a call of a collective leaves of the place of the process in the group: the
member index, the size of the group, its power of two, and the index `tmprank` that
level 1 of an allreduce stored. -/
def SameIndex (c d : gaspi_group_ctx_t) : Prop :=
  d.rank = c.rank ∧ d.tnc = c.tnc ∧ d.next_pof2 = c.next_pof2 ∧ d.tmprank = c.tmprank

/-- The index that level 1 of the allreduce gives to the member of the group context. -/
def level1_index (c : gaspi_group_ctx_t) : Int :=
  level1_tmprank (c.tnc - c.next_pof2) c.rank.toNat

/-- A group that is at level 2 or 3 of an allreduce has the index `i` in `tmprank`. -/
def IndexStored (i : Int) (c : gaspi_group_ctx_t) : Prop :=
  c.level = 2 ∨ c.level = 3 → c.tmprank = i

/-- A barrier, a typed allreduce (SUM of one 64-bit unsigned element of value 5) and an
allreduce with the reduction `bytewise_max` on two elements of the size `wrapping_size`,
each with every poll reading the token of the call. -/
def three_collectives : List CollCall :=
  [CollCall.barrier (env_token 1),
   CollCall.allreduce layout (env_token 2) (le_encode 8 5) (le_encode 8 0) 1 GASPI_OP_SUM GASPI_TYPE_ULONG,
   CollCall.allreduce_user layout (env_token 3) [1, 2, 3, 4, 5, 6, 7, 8]
     [9, 9, 9, 9, 9, 9, 9, 9, 9, 9] 2 wrapping_size bytewise_max]

/-- The transport of rank 0 of two, connected to rank 1, after its process posted a
receive of 2 bytes at address 100 and a send of 4 bytes to the own rank, rank 1 closed
its connection, and the process posted a write to rank 1, with a scan of the delayed
queue after each of the first two headers: the delayed queue holds a `NOTIFICATION_SEND`
for rank 0, which is longer than the receive, and then a `NOTIFICATION_RDMA_WRITE` for
rank 1, which has no connection state. -/
def dev_short_recv : Dev :=
  after_recv (header_read (peer_closed (after_scan (after_recv (header_read
    (after_scan (after_recv (header_read dev_connected 0 (recv_wr 5 100 2)) 0)) 0 self_send_wr) 0)) 1)
    0 peer_write_wr) 0

/-- Surroundings of the transport in which `malloc` gives no completion record. -/
def dev_env_no_mem : DevEnv := { dev_env_ok with malloc_wc := fun _ => none }

/-- The requests of the delayed queue that are addressed to the own rank are
`NOTIFICATION_SEND` requests: the sends of the own process to itself. -/
def OwnSends (D : Dev) : Prop :=
  ∀ e ∈ D.delayedList, e.target = D.rank → e.opcode = tcp_dev_wr_opcode.NOTIFICATION_SEND
/-! ## Properties -/

/-! ### Frame of the steps of a round -/

theorem postFrame_refl (c : gaspi_group_ctx_t) : PostFrame c c := ⟨c.committed_rank, rfl⟩

theorem postFrame_trans {c d e : gaspi_group_ctx_t} (h1 : PostFrame c d) (h2 : PostFrame d e) :
    PostFrame c e := by
  obtain ⟨cr1, rfl⟩ := h1
  obtain ⟨cr2, rfl⟩ := h2
  exact ⟨cr2, rfl⟩

theorem roundFrame_refl (c : gaspi_group_ctx_t) : RoundFrame c c :=
  ⟨c.committed_rank, c.lastmask, rfl⟩

theorem roundFrame_trans {c d e : gaspi_group_ctx_t} (h1 : RoundFrame c d) (h2 : RoundFrame d e) :
    RoundFrame c e := by
  obtain ⟨cr1, lm1, rfl⟩ := h1
  obtain ⟨cr2, lm2, rfl⟩ := h2
  exact ⟨cr2, lm2, rfl⟩

theorem postFrame_round {c d : gaspi_group_ctx_t} (h : PostFrame c d) : RoundFrame c d := by
  obtain ⟨cr, rfl⟩ := h
  exact ⟨cr, c.lastmask, rfl⟩

theorem logExt_refl (p : Proc) : LogExt p p := ⟨[], by simp⟩

theorem logExt_trans {p q r : Proc} (h1 : LogExt p q) (h2 : LogExt q r) : LogExt p r := by
  obtain ⟨n1, e1⟩ := h1
  obtain ⟨n2, e2⟩ := h2
  exact ⟨n1 ++ n2, by rw [e2, e1, List.append_assoc]⟩

theorem logExt_mem {p q : Proc} (h : LogExt p q) {e : Event} (he : e ∈ p.log) : e ∈ q.log := by
  obtain ⟨n, hn⟩ := h
  rw [hn]
  exact List.mem_append_left _ he

theorem stepOk_refl (p : Proc) : StepOk p p := ⟨postFrame_refl _, logExt_refl _, rfl⟩

theorem stepOk_trans {p q r : Proc} (h1 : StepOk p q) (h2 : StepOk q r) : StepOk p r :=
  ⟨postFrame_trans h1.1 h2.1, logExt_trans h1.2.1 h2.2.1, h2.2.2.trans h1.2.2⟩

theorem andThen_ok {p : Proc} {r : gaspi_return_t × Proc} {f : Proc → gaspi_return_t × Proc}
    (h1 : StepOk p r.2) (h2 : ∀ q, StepOk q (f q).2) : StepOk p (andThen r f).2 := by
  unfold andThen
  split
  · exact h1
  · exact stepOk_trans h1 (h2 _)

theorem connect_if_needed_ok (E : Env) (p : Proc) (dst : Nat) :
    StepOk p (connect_if_needed E p dst).2 := by
  unfold connect_if_needed pgaspi_connect
  split
  · split
    · exact stepOk_refl p
    · exact ⟨postFrame_refl _, logExt_refl _, rfl⟩
  · exact stepOk_refl p

theorem commit_if_needed_ok (E : Env) (p : Proc) (dst : Nat) :
    StepOk p (commit_if_needed E p dst).2 := by
  unfold commit_if_needed _pgaspi_group_commit_to
  split
  · split
    · exact stepOk_refl p
    · exact ⟨⟨_, rfl⟩, logExt_refl _, rfl⟩
  · exact stepOk_refl p

theorem post_group_write_ok (E : Env) (p : Proc) (a n dst b : Nat) :
    StepOk p (pgaspi_dev_post_group_write E p a n dst b).2 := by
  unfold pgaspi_dev_post_group_write
  simp only
  split
  · exact stepOk_refl p
  · exact ⟨postFrame_refl _, ⟨_, rfl⟩, rfl⟩

theorem set_corrupt_ok (p : Proc) (dst : Nat) : StepOk p (set_corrupt p dst) :=
  ⟨postFrame_refl _, logExt_refl _, rfl⟩

theorem post_or_corrupt_ok (E : Env) (p : Proc) (a n dst b : Nat) :
    StepOk p (post_or_corrupt E p a n dst b).2 := by
  unfold post_or_corrupt
  split
  · exact stepOk_trans (post_group_write_ok E p a n dst b) (set_corrupt_ok _ _)
  · exact post_group_write_ok E p a n dst b

theorem barrier_post_ok (E : Env) (p : Proc) (dst : Nat) : StepOk p (barrier_post E p dst).2 := by
  unfold barrier_post
  exact andThen_ok (connect_if_needed_ok E p dst) fun q =>
    andThen_ok (commit_if_needed_ok E q dst) fun q2 => post_or_corrupt_ok E q2 _ _ _ _

/-! ### The rounds of the barrier -/

theorem barrier_pre_ok (E : Env) (mask : Nat) (jmp : Bool) (p : Proc) :
    StepOk p (barrier_pre E mask jmp p).2 := by
  unfold barrier_pre
  split
  · exact stepOk_refl p
  · exact barrier_post_ok E p _

theorem barrier_round_returned {E : Env} {mask : Nat} {jmp : Bool} {p q : Proc}
    {r : gaspi_return_t} (h : barrier_round E mask jmp p = LoopEnd.returned r q) :
    RoundFrame p.grp q.grp ∧ LogExt p q ∧ q.cq_rpos = p.cq_rpos := by
  unfold barrier_round at h
  simp only at h
  have hs := barrier_pre_ok E mask jmp p
  generalize barrier_pre E mask jmp p = w at h hs
  split at h
  · injection h with h1 h2
    subst h2
    exact ⟨postFrame_round hs.1, hs.2.1, hs.2.2⟩
  · split at h
    · injection h with h1 h2
      subst h2
      obtain ⟨⟨cr, hcr⟩, hl, hq⟩ := hs
      refine ⟨⟨cr, mask ||| 0x80000000, ?_⟩, hl, hq⟩
      simp only [hcr]
    · exact absurd h (by simp)

theorem barrier_round_fallthrough {E : Env} {mask : Nat} {jmp : Bool} {p q : Proc}
    (h : barrier_round E mask jmp p = LoopEnd.fallthrough q) :
    PostFrame p.grp q.grp ∧ LogExt p q ∧ q.cq_rpos = p.cq_rpos ∧
      Event.polled (GPI2_GRP_SYNC_POLL_ADDR p.grp (barrier_src p.grp mask)) p.grp.barrier_cnt ∈ q.log := by
  unfold barrier_round at h
  simp only at h
  have hs := barrier_pre_ok E mask jmp p
  generalize barrier_pre E mask jmp p = w at h hs
  split at h
  · exact absurd h (by simp)
  · split at h
    · exact absurd h (by simp)
    · injection h with h1
      subst h1
      obtain ⟨⟨cr, hcr⟩, hl, hq⟩ := hs
      refine ⟨⟨cr, ?_⟩, logExt_trans hl ⟨_, rfl⟩, hq, ?_⟩
      · simp only [observe, hcr]
      · simp only [observe, hcr, GPI2_GRP_SYNC_POLL_ADDR, List.mem_append, List.mem_singleton, or_true]

theorem barrier_loop_fallthrough_frame (E : Env) :
    ∀ (n mask : Nat) (jmp : Bool) (p q : Proc),
      barrier_loop E n mask jmp p = some (LoopEnd.fallthrough q) →
      PostFrame p.grp q.grp ∧ LogExt p q ∧ q.cq_rpos = p.cq_rpos := by
  intro n
  induction n with
  | zero =>
    intro mask jmp p q h
    unfold barrier_loop at h
    split at h
    · exact absurd h (by simp)
    · injection h with h
      injection h with h
      subst h
      exact stepOk_refl p
  | succ n ih =>
    intro mask jmp p q h
    unfold barrier_loop at h
    split at h
    · split at h
      · exact absurd h (by simp)
      · rename_i q1 hq1
        have h1 := barrier_round_fallthrough hq1
        have h2 := ih _ _ _ _ h
        exact ⟨postFrame_trans h1.1 h2.1, logExt_trans h1.2.1 h2.2.1, h2.2.2.trans h1.2.2.1⟩
    · injection h with h
      injection h with h
      subst h
      exact stepOk_refl p

theorem barrier_loop_returned_frame (E : Env) :
    ∀ (n mask : Nat) (jmp : Bool) (p q : Proc) (r : gaspi_return_t),
      barrier_loop E n mask jmp p = some (LoopEnd.returned r q) →
      RoundFrame p.grp q.grp ∧ LogExt p q ∧ q.cq_rpos = p.cq_rpos := by
  intro n
  induction n with
  | zero =>
    intro mask jmp p q r h
    unfold barrier_loop at h
    split at h <;> exact absurd h (by simp)
  | succ n ih =>
    intro mask jmp p q r h
    unfold barrier_loop at h
    split at h
    · split at h
      · rename_i r1 q1 hq1
        injection h with h
        injection h with h1 h2
        subst h1 h2
        exact barrier_round_returned hq1
      · rename_i q1 hq1
        have h1 := barrier_round_fallthrough hq1
        have h2 := ih _ _ _ _ _ h
        exact ⟨roundFrame_trans (postFrame_round h1.1) h2.1, logExt_trans h1.2.1 h2.2.1, h2.2.2.trans h1.2.2.1⟩
    · exact absurd h (by simp)

theorem poll_groups_grp {E : Env} {p q : Proc} {pret : Int}
    (h : pgaspi_dev_poll_groups E p = some (pret, q)) : q.grp = p.grp ∧ q.log = p.log := by
  unfold pgaspi_dev_poll_groups at h
  simp only at h
  split at h
  · exact absurd h (by simp)
  · injection h with h
    injection h with h1 h2
    subst h2
    exact ⟨rfl, rfl⟩
  · injection h with h
    injection h with h1 h2
    subst h2
    exact ⟨rfl, rfl⟩

theorem barrier_finish_success {E : Env} {p q : Proc}
    (h : barrier_finish E p = some (GASPI_SUCCESS, q)) :
    q.grp = { p.grp with togle := p.grp.togle ^^^ 0x1, coll_op := GASPI_NONE, lastmask := 0x1 } ∧
      q.log = p.log := by
  unfold barrier_finish at h
  split at h
  · exact absurd h (by simp)
  · rename_i pret p2 hp
    have hg := poll_groups_grp hp
    split at h
    · exact absurd h (by simp)
    · injection h with h
      injection h with h1 h2
      subst h2
      simp only [hg.1, hg.2, and_self]

theorem barrier_enter_togle (p : Proc) : (barrier_enter p).grp.togle = p.grp.togle := by
  unfold barrier_enter
  simp only
  split <;> rfl

theorem barrier_enter_tnc (p : Proc) : (barrier_enter p).grp.tnc = p.grp.tnc := by
  unfold barrier_enter
  simp only
  split <;> rfl

theorem barrier_enter_rank (p : Proc) : (barrier_enter p).grp.rank = p.grp.rank := by
  unfold barrier_enter
  simp only
  split <;> rfl

theorem barrier_enter_log (p : Proc) : (barrier_enter p).log = p.log := rfl

theorem barrier_enter_lastmask (p : Proc) : (barrier_enter p).grp.lastmask = p.grp.lastmask := by
  unfold barrier_enter
  simp only
  split <;> rfl

theorem barrier_enter_coll_op (p : Proc) : (barrier_enter p).grp.coll_op = GASPI_BARRIER := by
  unfold barrier_enter
  simp only
  split <;> rfl

theorem barrier_enter_cnt (p : Proc) :
    (barrier_enter p).grp.barrier_cnt =
      if p.grp.lastmask = 1 then bump_barrier_cnt p.grp.barrier_cnt else p.grp.barrier_cnt := by
  unfold barrier_enter
  simp only
  split <;> rfl

theorem barrier_round_not_success {E : Env} {mask : Nat} {jmp : Bool} {p q : Proc} :
    barrier_round E mask jmp p ≠ LoopEnd.returned GASPI_SUCCESS q := by
  intro h
  unfold barrier_round at h
  simp only at h
  split at h
  · rename_i hne
    injection h with h1 h2
    exact hne h1
  · split at h
    · injection h with h1 h2
      exact absurd h1 (by decide)
    · exact absurd h (by simp)

theorem barrier_loop_not_success (E : Env) :
    ∀ (n mask : Nat) (jmp : Bool) (p q : Proc),
      barrier_loop E n mask jmp p ≠ some (LoopEnd.returned GASPI_SUCCESS q) := by
  intro n
  induction n with
  | zero =>
    intro mask jmp p q h
    unfold barrier_loop at h
    split at h <;> exact absurd h (by simp)
  | succ n ih =>
    intro mask jmp p q h
    unfold barrier_loop at h
    split at h
    · split at h
      · rename_i r1 q1 hq1
        injection h with h
        injection h with h1 h2
        subst h1 h2
        exact barrier_round_not_success hq1
      · exact ih _ _ _ _ h
    · exact absurd h (by simp)

/-- A successful barrier call ran its loop to the end and then its tail. -/
theorem barrier_success_inv {E : Env} {p q : Proc}
    (h : pgaspi_barrier E p = some (GASPI_SUCCESS, q)) :
    ∃ q1, barrier_loop E (barrier_enter p).grp.tnc ((barrier_enter p).grp.lastmask &&& 0x7fffffff)
        ((barrier_enter p).grp.lastmask >>> 31 ≠ 0) (barrier_enter p) = some (LoopEnd.fallthrough q1) ∧
      barrier_finish E q1 = some (GASPI_SUCCESS, q) := by
  unfold pgaspi_barrier at h
  split at h
  · exact absurd h (by simp)
  · split at h
    · exact absurd h (by simp)
    · simp only at h
      have hns := barrier_loop_not_success E (barrier_enter p).grp.tnc
        ((barrier_enter p).grp.lastmask &&& 0x7fffffff)
        (decide ((barrier_enter p).grp.lastmask >>> 31 ≠ 0)) (barrier_enter p)
      generalize barrier_loop E (barrier_enter p).grp.tnc ((barrier_enter p).grp.lastmask &&& 0x7fffffff)
        (decide ((barrier_enter p).grp.lastmask >>> 31 ≠ 0)) (barrier_enter p) = o at h hns ⊢
      cases o with
      | none => exact absurd h (by simp [barrier_after])
      | some e =>
        cases e with
        | fallthrough a => exact ⟨a, rfl, h⟩
        | returned r a =>
          simp only [barrier_after, Option.some.injEq, Prod.mk.injEq] at h
          obtain ⟨h1, h2⟩ := h
          subst h1
          exact absurd rfl (hns a)

/-- C6. Every call of `pgaspi_barrier` that returns `GASPI_SUCCESS` leaves `togle` equal to
its previous value XOR 1, `coll_op = GASPI_NONE` and `lastmask = 1`; hence after a second
successful barrier on the same group `togle` has its initial value again. -/
theorem barrier_success_flips_togle (E : Env) (p q : Proc)
    (h : pgaspi_barrier E p = some (GASPI_SUCCESS, q)) :
    q.grp.togle = p.grp.togle ^^^ 1 ∧ q.grp.coll_op = GASPI_NONE ∧ q.grp.lastmask = 1 ∧
      ∀ (E2 : Env) (q2 : Proc), pgaspi_barrier E2 q = some (GASPI_SUCCESS, q2) →
        q2.grp.togle = p.grp.togle := by
  have key : ∀ (E : Env) (p q : Proc), pgaspi_barrier E p = some (GASPI_SUCCESS, q) →
      q.grp.togle = p.grp.togle ^^^ 1 ∧ q.grp.coll_op = GASPI_NONE ∧ q.grp.lastmask = 1 := by
    intro E p q h
    obtain ⟨q1, hl, hf⟩ := barrier_success_inv h
    obtain ⟨⟨cr, hcr⟩, -, -⟩ := barrier_loop_fallthrough_frame E _ _ _ _ _ hl
    have hq := (barrier_finish_success hf).1
    rw [hq, hcr]
    simp only [barrier_enter_togle, and_self]
  obtain ⟨h1, h2, h3⟩ := key E p q h
  refine ⟨h1, h2, h3, ?_⟩
  intro E2 q2 h'
  rw [(key E2 q q2 h').1, h1, Nat.xor_assoc, Nat.xor_self, Nat.xor_zero]

/-! ### Bit patterns of `lastmask` -/

theorem or_high_bit (m : Nat) (h : m < 2 ^ 31) : m ||| 0x80000000 = m + 2 ^ 31 := by
  have e : (0x80000000 : Nat) = 2 ^ 31 * 1 := by norm_num
  rw [e, Nat.lor_comm, ← Nat.mul_add_lt_is_or h 1]
  omega

theorem and_low_bits (m : Nat) (h : m < 2 ^ 31) : (m ||| 0x80000000) &&& 0x7fffffff = m := by
  rw [or_high_bit m h]
  have : (0x7fffffff : Nat) = 2 ^ 31 - 1 := by norm_num
  rw [this, Nat.and_pow_two_sub_one_eq_mod]
  omega

theorem shift_high_bit (m : Nat) (h : m < 2 ^ 31) : (m ||| 0x80000000) >>> 31 = 1 := by
  rw [or_high_bit m h, Nat.shiftRight_eq_div_pow]
  omega

theorem high_bit_ne_one (m : Nat) (h : m < 2 ^ 31) : m ||| 0x80000000 ≠ 1 := by
  rw [or_high_bit m h]
  omega

theorem shl_one (m : Nat) : m <<< 1 = 2 * m := by
  rw [Nat.shiftLeft_eq]
  omega

/-! ### What the rounds of a barrier observe -/

theorem andThen_code {r : gaspi_return_t × Proc} {f : Proc → gaspi_return_t × Proc}
    {P : gaspi_return_t → Prop} (h1 : r.1 ≠ GASPI_SUCCESS → P r.1) (h2 : ∀ q, P (f q).1) :
    P (andThen r f).1 := by
  unfold andThen
  split
  · rename_i h
    exact h1 h
  · exact h2 _

theorem barrier_pre_code (E : Env) (mask : Nat) (jmp : Bool) (p : Proc) :
    PreCode E (barrier_pre E mask jmp p).1 := by
  unfold barrier_pre
  split
  · exact Or.inl rfl
  · unfold barrier_post
    refine andThen_code ?_ fun q => andThen_code ?_ fun q2 => ?_
    · intro _
      unfold connect_if_needed pgaspi_connect
      split
      · split
        · exact Or.inr (Or.inr (Or.inl ⟨_, rfl⟩))
        · exact Or.inl rfl
      · exact Or.inl rfl
    · intro _
      unfold commit_if_needed _pgaspi_group_commit_to
      split
      · split
        · exact Or.inr (Or.inr (Or.inr ⟨_, rfl⟩))
        · exact Or.inl rfl
      · exact Or.inl rfl
    · unfold post_or_corrupt
      split
      · exact Or.inr (Or.inl rfl)
      · exact Or.inl rfl

/-- The ways a barrier round makes the function return: before the poll, with the code of
the failed step and `lastmask` as it was, or at the poll, with `GASPI_TIMEOUT` and the
mask of the round stored with the high bit. -/
theorem barrier_round_returned_cases {E : Env} {mask : Nat} {jmp : Bool} {p q : Proc}
    {r : gaspi_return_t} (h : barrier_round E mask jmp p = LoopEnd.returned r q) :
    (PreCode E r ∧ r ≠ GASPI_SUCCESS ∧ q.grp.lastmask = p.grp.lastmask) ∨
      (r = GASPI_TIMEOUT ∧ q.grp.lastmask = mask ||| 0x80000000 ∧
        E.poll (GPI2_GRP_SYNC_POLL_ADDR p.grp (barrier_src p.grp mask)) ≠ p.grp.barrier_cnt) := by
  unfold barrier_round at h
  simp only at h
  have hs := barrier_pre_ok E mask jmp p
  have hc := barrier_pre_code E mask jmp p
  generalize barrier_pre E mask jmp p = w at h hs hc
  obtain ⟨⟨cr, hcr⟩, -, -⟩ := hs
  split at h
  · rename_i hne
    injection h with h1 h2
    subst h1 h2
    exact Or.inl ⟨hc, hne, by rw [hcr]⟩
  · split at h
    · rename_i hw
      injection h with h1 h2
      subst h1 h2
      refine Or.inr ⟨rfl, rfl, ?_⟩
      intro he
      apply hw
      unfold _gaspi_sync_wait
      rw [hcr]
      simp only [GPI2_GRP_SYNC_POLL_ADDR] at he ⊢
      rw [if_pos he]
    · exact absurd h (by simp)

theorem postFrame_src {c d : gaspi_group_ctx_t} (h : PostFrame c d) (m : Nat) :
    GPI2_GRP_SYNC_POLL_ADDR d (barrier_src d m) = GPI2_GRP_SYNC_POLL_ADDR c (barrier_src c m) ∧
      d.barrier_cnt = c.barrier_cnt ∧ d.tnc = c.tnc ∧ d.lastmask = c.lastmask ∧ d.togle = c.togle ∧
      d.coll_op = c.coll_op := by
  obtain ⟨cr, rfl⟩ := h
  exact ⟨rfl, rfl, rfl, rfl, rfl, rfl⟩

theorem barrier_round_fallthrough_new {E : Env} {mask : Nat} {jmp : Bool} {p q : Proc}
    (h : barrier_round E mask jmp p = LoopEnd.fallthrough q) :
    ∃ new, q.log = p.log ++ new ∧
      Event.polled (GPI2_GRP_SYNC_POLL_ADDR p.grp (barrier_src p.grp mask)) p.grp.barrier_cnt ∈ new := by
  unfold barrier_round at h
  simp only at h
  have hs := barrier_pre_ok E mask jmp p
  generalize barrier_pre E mask jmp p = w at h hs
  split at h
  · exact absurd h (by simp)
  · split at h
    · exact absurd h (by simp)
    · injection h with h1
      subst h1
      obtain ⟨⟨cr, hcr⟩, ⟨new, hl⟩, -⟩ := hs
      refine ⟨new ++ [Event.polled (GPI2_GRP_SYNC_POLL_ADDR p.grp (barrier_src p.grp mask))
        p.grp.barrier_cnt], ?_, by simp⟩
      simp only [observe, hcr, hl, GPI2_GRP_SYNC_POLL_ADDR, List.append_assoc]

/-- The rounds that ran to the end of the loop observed the token of every round from
`mask` on. -/
theorem barrier_loop_polls (E : Env) :
    ∀ (n mask : Nat) (jmp : Bool) (p q : Proc), 1 ≤ mask →
      barrier_loop E n mask jmp p = some (LoopEnd.fallthrough q) →
      ∃ new, q.log = p.log ++ new ∧ ∀ j, mask * 2 ^ j < p.grp.tnc →
        Event.polled (GPI2_GRP_SYNC_POLL_ADDR p.grp (barrier_src p.grp (mask * 2 ^ j)))
          p.grp.barrier_cnt ∈ new := by
  intro n
  induction n with
  | zero =>
    intro mask jmp p q hm h
    unfold barrier_loop at h
    split at h
    · exact absurd h (by simp)
    · rename_i hlt
      injection h with h
      injection h with h
      subst h
      refine ⟨[], by simp, ?_⟩
      intro j hj
      have : mask ≤ mask * 2 ^ j := Nat.le_mul_of_pos_right _ (Nat.pow_pos (by decide))
      omega
  | succ n ih =>
    intro mask jmp p q hm h
    unfold barrier_loop at h
    split at h
    · split at h
      · exact absurd h (by simp)
      · rename_i q1 hq1
        obtain ⟨hf, -, -, -⟩ := barrier_round_fallthrough hq1
        obtain ⟨new1, hl1, hp⟩ := barrier_round_fallthrough_new hq1
        have hm2 : 1 ≤ mask <<< 1 := by rw [shl_one]; omega
        obtain ⟨new2, hl2, ih2⟩ := ih (mask <<< 1) false q1 q hm2 h
        refine ⟨new1 ++ new2, by rw [hl2, hl1, List.append_assoc], ?_⟩
        intro j hj
        cases j with
        | zero =>
          simp only [pow_zero, Nat.mul_one] at hj ⊢
          exact List.mem_append_left _ hp
        | succ j =>
          have e : mask * 2 ^ (j + 1) = mask <<< 1 * 2 ^ j := by rw [shl_one, pow_succ]; ring
          obtain ⟨hs1, hs2, hs3, -⟩ := postFrame_src hf (mask <<< 1 * 2 ^ j)
          have := ih2 j (by rw [hs3, ← e]; exact hj)
          rw [hs1, hs2, ← e] at this
          exact List.mem_append_right _ this
    · rename_i hlt
      injection h with h
      injection h with h
      subst h
      refine ⟨[], by simp, ?_⟩
      intro j hj
      have : mask ≤ mask * 2 ^ j := Nat.le_mul_of_pos_right _ (Nat.pow_pos (by decide))
      omega

/-- The rounds up to a return from inside the loop: the rounds before the returning one
observed their tokens, and the returning round `mask * 2 ^ J` either failed before its
poll, leaving `lastmask`, or timed out at its poll and stored its mask. -/
theorem barrier_loop_returned_cases (E : Env) :
    ∀ (n mask : Nat) (jmp : Bool) (p q : Proc) (r : gaspi_return_t), 1 ≤ mask →
      barrier_loop E n mask jmp p = some (LoopEnd.returned r q) →
      ∃ new J, q.log = p.log ++ new ∧ mask * 2 ^ J < p.grp.tnc ∧
        (∀ j, j < J →
          Event.polled (GPI2_GRP_SYNC_POLL_ADDR p.grp (barrier_src p.grp (mask * 2 ^ j)))
            p.grp.barrier_cnt ∈ new) ∧
        ((PreCode E r ∧ r ≠ GASPI_SUCCESS ∧ q.grp.lastmask = p.grp.lastmask) ∨
          (r = GASPI_TIMEOUT ∧ q.grp.lastmask = (mask * 2 ^ J) ||| 0x80000000 ∧
            E.poll (GPI2_GRP_SYNC_POLL_ADDR p.grp (barrier_src p.grp (mask * 2 ^ J))) ≠
              p.grp.barrier_cnt)) := by
  intro n
  induction n with
  | zero =>
    intro mask jmp p q r hm h
    unfold barrier_loop at h
    split at h <;> exact absurd h (by simp)
  | succ n ih =>
    intro mask jmp p q r hm h
    unfold barrier_loop at h
    split at h
    · rename_i hlt
      split at h
      · rename_i r1 q1 hq1
        injection h with h
        injection h with h1 h2
        subst h1 h2
        obtain ⟨-, ⟨new, hl⟩, -⟩ := barrier_round_returned hq1
        refine ⟨new, 0, hl, by simpa using hlt, fun j hj => absurd hj (by omega), ?_⟩
        simpa using barrier_round_returned_cases hq1
      · rename_i q1 hq1
        obtain ⟨hf, -, -, -⟩ := barrier_round_fallthrough hq1
        obtain ⟨new1, hl1, hp⟩ := barrier_round_fallthrough_new hq1
        have hm2 : 1 ≤ mask <<< 1 := by rw [shl_one]; omega
        obtain ⟨new2, J, hl2, hJ, hpol, hcase⟩ := ih (mask <<< 1) false q1 q r hm2 h
        have e : ∀ j, mask * 2 ^ (j + 1) = mask <<< 1 * 2 ^ j := by
          intro j
          rw [shl_one, pow_succ]
          ring
        have hsrc := fun m => postFrame_src hf m
        refine ⟨new1 ++ new2, J + 1, by rw [hl2, hl1, List.append_assoc], ?_, ?_, ?_⟩
        · rw [e, ← (hsrc 0).2.2.1]
          exact hJ
        · intro j hj
          cases j with
          | zero =>
            simp only [pow_zero, Nat.mul_one]
            exact List.mem_append_left _ hp
          | succ j =>
            have := hpol j (by omega)
            rw [(hsrc _).1, (hsrc 0).2.1, ← e] at this
            exact List.mem_append_right _ this
        · rw [(hsrc _).1, (hsrc 0).2.1, (hsrc 0).2.2.2.1, ← e] at hcase
          exact hcase
    · exact absurd h (by simp)

/-! ### The sources of the rounds are observed -/

theorem slot_congr {c d : gaspi_group_ctx_t} (h1 : d.togle = c.togle) (h2 : d.rank = c.rank)
    (h3 : d.tnc = c.tnc) (m : Nat) :
    GPI2_GRP_SYNC_POLL_ADDR d (barrier_src d m) = GPI2_GRP_SYNC_POLL_ADDR c (barrier_src c m) := by
  unfold GPI2_GRP_SYNC_POLL_ADDR barrier_src
  rw [h1, h2, h3]

theorem mem_drop_of_append {l new : List Event} {e : Event} (n : Nat) (h : e ∈ l.drop n) :
    e ∈ (l ++ new).drop n := by
  rw [List.drop_append_eq_append_drop]
  exact List.mem_append_left _ h

theorem mem_drop_of_new {l new : List Event} {e : Event} {n : Nat} (hn : n ≤ l.length)
    (h : e ∈ new) : e ∈ (l ++ new).drop n := by
  rw [List.drop_append_of_le_length hn]
  exact List.mem_append_right _ h

theorem roundFrame_fields {c d : gaspi_group_ctx_t} (h : RoundFrame c d) :
    d.togle = c.togle ∧ d.rank = c.rank ∧ d.tnc = c.tnc ∧ d.barrier_cnt = c.barrier_cnt ∧
      d.coll_op = c.coll_op := by
  obtain ⟨cr, lm, rfl⟩ := h
  exact ⟨rfl, rfl, rfl, rfl, rfl⟩

theorem barrier_after_cases {E : Env} {o : Option (LoopEnd Proc)} {r : gaspi_return_t} {q : Proc}
    (h : barrier_after E o = some (r, q)) :
    o = some (LoopEnd.returned r q) ∨ ∃ q1, o = some (LoopEnd.fallthrough q1) ∧
      barrier_finish E q1 = some (r, q) := by
  cases o with
  | none => exact absurd h (by simp [barrier_after])
  | some e =>
    cases e with
    | fallthrough a => exact Or.inr ⟨a, rfl, h⟩
    | returned r1 a =>
      simp only [barrier_after, Option.some.injEq, Prod.mk.injEq] at h
      obtain ⟨h1, h2⟩ := h
      subst h1 h2
      exact Or.inl rfl

theorem barrier_finish_cases {E : Env} {p q : Proc} {r : gaspi_return_t}
    (h : barrier_finish E p = some (r, q)) :
    (r = GASPI_ERR_DEVICE ∧ q.grp = p.grp ∧ q.log = p.log) ∨
      (r = GASPI_SUCCESS ∧ q.log = p.log ∧
        q.grp = { p.grp with togle := p.grp.togle ^^^ 0x1, coll_op := GASPI_NONE, lastmask := 0x1 }) := by
  unfold barrier_finish at h
  split at h
  · exact absurd h (by simp)
  · rename_i pret p2 hp
    have hg := poll_groups_grp hp
    split at h
    · injection h with h
      injection h with h1 h2
      subst h1 h2
      exact Or.inl ⟨rfl, hg.1, hg.2⟩
    · injection h with h
      injection h with h1 h2
      subst h1 h2
      exact Or.inr ⟨rfl, hg.2, by simp only [hg.1]⟩

/-- One call of `pgaspi_barrier` keeps the invariant of the record of observations, and
a call that returns `GASPI_SUCCESS` has, since position `n0`, observed the token in use
in the slot of the source of every round. -/
theorem barrier_call_inv {E : Env} {p q : Proc} {r : gaspi_return_t} {n0 : Nat}
    (hT : p.grp.tnc < 2 ^ 31) (hi : BarrierInv n0 p) (h : pgaspi_barrier E p = some (r, q)) :
    q.grp.tnc = p.grp.tnc ∧ BarrierInv n0 q ∧
      (r = GASPI_SUCCESS → ∀ j, 2 ^ j < p.grp.tnc →
        Event.polled (GPI2_GRP_SYNC_POLL_ADDR p.grp (barrier_src p.grp (2 ^ j))) q.grp.barrier_cnt ∈
          q.log.drop n0) := by
  unfold pgaspi_barrier at h
  split at h
  · injection h with h
    injection h with h1 h2
    subst h1 h2
    exact ⟨rfl, hi, fun hr => absurd hr (by decide)⟩
  split at h
  · injection h with h
    injection h with h1 h2
    subst h1 h2
    exact ⟨rfl, hi, fun hr => absurd hr (by decide)⟩
  simp only at h
  obtain ⟨J, hJ, hn0, hev⟩ := hi
  -- the state after the entry
  have e_tg := barrier_enter_togle p
  have e_rk := barrier_enter_rank p
  have e_tn := barrier_enter_tnc p
  have e_lm := barrier_enter_lastmask p
  have e_cnt := barrier_enter_cnt p
  have e_log := barrier_enter_log p
  have e_slot := fun m => slot_congr e_tg e_rk e_tn m
  have hJ0 : p.grp.lastmask = 1 → J = 0 := by
    intro h1
    rw [h1] at hJ
    have : (2 : Nat) ^ J = 1 := by rw [← hJ]; decide
    by_contra hne
    have := Nat.one_lt_two_pow hne
    omega
  have hev3 : ∀ j, j < J →
      Event.polled (GPI2_GRP_SYNC_POLL_ADDR p.grp (barrier_src p.grp (2 ^ j)))
        (barrier_enter p).grp.barrier_cnt ∈ (barrier_enter p).log.drop n0 := by
    intro j hj
    rw [e_cnt, e_log]
    split
    · rename_i h1
      have := hJ0 h1
      omega
    · exact hev j hj
  have hmask : 1 ≤ (barrier_enter p).grp.lastmask &&& 0x7fffffff := by
    rw [e_lm, hJ]
    exact Nat.pow_pos (by decide)
  generalize barrier_enter p = p3 at h e_tg e_rk e_tn e_lm e_cnt e_log e_slot hev3 hmask
  rcases barrier_after_cases h with hl | ⟨q1, hl, hf⟩
  · -- return from inside the loop
    obtain ⟨hfr, -, -⟩ := barrier_loop_returned_frame E _ _ _ _ _ _ hl
    obtain ⟨f_tg, f_rk, f_tn, f_cnt, -⟩ := roundFrame_fields hfr
    obtain ⟨new, J', hlog, hlt, hpol, hcase⟩ := barrier_loop_returned_cases E _ _ _ _ _ _ hmask hl
    rw [e_lm, hJ] at hlt hpol hcase
    have q_slot := fun m => (slot_congr f_tg f_rk f_tn m).trans (e_slot m)
    refine ⟨by rw [f_tn, e_tn], ?_, ?_⟩
    · rcases hcase with ⟨-, -, hlm⟩ | ⟨-, hlm, -⟩
      · refine ⟨J, by rw [hlm, hJ], by rw [hlog, e_log, List.length_append]; omega, ?_⟩
        intro j hj
        rw [q_slot, f_cnt, hlog]
        exact mem_drop_of_append _ (hev3 j hj)
      · have hlt31 : 2 ^ J * 2 ^ J' < 2 ^ 31 := by rw [e_tn] at hlt; omega
        refine ⟨J + J', by rw [hlm, and_low_bits _ hlt31, pow_add],
          by rw [hlog, e_log, List.length_append]; omega, ?_⟩
        intro j hj
        rw [q_slot, f_cnt, hlog]
        by_cases hjJ : j < J
        · exact mem_drop_of_append _ (hev3 j hjJ)
        · have hp := hpol (j - J) (by omega)
          rw [e_slot, ← pow_add, show J + (j - J) = j by omega] at hp
          exact mem_drop_of_new (by rw [e_log]; exact hn0) hp
    · intro hr
      subst hr
      exact absurd hl (barrier_loop_not_success E _ _ _ _ _)
  · -- the loop ran to its end
    obtain ⟨hfr, -, -⟩ := barrier_loop_fallthrough_frame E _ _ _ _ _ hl
    obtain ⟨f_tg, f_rk, f_tn, f_cnt, -⟩ := roundFrame_fields (postFrame_round hfr)
    have f_lm := (postFrame_src hfr 0).2.2.2.1
    obtain ⟨new, hlog, hpol⟩ := barrier_loop_polls E _ _ _ _ _ hmask hl
    rw [e_lm, hJ] at hpol
    have hall : ∀ j, 2 ^ j < p.grp.tnc →
        Event.polled (GPI2_GRP_SYNC_POLL_ADDR p.grp (barrier_src p.grp (2 ^ j)))
          p3.grp.barrier_cnt ∈ q1.log.drop n0 := by
      intro j hj
      rw [hlog]
      by_cases hjJ : j < J
      · exact mem_drop_of_append _ (hev3 j hjJ)
      · have hp := hpol (j - J) (by rw [← pow_add, show J + (j - J) = j by omega, e_tn]; exact hj)
        rw [e_slot, ← pow_add, show J + (j - J) = j by omega] at hp
        exact mem_drop_of_new (by rw [e_log]; exact hn0) hp
    rcases barrier_finish_cases hf with ⟨hr, hg, hlg⟩ | ⟨hr, hlg, hg⟩
    · subst hr
      refine ⟨by rw [hg, f_tn, e_tn], ?_, fun hr => absurd hr (by decide)⟩
      refine ⟨J, by rw [hg, f_lm, e_lm, hJ], by rw [hlg, hlog, e_log, List.length_append]; omega, ?_⟩
      intro j hj
      have hq : GPI2_GRP_SYNC_POLL_ADDR q.grp (barrier_src q.grp (2 ^ j)) =
          GPI2_GRP_SYNC_POLL_ADDR p.grp (barrier_src p.grp (2 ^ j)) := by
        rw [hg]
        exact (slot_congr f_tg f_rk f_tn _).trans (e_slot _)
      rw [hq, hg, f_cnt, hlg, hlog]
      exact mem_drop_of_append _ (hev3 j hj)
    · subst hr
      refine ⟨by rw [hg]; simp only; rw [f_tn, e_tn], ?_, ?_⟩
      · refine ⟨0, by rw [hg]; show 1 &&& 0x7fffffff = 2 ^ 0; decide, by rw [hlg, hlog, e_log, List.length_append]; omega, ?_⟩
        intro j hj
        omega
      · intro _ j hj
        have hc : q.grp.barrier_cnt = p3.grp.barrier_cnt := by rw [hg]; exact f_cnt
        rw [hc, hlg]
        exact hall j hj

theorem barrier_calls_inv :
    ∀ (Es : List Env) (p q : Proc) (n0 : Nat), p.grp.tnc < 2 ^ 31 → BarrierInv n0 p →
      barrier_calls Es p = some q → q.grp.tnc = p.grp.tnc ∧ BarrierInv n0 q := by
  intro Es
  induction Es with
  | nil =>
    intro p q n0 _ hi h
    simp only [barrier_calls, Option.some.injEq] at h
    subst h
    exact ⟨rfl, hi⟩
  | cons E Es ih =>
    intro p q n0 hT hi h
    unfold barrier_calls at h
    split at h
    · exact absurd h (by simp)
    · rename_i r q1 hq1
      obtain ⟨h1, h2, -⟩ := barrier_call_inv hT hi hq1
      obtain ⟨h3, h4⟩ := ih q1 q n0 (by rw [h1]; exact hT) h2 h
      exact ⟨h3.trans h1, h4⟩

/-- C2 (counterexample). Four ranks run a barrier on `GASPI_GROUP_ALL`; after two rounds of
calls every rank has returned `GASPI_SUCCESS`, yet rank 0, whose `barrier_cnt` is 1, has
only observed the slots of the ranks 3 and 2 (offsets 6 and 4): the slot of rank 1 at
the togle in use (offset 2) still holds 0. -/
theorem barrier_four_leaves_slot_unobserved :
    (barrier_four 2).map (fun m => m.last) = List.replicate 4 (some GASPI_SUCCESS) ∧
      ((barrier_four 2).head?).map
          (fun m => (m.proc.grp.barrier_cnt, m.proc.grp.togle, m.proc.grp.buf (2 * 1 + 0),
            polled_tokens m.proc.log)) =
        some (1, 1, 0, [(6, 1), (4, 1)]) := by
  decide

/-- C2 (amended). When `pgaspi_barrier` returns `GASPI_SUCCESS` on the member `r` of a group
of size `T`, then since the group was last idle (`lastmask = 1`, state `p0`; any calls
with any results in between) `r` has observed its current `barrier_cnt` in the sync
slot, at the togle in use, of the member `(r - 2^k) mod T` for every round `2^k < T`. -/
theorem barrier_success_observes_round_sources (Es : List Env) (E : Env) (p0 p1 p2 : Proc)
    (hT : p0.grp.tnc < 2 ^ 31) (h0 : p0.grp.lastmask = 1)
    (h1 : barrier_calls Es p0 = some p1) (h2 : pgaspi_barrier E p1 = some (GASPI_SUCCESS, p2))
    (k : Nat) (hk : 2 ^ k < p1.grp.tnc) :
    Event.polled (2 * ((p1.grp.rank.toNat + p1.grp.tnc - 2 ^ k) % p1.grp.tnc) + p1.grp.togle)
      p2.grp.barrier_cnt ∈ p2.log.drop p0.log.length := by
  have hi : BarrierInv p0.log.length p0 :=
    ⟨0, by rw [h0]; decide, Nat.le_refl _, fun j hj => absurd hj (by omega)⟩
  obtain ⟨h3, h4⟩ := barrier_calls_inv Es p0 p1 _ hT hi h1
  exact (barrier_call_inv (by rw [h3]; exact hT) h4 h2).2.2 rfl k hk

set_option maxRecDepth 100000 in
/-- Witness of `barrier_success_observes_round_sources`: rank 0 of two ranks calls the
barrier once before the token of rank 1 has arrived and once after. -/
theorem barrier_success_observes_round_sources_witness :
    Event.polled 2 1 ∈
      (after_barrier (env_token 1) (after_barrier (env_token 0) (member 2 0))).log.drop 0 :=
  barrier_success_observes_round_sources [env_token 0] (env_token 1) (member 2 0)
    (after_barrier (env_token 0) (member 2 0))
    (after_barrier (env_token 1) (after_barrier (env_token 0) (member 2 0)))
    (by decide) (by decide) (by rfl) (by rfl) 0 (by decide)

set_option maxRecDepth 100000 in
/-- Witness of `barrier_success_flips_togle`: two barriers in a row of rank 0 of two
ranks. -/
theorem barrier_success_flips_togle_witness :
    (after_barrier (env_token 1) (member 2 0)).grp.togle = (member 2 0).grp.togle ^^^ 1 ∧
      (after_barrier (env_token 1) (member 2 0)).grp.coll_op = GASPI_NONE ∧
      (after_barrier (env_token 1) (member 2 0)).grp.lastmask = 1 ∧
      (after_barrier (env_token 2) (after_barrier (env_token 1) (member 2 0))).grp.togle =
        (member 2 0).grp.togle :=
  have h := barrier_success_flips_togle (env_token 1) (member 2 0)
    (after_barrier (env_token 1) (member 2 0)) (by rfl)
  ⟨h.1, h.2.1, h.2.2.1, h.2.2.2 (env_token 2) _ (by rfl)⟩

/-! ### Timeout and resumption of the barrier -/

theorem barrier_round_jmp (E : Env) (mask : Nat) (p : Proc) :
    barrier_round E mask true p =
      if E.poll (GPI2_GRP_SYNC_POLL_ADDR p.grp (barrier_src p.grp mask)) = p.grp.barrier_cnt then
        LoopEnd.fallthrough (observe p (GPI2_GRP_SYNC_POLL_ADDR p.grp (barrier_src p.grp mask)))
      else
        LoopEnd.returned GASPI_TIMEOUT
          { p with grp := { p.grp with lastmask := mask ||| 0x80000000 } } := by
  unfold barrier_round barrier_pre _gaspi_sync_wait
  simp only [if_true, ne_eq, not_true_eq_false, if_false]
  by_cases h : E.poll (GPI2_GRP_SYNC_POLL_ADDR p.grp (barrier_src p.grp mask)) = p.grp.barrier_cnt
  · simp only [h, if_true, not_true_eq_false, if_false]
  · simp only [h, if_false, reduceCtorEq, not_false_eq_true, if_true]

theorem barrier_loop_succ (E : Env) (n mask : Nat) (jmp : Bool) (p : Proc) :
    barrier_loop E (n + 1) mask jmp p =
      if mask < p.grp.tnc then
        match barrier_round E mask jmp p with
        | LoopEnd.returned r q => some (LoopEnd.returned r q)
        | LoopEnd.fallthrough q => barrier_loop E n (mask <<< 1) false q
      else some (LoopEnd.fallthrough p) := rfl

/-- C4. If `pgaspi_barrier` times out while polling in the round with mask `m` (the lock was
acquired and the control plane did not time out, so the timeout is one of a poll), it
returns `GASPI_TIMEOUT` with `lastmask = m | 0x80000000`, with `togle` and `barrier_cnt`
as they were during the wait and with `coll_op = GASPI_BARRIER`. The next call on the
group does not increment `barrier_cnt` and posts nothing before it polls the source of
round `m` again: when the token is still missing it returns `GASPI_TIMEOUT` with an
unchanged record of actions, otherwise it records the observation and goes on with
round `2 m`. -/
theorem barrier_timeout_resumes (E E2 : Env) (p q : Proc)
    (hT : p.grp.tnc < 2 ^ 31) (hm : 1 ≤ p.grp.lastmask &&& 0x7fffffff)
    (hl : E.lock_ok = true) (hc : ∀ d, E.connect d ≠ GASPI_TIMEOUT)
    (hg : ∀ d, E.grp_connect d ≠ GASPI_TIMEOUT) (hl2 : E2.lock_ok = true)
    (h : pgaspi_barrier E p = some (GASPI_TIMEOUT, q)) :
    ∃ m slot, 1 ≤ m ∧ m < p.grp.tnc ∧
      slot = 2 * ((p.grp.rank.toNat + p.grp.tnc - m) % p.grp.tnc) + p.grp.togle ∧
      E.poll slot ≠ q.grp.barrier_cnt ∧
      q.grp.lastmask = m ||| 0x80000000 ∧ q.grp.togle = p.grp.togle ∧
      q.grp.coll_op = GASPI_BARRIER ∧
      q.grp.barrier_cnt =
        (if p.grp.lastmask = 1 then bump_barrier_cnt p.grp.barrier_cnt else p.grp.barrier_cnt) ∧
      (barrier_enter q).grp.barrier_cnt = q.grp.barrier_cnt ∧
      (barrier_enter q).log = q.log ∧
      pgaspi_barrier E2 q =
        if E2.poll slot = q.grp.barrier_cnt then
          barrier_after E2
            (barrier_loop E2 (p.grp.tnc - 1) (m <<< 1) false (observe (barrier_enter q) slot))
        else some (GASPI_TIMEOUT, barrier_enter q) := by
  unfold pgaspi_barrier at h
  rw [hl] at h
  simp only [Bool.not_true, Bool.false_eq_true, if_false] at h
  split at h
  · exact absurd h (by simp)
  have e_tg := barrier_enter_togle p
  have e_rk := barrier_enter_rank p
  have e_tn := barrier_enter_tnc p
  have e_lm := barrier_enter_lastmask p
  have e_cnt := barrier_enter_cnt p
  have e_co := barrier_enter_coll_op p
  have e_slot := fun m => slot_congr e_tg e_rk e_tn m
  have hmask : 1 ≤ (barrier_enter p).grp.lastmask &&& 0x7fffffff := by rw [e_lm]; exact hm
  generalize barrier_enter p = p3 at h e_tg e_rk e_tn e_lm e_cnt e_co e_slot hmask
  rcases barrier_after_cases h with hlp | ⟨q1, -, hf⟩
  · obtain ⟨hfr, -, -⟩ := barrier_loop_returned_frame E _ _ _ _ _ _ hlp
    obtain ⟨f_tg, f_rk, f_tn, f_cnt, f_co⟩ := roundFrame_fields hfr
    obtain ⟨new, J, -, hlt, -, hcase⟩ := barrier_loop_returned_cases E _ _ _ _ _ _ hmask hlp
    rcases hcase with ⟨hpre, -, -⟩ | ⟨-, hlm, hpoll⟩
    · rcases hpre with h1 | h1 | ⟨d, h1⟩ | ⟨d, h1⟩
      · exact absurd h1 (by decide)
      · exact absurd h1 (by decide)
      · exact absurd h1.symm (hc d)
      · exact absurd h1.symm (hg d)
    · have hm1 : 1 ≤ (p3.grp.lastmask &&& 0x7fffffff) * 2 ^ J :=
        Nat.le_trans hmask (Nat.le_mul_of_pos_right _ (Nat.pow_pos (by decide)))
      generalize (p3.grp.lastmask &&& 0x7fffffff) * 2 ^ J = m at hlt hlm hpoll hm1
      rw [e_tn] at hlt
      have hm31 : m < 2 ^ 31 := by omega
      have hqlm : q.grp.lastmask ≠ 1 := by rw [hlm]; exact high_bit_ne_one m hm31
      have hqcnt : (barrier_enter q).grp.barrier_cnt = q.grp.barrier_cnt := by
        rw [barrier_enter_cnt, if_neg hqlm]
      have hqslot : ∀ k, GPI2_GRP_SYNC_POLL_ADDR (barrier_enter q).grp
          (barrier_src (barrier_enter q).grp k) = GPI2_GRP_SYNC_POLL_ADDR p.grp (barrier_src p.grp k) :=
        fun k => (slot_congr (barrier_enter_togle q) (barrier_enter_rank q) (barrier_enter_tnc q) k).trans
          ((slot_congr f_tg f_rk f_tn k).trans (e_slot k))
      refine ⟨m, GPI2_GRP_SYNC_POLL_ADDR p.grp (barrier_src p.grp m), hm1, hlt, rfl, ?_, hlm,
        by rw [f_tg, e_tg], by rw [f_co, e_co], by rw [f_cnt, e_cnt], hqcnt, rfl, ?_⟩
      · rw [f_cnt, ← e_slot]
        exact hpoll
      · unfold pgaspi_barrier
        rw [hl2]
        have hco : q.grp.coll_op &&& GASPI_BARRIER ≠ 0 := by
          rw [f_co, e_co]
          decide
        simp only [Bool.not_true, Bool.false_eq_true, if_false, hco]
        have htn : (barrier_enter q).grp.tnc = (p.grp.tnc - 1) + 1 := by
          rw [barrier_enter_tnc, f_tn, e_tn]
          omega
        have hlt2 : m < (barrier_enter q).grp.tnc := by
          rw [barrier_enter_tnc, f_tn, e_tn]
          exact hlt
        have hlm2 : (barrier_enter q).grp.lastmask = m ||| 0x80000000 := by
          rw [barrier_enter_lastmask, hlm]
        rw [hlm2, and_low_bits m hm31, shift_high_bit m hm31]
        generalize (barrier_enter q) = p4 at htn hlt2 hlm2 hqcnt hqslot
        rw [htn, barrier_loop_succ, if_pos hlt2]
        have hd : decide (1 ≠ 0) = true := by decide
        rw [hd, barrier_round_jmp, hqslot, hqcnt]
        by_cases hp : E2.poll (GPI2_GRP_SYNC_POLL_ADDR p.grp (barrier_src p.grp m)) = q.grp.barrier_cnt
        · rw [if_pos hp, if_pos hp]
        · rw [if_neg hp, if_neg hp]
          have : ({ p4 with grp := { p4.grp with lastmask := m ||| 0x80000000 } } : Proc) = p4 := by
            rw [← hlm2]
          rw [this]
          rfl
  · rcases barrier_finish_cases hf with ⟨hr, -, -⟩ | ⟨hr, -, -⟩ <;> exact absurd hr (by decide)

set_option maxRecDepth 100000 in
/-- Witness of `barrier_timeout_resumes`: rank 0 of two ranks calls the barrier before the
token of rank 1 has arrived. -/
theorem barrier_timeout_resumes_witness :
    ∃ m, 1 ≤ m ∧ m < (member 2 0).grp.tnc ∧
      (after_barrier (env_token 0) (member 2 0)).grp.lastmask = m ||| 0x80000000 := by
  obtain ⟨m, slot, h1, h2, -, -, h5, -⟩ :=
    barrier_timeout_resumes (env_token 0) (env_token 1) (member 2 0)
      (after_barrier (env_token 0) (member 2 0)) (by decide) (by decide) rfl
      (fun d => by simp [env_token]) (fun d => by simp [env_token]) rfl (by rfl)
  exact ⟨m, h1, h2, h5⟩

/-! ### The size of the data in C arithmetic -/

/-- The 64-bit product of the size check is at most the product of the two numbers. -/
theorem size_product_le (a b : Nat) : size_product a b ≤ a * b :=
  Nat.mod_le _ _

/-- A call of the engine that returns has a `dsize` in the range of a non-negative `int`,
and is the run of its phases. -/
theorem engine_returns {K : Cfg} {E : Env} {p : Proc} {bs br : List Nat} {ra : redux_args}
    {z : gaspi_return_t × Proc × List Nat} (h : _gaspi_allreduce K E p bs br ra = some z) :
    redux_dsize ra < 2 ^ 31 ∧ allreduce_from_L0 K E p bs br ra = some z := by
  unfold _gaspi_allreduce at h
  by_cases hd : 2 ^ 31 ≤ redux_dsize ra
  · rw [if_pos hd] at h
    exact absurd h (by simp)
  · rw [if_neg hd] at h
    exact ⟨by omega, h⟩

/-- With a `dsize` in the range of a non-negative `int` the engine is the run of its
phases. -/
theorem engine_in_range (K : Cfg) (E : Env) (p : Proc) (bs br : List Nat) {ra : redux_args}
    (hd : redux_dsize ra < 2 ^ 31) :
    _gaspi_allreduce K E p bs br ra = allreduce_from_L0 K E p bs br ra := by
  unfold _gaspi_allreduce
  rw [if_neg (by omega)]

/-! ### Admission of a collective -/

/-- C7 (counterexample). On a group held by a barrier (rank 0 of two ranks after a barrier
call that timed out), `pgaspi_allreduce` with 256 elements returns `GASPI_ERR_INV_NUM`,
not `GASPI_ERR_ACTIVE_COLL`: the argument check comes before the admission test. -/
theorem allreduce_on_held_group_inv_num :
    (after_barrier (env_token 0) (member 2 0)).grp.coll_op = GASPI_BARRIER ∧
      (pgaspi_allreduce layout (env_token 1) (after_barrier (env_token 0) (member 2 0))
          (le_encode 8 1) (le_encode 8 0) 256 GASPI_OP_SUM GASPI_TYPE_ULONG).map (fun r => r.1) =
        some GASPI_ERR_INV_NUM := by
  decide

/-- C7 (amended). Once a collective has passed its argument checks and has acquired the
group lock, it is admitted exactly when the group is held by no collective or by the
same kind: `pgaspi_barrier` goes on for `coll_op` `NONE` or `BARRIER`, `pgaspi_allreduce`
for `NONE` or `ALLREDUCE`, `pgaspi_allreduce_user` for `NONE` or `ALLREDUCE_USER`; for
every other kind the call returns `GASPI_ERR_ACTIVE_COLL` and the whole state of the
process, so every field of the group context, is as before. -/
theorem collective_admission (K : Cfg) (E : Env) (p : Proc) (buf_send buf_recv : List Nat)
    (elem_cnt op type elem_size : Nat)
    (user_fct : List Nat → List Nat → Nat → Nat → gaspi_return_t × List Nat)
    (hl : E.lock_ok = true) (hn : elem_cnt ≤ GPI2_ALLREDUCE_ELEM_MAX)
    (hs : elem_size * elem_cnt ≤ K.GPI2_REDUX_BUF_SIZE)
    (hk : p.grp.coll_op = GASPI_NONE ∨ p.grp.coll_op = GASPI_BARRIER ∨
      p.grp.coll_op = GASPI_ALLREDUCE ∨ p.grp.coll_op = GASPI_ALLREDUCE_USER) :
    pgaspi_barrier E p =
        (if p.grp.coll_op = GASPI_NONE ∨ p.grp.coll_op = GASPI_BARRIER then
          barrier_after E (barrier_loop E (barrier_enter p).grp.tnc
            ((barrier_enter p).grp.lastmask &&& 0x7fffffff)
            ((barrier_enter p).grp.lastmask >>> 31 ≠ 0) (barrier_enter p))
        else some (GASPI_ERR_ACTIVE_COLL, p)) ∧
      pgaspi_allreduce K E p buf_send buf_recv elem_cnt op type =
        (if p.grp.coll_op = GASPI_NONE ∨ p.grp.coll_op = GASPI_ALLREDUCE then
          _gaspi_allreduce K E { p with grp := { p.grp with coll_op := GASPI_ALLREDUCE } }
            buf_send buf_recv
            { f_args := redux_f_args.GASPI_OP op type, elem_size := glb_gaspi_typ_size.getD type 0,
              elem_cnt := elem_cnt }
        else some (GASPI_ERR_ACTIVE_COLL, p, buf_recv)) ∧
      pgaspi_allreduce_user K E p buf_send buf_recv elem_cnt elem_size user_fct =
        (if p.grp.coll_op = GASPI_NONE ∨ p.grp.coll_op = GASPI_ALLREDUCE_USER then
          _gaspi_allreduce K E { p with grp := { p.grp with coll_op := GASPI_ALLREDUCE_USER } }
            buf_send buf_recv
            { f_args := redux_f_args.GASPI_USER user_fct, elem_size := elem_size, elem_cnt := elem_cnt }
        else some (GASPI_ERR_ACTIVE_COLL, p, buf_recv)) := by
  have hn2 : ¬ elem_cnt > GPI2_ALLREDUCE_ELEM_MAX := by omega
  have hs2 : ¬ size_product elem_size elem_cnt > K.GPI2_REDUX_BUF_SIZE := by
    have := size_product_le elem_size elem_cnt
    omega
  unfold pgaspi_barrier pgaspi_allreduce pgaspi_allreduce_user
  rw [hl]
  simp only [Bool.not_true, Bool.false_eq_true, if_false, hn2, hs2]
  rcases hk with h | h | h | h <;> rw [h] <;> refine ⟨?_, ?_, ?_⟩ <;>
    simp only [GASPI_NONE, GASPI_BARRIER, GASPI_ALLREDUCE, GASPI_ALLREDUCE_USER] <;> rfl

set_option maxRecDepth 100000 in
/-- Witness of `collective_admission`: an idle group of two ranks. -/
theorem collective_admission_witness :
    pgaspi_allreduce_user layout (env_token 1) (member 2 0) (le_encode 8 1) (le_encode 8 0) 1 8
        (fun a _ _ _ => (GASPI_SUCCESS, a)) =
      (if (member 2 0).grp.coll_op = GASPI_NONE ∨ (member 2 0).grp.coll_op = GASPI_ALLREDUCE_USER then
        _gaspi_allreduce layout (env_token 1)
          { member 2 0 with grp := { (member 2 0).grp with coll_op := GASPI_ALLREDUCE_USER } }
          (le_encode 8 1) (le_encode 8 0)
          { f_args := redux_f_args.GASPI_USER (fun a _ _ _ => (GASPI_SUCCESS, a)), elem_size := 8,
            elem_cnt := 1 }
      else some (GASPI_ERR_ACTIVE_COLL, member 2 0, le_encode 8 0)) :=
  (collective_admission layout (env_token 1) (member 2 0) (le_encode 8 1) (le_encode 8 0) 1
    GASPI_OP_SUM GASPI_TYPE_ULONG 8 (fun a _ _ _ => (GASPI_SUCCESS, a)) rfl (by decide) (by decide)
    (Or.inl (by decide))).2.2

/-! ### The receive buffer of the caller -/

theorem allreduce_finish_recv {E : Env} {r_args : redux_args} {p q : Proc} {l : Loc}
    {br br2 : List Nat} {r : gaspi_return_t}
    (h : allreduce_finish E r_args p l br = some (r, q, br2)) (hr : r ≠ GASPI_SUCCESS) : br2 = br := by
  unfold allreduce_finish at h
  split at h
  · exact absurd h (by simp)
  · split at h
    · injection h with h
      injection h with h1 h2
      injection h2 with h2 h3
      exact h3.symm
    · injection h with h
      injection h with h1 h2
      exact absurd h1.symm hr

theorem allreduce_from_L3_recv {K : Cfg} {E : Env} {r_args : redux_args} {x : Proc × Loc} {q : Proc}
    {br br2 : List Nat} {r : gaspi_return_t}
    (h : allreduce_from_L3 K E r_args br x = some (r, q, br2)) (hr : r ≠ GASPI_SUCCESS) : br2 = br := by
  unfold allreduce_from_L3 at h
  split at h
  · injection h with h
    injection h with h1 h2
    injection h2 with h2 h3
    exact h3.symm
  · exact allreduce_finish_recv h hr

theorem allreduce_from_L2_recv {K : Cfg} {E : Env} {r_args : redux_args} {x : Proc × Loc} {q : Proc}
    {br br2 : List Nat} {r : gaspi_return_t}
    (h : allreduce_from_L2 K E r_args br x = some (r, q, br2)) (hr : r ≠ GASPI_SUCCESS) : br2 = br := by
  unfold allreduce_from_L2 at h
  split at h
  · exact absurd h (by simp)
  · injection h with h
    injection h with h1 h2
    injection h2 with h2 h3
    exact h3.symm
  · exact allreduce_from_L3_recv h hr

theorem allreduce_engine_recv {K : Cfg} {E : Env} {r_args : redux_args} {p q : Proc}
    {bs br br2 : List Nat} {r : gaspi_return_t}
    (h : _gaspi_allreduce K E p bs br r_args = some (r, q, br2)) (hr : r ≠ GASPI_SUCCESS) :
    br2 = br := by
  have h := (engine_returns h).2
  unfold allreduce_from_L0 at h
  simp only at h
  split at h
  · exact allreduce_from_L2_recv h hr
  · split at h
    · exact allreduce_from_L3_recv h hr
    · split at h
      · injection h with h
        injection h with h1 h2
        injection h2 with h2 h3
        exact h3.symm
      · exact allreduce_from_L2_recv h hr

/-- C5. Every call of `pgaspi_allreduce` or `pgaspi_allreduce_user` that returns a status
other than `GASPI_SUCCESS` leaves the receive buffer of the caller as it was, byte for
byte; for every element size and count, the size check and the engine taking their
product as C computes it (`size_product`, `redux_dsize`). -/
theorem allreduce_failure_keeps_recv (K : Cfg) (E : Env) (p q : Proc) (buf_send buf_recv br2 : List Nat)
    (elem_cnt op type elem_size : Nat)
    (user_fct : List Nat → List Nat → Nat → Nat → gaspi_return_t × List Nat) (r : gaspi_return_t)
    (h : pgaspi_allreduce K E p buf_send buf_recv elem_cnt op type = some (r, q, br2) ∨
      pgaspi_allreduce_user K E p buf_send buf_recv elem_cnt elem_size user_fct = some (r, q, br2))
    (hr : r ≠ GASPI_SUCCESS) : br2 = buf_recv := by
  rcases h with h | h
  · unfold pgaspi_allreduce at h
    split at h
    · injection h with h
      injection h with h1 h2
      injection h2 with h2 h3
      exact h3.symm
    split at h
    · injection h with h
      injection h with h1 h2
      injection h2 with h2 h3
      exact h3.symm
    split at h
    · injection h with h
      injection h with h1 h2
      injection h2 with h2 h3
      exact h3.symm
    exact allreduce_engine_recv h hr
  · unfold pgaspi_allreduce_user at h
    split at h
    · injection h with h
      injection h with h1 h2
      injection h2 with h2 h3
      exact h3.symm
    split at h
    · injection h with h
      injection h with h1 h2
      injection h2 with h2 h3
      exact h3.symm
    split at h
    · injection h with h
      injection h with h1 h2
      injection h2 with h2 h3
      exact h3.symm
    split at h
    · injection h with h
      injection h with h1 h2
      injection h2 with h2 h3
      exact h3.symm
    exact allreduce_engine_recv h hr

set_option maxRecDepth 100000 in
/-- Witness of `allreduce_failure_keeps_recv`: rank 0 of two calls before the token of
rank 1 has arrived, `pgaspi_allreduce` with one 64-bit element and
`pgaspi_allreduce_user` with two elements of the size `2^63 + 4`; both calls pass the
argument checks, enter the engine and return `GASPI_TIMEOUT`. -/
theorem allreduce_failure_keeps_recv_witness :
    ((allreduce_outcome layout (env_token 0) (member 2 0) (le_encode 8 1) (le_encode 8 7) 1
        GASPI_OP_SUM GASPI_TYPE_ULONG).1 = GASPI_TIMEOUT ∧
      (allreduce_outcome layout (env_token 0) (member 2 0) (le_encode 8 1) (le_encode 8 7) 1
        GASPI_OP_SUM GASPI_TYPE_ULONG).2.2 = le_encode 8 7) ∧
    ((user_outcome layout (env_token 0) (member 2 0) (le_encode 8 1) (le_encode 8 7) 2
        wrapping_size bytewise_max).1 = GASPI_TIMEOUT ∧
      (user_outcome layout (env_token 0) (member 2 0) (le_encode 8 1) (le_encode 8 7) 2
        wrapping_size bytewise_max).2.1.grp.level = 2 ∧
      (user_outcome layout (env_token 0) (member 2 0) (le_encode 8 1) (le_encode 8 7) 2
        wrapping_size bytewise_max).2.2 = le_encode 8 7) :=
  ⟨⟨by decide,
    allreduce_failure_keeps_recv layout (env_token 0) (member 2 0)
      (allreduce_outcome layout (env_token 0) (member 2 0) (le_encode 8 1) (le_encode 8 7) 1
        GASPI_OP_SUM GASPI_TYPE_ULONG).2.1
      (le_encode 8 1) (le_encode 8 7) _ 1 GASPI_OP_SUM GASPI_TYPE_ULONG 0 (fun _ _ _ _ => (GASPI_SUCCESS, []))
      (allreduce_outcome layout (env_token 0) (member 2 0) (le_encode 8 1) (le_encode 8 7) 1
        GASPI_OP_SUM GASPI_TYPE_ULONG).1
      (Or.inl (by rfl)) (by decide)⟩,
   ⟨by decide, by decide,
    allreduce_failure_keeps_recv layout (env_token 0) (member 2 0)
      (user_outcome layout (env_token 0) (member 2 0) (le_encode 8 1) (le_encode 8 7) 2
        wrapping_size bytewise_max).2.1
      (le_encode 8 1) (le_encode 8 7) _ 2 GASPI_OP_SUM GASPI_TYPE_ULONG wrapping_size bytewise_max
      (user_outcome layout (env_token 0) (member 2 0) (le_encode 8 1) (le_encode 8 7) 2
        wrapping_size bytewise_max).1
      (Or.inr (by rfl)) (by decide)⟩⟩

set_option maxRecDepth 100000 in
/-- The size check of `pgaspi_allreduce_user` and the engine take the product of the
element size and the element count in C arithmetic: with two elements of the size
`2^63 + 4` the product is 8, the call is admitted, and with the token of rank 1 in place
rank 0 of two returns `GASPI_SUCCESS` with the first 8 bytes of its receive buffer
overwritten; with two elements of the size `2^62` the product is `2^63` and the call
returns `GASPI_ERR_INV_SIZE`. -/
theorem allreduce_user_wrapped_size :
    size_product wrapping_size 2 = 8 ∧
    (user_outcome layout (env_token 1) (member 2 0) [1, 2, 3, 4, 5, 6, 7, 8]
        [9, 9, 9, 9, 9, 9, 9, 9, 9, 9] 2 wrapping_size bytewise_max).1 = GASPI_SUCCESS ∧
    (user_outcome layout (env_token 1) (member 2 0) [1, 2, 3, 4, 5, 6, 7, 8]
        [9, 9, 9, 9, 9, 9, 9, 9, 9, 9] 2 wrapping_size bytewise_max).2.2
      = [1, 2, 3, 4, 5, 6, 7, 8, 9, 9] ∧
    (user_outcome layout (env_token 1) (member 2 0) [1, 2, 3, 4, 5, 6, 7, 8]
        [9, 9, 9, 9, 9, 9, 9, 9, 9, 9] 2 (2 ^ 62) bytewise_max).1 = GASPI_ERR_INV_SIZE := by
  decide

/-! ### Group membership -/

theorem upd_same {α : Type} (f : Nat → α) (i : Nat) (v : α) : upd f i v i = v := by
  unfold upd
  rw [if_pos rfl]

theorem nodup_bounded_length {cap : Nat} (l : List Int) (hn : l.Nodup)
    (hb : ∀ x ∈ l, ∃ r : Nat, r < cap ∧ x = (r : Int)) : l.length ≤ cap := by
  have hsub : l ⊆ (List.range cap).map Int.ofNat := by
    intro x hx
    obtain ⟨r, hr1, hr2⟩ := hb x hx
    rw [List.mem_map]
    exact ⟨r, List.mem_range.2 hr1, hr2.symm⟩
  have := (List.subperm_of_subset hn hsub).length_le
  rw [List.length_map, List.length_range] at this
  exact this

theorem any_eq_iff_mem (l : List Int) (x : Int) : (l.any fun y => decide (y = x)) = true ↔ x ∈ l := by
  rw [List.any_eq_true]
  constructor
  · rintro ⟨y, hy, h⟩
    rw [decide_eq_true_eq] at h
    exact h ▸ hy
  · intro h
    exact ⟨x, h, by simp⟩

theorem take_set_succ (l : List Int) (n : Nat) (a : Int) (h : n < l.length) :
    (l.set n a).take (n + 1) = l.take n ++ [a] := by
  induction l generalizing n with
  | nil => simp at h
  | cons b l ih =>
    cases n with
    | zero => simp
    | succ n =>
      simp only [List.set_cons_succ, List.take_succ_cons, List.cons_append, List.cons.injEq, true_and]
      exact ih n (by simpa using h)

theorem qsort_length (l : List Int) : (qsort l).length = l.length :=
  (List.perm_insertionSort _ l).length_eq

/-- The effect of `pgaspi_group_add` on the group: a rank that is a member is refused and
nothing changes; any other rank below the capacity is inserted at its place. -/
theorem group_add_spec {cap : Nat} (s : Glb) (g rank : Nat) (hi : AddInv cap (s.groups g))
    (hr : rank < cap) :
    ((rank : Int) ∈ members (s.groups g) →
        pgaspi_group_add s g rank = (GASPI_ERR_INV_RANK, s)) ∧
      ((rank : Int) ∉ members (s.groups g) →
        (pgaspi_group_add s g rank).1 = GASPI_SUCCESS ∧
        (pgaspi_group_add s g rank).2.gctx = s.gctx ∧
        ((pgaspi_group_add s g rank).2.groups g).tnc = (s.groups g).tnc + 1 ∧
        members ((pgaspi_group_add s g rank).2.groups g) = qsort (members (s.groups g) ++ [(rank : Int)]) ∧
        AddInv cap ((pgaspi_group_add s g rank).2.groups g)) := by
  constructor
  · intro hm
    unfold pgaspi_group_add
    simp only
    have hany : ((List.take (s.groups g).tnc (s.groups g).rank_grp).any
        fun x => decide (x = (rank : Int))) = true := (any_eq_iff_mem _ _).2 hm
    rw [if_pos hany]
  · intro hm
    have hany : ¬ ((List.take (s.groups g).tnc (s.groups g).rank_grp).any
        fun x => decide (x = (rank : Int))) = true := fun h => hm ((any_eq_iff_mem _ _).1 h)
    unfold pgaspi_group_add
    simp only
    rw [if_neg hany]
    simp only [upd_same, true_and]
    obtain ⟨hcap, hs, hrg⟩ := hi
    have hnd : (members (s.groups g) ++ [(rank : Int)]).Nodup := by
      rw [List.nodup_append]
      refine ⟨hs.nodup, List.nodup_singleton _, ?_⟩
      intro a ha hb
      rw [List.mem_singleton] at hb
      exact hm (hb ▸ ha)
    have hbd : ∀ x ∈ members (s.groups g) ++ [(rank : Int)], ∃ r : Nat, r < cap ∧ x = (r : Int) := by
      intro x hx
      rcases List.mem_append.1 hx with hx | hx
      · exact hrg x hx
      · rw [List.mem_singleton] at hx
        exact ⟨rank, hr, hx⟩
    have hroom0 := nodup_bounded_length _ hnd hbd
    simp only [List.length_append, List.length_singleton] at hroom0
    have hmlen : (members (s.groups g)).length = min (s.groups g).tnc (s.groups g).rank_grp.length := by
      unfold members
      rw [List.length_take]
    have hroom : (s.groups g).tnc < (s.groups g).rank_grp.length := by
      rw [hcap]
      rw [hmlen, hcap] at hroom0
      omega
    have htake := take_set_succ (s.groups g).rank_grp (s.groups g).tnc (rank : Int) hroom
    have hmem : members
        { s.groups g with
          tnc := (s.groups g).tnc + 1,
          rank_grp :=
            qsort (((s.groups g).rank_grp.set (s.groups g).tnc (rank : Int)).take ((s.groups g).tnc + 1)) ++
              ((s.groups g).rank_grp.set (s.groups g).tnc (rank : Int)).drop ((s.groups g).tnc + 1) } =
        qsort (members (s.groups g) ++ [(rank : Int)]) := by
      unfold members
      simp only
      rw [htake]
      have hl : (qsort (List.take (s.groups g).tnc (s.groups g).rank_grp ++ [(rank : Int)])).length =
          (s.groups g).tnc + 1 := by
        rw [qsort_length, List.length_append, List.length_take, List.length_singleton]
        omega
      rw [List.take_append_of_le_length (by omega), List.take_of_length_le (by omega)]
    refine ⟨hmem, ?_, ?_, ?_⟩
    · simp only [List.length_append, qsort_length, List.length_take, List.length_drop, List.length_set]
      omega
    · rw [hmem]
      have hsorted : (qsort (members (s.groups g) ++ [(rank : Int)])).Sorted (· ≤ ·) :=
        List.sorted_insertionSort _ _
      exact hsorted.lt_of_le ((List.perm_insertionSort _ _).nodup_iff.2 hnd)
    · rw [hmem]
      intro x hx
      exact hbd x ((List.perm_insertionSort _ _).mem_iff.1 hx)

theorem find_free_slot_spec (groups : Nat → gaspi_group_ctx_t) :
    ∀ (n i : Nat), find_free_slot groups i n ≠ GASPI_MAX_GROUPS →
      i ≤ find_free_slot groups i n ∧ find_free_slot groups i n < i + n ∧
      (groups (find_free_slot groups i n)).id = -1 ∧
      ∀ j, i ≤ j → j < find_free_slot groups i n → (groups j).id ≠ -1 := by
  intro n
  induction n with
  | zero =>
    intro i h
    exact absurd rfl h
  | succ n ih =>
    intro i h
    unfold find_free_slot at h ⊢
    split
    · rename_i hid
      exact ⟨Nat.le_refl _, by omega, hid, fun j h1 h2 => absurd h2 (by omega)⟩
    · rename_i hid
      rw [if_neg hid] at h
      obtain ⟨h1, h2, h3, h4⟩ := ih (i + 1) h
      refine ⟨by omega, by omega, h3, ?_⟩
      intro j hj1 hj2
      by_cases hji : j = i
      · rw [hji]
        exact hid
      · exact h4 j (by omega) hj2

theorem live_count_ge (groups : Nat → gaspi_group_ctx_t) (k : Nat) (hk : k ≤ GASPI_MAX_GROUPS)
    (h : ∀ j, j < k → (groups j).id ≠ -1) : k ≤ live_count groups := by
  unfold live_count
  have hsub : (List.range k).Sublist (List.range GASPI_MAX_GROUPS) := List.range_sublist.2 hk
  have hf := hsub.filter (fun i => decide ((groups i).id ≠ -1))
  have hall : (List.range k).filter (fun i => decide ((groups i).id ≠ -1)) = List.range k := by
    rw [List.filter_eq_self]
    intro a ha
    rw [decide_eq_true_eq]
    exact h a (List.mem_range.1 ha)
  rw [hall] at hf
  have := hf.length_le
  rw [List.length_range] at this
  exact this

/-- What a successful `pgaspi_group_create` leaves: the new id is the first free slot, the
group count is one more, and the slot holds an empty group whose array has one entry
`-1` for each rank. -/
theorem group_create_success {E : CreateEnv} {s0 s1 : Glb} {g : Nat}
    (h : pgaspi_group_create E s0 = (GASPI_SUCCESS, some g, s1)) :
    g = find_free_slot s0.groups 0 GASPI_MAX_GROUPS ∧ g ≠ GASPI_MAX_GROUPS ∧
      s1.gctx.group_cnt = s0.gctx.group_cnt + 1 ∧ s1.gctx.tnc = s0.gctx.tnc ∧
      (s1.groups g).tnc = 0 ∧ (s1.groups g).rank_grp = List.replicate s0.gctx.tnc (-1) ∧
      (s1.groups g).id = (g : Int) := by
  unfold pgaspi_group_create at h
  simp only at h
  split at h
  · simp at h
  split at h
  · simp at h
  rename_i hid
  split at h
  · simp at h
  split at h
  · simp at h
  split at h
  · simp at h
  split at h
  · simp at h
  split at h
  · simp at h
  split at h
  · simp at h
  simp only [Prod.mk.injEq, Option.some.injEq, true_and] at h
  obtain ⟨h1, h2⟩ := h
  subst h2
  rw [← h1]
  simp only [upd_same, GASPI_RESET_GROUP, and_self, and_true]
  exact ⟨trivial, hid⟩

theorem group_adds_spec (cap g : Nat) :
    ∀ (ranks : List Nat) (s : Glb), AddInv cap (s.groups g) →
      (members (s.groups g)).length = (s.groups g).tnc → (∀ r ∈ ranks, r < cap) →
      (group_adds g ranks s).2.gctx = s.gctx ∧
      AddInv cap ((group_adds g ranks s).2.groups g) ∧
      (members ((group_adds g ranks s).2.groups g)).Perm
        (members (s.groups g) ++ (added ranks (group_adds g ranks s).1).map Int.ofNat) ∧
      (members ((group_adds g ranks s).2.groups g)).length = ((group_adds g ranks s).2.groups g).tnc := by
  intro ranks
  induction ranks with
  | nil =>
    intro s hi hl _
    simp only [group_adds, added, List.map_nil, List.append_nil, true_and]
    exact ⟨hi, List.Perm.refl _, hl⟩
  | cons r rs ih =>
    intro s hi hl hr
    have hrc : r < cap := hr r (List.mem_cons_self _ _)
    have hrs : ∀ x ∈ rs, x < cap := fun x hx => hr x (List.mem_cons_of_mem _ hx)
    obtain ⟨hmem, hnew⟩ := group_add_spec s g r hi hrc
    by_cases hm : (r : Int) ∈ members (s.groups g)
    · have he := hmem hm
      simp only [group_adds, added, he]
      rw [if_neg (by decide)]
      exact ih s hi hl hrs
    · obtain ⟨h1, h2, h3, h4, h5⟩ := hnew hm
      have hl2 : (members ((pgaspi_group_add s g r).2.groups g)).length
          = ((pgaspi_group_add s g r).2.groups g).tnc := by
        rw [h4, qsort_length, List.length_append, hl, h3]
        rfl
      obtain ⟨i1, i2, i3, i4⟩ := ih (pgaspi_group_add s g r).2 h5 hl2 hrs
      simp only [group_adds, added, h1]
      rw [if_pos trivial]
      refine ⟨i1.trans h2, i2, ?_, i4⟩
      refine i3.trans ?_
      rw [h4, List.map_cons]
      have hp : (qsort (members (s.groups g) ++ [(r : Int)])).Perm (members (s.groups g) ++ [(r : Int)]) :=
        List.perm_insertionSort _ _
      refine (hp.append_right _).trans ?_
      rw [List.append_assoc]
      rfl

/-- C9. `pgaspi_group_add` returns `GASPI_ERR_INV_RANK` exactly when the rank is
already among the members of the group, and then nothing changes (the whole state, so
the member list and the size); otherwise it returns `GASPI_SUCCESS` and the size grows
by one. For a well-formed group, whose array has an entry for each rank and whose
members are ascending ranks, the new member list is the old one with the rank inserted
at its place, and the group stays well formed. -/
theorem group_add_result (s : Glb) (g rank : Nat) :
    ((pgaspi_group_add s g rank).1 = GASPI_ERR_INV_RANK ↔ (rank : Int) ∈ members (s.groups g)) ∧
    ((rank : Int) ∈ members (s.groups g) →
      (pgaspi_group_add s g rank).2 = s ∧
      pgaspi_group_ranks (pgaspi_group_add s g rank).2 g = pgaspi_group_ranks s g ∧
      pgaspi_group_size (pgaspi_group_add s g rank).2 g = pgaspi_group_size s g) ∧
    ((rank : Int) ∉ members (s.groups g) →
      (pgaspi_group_add s g rank).1 = GASPI_SUCCESS ∧
      ((pgaspi_group_add s g rank).2.groups g).tnc = (s.groups g).tnc + 1 ∧
      ((g : Int) < s.gctx.group_cnt →
        pgaspi_group_size (pgaspi_group_add s g rank).2 g
          = (GASPI_SUCCESS, some ((s.groups g).tnc + 1)))) ∧
    (∀ cap, AddInv cap (s.groups g) → rank < cap → (rank : Int) ∉ members (s.groups g) →
      members ((pgaspi_group_add s g rank).2.groups g)
        = qsort (members (s.groups g) ++ [(rank : Int)]) ∧
      AddInv cap ((pgaspi_group_add s g rank).2.groups g)) := by
  have hany : ((rank : Int) ∈ members (s.groups g)) ↔
      (((s.groups g).rank_grp.take (s.groups g).tnc).any fun y => decide (y = (rank : Int))) = true :=
    (any_eq_iff_mem _ _).symm
  have hmem : (rank : Int) ∈ members (s.groups g) →
      pgaspi_group_add s g rank = (GASPI_ERR_INV_RANK, s) := by
    intro hm
    unfold pgaspi_group_add
    rw [if_pos (hany.1 hm)]
  have hnew : (rank : Int) ∉ members (s.groups g) →
      (pgaspi_group_add s g rank).1 = GASPI_SUCCESS ∧
      (pgaspi_group_add s g rank).2.gctx = s.gctx ∧
      ((pgaspi_group_add s g rank).2.groups g).tnc = (s.groups g).tnc + 1 := by
    intro hm
    unfold pgaspi_group_add
    rw [if_neg (fun h => hm (hany.2 h))]
    simp only [upd_same, and_self]
  refine ⟨⟨?_, ?_⟩, ?_, ?_, ?_⟩
  · intro h
    by_contra hm
    rw [(hnew hm).1] at h
    exact absurd h (by decide)
  · intro hm
    rw [hmem hm]
  · intro hm
    rw [hmem hm]
    exact ⟨rfl, rfl, rfl⟩
  · intro hm
    obtain ⟨h1, h2, h3⟩ := hnew hm
    refine ⟨h1, h3, ?_⟩
    intro hg
    unfold pgaspi_group_size
    rw [h2, if_pos hg, h3]
  · intro cap hi hr hm
    obtain ⟨_, _, _, h4, h5⟩ := (group_add_spec s g rank hi hr).2 hm
    exact ⟨h4, h5⟩

theorem group_add_result_witness :
    (AddInv 4 (fresh_group.groups 0) ∧ 2 < 4 ∧ ((2 : Nat) : Int) ∉ members (fresh_group.groups 0)) ∧
      members ((pgaspi_group_add fresh_group 0 2).2.groups 0)
        = qsort (members (fresh_group.groups 0) ++ [((2 : Nat) : Int)]) ∧
      AddInv 4 ((pgaspi_group_add fresh_group 0 2).2.groups 0) :=
  have hi : AddInv 4 (fresh_group.groups 0) :=
    ⟨rfl, List.sorted_nil, fun x hx => absurd hx (List.not_mem_nil x)⟩
  have hm : ((2 : Nat) : Int) ∉ members (fresh_group.groups 0) := List.not_mem_nil _
  ⟨⟨hi, by decide, hm⟩, (group_add_result fresh_group 0 2).2.2.2 4 hi (by decide) hm⟩

/-- C8. On a group just created by `pgaspi_group_create` (in a state whose group count
is the number of slots in use), after any sequence of `pgaspi_group_add` calls with
ranks below `tnc`, `pgaspi_group_ranks` returns `GASPI_SUCCESS` and a list in strictly
ascending order, without duplicates, that holds exactly the ranks whose add returned
`GASPI_SUCCESS` (each once); `pgaspi_group_size` returns its length, which is at most
`tnc`. -/
theorem group_ranks_after_adds (E : CreateEnv) (s0 s1 : Glb) (g : Nat) (ranks : List Nat)
    (hc : s0.gctx.group_cnt = (live_count s0.groups : Int))
    (h : pgaspi_group_create E s0 = (GASPI_SUCCESS, some g, s1))
    (hr : ∀ r ∈ ranks, r < s0.gctx.tnc) :
    ∃ l, pgaspi_group_ranks (group_adds g ranks s1).2 g = (GASPI_SUCCESS, l) ∧
      l.Sorted (· < ·) ∧ l.Nodup ∧
      l.Perm ((added ranks (group_adds g ranks s1).1).map Int.ofNat) ∧
      (∀ r : Nat, (r : Int) ∈ l ↔ r ∈ added ranks (group_adds g ranks s1).1) ∧
      pgaspi_group_size (group_adds g ranks s1).2 g = (GASPI_SUCCESS, some l.length) ∧
      l.length ≤ (group_adds g ranks s1).2.gctx.tnc := by
  obtain ⟨h1, h2, h3, h4, h5, h6, _⟩ := group_create_success h
  have hslot := find_free_slot_spec s0.groups GASPI_MAX_GROUPS 0 (h1 ▸ h2)
  rw [← h1] at hslot
  obtain ⟨_, hlt, _, hlive⟩ := hslot
  have hgl : g ≤ live_count s0.groups :=
    live_count_ge s0.groups g (by omega) (fun j hj => hlive j (Nat.zero_le _) hj)
  have hi : AddInv s0.gctx.tnc (s1.groups g) := by
    refine ⟨?_, ?_, ?_⟩
    · rw [h6, List.length_replicate]
    · unfold members
      rw [h5, List.take_zero]
      exact List.sorted_nil
    · unfold members
      rw [h5, List.take_zero]
      intro x hx
      exact absurd hx (List.not_mem_nil x)
  have hl : (members (s1.groups g)).length = (s1.groups g).tnc := by
    unfold members
    rw [h5, List.take_zero]
    rfl
  have hm0 : members (s1.groups g) = [] := by
    unfold members
    rw [h5, List.take_zero]
  obtain ⟨a1, a2, a3, a4⟩ := group_adds_spec s0.gctx.tnc g ranks s1 hi hl hr
  rw [hm0, List.nil_append] at a3
  have hcnt : (g : Int) < (group_adds g ranks s1).2.gctx.group_cnt := by
    rw [a1, h3, hc]
    omega
  refine ⟨members ((group_adds g ranks s1).2.groups g), ?_, a2.2.1, a2.2.1.nodup, a3, ?_, ?_, ?_⟩
  · unfold pgaspi_group_ranks
    rw [if_pos hcnt]
    rfl
  · intro r
    rw [a3.mem_iff, List.mem_map]
    constructor
    · rintro ⟨x, hx, he⟩
      have : x = r := Int.ofNat_inj.1 he
      exact this ▸ hx
    · intro hx
      exact ⟨r, hx, rfl⟩
  · unfold pgaspi_group_size
    rw [if_pos hcnt, a4]
  · rw [a1, h4]
    exact nodup_bounded_length _ a2.2.1.nodup a2.2.2

theorem group_ranks_after_adds_witness :
    ((boot 4 0).gctx.group_cnt = (live_count (boot 4 0).groups : Int) ∧
      pgaspi_group_create create_env_ok (boot 4 0) = (GASPI_SUCCESS, some 0, fresh_group) ∧
      ∀ r ∈ [2, 0, 2, 3], r < (boot 4 0).gctx.tnc) ∧
    ∃ l, pgaspi_group_ranks (group_adds 0 [2, 0, 2, 3] fresh_group).2 0 = (GASPI_SUCCESS, l) ∧
      l.Sorted (· < ·) ∧ l.Nodup ∧
      l.Perm ((added [2, 0, 2, 3] (group_adds 0 [2, 0, 2, 3] fresh_group).1).map Int.ofNat) ∧
      (∀ r : Nat, (r : Int) ∈ l ↔ r ∈ added [2, 0, 2, 3] (group_adds 0 [2, 0, 2, 3] fresh_group).1) ∧
      pgaspi_group_size (group_adds 0 [2, 0, 2, 3] fresh_group).2 0 = (GASPI_SUCCESS, some l.length) ∧
      l.length ≤ (group_adds 0 [2, 0, 2, 3] fresh_group).2.gctx.tnc :=
  ⟨⟨by decide, rfl, by decide⟩,
    group_ranks_after_adds create_env_ok (boot 4 0) fresh_group 0 [2, 0, 2, 3]
      (by decide) rfl (by decide)⟩

theorem pof2_loop_spec (T m : Nat) (hm1 : 2 ^ m ≤ T) (hm2 : T < 2 ^ (m + 1)) (hm : m < 30) :
    ∀ (d k n : Nat), k + d = m + 1 → d < n → pof2_loop T (2 ^ k) n = some (2 ^ (m + 1)) := by
  intro d
  induction d with
  | zero =>
    intro k n hk hn
    obtain ⟨n, rfl⟩ : ∃ n1, n = n1 + 1 := ⟨n - 1, by omega⟩
    have hk1 : k = m + 1 := by omega
    subst hk1
    unfold pof2_loop
    rw [if_neg (by omega)]
  | succ d ih =>
    intro k n hk hn
    obtain ⟨n, rfl⟩ : ∃ n1, n = n1 + 1 := ⟨n - 1, by omega⟩
    have hle : 2 ^ k ≤ 2 ^ m := Nat.pow_le_pow_right (by decide) (by omega)
    have hsh : 2 ^ k <<< 1 = 2 ^ (k + 1) := by
      rw [Nat.shiftLeft_eq, pow_one, pow_succ]
    have hlt : 2 ^ (k + 1) < 2 ^ 31 := Nat.pow_lt_pow_right (by decide) (by omega)
    unfold pof2_loop
    rw [if_pos (le_trans hle hm1), hsh, if_pos hlt]
    exact ih (k + 1) n (by omega) (by omega)

theorem clz_loop_two_pow (e : Nat) : ∀ k, e < k → clz_loop (2 ^ e) k = k - 1 - e := by
  intro k
  induction k with
  | zero => intro h; omega
  | succ k ih =>
    intro h
    unfold clz_loop
    by_cases hek : e = k
    · subst hek
      rw [Nat.testBit_two_pow_self, if_pos rfl]
      omega
    · rw [Nat.testBit_two_pow_of_ne hek, if_neg (by decide), ih (by omega)]
      omega

theorem xor_31 : ∀ e, e < 32 → (31 - e) ^^^ 31 = e := by decide

theorem two_pow_unique {T m k : Nat} (hm1 : 2 ^ m ≤ T) (hm2 : T < 2 ^ (m + 1))
    (hk1 : 2 ^ k ≤ T) (hk2 : T < 2 * 2 ^ k) : k = m := by
  have h1 : 2 ^ k < 2 ^ (m + 1) := lt_of_le_of_lt hk1 hm2
  have h2 : 2 ^ m < 2 ^ (k + 1) := by
    rw [pow_succ, Nat.mul_comm]
    exact lt_of_le_of_lt hm1 hk2
  have h3 := (Nat.pow_lt_pow_iff_right (by decide : 1 < 2)).1 h1
  have h4 := (Nat.pow_lt_pow_iff_right (by decide : 1 < 2)).1 h2
  omega

/-- The shared computation of `next_pof2` and `pof2_exp` ends, for sizes from 1 to below
`2^30`, and changes nothing else. -/
theorem set_pof2_spec (c : gaspi_group_ctx_t) (h1 : 1 ≤ c.tnc) (h2 : c.tnc < 2 ^ 30) :
    set_pof2 c = some { c with next_pof2 := 2 ^ Nat.log2 c.tnc, pof2_exp := Nat.log2 c.tnc } ∧
      Pof2 { c with next_pof2 := 2 ^ Nat.log2 c.tnc, pof2_exp := Nat.log2 c.tnc } c.tnc := by
  have hm1 : 2 ^ Nat.log2 c.tnc ≤ c.tnc := Nat.log2_self_le (by omega)
  have hm2 : c.tnc < 2 ^ (Nat.log2 c.tnc + 1) := Nat.lt_log2_self
  have hm : Nat.log2 c.tnc < 30 :=
    (Nat.pow_lt_pow_iff_right (by decide : 1 < 2)).1 (lt_of_le_of_lt hm1 h2)
  have hloop : pof2_loop c.tnc 1 32 = some (2 ^ (Nat.log2 c.tnc + 1)) :=
    pof2_loop_spec c.tnc (Nat.log2 c.tnc) hm1 hm2 hm (Nat.log2 c.tnc + 1) 0 32 (by omega) (by omega)
  have hq : 2 ^ (Nat.log2 c.tnc + 1) >>> 1 = 2 ^ Nat.log2 c.tnc := by
    rw [Nat.shiftRight_eq_div_pow, pow_succ, pow_one, Nat.mul_div_cancel _ (by decide)]
  have hclz : __builtin_clz (2 ^ Nat.log2 c.tnc) ^^^ 31 = Nat.log2 c.tnc := by
    unfold __builtin_clz
    rw [clz_loop_two_pow _ 32 (by omega)]
    exact xor_31 _ (by omega)
  constructor
  · unfold set_pof2
    rw [hloop]
    simp only [hq, hclz]
  · refine ⟨rfl, hm1, ?_, rfl, ?_⟩
    · rw [pow_succ, Nat.mul_comm] at hm2
      exact hm2
    · intro k hk1 hk2
      have := two_pow_unique hm1 hm2 hk1 hk2
      subst this
      exact ⟨rfl, rfl⟩

theorem commit_loop_fields (E : CommitEnv) (gctx : gaspi_context_t) :
    ∀ (rs : List Nat) (c : gaspi_group_ctx_t),
      (commit_loop E gctx rs c).2.tnc = c.tnc ∧
      (commit_loop E gctx rs c).2.next_pof2 = c.next_pof2 ∧
      (commit_loop E gctx rs c).2.pof2_exp = c.pof2_exp := by
  intro rs
  induction rs with
  | nil => intro c; exact ⟨rfl, rfl, rfl⟩
  | cons r rs ih =>
    intro c
    unfold commit_loop
    simp only
    split
    · exact ih c
    · split
      · exact ⟨rfl, rfl, rfl⟩
      · have hto : ∀ i, (_pgaspi_group_commit_to E.grp_connect c i).2.tnc = c.tnc ∧
            (_pgaspi_group_commit_to E.grp_connect c i).2.next_pof2 = c.next_pof2 ∧
            (_pgaspi_group_commit_to E.grp_connect c i).2.pof2_exp = c.pof2_exp := by
          intro i
          unfold _pgaspi_group_commit_to
          split
          · exact ⟨rfl, rfl, rfl⟩
          · exact ⟨rfl, rfl, rfl⟩
        split
        · exact hto _
        · obtain ⟨a1, a2, a3⟩ := ih (_pgaspi_group_commit_to E.grp_connect c (c.rank_grp.getD ((c.rank.toNat + r) % c.tnc) (-1)).toNat).2
          obtain ⟨b1, b2, b3⟩ := hto (c.rank_grp.getD ((c.rank.toNat + r) % c.tnc) (-1)).toNat
          exact ⟨a1.trans b1, a2.trans b2, a3.trans b3⟩

theorem pof2_congr {c d : gaspi_group_ctx_t} {T : Nat} (h : Pof2 c T) (h1 : d.tnc = c.tnc)
    (h2 : d.next_pof2 = c.next_pof2) (h3 : d.pof2_exp = c.pof2_exp) : Pof2 d T := by
  unfold Pof2 at h ⊢
  rw [h1, h2, h3]
  exact h

theorem set_pof2_ne_none (c : gaspi_group_ctx_t) (h1 : 1 ≤ c.tnc) (h2 : c.tnc < 2 ^ 30) :
    set_pof2 c ≠ none := by
  rw [(set_pof2_spec c h1 h2).1]
  exact Option.some_ne_none _

theorem set_pof2_some {c c2 : gaspi_group_ctx_t} (h : set_pof2 c = some c2) (h1 : 1 ≤ c.tnc)
    (h2 : c.tnc < 2 ^ 30) : Pof2 c2 c.tnc := by
  rw [(set_pof2_spec c h1 h2).1] at h
  injection h with h
  rw [← h]
  exact (set_pof2_spec c h1 h2).2

/-- C10. For every group size `T` with `1 ≤ T < 2^30`: `pgaspi_group_commit`, once it
holds the lock and has found the calling rank among the `T` members, returns and leaves
in the group `next_pof2` equal to the only power of two with
`next_pof2 ≤ T < 2 * next_pof2` and `pof2_exp` equal to its exponent, whatever the
connections to the peers return; and `pgaspi_group_all_local_create`, when the group it
creates is `GASPI_GROUP_ALL`, returns `GASPI_SUCCESS` with the same two fields for
`T = tnc`. -/
theorem pof2_after_commit (T : Nat) (h1 : 1 ≤ T) (h2 : T < 2 ^ 30) :
    (∀ (E : CommitEnv) (s : Glb) (g : Nat), E.lock_ok = true → (s.groups g).tnc = T →
      (2 ≤ T ∨ s.gctx.tnc = 1) →
      find_rank (s.groups g).rank_grp s.gctx.rank 0 T ≠ -1 →
      ∃ r s1, pgaspi_group_commit E s g = some (r, s1) ∧ Pof2 (s1.groups g) T) ∧
    (∀ (E : CreateEnv) (s s1 : Glb), s.gctx.tnc = T →
      pgaspi_group_create E s = (GASPI_SUCCESS, some GASPI_GROUP_ALL, s1) →
      ∃ s2, pgaspi_group_all_local_create E true s = some (GASPI_SUCCESS, s2) ∧
        Pof2 (s2.groups GASPI_GROUP_ALL) T) := by
  constructor
  · intro E s g hl ht hsz hf
    subst ht
    unfold pgaspi_group_commit
    simp only
    rw [if_neg (by rw [hl]; decide), if_neg (by omega), if_neg hf]
    split
    · rename_i hnone
      exact absurd hnone (set_pof2_ne_none _ h1 h2)
    · rename_i c2 hsome
      have hp := set_pof2_some hsome h1 h2
      refine ⟨_, _, rfl, ?_⟩
      simp only [upd_same]
      obtain ⟨f1, f2, f3⟩ := commit_loop_fields E s.gctx (List.range' 1 c2.tnc) c2
      exact pof2_congr hp f1 f2 f3
  · intro E s s1 ht hc
    obtain ⟨_, _, _, h4, _⟩ := group_create_success hc
    have ht1 : s1.gctx.tnc = T := h4.trans ht
    subst ht1
    unfold pgaspi_group_all_local_create
    rw [hc]
    simp only
    rw [if_neg (by simp), if_neg (by decide)]
    split
    · rename_i hnone
      exact absurd hnone (set_pof2_ne_none _ h1 h2)
    · rename_i c2 hsome
      have hp := set_pof2_some hsome h1 h2
      refine ⟨_, rfl, ?_⟩
      simp only [upd_same]
      exact hp

theorem pof2_after_commit_witness :
    (1 ≤ 6 ∧ 6 < 2 ^ 30 ∧ (boot 6 0).gctx.tnc = 6 ∧
      pgaspi_group_create create_env_ok (boot 6 0)
        = (GASPI_SUCCESS, some GASPI_GROUP_ALL, (pgaspi_group_create create_env_ok (boot 6 0)).2.2)) ∧
    ∃ s2, pgaspi_group_all_local_create create_env_ok true (boot 6 0) = some (GASPI_SUCCESS, s2) ∧
      Pof2 (s2.groups GASPI_GROUP_ALL) 6 :=
  ⟨⟨by decide, by decide, rfl, rfl⟩,
    (pof2_after_commit 6 (by decide) (by decide)).2 create_env_ok (boot 6 0) _ rfl rfl⟩

/-- The third phase on an even member below `2 * rest`: the slot polled is the one of the
member itself, `TOGGLE_SIZE * rank + togle`; unless that slot holds `barrier_cnt` the
phase returns `GASPI_TIMEOUT` and the state stays as it is. -/
theorem allreduce_L3_even_polls_own_slot (K : Cfg) (E : Env) (r_args : redux_args) (p : Proc) (l : Loc)
    (h1 : p.grp.rank.toNat < 2 * (p.grp.tnc - p.grp.next_pof2)) (h2 : p.grp.rank.toNat % 2 = 0)
    (h3 : E.poll (TOGGLE_SIZE * p.grp.rank.toNat + p.grp.togle) ≠ p.grp.barrier_cnt) :
    allreduce_L3 K E r_args p l = LoopEnd.returned GASPI_TIMEOUT p := by
  unfold allreduce_L3
  simp only
  rw [if_pos h1, if_neg (by rw [h2]; decide)]
  have hw : _gaspi_sync_wait E (GPI2_GRP_SYNC_POLL_ADDR p.grp p.grp.rank.toNat) p.grp.barrier_cnt
      = GASPI_TIMEOUT := by
    unfold _gaspi_sync_wait GPI2_GRP_SYNC_POLL_ADDR
    rw [if_neg h3]
  rw [hw, if_pos (by decide)]

set_option maxRecDepth 100000 in
/-- C1 (failing run). Six ranks call `pgaspi_allreduce` on `GASPI_GROUP_ALL` with SUM of
one 64-bit unsigned element, rank `r` sending `r`, every posted write being delivered.
After three rounds of calls the ranks 1, 3, 4 and 5 have returned `GASPI_SUCCESS` with
15 in the receive buffer, while the ranks 0 and 2 return `GASPI_TIMEOUT` with an
untouched receive buffer, and still do after six rounds: they wait at level 3 on their
own sync slot (`2 * rank + togle`), which holds 0, while the token 1 of their partner
lies in the slot of the partner (`2 * (rank + 1) + togle`). -/
theorem allreduce_six_even_ranks_time_out :
    (allreduce_six 3).map (fun m => (m.last, m.recv)) =
      [(some GASPI_TIMEOUT, [0, 0, 0, 0, 0, 0, 0, 0]), (some GASPI_SUCCESS, [15, 0, 0, 0, 0, 0, 0, 0]),
       (some GASPI_TIMEOUT, [0, 0, 0, 0, 0, 0, 0, 0]), (some GASPI_SUCCESS, [15, 0, 0, 0, 0, 0, 0, 0]),
       (some GASPI_SUCCESS, [15, 0, 0, 0, 0, 0, 0, 0]), (some GASPI_SUCCESS, [15, 0, 0, 0, 0, 0, 0, 0])] ∧
    (allreduce_six 6).map (fun m => (m.last, m.recv)) =
      (allreduce_six 3).map (fun m => (m.last, m.recv)) ∧
    ((allreduce_six 6).take 3).map (fun m =>
        (m.proc.grp.level, m.proc.grp.barrier_cnt, m.proc.grp.togle,
          m.proc.grp.buf (2 * m.proc.grp.rank.toNat + m.proc.grp.togle),
          m.proc.grp.buf (2 * (m.proc.grp.rank.toNat + 1) + m.proc.grp.togle))) =
      [(3, 1, 0, 0, 1), (0, 1, 1, 0, 0), (3, 1, 0, 0, 1)] := by
  decide

theorem frameW_refl (c : gaspi_group_ctx_t) : FrameW c c := ⟨c.committed_rank, c.buf, c.dsize, rfl⟩

theorem frameW_trans {c d e : gaspi_group_ctx_t} (h1 : FrameW c d) (h2 : FrameW d e) : FrameW c e := by
  obtain ⟨cr1, b1, d1, rfl⟩ := h1
  obtain ⟨cr2, b2, d2, rfl⟩ := h2
  exact ⟨cr2, b2, d2, rfl⟩

theorem postFrame_frameW {c d : gaspi_group_ctx_t} (h : PostFrame c d) : FrameW c d := by
  obtain ⟨cr, rfl⟩ := h
  exact ⟨cr, c.buf, c.dsize, rfl⟩

/-- A step commutes with the override of the checkpoint fields. -/
theorem andThen_ovr {a b c : Option Nat} {r r2 : gaspi_return_t × Proc}
    {f : Proc → gaspi_return_t × Proc}
    (hr : r2 = (r.1, ovr a b c r.2))
    (hf : ∀ p, f (ovr a b c p) = ((f p).1, ovr a b c (f p).2)) :
    andThen r2 f = ((andThen r f).1, ovr a b c (andThen r f).2) := by
  subst hr
  unfold andThen
  by_cases h : r.1 ≠ GASPI_SUCCESS
  · rw [if_pos h, if_pos h]
  · rw [if_neg h, if_neg h]
    exact hf _

theorem connect_if_needed_ovr (E : Env) (a b c : Option Nat) (p : Proc) (dst : Nat) :
    connect_if_needed E (ovr a b c p) dst
      = ((connect_if_needed E p dst).1, ovr a b c (connect_if_needed E p dst).2) := by
  unfold connect_if_needed pgaspi_connect
  show (if (!p.gctx.ep_conn dst) = true then _ else _) = _
  split <;> [split <;> rfl; rfl]

theorem commit_if_needed_ovr (E : Env) (a b c : Option Nat) (p : Proc) (dst : Nat) :
    commit_if_needed E (ovr a b c p) dst
      = ((commit_if_needed E p dst).1, ovr a b c (commit_if_needed E p dst).2) := by
  unfold commit_if_needed _pgaspi_group_commit_to
  show (if p.grp.committed_rank.getD dst 0 = 0 then _ else _) = _
  split <;> [split <;> rfl; rfl]

theorem post_group_write_ovr (E : Env) (a b c : Option Nat) (p : Proc) (la n dst rem : Nat) :
    pgaspi_dev_post_group_write E (ovr a b c p) la n dst rem
      = ((pgaspi_dev_post_group_write E p la n dst rem).1,
          ovr a b c (pgaspi_dev_post_group_write E p la n dst rem).2) := by
  unfold pgaspi_dev_post_group_write
  simp only [ovr]
  split <;> rfl

theorem post_or_corrupt_ovr (E : Env) (a b c : Option Nat) (p : Proc) (la n dst rem : Nat) :
    post_or_corrupt E (ovr a b c p) la n dst rem
      = ((post_or_corrupt E p la n dst rem).1, ovr a b c (post_or_corrupt E p la n dst rem).2) := by
  unfold post_or_corrupt
  rw [post_group_write_ovr]
  simp only
  split <;> rfl

theorem write_and_sync_ovr (K : Cfg) (E : Env) (a b c : Option Nat) (p : Proc) (sp sz dst bid : Nat) :
    _gaspi_allreduce_write_and_sync K E (ovr a b c p) sp sz dst bid
      = ((_gaspi_allreduce_write_and_sync K E p sp sz dst bid).1,
          ovr a b c (_gaspi_allreduce_write_and_sync K E p sp sz dst bid).2) := by
  unfold _gaspi_allreduce_write_and_sync
  refine andThen_ovr (connect_if_needed_ovr E a b c p dst) ?_
  intro p1
  refine andThen_ovr (commit_if_needed_ovr E a b c p1 dst) ?_
  intro p2
  refine andThen_ovr (post_or_corrupt_ovr E a b c p2 _ _ _ _) ?_
  intro p3
  exact post_or_corrupt_ovr E a b c (set_sync_flag p3) _ _ _ _

theorem apply_redux_ovr (K : Cfg) (a b c : Option Nat) (p : Proc) (sp rp bid : Nat) (ra : redux_args) :
    _gaspi_apply_redux K (ovr a b c p) sp rp bid ra
      = ((_gaspi_apply_redux K p sp rp bid ra).1, (_gaspi_apply_redux K p sp rp bid ra).2.1,
          ovr a b c (_gaspi_apply_redux K p sp rp bid ra).2.2) := rfl

theorem observe_ovr (a b c : Option Nat) (p : Proc) (addr : Nat) :
    observe (ovr a b c p) addr = ovr a b c (observe p addr) := rfl

theorem set_corrupt_ovr (a b c : Option Nat) (p : Proc) (dst : Nat) :
    set_corrupt (ovr a b c p) dst = ovr a b c (set_corrupt p dst) := rfl

theorem syncOk_refl (p : Proc) : SyncOk p p := ⟨p.grp.committed_rank, p.grp.buf, rfl, fun _ _ => rfl⟩

theorem syncOk_trans {p q r : Proc} (h1 : SyncOk p q) (h2 : SyncOk q r) : SyncOk p r := by
  obtain ⟨cr1, b1, e1, f1⟩ := h1
  obtain ⟨cr2, b2, e2, f2⟩ := h2
  refine ⟨cr2, b2, ?_, ?_⟩
  · rw [e2, e1]
  · intro x hx
    rw [f2 x (by rw [e1]; exact hx), e1]
    exact f1 x hx

theorem stepOk_syncOk {p q : Proc} (h : StepOk p q) : SyncOk p q := by
  obtain ⟨⟨cr, e⟩, _, _⟩ := h
  exact ⟨cr, p.grp.buf, by rw [e], fun _ _ => rfl⟩

theorem set_sync_flag_syncOk (p : Proc) : SyncOk p (set_sync_flag p) := by
  refine ⟨p.grp.committed_rank, _, rfl, ?_⟩
  intro x hx
  unfold upd
  rw [if_neg hx]

theorem andThen_syncOk {p : Proc} {r : gaspi_return_t × Proc} {f : Proc → gaspi_return_t × Proc}
    (h1 : SyncOk p r.2) (h2 : ∀ q, SyncOk q (f q).2) : SyncOk p (andThen r f).2 := by
  unfold andThen
  split
  · exact h1
  · exact syncOk_trans h1 (h2 _)

theorem write_and_sync_syncOk (K : Cfg) (E : Env) (p : Proc) (sp sz dst bid : Nat) :
    SyncOk p (_gaspi_allreduce_write_and_sync K E p sp sz dst bid).2 := by
  unfold _gaspi_allreduce_write_and_sync
  exact andThen_syncOk (stepOk_syncOk (connect_if_needed_ok E p dst)) fun q =>
    andThen_syncOk (stepOk_syncOk (commit_if_needed_ok E q dst)) fun q2 =>
      andThen_syncOk (stepOk_syncOk (post_or_corrupt_ok E q2 _ _ _ _)) fun q3 =>
        syncOk_trans (set_sync_flag_syncOk q3) (stepOk_syncOk (post_or_corrupt_ok E _ _ _ _ _))

theorem syncOk_frameW {p q : Proc} (h : SyncOk p q) : FrameW p.grp q.grp := by
  obtain ⟨cr, b, e, _⟩ := h
  exact ⟨cr, b, p.grp.dsize, by rw [e]⟩

theorem syncOk_stage {K : Cfg} {t dsz : Nat} {data : List Nat} {p q : Proc} {l : Loc}
    (h : SyncOk p q) (hs : Stage K t data dsz p l) : Stage K t data dsz q l := by
  obtain ⟨cr, b, e, f⟩ := h
  obtain ⟨s1, s2, s3, s4, s5, s6⟩ := hs
  unfold Stage
  rw [e]
  refine ⟨s1, ?_, s3, s4, s5, s6⟩
  intro i hi
  show b (send_base K p.grp + i) = _
  rw [f _ ?_]
  · exact s2 i hi
  · unfold send_base
    omega

theorem apply_redux_stage {K : Cfg} {t dsz : Nat} {data : List Nat} {p : Proc} {l : Loc}
    (ra : redux_args) (rp bid : Nat) (hd : dsz = redux_dsize ra)
    (hs : Stage K t data dsz p l) :
    Stage K t data dsz (_gaspi_apply_redux K p l.send_ptr rp bid ra).2.2
      { l with send_ptr := (_gaspi_apply_redux K p l.send_ptr rp bid ra).2.1, bid := l.bid + 1 } := by
  obtain ⟨s1, s2, s3, s4, s5, s6⟩ := hs
  subst hd
  refine ⟨s1, ?_, s3, s4, ?_, s6⟩
  · intro i hi
    show writeBytes p.grp.buf (l.send_ptr + redux_dsize ra) _ (send_base K p.grp + i) = _
    unfold writeBytes
    rw [if_neg ?_]
    · exact s2 i hi
    · rw [s5]
      intro h
      omega
  · show l.send_ptr + redux_dsize ra
      = send_base K p.grp + (p.grp.dsize + redux_dsize ra)
    rw [s5]
    omega

/-! ### The butterfly rounds under different answers of the polls -/

theorem L2_round_eq (K : Cfg) (E : Env) (ra : redux_args) (m : Nat) (j : Bool) (p : Proc) (l : Loc) :
    allreduce_L2_round K E ra m j p l
      = allreduce_L2_post K E ra m (allreduce_idst p.grp l.tmprank m)
          (p.grp.rank_grp.getD (allreduce_idst p.grp l.tmprank m) (-1)).toNat
          (allreduce_L2_pre K E ra m j p l) l := rfl

theorem L2_pre_with_poll (K : Cfg) (E : Env) (f : Nat → Nat) (b : Bool) (ra : redux_args) (m : Nat)
    (j : Bool) (p : Proc) (l : Loc) :
    allreduce_L2_pre K (with_poll E f b) ra m j p l = allreduce_L2_pre K E ra m j p l := rfl

theorem L2_pre_syncOk (K : Cfg) (E : Env) (ra : redux_args) (m : Nat) (j : Bool) (p : Proc) (l : Loc) :
    SyncOk p (allreduce_L2_pre K E ra m j p l).2 := by
  unfold allreduce_L2_pre
  split
  · exact syncOk_refl p
  · exact write_and_sync_syncOk K E p _ _ _ _

theorem idst_frame {c d : gaspi_group_ctx_t} (h : FrameW c d) (tr : Int) (m : Nat) :
    allreduce_idst d tr m = allreduce_idst c tr m := by
  obtain ⟨cr, b, ds, rfl⟩ := h
  rfl

theorem L2_pre_ovr (K : Cfg) (E : Env) (a b c : Option Nat) (ra : redux_args) (m : Nat) (j : Bool)
    (p : Proc) (l : Loc) :
    allreduce_L2_pre K E ra m j (ovr a b c p) l
      = ((allreduce_L2_pre K E ra m j p l).1, ovr a b c (allreduce_L2_pre K E ra m j p l).2) := by
  unfold allreduce_L2_pre
  split
  · rfl
  · exact write_and_sync_ovr K E a b c p _ _ _ _

theorem sync_wait_token (E : Env) (b : Bool) (t addr : Nat) :
    _gaspi_sync_wait (with_poll E (fun _ => t) b) addr t = GASPI_SUCCESS := by
  unfold _gaspi_sync_wait with_poll
  rw [if_pos rfl]

theorem sync_wait_passes (E : Env) (b : Bool) {t v : Nat} (addr : Nat) (hv : v = t) :
    ¬ _gaspi_sync_wait (with_poll E (fun _ => t) b) addr v ≠ GASPI_SUCCESS := by
  rw [hv, sync_wait_token]
  exact fun h => h rfl

theorem L2_post_fall {K : Cfg} {E : Env} {f : Nat → Nat} {b : Bool} {t : Nat} {ra : redux_args}
    {m idst dst : Nat} {w : gaspi_return_t × Proc} {l : Loc} {x : Proc × Loc}
    (h : allreduce_L2_post K (with_poll E f b) ra m idst dst w l = LoopEnd.fallthrough x)
    (hc : w.2.grp.barrier_cnt = t) :
    allreduce_L2_post K (with_poll E (fun _ => t) true) ra m idst dst w l = LoopEnd.fallthrough x ∧
      x = ((_gaspi_apply_redux K (observe w.2 (GPI2_GRP_SYNC_POLL_ADDR w.2.grp idst))
              l.send_ptr K.COLL_MEM_RECV l.bid ra).2.2,
            { l with send_ptr := (_gaspi_apply_redux K (observe w.2 (GPI2_GRP_SYNC_POLL_ADDR w.2.grp idst))
              l.send_ptr K.COLL_MEM_RECV l.bid ra).2.1, bid := l.bid + 1 }) := by
  unfold allreduce_L2_post at h ⊢
  split at h
  · exact absurd h (by simp)
  rename_i h1
  rw [if_neg h1]
  split at h
  · exact absurd h (by simp)
  rename_i h2
  rw [if_neg (sync_wait_passes E true _ hc)]
  simp only at h ⊢
  split at h
  · exact absurd h (by simp)
  rename_i h3
  rw [if_neg h3]
  injection h with h
  exact ⟨by rw [h], h.symm⟩

theorem L2_post_timeout {K : Cfg} {E : Env} {ra : redux_args}
    {m idst dst : Nat} {w : gaspi_return_t × Proc} {l : Loc} {q : Proc}
    (h : allreduce_L2_post K E ra m idst dst w l = LoopEnd.returned GASPI_TIMEOUT q) :
    w.1 = GASPI_SUCCESS ∧ q = ovr (some (m ||| 0x80000000)) (some l.bid) none w.2 := by
  unfold allreduce_L2_post at h
  split at h
  · injection h with h _
    exact absurd h (by decide)
  rename_i h1
  split at h
  · injection h with _ h
    exact ⟨not_not.1 h1, h.symm⟩
  simp only at h
  split at h
  · injection h with h _
    exact absurd h (by decide)
  · exact absurd h (by simp)

theorem L2_post_ovr (K : Cfg) (E : Env) (t : Nat) (a b c : Option Nat) (ra : redux_args)
    (m idst dst : Nat) (w : gaspi_return_t × Proc) (l : Loc) (hc : w.2.grp.barrier_cnt = t) :
    allreduce_L2_post K (with_poll E (fun _ => t) true) ra m idst dst (w.1, ovr a b c w.2) l
      = ovrEnd a b c (allreduce_L2_post K (with_poll E (fun _ => t) true) ra m idst dst w l) := by
  unfold allreduce_L2_post
  simp only
  by_cases h1 : w.1 ≠ GASPI_SUCCESS
  · rw [if_pos h1, if_pos h1]
    rfl
  · rw [if_neg h1, if_neg h1, if_neg (sync_wait_passes E true _ hc),
      if_neg (sync_wait_passes E true _ (show (ovr a b c w.2).grp.barrier_cnt = t from hc))]
    show (if (_gaspi_apply_redux K (observe w.2 (GPI2_GRP_SYNC_POLL_ADDR w.2.grp idst))
        l.send_ptr K.COLL_MEM_RECV l.bid ra).1 ≠ GASPI_SUCCESS then _ else _) = _
    split <;> rfl

theorem L2_post_fall_shape {K : Cfg} {E : Env} {ra : redux_args}
    {m idst dst : Nat} {w : gaspi_return_t × Proc} {l : Loc} {x : Proc × Loc}
    (h : allreduce_L2_post K E ra m idst dst w l = LoopEnd.fallthrough x) :
    x = ((_gaspi_apply_redux K (observe w.2 (GPI2_GRP_SYNC_POLL_ADDR w.2.grp idst))
              l.send_ptr K.COLL_MEM_RECV l.bid ra).2.2,
            { l with send_ptr := (_gaspi_apply_redux K (observe w.2 (GPI2_GRP_SYNC_POLL_ADDR w.2.grp idst))
              l.send_ptr K.COLL_MEM_RECV l.bid ra).2.1, bid := l.bid + 1 }) :=
  (L2_post_fall (E := E) (f := E.poll) (b := E.lock_ok) (t := w.2.grp.barrier_cnt) h rfl).2

theorem L2_post_code {K : Cfg} {E : Env} {ra : redux_args}
    {m idst dst : Nat} {w : gaspi_return_t × Proc} {l : Loc} {e : gaspi_return_t} {q : Proc}
    (h : allreduce_L2_post K E ra m idst dst w l = LoopEnd.returned e q) : e ≠ GASPI_SUCCESS := by
  unfold allreduce_L2_post at h
  split at h
  · injection h with h _
    rw [← h]
    decide
  split at h
  · injection h with h _
    rw [← h]
    decide
  simp only at h
  split at h
  · injection h with h _
    rw [← h]
    decide
  · exact absurd h (by simp)

/-- A butterfly round that runs to its end keeps the group context but for
`committed_rank`, the staging buffer and `dsize`, keeps `tmprank`, and keeps the
staging in step with `send_ptr`. -/
theorem L2_round_fall_inv {K : Cfg} {E : Env} {ra : redux_args} {m : Nat} {j : Bool} {p : Proc}
    {l : Loc} {x : Proc × Loc} (h : allreduce_L2_round K E ra m j p l = LoopEnd.fallthrough x) :
    FrameW p.grp x.1.grp ∧ x.2.tmprank = l.tmprank ∧
      ∀ t data dsz, dsz = redux_dsize ra → Stage K t data dsz p l → Stage K t data dsz x.1 x.2 := by
  rw [L2_round_eq] at h
  have hx := L2_post_fall_shape h
  have hw := L2_pre_syncOk K E ra m j p l
  rw [hx]
  refine ⟨?_, rfl, ?_⟩
  · refine frameW_trans (syncOk_frameW hw) ?_
    exact ⟨_, _, _, rfl⟩
  · intro t data dsz hd hs
    have h2 : Stage K t data dsz (observe (allreduce_L2_pre K E ra m j p l).2
        (GPI2_GRP_SYNC_POLL_ADDR (allreduce_L2_pre K E ra m j p l).2.grp (allreduce_idst p.grp l.tmprank m))) l :=
      syncOk_stage hw hs
    exact apply_redux_stage ra _ _ hd h2

theorem frameW_pof2 {c d : gaspi_group_ctx_t} (h : FrameW c d) : d.next_pof2 = c.next_pof2 := by
  obtain ⟨cr, b, ds, rfl⟩ := h
  rfl

theorem frameW_cnt {c d : gaspi_group_ctx_t} (h : FrameW c d) : d.barrier_cnt = c.barrier_cnt := by
  obtain ⟨cr, b, ds, rfl⟩ := h
  rfl

theorem frameW_level {c d : gaspi_group_ctx_t} (h : FrameW c d) : d.level = c.level := by
  obtain ⟨cr, b, ds, rfl⟩ := h
  rfl

theorem frameW_tmprank {c d : gaspi_group_ctx_t} (h : FrameW c d) : d.tmprank = c.tmprank := by
  obtain ⟨cr, b, ds, rfl⟩ := h
  rfl

theorem frameW_coll_op {c d : gaspi_group_ctx_t} (h : FrameW c d) : d.coll_op = c.coll_op := by
  obtain ⟨cr, b, ds, rfl⟩ := h
  rfl

theorem frameW_lastmask {c d : gaspi_group_ctx_t} (h : FrameW c d) : d.lastmask = c.lastmask := by
  obtain ⟨cr, b, ds, rfl⟩ := h
  rfl

theorem L2_loop_succ (K : Cfg) (E : Env) (ra : redux_args) (n m : Nat) (j : Bool) (p : Proc) (l : Loc) :
    allreduce_L2_loop K E ra (n + 1) m j p l =
      if m < p.grp.next_pof2 then
        match allreduce_L2_round K E ra m j p l with
        | LoopEnd.returned e q => some (LoopEnd.returned e q)
        | LoopEnd.fallthrough x => allreduce_L2_loop K E ra n (m <<< 1) false x.1 x.2
      else some (LoopEnd.fallthrough (p, l)) := rfl

theorem L2_loop_zero (K : Cfg) (E : Env) (ra : redux_args) (m : Nat) (j : Bool) (p : Proc) (l : Loc) :
    allreduce_L2_loop K E ra 0 m j p l =
      if m < p.grp.next_pof2 then none else some (LoopEnd.fallthrough (p, l)) := rfl

/-- With enough of it, the bound on the number of rounds does not matter. -/
theorem L2_loop_fuel (K : Cfg) (E : Env) (ra : redux_args) :
    ∀ (n n2 m : Nat) (j : Bool) (p : Proc) (l : Loc), 1 ≤ m → p.grp.next_pof2 ≤ n + m →
      p.grp.next_pof2 ≤ n2 + m →
      allreduce_L2_loop K E ra n m j p l = allreduce_L2_loop K E ra n2 m j p l := by
  intro n
  induction n with
  | zero =>
    intro n2 m j p l hm h1 h2
    cases n2 with
    | zero => rfl
    | succ n2 =>
      rw [L2_loop_zero, L2_loop_succ, if_neg (by omega), if_neg (by omega)]
  | succ n ih =>
    intro n2 m j p l hm h1 h2
    cases n2 with
    | zero =>
      rw [L2_loop_zero, L2_loop_succ, if_neg (by omega), if_neg (by omega)]
    | succ n2 =>
      rw [L2_loop_succ, L2_loop_succ]
      by_cases hlt : m < p.grp.next_pof2
      · rw [if_pos hlt, if_pos hlt]
        cases hr : allreduce_L2_round K E ra m j p l with
        | returned e q => rfl
        | fallthrough x =>
          simp only
          have hf := frameW_pof2 (L2_round_fall_inv hr).1
          rw [shl_one]
          exact ih n2 (2 * m) false x.1 x.2 (by omega) (by omega) (by omega)
      · rw [if_neg hlt, if_neg hlt]

theorem L2_round_ovr (K : Cfg) (E : Env) (t : Nat) (a b c : Option Nat) (ra : redux_args) (m : Nat)
    (j : Bool) (p : Proc) (l : Loc) (hc : p.grp.barrier_cnt = t) :
    allreduce_L2_round K (with_poll E (fun _ => t) true) ra m j (ovr a b c p) l
      = ovrEnd a b c (allreduce_L2_round K (with_poll E (fun _ => t) true) ra m j p l) := by
  rw [L2_round_eq, L2_round_eq, L2_pre_ovr]
  exact L2_post_ovr K E t a b c ra m _ _ _ l
    ((frameW_cnt (syncOk_frameW (L2_pre_syncOk K _ ra m j p l))).trans hc)

/-- The round that resumes after a timeout: it starts at the poll, from the state that the
write left, with other checkpoint fields. -/
theorem L2_round_resume (K : Cfg) (E : Env) (t : Nat) (a b c : Option Nat) (ra : redux_args) (m : Nat)
    (j : Bool) (p : Proc) (l : Loc) (hc : p.grp.barrier_cnt = t)
    (hw : (allreduce_L2_pre K E ra m j p l).1 = GASPI_SUCCESS) :
    allreduce_L2_round K (with_poll E (fun _ => t) true) ra m true
        (ovr a b c (allreduce_L2_pre K E ra m j p l).2) l
      = ovrEnd a b c (allreduce_L2_round K (with_poll E (fun _ => t) true) ra m j p l) := by
  have hf := syncOk_frameW (L2_pre_syncOk K E ra m j p l)
  rw [L2_round_eq, L2_round_eq, L2_pre_with_poll K E (fun _ => t) true ra m j p l,
    L2_pre_with_poll K E (fun _ => t) true ra m true]
  have e1 : allreduce_L2_pre K E ra m true
      (ovr a b c (allreduce_L2_pre K E ra m j p l).2) l
      = ((allreduce_L2_pre K E ra m j p l).1, ovr a b c (allreduce_L2_pre K E ra m j p l).2) := by
    rw [hw]
    rfl
  rw [e1]
  have e2 : allreduce_idst (ovr a b c (allreduce_L2_pre K E ra m j p l).2).grp l.tmprank m
      = allreduce_idst p.grp l.tmprank m := idst_frame hf l.tmprank m
  have e3 : (ovr a b c (allreduce_L2_pre K E ra m j p l).2).grp.rank_grp = p.grp.rank_grp := by
    obtain ⟨cr, bf, ds, e⟩ := hf
    show (allreduce_L2_pre K E ra m j p l).2.grp.rank_grp = _
    rw [e]
  rw [e2, e3]
  exact L2_post_ovr K E t a b c ra m _ _ _ l ((frameW_cnt hf).trans hc)

theorem L2_loop_inv (K : Cfg) (E : Env) (ra : redux_args) :
    ∀ (n m : Nat) (j : Bool) (p : Proc) (l : Loc) (x : Proc × Loc),
      allreduce_L2_loop K E ra n m j p l = some (LoopEnd.fallthrough x) →
      FrameW p.grp x.1.grp ∧ x.2.tmprank = l.tmprank ∧
        ∀ t data dsz, dsz = redux_dsize ra → Stage K t data dsz p l →
          Stage K t data dsz x.1 x.2 := by
  intro n
  induction n with
  | zero =>
    intro m j p l x h
    rw [L2_loop_zero] at h
    split at h
    · exact absurd h (by simp)
    · injection h with h
      injection h with h
      rw [← h]
      exact ⟨frameW_refl _, rfl, fun _ _ _ _ hs => hs⟩
  | succ n ih =>
    intro m j p l x h
    rw [L2_loop_succ] at h
    split at h
    · cases hr : allreduce_L2_round K E ra m j p l with
      | returned e q =>
        rw [hr] at h
        exact absurd h (by simp)
      | fallthrough y =>
        rw [hr] at h
        obtain ⟨f1, f2, f3⟩ := L2_round_fall_inv hr
        obtain ⟨g1, g2, g3⟩ := ih _ _ _ _ _ h
        exact ⟨frameW_trans f1 g1, g2.trans f2, fun t data dsz hd hs => g3 t data dsz hd (f3 t data dsz hd hs)⟩
    · injection h with h
      injection h with h
      rw [← h]
      exact ⟨frameW_refl _, rfl, fun _ _ _ _ hs => hs⟩

theorem L2_loop_code (K : Cfg) (E : Env) (ra : redux_args) :
    ∀ (n m : Nat) (j : Bool) (p : Proc) (l : Loc) (e : gaspi_return_t) (q : Proc),
      allreduce_L2_loop K E ra n m j p l = some (LoopEnd.returned e q) → e ≠ GASPI_SUCCESS := by
  intro n
  induction n with
  | zero =>
    intro m j p l e q h
    rw [L2_loop_zero] at h
    split at h <;> exact absurd h (by simp)
  | succ n ih =>
    intro m j p l e q h
    rw [L2_loop_succ] at h
    split at h
    · cases hr : allreduce_L2_round K E ra m j p l with
      | returned e2 q2 =>
        rw [hr] at h
        injection h with h
        injection h with h1 h2
        rw [L2_round_eq] at hr
        exact h1 ▸ L2_post_code hr
      | fallthrough y =>
        rw [hr] at h
        exact ih _ _ _ _ _ _ h
    · exact absurd h (by simp)

/-- The rounds commute with the override of the checkpoint fields when every poll reads
the token. -/
theorem L2_loop_ovr (K : Cfg) (E : Env) (t : Nat) (a b c : Option Nat) (ra : redux_args) :
    ∀ (n m : Nat) (j : Bool) (p : Proc) (l : Loc), p.grp.barrier_cnt = t →
      allreduce_L2_loop K (with_poll E (fun _ => t) true) ra n m j (ovr a b c p) l
        = (allreduce_L2_loop K (with_poll E (fun _ => t) true) ra n m j p l).map (ovrEnd a b c) := by
  intro n
  induction n with
  | zero =>
    intro m j p l _
    rw [L2_loop_zero, L2_loop_zero]
    show (if m < p.grp.next_pof2 then _ else _) = _
    split <;> rfl
  | succ n ih =>
    intro m j p l hc
    rw [L2_loop_succ, L2_loop_succ, L2_round_ovr K E t a b c ra m j p l hc]
    show (if m < p.grp.next_pof2 then _ else _) = _
    split
    · cases hr : allreduce_L2_round K (with_poll E (fun _ => t) true) ra m j p l with
      | returned e q => rfl
      | fallthrough y =>
        exact ih _ _ _ _ ((frameW_cnt (L2_round_fall_inv hr).1).trans hc)
    · rfl

/-- Rounds that run to their end do so as well when every poll reads the token. -/
theorem L2_loop_fall (K : Cfg) (E : Env) (f : Nat → Nat) (b : Bool) (t : Nat) (ra : redux_args) :
    ∀ (n m : Nat) (j : Bool) (p : Proc) (l : Loc) (x : Proc × Loc), p.grp.barrier_cnt = t →
      allreduce_L2_loop K (with_poll E f b) ra n m j p l = some (LoopEnd.fallthrough x) →
      allreduce_L2_loop K (with_poll E (fun _ => t) true) ra n m j p l = some (LoopEnd.fallthrough x) := by
  intro n
  induction n with
  | zero =>
    intro m j p l x _ h
    exact h
  | succ n ih =>
    intro m j p l x hc h
    rw [L2_loop_succ] at h ⊢
    split at h
    · rename_i hlt
      rw [if_pos hlt]
      cases hr : allreduce_L2_round K (with_poll E f b) ra m j p l with
      | returned e q =>
        rw [hr] at h
        exact absurd h (by simp)
      | fallthrough y =>
        rw [hr] at h
        have hr2 := hr
        rw [L2_round_eq, L2_pre_with_poll] at hr2
        have hr3 := (L2_post_fall hr2
          ((frameW_cnt (syncOk_frameW (L2_pre_syncOk K E ra m j p l))).trans hc)).1
        rw [← L2_pre_with_poll K E (fun _ => t) true, ← L2_round_eq] at hr3
        rw [hr3]
        exact ih _ _ _ _ _ ((frameW_cnt (L2_round_fall_inv hr).1).trans hc) h
    · rename_i hlt
      rw [if_neg hlt]
      exact h

/-! ### The third phase and the end of the function -/

theorem L3_fall {K : Cfg} {E : Env} {f : Nat → Nat} {b : Bool} {t : Nat} {ra : redux_args}
    {p : Proc} {l : Loc} {y : Proc × Loc}
    (h : allreduce_L3 K (with_poll E f b) ra p l = LoopEnd.fallthrough y)
    (hc : p.grp.barrier_cnt = t) :
    allreduce_L3 K (with_poll E (fun _ => t) true) ra p l = LoopEnd.fallthrough y := by
  unfold allreduce_L3 at h ⊢
  simp only at h ⊢
  split at h
  · rename_i h1
    rw [if_pos h1]
    split at h
    · rename_i h2
      rw [if_pos h2]
      exact h
    · rename_i h2
      rw [if_neg h2]
      split at h
      · exact absurd h (by simp)
      · rw [if_neg (sync_wait_passes E true _ hc)]
        exact h
  · rename_i h1
    rw [if_neg h1]
    exact h

theorem L3_timeout {K : Cfg} {E : Env} {ra : redux_args} {p q : Proc} {l : Loc}
    (h : allreduce_L3 K E ra p l = LoopEnd.returned GASPI_TIMEOUT q) : q = p := by
  unfold allreduce_L3 at h
  simp only at h
  split at h
  · split at h
    · split at h
      · injection h with h _
        exact absurd h (by decide)
      · exact absurd h (by simp)
    · split at h
      · injection h with _ h
        exact h.symm
      · exact absurd h (by simp)
  · exact absurd h (by simp)

theorem L3_code {K : Cfg} {E : Env} {ra : redux_args} {p q : Proc} {l : Loc} {e : gaspi_return_t}
    (h : allreduce_L3 K E ra p l = LoopEnd.returned e q) : e ≠ GASPI_SUCCESS := by
  unfold allreduce_L3 at h
  simp only at h
  split at h
  · split at h
    · split at h
      · injection h with h _
        rw [← h]
        decide
      · exact absurd h (by simp)
    · split at h
      · injection h with h _
        rw [← h]
        decide
      · exact absurd h (by simp)
  · exact absurd h (by simp)

theorem L3_ovr (K : Cfg) (E : Env) (t : Nat) (a b c : Option Nat) (ra : redux_args) (p : Proc) (l : Loc)
    (hc : p.grp.barrier_cnt = t) :
    allreduce_L3 K (with_poll E (fun _ => t) true) ra (ovr a b c p) l
      = ovrEnd a b c (allreduce_L3 K (with_poll E (fun _ => t) true) ra p l) := by
  unfold allreduce_L3
  simp only
  show (if p.grp.rank.toNat < 2 * (p.grp.tnc - p.grp.next_pof2) then
      (if p.grp.rank.toNat % 2 ≠ 0 then _ else _) else _) = _
  split
  · split
    · rw [write_and_sync_ovr]
      simp only
      show (if (_gaspi_allreduce_write_and_sync K (with_poll E (fun _ => t) true) p l.send_ptr
          (redux_dsize ra) (p.grp.rank_grp.getD (p.grp.rank.toNat - 1) (-1)).toNat l.bid).1
            ≠ GASPI_SUCCESS then _ else _) = _
      split <;> rfl
    · rw [if_neg (sync_wait_passes E true _ hc),
        if_neg (sync_wait_passes E true _ (show (ovr a b c p).grp.barrier_cnt = t from hc))]
      rfl
  · rfl

theorem poll_groups_ovr (E : Env) (a b c : Option Nat) (p : Proc) :
    pgaspi_dev_poll_groups E (ovr a b c p)
      = (pgaspi_dev_poll_groups E p).map (fun r => (r.1, ovr a b c r.2)) := by
  unfold pgaspi_dev_poll_groups
  simp only
  show (match poll_groups_loop E p.gctx.ne_count_grp p.cq_rpos with
    | none => none
    | some (some r, pos) => _
    | some (none, pos) => _) = _
  split <;> rfl

theorem poll_groups_loop_with_poll (E : Env) (f : Nat → Nat) (b : Bool) :
    ∀ n pos, poll_groups_loop (with_poll E f b) n pos = poll_groups_loop E n pos := by
  intro n
  induction n with
  | zero => intro pos; rfl
  | succ n ih =>
    intro pos
    unfold poll_groups_loop
    show (match E.cq pos with
      | none => none
      | some wc =>
        if wc.status ≠ tcp_dev_wc_status.TCP_WC_SUCCESS then
          if (!E.valid_state wc.wr_id) = true then poll_groups_loop (with_poll E f b) n (pos + 1)
          else some (some wc.wr_id, pos + 1)
        else poll_groups_loop (with_poll E f b) n (pos + 1)) = _
    rw [ih]

theorem finish_with_poll (E : Env) (f : Nat → Nat) (b : Bool) (ra : redux_args) (p : Proc) (l : Loc)
    (br : List Nat) :
    allreduce_finish (with_poll E f b) ra p l br = allreduce_finish E ra p l br := by
  unfold allreduce_finish pgaspi_dev_poll_groups
  simp only
  rw [poll_groups_loop_with_poll]

theorem finish_ovr {E : Env} {a b c : Option Nat} {ra : redux_args} {p x : Proc} {l : Loc}
    {br rb : List Nat}
    (h : allreduce_finish E ra (ovr a b c p) l br = some (GASPI_SUCCESS, x, rb)) :
    allreduce_finish E ra p l br = some (GASPI_SUCCESS, x, rb) := by
  unfold allreduce_finish at h ⊢
  rw [poll_groups_ovr] at h
  cases hp : pgaspi_dev_poll_groups E p with
  | none =>
    rw [hp] at h
    exact absurd h (by simp)
  | some r =>
    rw [hp] at h
    simp only [Option.map_some'] at h ⊢
    split at h
    · injection h with h
      injection h with h _
      exact absurd h (by decide)
    · rename_i h1
      rw [if_neg h1]
      rw [← h]
      rfl

theorem finish_code {E : Env} {ra : redux_args} {p q : Proc} {l : Loc} {br rb : List Nat}
    {e : gaspi_return_t} (h : allreduce_finish E ra p l br = some (e, q, rb)) :
    e = GASPI_SUCCESS ∨ e = GASPI_ERR_DEVICE := by
  unfold allreduce_finish at h
  split at h
  · exact absurd h (by simp)
  · split at h
    · injection h with h
      injection h with h _
      exact Or.inr h.symm
    · injection h with h
      injection h with h _
      exact Or.inl h.symm

theorem from_L3_fall {K : Cfg} {E : Env} {f : Nat → Nat} {b : Bool} {t : Nat} {ra : redux_args}
    {p x : Proc} {l : Loc} {br rb : List Nat}
    (h : allreduce_from_L3 K (with_poll E f b) ra br (p, l) = some (GASPI_SUCCESS, x, rb))
    (hc : p.grp.barrier_cnt = t) :
    allreduce_from_L3 K (with_poll E (fun _ => t) true) ra br (p, l) = some (GASPI_SUCCESS, x, rb) := by
  unfold allreduce_from_L3 at h ⊢
  simp only at h ⊢
  cases hr : allreduce_L3 K (with_poll E f b) ra p l with
  | returned e q =>
    rw [hr] at h
    injection h with h
    injection h with h _
    exact absurd h (L3_code hr)
  | fallthrough y =>
    rw [hr] at h
    rw [L3_fall hr hc]
    simp only at h ⊢
    rw [finish_with_poll] at h ⊢
    exact h

theorem from_L3_timeout {K : Cfg} {E : Env} {ra : redux_args} {p q : Proc} {l : Loc}
    {br rb : List Nat}
    (h : allreduce_from_L3 K E ra br (p, l) = some (GASPI_TIMEOUT, q, rb)) : q = p ∧ rb = br := by
  unfold allreduce_from_L3 at h
  simp only at h
  cases hr : allreduce_L3 K E ra p l with
  | returned e q2 =>
    rw [hr] at h
    injection h with h
    injection h with h1 h2
    injection h2 with h2 h3
    subst h1 h2
    exact ⟨L3_timeout hr, h3.symm⟩
  | fallthrough y =>
    rw [hr] at h
    rcases finish_code h with h1 | h1 <;> exact absurd h1 (by decide)

theorem from_L3_ovr {K : Cfg} {E : Env} {t : Nat} {a b c : Option Nat} {ra : redux_args}
    {p x : Proc} {l : Loc} {br rb : List Nat} (hc : p.grp.barrier_cnt = t)
    (h : allreduce_from_L3 K (with_poll E (fun _ => t) true) ra br (ovr a b c p, l)
      = some (GASPI_SUCCESS, x, rb)) :
    allreduce_from_L3 K (with_poll E (fun _ => t) true) ra br (p, l) = some (GASPI_SUCCESS, x, rb) := by
  unfold allreduce_from_L3 at h ⊢
  simp only at h ⊢
  rw [L3_ovr K E t a b c ra p l hc] at h
  cases hr : allreduce_L3 K (with_poll E (fun _ => t) true) ra p l with
  | returned e q =>
    rw [hr] at h
    injection h with h
    injection h with h _
    exact absurd h (L3_code hr)
  | fallthrough y =>
    rw [hr] at h
    exact finish_ovr h

/-! ### Resumption of the butterfly -/

theorem from_L2_eq (K : Cfg) (E : Env) (ra : redux_args) (br : List Nat) (p : Proc) (l : Loc) :
    allreduce_from_L2 K E ra br (p, l)
      = allreduce_after_L2 K E ra br
          (if l.tmprank ≠ -1 then
            allreduce_L2_loop K E ra p.grp.next_pof2 (p.grp.lastmask &&& 0x7fffffff)
              (p.grp.lastmask >>> 31 ≠ 0) p l
          else some (LoopEnd.fallthrough (p, l))) := by
  unfold allreduce_from_L2 allreduce_L2
  simp only
  by_cases ht : l.tmprank ≠ -1
  · rw [if_pos ht]
    cases hr : allreduce_L2_loop K E ra p.grp.next_pof2 (p.grp.lastmask &&& 0x7fffffff)
        (decide (p.grp.lastmask >>> 31 ≠ 0)) p l with
    | none => rfl
    | some r =>
      cases r with
      | returned e q => rfl
      | fallthrough y => rfl
  · rw [if_neg ht]
    rfl

theorem L2_round_fall_mono {K : Cfg} {E : Env} {f : Nat → Nat} {b : Bool} {t : Nat} {ra : redux_args}
    {m : Nat} {j : Bool} {p : Proc} {l : Loc} {y : Proc × Loc}
    (h : allreduce_L2_round K (with_poll E f b) ra m j p l = LoopEnd.fallthrough y)
    (hc : p.grp.barrier_cnt = t) :
    allreduce_L2_round K (with_poll E (fun _ => t) true) ra m j p l = LoopEnd.fallthrough y := by
  rw [L2_round_eq, L2_pre_with_poll] at h
  rw [L2_round_eq, L2_pre_with_poll]
  exact (L2_post_fall h ((frameW_cnt (syncOk_frameW (L2_pre_syncOk K E ra m j p l))).trans hc)).1

theorem after_L2_ovr {K : Cfg} {E : Env} {t : Nat} {a b c : Option Nat} {ra : redux_args}
    {br rb : List Nat} {x : Proc} {o : Option (LoopEnd (Proc × Loc))}
    (h1 : ∀ e q, o = some (LoopEnd.returned e q) → e ≠ GASPI_SUCCESS)
    (h2 : ∀ y, o = some (LoopEnd.fallthrough y) → y.1.grp.barrier_cnt = t)
    (h : allreduce_after_L2 K (with_poll E (fun _ => t) true) ra br (o.map (ovrEnd a b c))
      = some (GASPI_SUCCESS, x, rb)) :
    allreduce_after_L2 K (with_poll E (fun _ => t) true) ra br o = some (GASPI_SUCCESS, x, rb) := by
  cases o with
  | none => exact h
  | some r =>
    cases r with
    | returned e q =>
      have : e = GASPI_SUCCESS := by
        have h3 : some (e, ovr a b c q, br) = some (GASPI_SUCCESS, x, rb) := h
        injection h3 with h3
        injection h3 with h3 _
      exact absurd this (h1 e q rfl)
    | fallthrough y =>
      have h3 : allreduce_from_L3 K (with_poll E (fun _ => t) true) ra br
          (ovr a none none (enter_L3 y).1, (enter_L3 y).2) = some (GASPI_SUCCESS, x, rb) := h
      exact from_L3_ovr (h2 y rfl) h3

theorem locals_resumed (K : Cfg) (c : gaspi_group_ctx_t) (h : c.level ≥ 2) :
    allreduce_locals K c = { send_ptr := send_base K c + c.dsize, bid := c.bid, tmprank := c.tmprank } := by
  unfold allreduce_locals
  rw [if_pos h]

theorem L2_round_code {K : Cfg} {E : Env} {ra : redux_args} {m : Nat} {j : Bool} {p q : Proc}
    {l : Loc} {e : gaspi_return_t}
    (h : allreduce_L2_round K E ra m j p l = LoopEnd.returned e q) : e ≠ GASPI_SUCCESS := by
  rw [L2_round_eq] at h
  exact L2_post_code h

/-- A timeout inside the butterfly leaves a state from which the rounds go on as in a
run without the timeout. -/
theorem L2_loop_timeout (K : Cfg) (E : Env) (f : Nat → Nat) (b : Bool) (t : Nat) (ra : redux_args)
    (br data : List Nat) (dsz : Nat) (hd : dsz = redux_dsize ra) :
    ∀ (n m : Nat) (j : Bool) (p : Proc) (l : Loc) (q : Proc),
      allreduce_L2_loop K (with_poll E f b) ra n m j p l = some (LoopEnd.returned GASPI_TIMEOUT q) →
      Stage K t data dsz p l → l.tmprank = p.grp.tmprank → l.tmprank ≠ -1 → p.grp.level = 2 →
      1 ≤ m → p.grp.next_pof2 ≤ n + m →
      (Resumable K t q ∧ q.grp.level = 2 ∧ BaseHolds K data q.grp ∧ q.grp.coll_op = p.grp.coll_op) ∧
      ∀ x rb, allreduce_from_L2 K (with_poll E (fun _ => t) true) ra br (q, allreduce_locals K q.grp)
          = some (GASPI_SUCCESS, x, rb) →
        allreduce_after_L2 K (with_poll E (fun _ => t) true) ra br
          (allreduce_L2_loop K (with_poll E (fun _ => t) true) ra n m j p l)
          = some (GASPI_SUCCESS, x, rb) := by
  intro n
  induction n with
  | zero =>
    intro m j p l q h
    rw [L2_loop_zero] at h
    split at h <;> exact absurd h (by simp)
  | succ n ih =>
    intro m j p l q h hs htr htne hlv hm hfuel
    rw [L2_loop_succ] at h
    split at h
    swap
    · exact absurd h (by simp)
    rename_i hlt
    cases hr : allreduce_L2_round K (with_poll E f b) ra m j p l with
    | fallthrough y =>
      rw [hr] at h
      obtain ⟨f1, f2, f3⟩ := L2_round_fall_inv hr
      have hy := ih (m <<< 1) false y.1 y.2 q h (f3 t data dsz hd hs)
        (by rw [f2, htr, frameW_tmprank f1]) (by rw [f2]; exact htne)
        (by rw [frameW_level f1]; exact hlv) (by rw [shl_one]; omega)
        (by rw [shl_one, frameW_pof2 f1]; omega)
      refine ⟨⟨hy.1.1, hy.1.2.1, hy.1.2.2.1, hy.1.2.2.2.trans (frameW_coll_op f1)⟩, ?_⟩
      intro x rb hx
      rw [L2_loop_succ, if_pos hlt, L2_round_fall_mono hr hs.1]
      exact hy.2 x rb hx
    | returned e q2 =>
      rw [hr] at h
      injection h with h
      injection h with h1 h2
      subst h1 h2
      rw [L2_round_eq, L2_pre_with_poll] at hr
      obtain ⟨hw, hq⟩ := L2_post_timeout hr
      have hso := L2_pre_syncOk K E ra m j p l
      have hf := syncOk_frameW hso
      have hsw := syncOk_stage hso hs
      have hm31 : m < 2 ^ 31 := lt_of_lt_of_le hlt hs.2.2.2.2.2
      have hlvw : (allreduce_L2_pre K E ra m j p l).2.grp.level = 2 := (frameW_level hf).trans hlv
      subst hq
      refine ⟨⟨⟨?_, hsw.2.2.2.2.2, hsw.2.2.2.1, ?_, ?_, ?_⟩, hlvw, hsw.2.1,
        show (allreduce_L2_pre K E ra m j p l).2.grp.coll_op = _ from frameW_coll_op hf⟩, ?_⟩
      · show 1 ≤ (m ||| 0x80000000) &&& 0x7fffffff
        rw [and_low_bits m hm31]
        exact hm
      · show (allreduce_L2_pre K E ra m j p l).2.grp.level ≤ 3
        rw [hlvw]
        decide
      · intro h1
        have h2 : (allreduce_L2_pre K E ra m j p l).2.grp.level ≤ 1 := h1
        rw [hlvw] at h2
        exact absurd h2 (by decide)
      · show (if (allreduce_L2_pre K E ra m j p l).2.grp.level = 0 then _ else _) = t
        rw [hlvw, if_neg (by decide)]
        exact hsw.1
      · intro x rb hx
        have hloc : allreduce_locals K
            (ovr (some (m ||| 0x80000000)) (some l.bid) none (allreduce_L2_pre K E ra m j p l).2).grp = l := by
          rw [locals_resumed K _ (by show (allreduce_L2_pre K E ra m j p l).2.grp.level ≥ 2; rw [hlvw])]
          show ({ send_ptr := send_base K (allreduce_L2_pre K E ra m j p l).2.grp
                    + (allreduce_L2_pre K E ra m j p l).2.grp.dsize,
                  bid := l.bid, tmprank := (allreduce_L2_pre K E ra m j p l).2.grp.tmprank } : Loc) = l
          rw [← hsw.2.2.2.2.1, frameW_tmprank hf, ← htr]
        rw [hloc, from_L2_eq, if_pos htne] at hx
        have e1 : (ovr (some (m ||| 0x80000000)) (some l.bid) none
            (allreduce_L2_pre K E ra m j p l).2).grp.lastmask &&& 0x7fffffff = m := and_low_bits m hm31
        have e2 : decide ((ovr (some (m ||| 0x80000000)) (some l.bid) none
            (allreduce_L2_pre K E ra m j p l).2).grp.lastmask >>> 31 ≠ 0) = true := by
          show decide ((m ||| 0x80000000) >>> 31 ≠ 0) = true
          rw [shift_high_bit m hm31]
          rfl
        have e3 : (ovr (some (m ||| 0x80000000)) (some l.bid) none
            (allreduce_L2_pre K E ra m j p l).2).grp.next_pof2 = p.grp.next_pof2 :=
          show (allreduce_L2_pre K E ra m j p l).2.grp.next_pof2 = _ from frameW_pof2 hf
        rw [e1, e2, e3, L2_loop_fuel K _ ra p.grp.next_pof2 (n + 1) m true _ l hm (by omega)
          (by rw [e3]; omega), L2_loop_succ, if_pos (by rw [e3]; exact hlt),
          L2_round_resume K E t _ _ _ ra m j p l hs.1 hw] at hx
        rw [L2_loop_succ, if_pos hlt]
        cases hr2 : allreduce_L2_round K (with_poll E (fun _ => t) true) ra m j p l with
        | returned e2 q3 =>
          rw [hr2] at hx
          have h3 : some (e2, ovr (some (m ||| 0x80000000)) (some l.bid) none q3, br)
              = some (GASPI_SUCCESS, x, rb) := hx
          injection h3 with h3
          injection h3 with h3 _
          exact absurd h3 (L2_round_code hr2)
        | fallthrough y =>
          rw [hr2] at hx
          simp only [ovrEnd] at hx ⊢
          obtain ⟨f1, _, _⟩ := L2_round_fall_inv hr2
          have hyc : y.1.grp.barrier_cnt = t := (frameW_cnt f1).trans hs.1
          rw [L2_loop_ovr K E t _ _ _ ra n (m <<< 1) false y.1 y.2 hyc] at hx
          refine after_L2_ovr (fun e q he => L2_loop_code K _ ra _ _ _ _ _ e q he) ?_ hx
          intro z hz
          exact (frameW_cnt (L2_loop_inv K _ ra _ _ _ _ _ z hz).1).trans hyc

/-! ### The first phase and the entry -/

theorem stage_loc {K : Cfg} {t dsz : Nat} {data : List Nat} {p : Proc} {l l2 : Loc}
    (h : Stage K t data dsz p l) (hl : l2.send_ptr = l.send_ptr) : Stage K t data dsz p l2 :=
  ⟨h.1, h.2.1, h.2.2.1, h.2.2.2.1, hl.trans h.2.2.2.2.1, h.2.2.2.2.2⟩

theorem L1_body_fall {K : Cfg} {E : Env} {f : Nat → Nat} {b : Bool} {t : Nat} {ra : redux_args}
    {p : Proc} {l : Loc} {x : Proc × Loc}
    (h : allreduce_L1_body K (with_poll E f b) ra p l = LoopEnd.fallthrough x)
    (hc : p.grp.barrier_cnt = t) :
    allreduce_L1_body K (with_poll E (fun _ => t) true) ra p l = LoopEnd.fallthrough x := by
  unfold allreduce_L1_body at h ⊢
  simp only at h ⊢
  split at h
  · rename_i h1
    rw [if_pos h1]
    split at h
    · rename_i h2
      rw [if_pos h2]
      exact h
    · rename_i h2
      rw [if_neg h2]
      split at h
      · exact absurd h (by simp)
      · rw [if_neg (sync_wait_passes E true _ hc)]
        exact h
  · rename_i h1
    rw [if_neg h1]
    exact h

theorem L1_body_timeout {K : Cfg} {E : Env} {ra : redux_args} {p q : Proc} {l : Loc}
    (h : allreduce_L1_body K E ra p l = LoopEnd.returned GASPI_TIMEOUT q) :
    q = ovr none none (some 1) p := by
  unfold allreduce_L1_body at h
  simp only at h
  split at h
  · split at h
    · split at h
      · injection h with h _
        exact absurd h (by decide)
      · exact absurd h (by simp)
    · split at h
      · injection h with _ h
        exact h.symm
      · split at h
        · injection h with h _
          exact absurd h (by decide)
        · exact absurd h (by simp)
  · exact absurd h (by simp)

theorem L1_body_code {K : Cfg} {E : Env} {ra : redux_args} {p q : Proc} {l : Loc} {e : gaspi_return_t}
    (h : allreduce_L1_body K E ra p l = LoopEnd.returned e q) : e ≠ GASPI_SUCCESS := by
  unfold allreduce_L1_body at h
  simp only at h
  split at h
  · split at h
    · split at h
      · injection h with h _
        rw [← h]
        decide
      · exact absurd h (by simp)
    · split at h
      · injection h with h _
        rw [← h]
        decide
      · split at h
        · injection h with h _
          rw [← h]
          decide
        · exact absurd h (by simp)
  · exact absurd h (by simp)

theorem L1_body_ovr (K : Cfg) (E : Env) (t : Nat) (a b c : Option Nat) (ra : redux_args) (p : Proc)
    (l : Loc) (hc : p.grp.barrier_cnt = t) :
    allreduce_L1_body K (with_poll E (fun _ => t) true) ra (ovr a b c p) l
      = ovrEnd a b c (allreduce_L1_body K (with_poll E (fun _ => t) true) ra p l) := by
  unfold allreduce_L1_body
  simp only
  show (if p.grp.rank.toNat < 2 * (p.grp.tnc - p.grp.next_pof2) then
      (if p.grp.rank.toNat % 2 = 0 then _ else _) else _) = _
  split
  · split
    · rw [write_and_sync_ovr]
      simp only
      show (if (_gaspi_allreduce_write_and_sync K (with_poll E (fun _ => t) true) p l.send_ptr
          (redux_dsize ra) (p.grp.rank_grp.getD (p.grp.rank.toNat + 1) (-1)).toNat l.bid).1
            ≠ GASPI_SUCCESS then _ else _) = _
      split <;> rfl
    · rw [if_neg (sync_wait_passes E true _ hc),
        if_neg (sync_wait_passes E true _ (show (ovr a b c p).grp.barrier_cnt = t from hc))]
      show (if (_gaspi_apply_redux K (observe p (GPI2_GRP_SYNC_POLL_ADDR p.grp (p.grp.rank.toNat - 1)))
          l.send_ptr K.COLL_MEM_RECV l.bid ra).1 ≠ GASPI_SUCCESS then _ else _) = _
      split <;> rfl
  · rfl

theorem L1_body_inv {K : Cfg} {E : Env} {ra : redux_args} {p : Proc} {l : Loc} {x : Proc × Loc}
    (h : allreduce_L1_body K E ra p l = LoopEnd.fallthrough x) :
    FrameW p.grp x.1.grp ∧
      ∀ t data dsz, dsz = redux_dsize ra → Stage K t data dsz p l → Stage K t data dsz x.1 x.2 := by
  unfold allreduce_L1_body at h
  simp only at h
  split at h
  · split at h
    · split at h
      · exact absurd h (by simp)
      · injection h with h
        rw [← h]
        have hso := write_and_sync_syncOk K E p l.send_ptr (redux_dsize ra)
          (p.grp.rank_grp.getD (p.grp.rank.toNat + 1) (-1)).toNat l.bid
        exact ⟨syncOk_frameW hso, fun t data dsz _ hs => stage_loc (syncOk_stage hso hs) rfl⟩
    · split at h
      · exact absurd h (by simp)
      · split at h
        · exact absurd h (by simp)
        · injection h with h
          rw [← h]
          refine ⟨⟨_, _, _, rfl⟩, ?_⟩
          intro t data dsz hd hs
          have h2 : Stage K t data dsz (observe p (GPI2_GRP_SYNC_POLL_ADDR p.grp (p.grp.rank.toNat - 1))) l := hs
          exact stage_loc (apply_redux_stage ra K.COLL_MEM_RECV l.bid hd h2) rfl
  · injection h with h
    rw [← h]
    exact ⟨frameW_refl _, fun t data dsz _ hs => stage_loc hs rfl⟩

theorem writeBytes_same (m : Mem) (a : Nat) (d : List Nat)
    (h : ∀ i, i < d.length → m (a + i) = d.getD i 0) : writeBytes m a d = m := by
  funext x
  unfold writeBytes
  split
  · rename_i hx
    have := h (x - a) (by omega)
    rw [← this]
    congr 1
    omega
  · rfl

/-- The entry of a resumed call changes nothing: the send staging holds the data of the
caller already. -/
theorem enter_resumed (K : Cfg) (q : Proc) (bs : List Nat) (ra : redux_args)
    (hl : q.grp.level ≠ 0) (hb : BaseHolds K (bs.take (redux_dsize ra)) q.grp) :
    allreduce_enter K q bs ra = q := by
  unfold allreduce_enter
  simp only
  rw [if_neg hl, writeBytes_same _ _ _ hb]

theorem enter_spec (K : Cfg) (t : Nat) (p : Proc) (bs : List Nat) (ra : redux_args)
    (h : Resumable K t p) :
    (allreduce_enter K p bs ra).grp.level = p.grp.level ∧
    (allreduce_enter K p bs ra).grp.lastmask = p.grp.lastmask ∧
    (allreduce_enter K p bs ra).grp.coll_op = p.grp.coll_op ∧
    Stage K t (bs.take (redux_dsize ra)) (redux_dsize ra)
      (allreduce_enter K p bs ra) (allreduce_locals K (allreduce_enter K p bs ra).grp) := by
  obtain ⟨r1, r2, r3, r4, r5, r6⟩ := h
  have key : ∀ c1 : gaspi_group_ctx_t, c1.level = p.grp.level → c1.lastmask = p.grp.lastmask →
      c1.coll_op = p.grp.coll_op → c1.barrier_cnt = t → c1.togle = p.grp.togle → c1.tnc = p.grp.tnc →
      c1.next_pof2 = p.grp.next_pof2 → c1.dsize = p.grp.dsize →
      ({ c1 with buf := writeBytes c1.buf (send_base K c1) (bs.take (redux_dsize ra)) }
        : gaspi_group_ctx_t).level = p.grp.level ∧
      ({ c1 with buf := writeBytes c1.buf (send_base K c1) (bs.take (redux_dsize ra)) }
        : gaspi_group_ctx_t).lastmask = p.grp.lastmask ∧
      ({ c1 with buf := writeBytes c1.buf (send_base K c1) (bs.take (redux_dsize ra)) }
        : gaspi_group_ctx_t).coll_op = p.grp.coll_op ∧
      Stage K t (bs.take (redux_dsize ra)) (redux_dsize ra)
        { p with grp := { c1 with buf := writeBytes c1.buf (send_base K c1)
                                          (bs.take (redux_dsize ra)) } }
        (allreduce_locals K { c1 with buf := writeBytes c1.buf (send_base K c1)
                                          (bs.take (redux_dsize ra)) }) := by
    intro c1 e1 e2 e3 e4 e5 e6 e7 e8
    refine ⟨e1, e2, e3, e4, ?_, List.length_take_le _ _, ?_, ?_, ?_⟩
    · intro i hi
      show writeBytes c1.buf (send_base K c1) _ (send_base K c1 + i) = _
      unfold writeBytes
      rw [if_pos ⟨by omega, by omega⟩]
      congr 1
      omega
    · show TOGGLE_SIZE * c1.tnc + c1.togle < K.COLL_MEM_SEND
      rw [e5, e6]
      exact r3
    · unfold allreduce_locals
      show (if c1.level ≥ 2 then _ else _ : Loc).send_ptr = send_base K c1 + c1.dsize
      split
      · rfl
      · rename_i hlv
        rw [e8, r5 (by omega)]
        rfl
    · show c1.next_pof2 ≤ 2 ^ 31
      rw [e7]
      exact r2
  unfold allreduce_enter
  simp only
  by_cases hl : p.grp.level = 0
  · rw [if_pos hl] at r6
    rw [if_pos hl]
    exact key { p.grp with barrier_cnt := bump_barrier_cnt p.grp.barrier_cnt } rfl rfl rfl r6 rfl rfl rfl rfl
  · rw [if_neg hl] at r6
    rw [if_neg hl]
    exact key p.grp rfl rfl rfl r6 rfl rfl rfl rfl

/-! ### One call against the run without timeouts -/

theorem engine_at_L2 (K : Cfg) (E : Env) (q : Proc) (bs br : List Nat) (ra : redux_args)
    (hl : q.grp.level = 2) (hb : BaseHolds K (bs.take (redux_dsize ra)) q.grp) :
    allreduce_from_L0 K E q bs br ra = allreduce_from_L2 K E ra br (q, allreduce_locals K q.grp) := by
  unfold allreduce_from_L0
  simp only
  rw [enter_resumed K q bs ra (by rw [hl]; decide) hb, if_pos hl]

theorem engine_at_L3 (K : Cfg) (E : Env) (q : Proc) (bs br : List Nat) (ra : redux_args)
    (hl : q.grp.level = 3) (hb : BaseHolds K (bs.take (redux_dsize ra)) q.grp) :
    allreduce_from_L0 K E q bs br ra = allreduce_from_L3 K E ra br (q, allreduce_locals K q.grp) := by
  unfold allreduce_from_L0
  simp only
  rw [enter_resumed K q bs ra (by rw [hl]; decide) hb, if_neg (by rw [hl]; decide), if_pos hl]

theorem engine_at_L1 (K : Cfg) (E : Env) (q : Proc) (bs br : List Nat) (ra : redux_args)
    (hl : q.grp.level = 1) (hb : BaseHolds K (bs.take (redux_dsize ra)) q.grp) :
    allreduce_from_L0 K E q bs br ra =
      match allreduce_L1_body K E ra q (allreduce_locals K q.grp) with
      | LoopEnd.returned e q2 => some (e, q2, br)
      | LoopEnd.fallthrough x => allreduce_from_L2 K E ra br (enter_L2 x) := by
  unfold allreduce_from_L0 allreduce_L1
  simp only
  rw [enter_resumed K q bs ra (by rw [hl]; decide) hb, if_neg (by rw [hl]; decide),
    if_neg (by rw [hl]; decide)]
  cases allreduce_L1_body K E ra q (allreduce_locals K q.grp) <;> rfl

theorem L3_step (K : Cfg) (E : Env) (f : Nat → Nat) (b : Bool) (t : Nat) (ra : redux_args)
    (bs br : List Nat) (P : Proc) (l : Loc) (e : gaspi_return_t) (q : Proc) (rb : List Nat)
    (hs : Stage K t (bs.take (redux_dsize ra)) (redux_dsize ra) P l)
    (hlv : P.grp.level = 3) (hloc : allreduce_locals K P.grp = l)
    (hm : 1 ≤ P.grp.lastmask &&& 0x7fffffff)
    (h : allreduce_from_L3 K (with_poll E f b) ra br (P, l) = some (e, q, rb)) :
    Resumes K E t ra bs br P.grp.coll_op
      (allreduce_from_L3 K (with_poll E (fun _ => t) true) ra br (P, l)) e q rb := by
  constructor
  · intro he
    subst he
    exact from_L3_fall h hs.1
  · intro he
    subst he
    obtain ⟨hq, hrb⟩ := from_L3_timeout h
    subst hq hrb
    refine ⟨⟨hm, hs.2.2.2.2.2, hs.2.2.2.1, by rw [hlv], ?_, ?_⟩, by rw [hlv]; decide, rfl, rfl, ?_⟩
    · intro h1
      rw [hlv] at h1
      exact absurd h1 (by decide)
    · rw [hlv, if_neg (by decide)]
      exact hs.1
    · intro x rb2 hx
      rw [engine_at_L3 K _ q bs rb ra hlv hs.2.1, hloc] at hx
      exact hx

theorem resumes_coll_op {K : Cfg} {E : Env} {t : Nat} {ra : redux_args} {bs br : List Nat}
    {c0 c1 : Nat} {ref : Option (gaspi_return_t × Proc × List Nat)} {e : gaspi_return_t} {q : Proc}
    {rb : List Nat} (h : Resumes K E t ra bs br c0 ref e q rb) (hc : c0 = c1) :
    Resumes K E t ra bs br c1 ref e q rb := hc ▸ h

theorem L2_step (K : Cfg) (E : Env) (f : Nat → Nat) (b : Bool) (t : Nat) (ra : redux_args)
    (bs br : List Nat) (P : Proc) (l : Loc) (e : gaspi_return_t) (q : Proc) (rb : List Nat)
    (hs : Stage K t (bs.take (redux_dsize ra)) (redux_dsize ra) P l)
    (hlv : P.grp.level = 2) (hloc : allreduce_locals K P.grp = l)
    (hm : 1 ≤ P.grp.lastmask &&& 0x7fffffff)
    (h : allreduce_from_L2 K (with_poll E f b) ra br (P, l) = some (e, q, rb)) :
    Resumes K E t ra bs br P.grp.coll_op
      (allreduce_from_L2 K (with_poll E (fun _ => t) true) ra br (P, l)) e q rb := by
  have hl2 := hloc
  rw [locals_resumed K P.grp (by rw [hlv])] at hl2
  have hsp : l.send_ptr = send_base K P.grp + P.grp.dsize := hs.2.2.2.2.1
  have htr : l.tmprank = P.grp.tmprank := by rw [← hl2]
  rw [from_L2_eq] at h ⊢
  -- the third phase after the rounds, from the state `y`
  have tail : ∀ y : Proc × Loc, FrameW P.grp y.1.grp → y.2.tmprank = l.tmprank →
      Stage K t (bs.take (redux_dsize ra)) (redux_dsize ra) y.1 y.2 →
      allreduce_from_L3 K (with_poll E f b) ra br (enter_L3 y) = some (e, q, rb) →
      Resumes K E t ra bs br P.grp.coll_op
        (allreduce_from_L3 K (with_poll E (fun _ => t) true) ra br (enter_L3 y)) e q rb := by
    intro y hf hyt hsy hy
    have hloc3 : allreduce_locals K (enter_L3 y).1.grp = (enter_L3 y).2 := by
      rw [locals_resumed K _ (by show (3 : Nat) ≥ 2; decide)]
      show ({ send_ptr := send_base K y.1.grp + y.1.grp.dsize, bid := y.2.bid,
              tmprank := y.1.grp.tmprank } : Loc) = y.2
      rw [← hsy.2.2.2.2.1, frameW_tmprank hf, ← htr, ← hyt]
    exact resumes_coll_op
      (L3_step K E f b t ra bs br (enter_L3 y).1 (enter_L3 y).2 e q rb hsy rfl hloc3
        (by show 1 ≤ y.1.grp.lastmask &&& 0x7fffffff; rw [frameW_lastmask hf]; exact hm) hy)
      (show y.1.grp.coll_op = P.grp.coll_op from frameW_coll_op hf)
  by_cases ht : l.tmprank ≠ -1
  · rw [if_pos ht] at h ⊢
    cases hr : allreduce_L2_loop K (with_poll E f b) ra P.grp.next_pof2 (P.grp.lastmask &&& 0x7fffffff)
        (decide (P.grp.lastmask >>> 31 ≠ 0)) P l with
    | none =>
      rw [hr] at h
      exact absurd h (by simp [allreduce_after_L2])
    | some r =>
      cases r with
      | returned e2 q2 =>
        rw [hr] at h
        have h3 : some (e2, q2, br) = some (e, q, rb) := h
        injection h3 with h3
        injection h3 with h3 h4
        injection h4 with h4 h5
        subst h3 h4 h5
        constructor
        · intro he
          exact absurd he (L2_loop_code K _ ra _ _ _ _ _ _ _ hr)
        · intro he
          subst he
          obtain ⟨⟨a1, a2, a3, a4⟩, a5⟩ := L2_loop_timeout K E f b t ra br
            (bs.take (redux_dsize ra)) (redux_dsize ra) rfl _ _ _ _ _ _ hr hs htr ht
            hlv hm (by omega)
          refine ⟨a1, by rw [a2]; decide, a4, rfl, ?_⟩
          intro x rb2 hx
          rw [engine_at_L2 K _ q2 bs br ra a2 a3] at hx
          exact a5 x rb2 hx
      | fallthrough y =>
        rw [hr] at h
        rw [L2_loop_fall K E f b t ra _ _ _ _ _ y hs.1 hr]
        obtain ⟨f1, f2, f3⟩ := L2_loop_inv K _ ra _ _ _ _ _ y hr
        exact tail y f1 f2 (f3 t _ _ rfl hs) h
  · rw [if_neg ht] at h ⊢
    exact tail (P, l) (frameW_refl _) rfl hs h

/-- One call of the engine against the run in which every poll reads the token. -/
theorem engine_step (K : Cfg) (E : Env) (f : Nat → Nat) (b : Bool) (t : Nat) (ra : redux_args)
    (bs br : List Nat) (p : Proc) (e : gaspi_return_t) (q : Proc) (rb : List Nat)
    (hR : Resumable K t p)
    (h : allreduce_from_L0 K (with_poll E f b) p bs br ra = some (e, q, rb)) :
    Resumes K E t ra bs br p.grp.coll_op
      (allreduce_from_L0 K (with_poll E (fun _ => t) true) p bs br ra) e q rb := by
  obtain ⟨e1, e2, e3, hs⟩ := enter_spec K t p bs ra hR
  have hm : 1 ≤ (allreduce_enter K p bs ra).grp.lastmask &&& 0x7fffffff := by
    rw [e2]
    exact hR.1
  unfold allreduce_from_L0 at h ⊢
  simp only at h ⊢
  generalize allreduce_enter K p bs ra = p2 at h hs e1 e2 e3 hm ⊢
  by_cases h2 : p2.grp.level = 2
  · rw [if_pos h2] at h ⊢
    exact resumes_coll_op (L2_step K E f b t ra bs br p2 _ e q rb hs h2 rfl hm h) e3
  rw [if_neg h2] at h ⊢
  by_cases h3 : p2.grp.level = 3
  · rw [if_pos h3] at h ⊢
    exact resumes_coll_op (L3_step K E f b t ra bs br p2 _ e q rb hs h3 rfl hm h) e3
  rw [if_neg h3] at h ⊢
  have hle : p2.grp.level ≤ 3 := by
    rw [e1]
    exact hR.2.2.2.1
  have hlt : ¬ p2.grp.level ≥ 2 := by omega
  have hl0 : allreduce_locals K p2.grp = { send_ptr := send_base K p2.grp, bid := 0, tmprank := p2.grp.tmprank } := by
    unfold allreduce_locals
    rw [if_neg hlt]
  unfold allreduce_L1 at h ⊢
  cases hb : allreduce_L1_body K (with_poll E f b) ra p2 (allreduce_locals K p2.grp) with
  | returned e2 q2 =>
    rw [hb] at h
    have h3 : some (e2, q2, br) = some (e, q, rb) := h
    injection h3 with h3
    injection h3 with h3 h4
    injection h4 with h4 h5
    subst h3 h4 h5
    constructor
    · intro he
      exact absurd he (L1_body_code hb)
    · intro he
      subst he
      have hq := L1_body_timeout hb
      subst hq
      have hds : p2.grp.dsize = 0 := by
        have := hs.2.2.2.2.1
        rw [hl0] at this
        have h4 : send_base K p2.grp = send_base K p2.grp + p2.grp.dsize := this
        omega
      refine ⟨⟨hm, hs.2.2.2.2.2, hs.2.2.2.1, by show (1 : Nat) ≤ 3; decide, fun _ => hds, ?_⟩,
        by show (1 : Nat) ≠ 0; decide, e3, rfl, ?_⟩
      · show (if (1 : Nat) = 0 then _ else p2.grp.barrier_cnt) = t
        rw [if_neg (by decide)]
        exact hs.1
      · intro x rb2 hx
        have hl1 : allreduce_locals K (ovr none none (some 1) p2).grp = allreduce_locals K p2.grp := by
          rw [hl0]
          unfold allreduce_locals
          show (if (1 : Nat) ≥ 2 then _ else _) = _
          rw [if_neg (by decide)]
          rfl
        rw [engine_at_L1 K _ (ovr none none (some 1) p2) bs br ra rfl hs.2.1, hl1,
          L1_body_ovr K E t none none (some 1) ra p2 _ hs.1] at hx
        cases hb2 : allreduce_L1_body K (with_poll E (fun _ => t) true) ra p2 (allreduce_locals K p2.grp) with
        | returned e3 q3 =>
          rw [hb2] at hx
          have h4 : some (e3, ovr none none (some 1) q3, br) = some (GASPI_SUCCESS, x, rb2) := hx
          injection h4 with h4
          injection h4 with h4 _
          exact absurd h4 (L1_body_code hb2)
        | fallthrough x2 =>
          rw [hb2] at hx
          exact hx
  | fallthrough x2 =>
    rw [hb] at h
    rw [L1_body_fall hb hs.1]
    obtain ⟨f1, f3⟩ := L1_body_inv hb
    have hs2 := f3 t _ _ rfl hs
    have hloc : allreduce_locals K (enter_L2 x2).1.grp = (enter_L2 x2).2 := by
      rw [locals_resumed K _ (by show (2 : Nat) ≥ 2; decide)]
      show ({ send_ptr := send_base K x2.1.grp + x2.1.grp.dsize, bid := x2.2.bid,
              tmprank := x2.2.tmprank } : Loc) = x2.2
      rw [← hs2.2.2.2.2.1]
    exact resumes_coll_op
      (L2_step K E f b t ra bs br (enter_L2 x2).1 (enter_L2 x2).2 e q rb hs2 rfl hloc
        (by show 1 ≤ x2.1.grp.lastmask &&& 0x7fffffff; rw [frameW_lastmask f1]; exact hm) h)
      (show x2.1.grp.coll_op = p.grp.coll_op from (frameW_coll_op f1).trans e3)

/-! ### The calls of one allreduce -/

theorem L3_inv {K : Cfg} {E : Env} {ra : redux_args} {p : Proc} {l : Loc} {y : Proc × Loc}
    (h : allreduce_L3 K E ra p l = LoopEnd.fallthrough y) : FrameW p.grp y.1.grp := by
  unfold allreduce_L3 at h
  simp only at h
  split at h
  · split at h
    · split at h
      · exact absurd h (by simp)
      · injection h with h
        rw [← h]
        exact syncOk_frameW (write_and_sync_syncOk K E p _ _ _ _)
    · split at h
      · exact absurd h (by simp)
      · injection h with h
        rw [← h]
        exact frameW_refl _
  · injection h with h
    rw [← h]
    exact frameW_refl _

theorem from_L3_success_cnt {K : Cfg} {E : Env} {ra : redux_args} {P x : Proc} {l : Loc}
    {br rb : List Nat} (h : allreduce_from_L3 K E ra br (P, l) = some (GASPI_SUCCESS, x, rb)) :
    x.grp.barrier_cnt = P.grp.barrier_cnt ∧ x.grp.level = 0 := by
  unfold allreduce_from_L3 at h
  simp only at h
  cases hr : allreduce_L3 K E ra P l with
  | returned e q =>
    rw [hr] at h
    injection h with h
    injection h with h _
    exact absurd h (L3_code hr)
  | fallthrough y =>
    rw [hr] at h
    simp only at h
    unfold allreduce_finish at h
    cases hp : pgaspi_dev_poll_groups E y.1 with
    | none =>
      rw [hp] at h
      exact absurd h (by simp)
    | some r =>
      rw [hp] at h
      simp only at h
      split at h
      · injection h with h
        injection h with h _
        exact absurd h (by decide)
      · injection h with h
        injection h with _ h
        injection h with h _
        rw [← h]
        have hg := (poll_groups_grp (show pgaspi_dev_poll_groups E y.1 = some (r.1, r.2) from hp)).1
        refine ⟨?_, rfl⟩
        show r.2.grp.barrier_cnt = _
        rw [hg]
        exact frameW_cnt (L3_inv hr)

theorem from_L2_success_cnt {K : Cfg} {E : Env} {ra : redux_args} {P x : Proc} {l : Loc}
    {br rb : List Nat} (h : allreduce_from_L2 K E ra br (P, l) = some (GASPI_SUCCESS, x, rb)) :
    x.grp.barrier_cnt = P.grp.barrier_cnt ∧ x.grp.level = 0 := by
  rw [from_L2_eq] at h
  by_cases ht : l.tmprank ≠ -1
  · rw [if_pos ht] at h
    cases hr : allreduce_L2_loop K E ra P.grp.next_pof2 (P.grp.lastmask &&& 0x7fffffff)
        (decide (P.grp.lastmask >>> 31 ≠ 0)) P l with
    | none =>
      rw [hr] at h
      exact absurd h (by simp [allreduce_after_L2])
    | some r =>
      cases r with
      | returned e2 q2 =>
        rw [hr] at h
        have h3 : some (e2, q2, br) = some (GASPI_SUCCESS, x, rb) := h
        injection h3 with h3
        injection h3 with h3 _
        exact absurd h3 (L2_loop_code K _ ra _ _ _ _ _ _ _ hr)
      | fallthrough y =>
        rw [hr] at h
        have h3 : allreduce_from_L3 K E ra br ((enter_L3 y).1, (enter_L3 y).2)
            = some (GASPI_SUCCESS, x, rb) := h
        obtain ⟨a1, a2⟩ := from_L3_success_cnt h3
        exact ⟨a1.trans (show y.1.grp.barrier_cnt = _ from
          frameW_cnt (L2_loop_inv K _ ra _ _ _ _ _ y hr).1), a2⟩
  · rw [if_neg ht] at h
    have h3 : allreduce_from_L3 K E ra br ((enter_L3 (P, l)).1, (enter_L3 (P, l)).2)
        = some (GASPI_SUCCESS, x, rb) := h
    obtain ⟨a1, a2⟩ := from_L3_success_cnt h3
    exact ⟨a1, a2⟩

/-- A call of the engine that returns `GASPI_SUCCESS` leaves the group at level 0 with
the `barrier_cnt` of its entry. -/
theorem engine_success_cnt {K : Cfg} {E : Env} {ra : redux_args} {p x : Proc} {bs br rb : List Nat}
    (h : allreduce_from_L0 K E p bs br ra = some (GASPI_SUCCESS, x, rb)) :
    x.grp.barrier_cnt = (allreduce_enter K p bs ra).grp.barrier_cnt ∧ x.grp.level = 0 := by
  unfold allreduce_from_L0 at h
  simp only at h
  split at h
  · obtain ⟨a1, a2⟩ := from_L2_success_cnt h
    exact ⟨a1, a2⟩
  split at h
  · obtain ⟨a1, a2⟩ := from_L3_success_cnt h
    exact ⟨a1, a2⟩
  unfold allreduce_L1 at h
  cases hb : allreduce_L1_body K E ra (allreduce_enter K p bs ra)
      (allreduce_locals K (allreduce_enter K p bs ra).grp) with
  | returned e2 q2 =>
    rw [hb] at h
    have h3 : some (e2, q2, br) = some (GASPI_SUCCESS, x, rb) := h
    injection h3 with h3
    injection h3 with h3 _
    exact absurd h3 (L1_body_code hb)
  | fallthrough y =>
    rw [hb] at h
    have h3 : allreduce_from_L2 K E ra br ((enter_L2 y).1, (enter_L2 y).2)
        = some (GASPI_SUCCESS, x, rb) := h
    obtain ⟨a1, a2⟩ := from_L2_success_cnt h3
    exact ⟨a1.trans (show y.1.grp.barrier_cnt = _ from frameW_cnt (L1_body_inv hb).1), a2⟩

theorem set_coll_op_same (q : Proc) (c : Nat) (h : q.grp.coll_op = c) :
    ({ q with grp := { q.grp with coll_op := c } } : Proc) = q := by
  subst h
  rfl

theorem guarded_resumes (K : Cfg) (E : Env) (t : Nat) (g : Option gaspi_return_t) (kind : Nat)
    (ra : redux_args) (bs br : List Nat)
    (hg : ∀ err, g = some err → err ≠ GASPI_SUCCESS ∧ err ≠ GASPI_TIMEOUT) (hk : kind &&& kind ≠ 0) :
    CallResumes K t br (guarded_call K E g kind ra bs br) := by
  intro f b p e q rb hR h
  cases g with
  | some err =>
    have h3 : some (err, p, br) = some (e, q, rb) := h
    injection h3 with h3
    injection h3 with h3 _
    obtain ⟨g1, g2⟩ := hg err rfl
    exact ⟨fun he => absurd (h3.trans he) g1, fun he => absurd (h3.trans he) g2⟩
  | none =>
    unfold guarded_call at h ⊢
    simp only at h ⊢
    split at h
    · injection h with h
      injection h with h1 h2
      injection h2 with h2 h3
      subst h1 h2 h3
      exact ⟨fun he => absurd he (by decide), fun _ => ⟨hR, rfl, fun x rb2 hx => hx⟩⟩
    split at h
    · injection h with h
      injection h with h1 _
      subst h1
      exact ⟨fun he => absurd he (by decide), fun he => absurd he (by decide)⟩
    rename_i hadm
    rw [if_neg (by decide), if_neg hadm]
    have hR2 : Resumable K t { p with grp := { p.grp with coll_op := kind } } := hR
    obtain ⟨hd, h⟩ := engine_returns h
    rw [engine_in_range _ _ _ _ _ hd]
    obtain ⟨s1, s2⟩ := engine_step K E f b t ra bs br _ e q rb hR2 h
    constructor
    · intro he
      subst he
      refine ⟨s1 rfl, ?_⟩
      obtain ⟨a1, a2⟩ := engine_success_cnt h
      exact ⟨a1.trans (enter_spec K t _ bs ra hR2).2.2.2.1, a2⟩
    · intro he
      obtain ⟨r1, _, r3, r4, r5⟩ := s2 he
      refine ⟨r1, r4, ?_⟩
      intro x rb2 hx
      have r3b : q.grp.coll_op = kind := r3
      rw [if_neg (by decide), if_neg (by rw [r3b]; exact hk), set_coll_op_same q kind r3b,
        engine_in_range _ _ _ _ _ hd] at hx
      exact r5 x rb2 hx

theorem timeout_calls_resume {K : Cfg} {t : Nat} {br : List Nat}
    {call : (Nat → Nat) → Bool → Proc → Option (gaspi_return_t × Proc × List Nat)}
    (hc : CallResumes K t br call) :
    ∀ (fs : List ((Nat → Nat) × Bool)) (p q : Proc), Resumable K t p →
      timeout_calls call fs p = some q →
      Resumable K t q ∧ ∀ x rb2, call (fun _ => t) true q = some (GASPI_SUCCESS, x, rb2) →
        call (fun _ => t) true p = some (GASPI_SUCCESS, x, rb2) := by
  intro fs
  induction fs with
  | nil =>
    intro p q hR h
    injection h with h
    subst h
    exact ⟨hR, fun x rb2 hx => hx⟩
  | cons fb fs ih =>
    intro p q hR h
    unfold timeout_calls at h
    cases hcall : call fb.1 fb.2 p with
    | none =>
      rw [hcall] at h
      exact absurd h (by simp)
    | some r =>
      rw [hcall] at h
      simp only at h
      split at h
      swap
      · exact absurd h (by simp)
      rename_i hto
      obtain ⟨r1, _, r3⟩ := (hc fb.1 fb.2 p r.1 r.2.1 r.2.2 hR hcall).2 hto
      obtain ⟨i1, i2⟩ := ih r.2.1 q r1 h
      exact ⟨i1, fun x rb2 hx => r3 x rb2 (i2 x rb2 hx)⟩

theorem allreduce_guarded (K : Cfg) (E : Env) (bs br : List Nat) (elem_cnt op type : Nat)
    (f : Nat → Nat) (b : Bool) (p : Proc) :
    pgaspi_allreduce K (with_poll E f b) p bs br elem_cnt op type
      = guarded_call K E (if elem_cnt > GPI2_ALLREDUCE_ELEM_MAX then some GASPI_ERR_INV_NUM else none)
          GASPI_ALLREDUCE
          { f_args := redux_f_args.GASPI_OP op type, elem_size := glb_gaspi_typ_size.getD type 0,
            elem_cnt := elem_cnt } bs br f b p := by
  unfold pgaspi_allreduce guarded_call
  split <;> rfl

theorem allreduce_user_guarded (K : Cfg) (E : Env) (bs br : List Nat) (elem_cnt elem_size : Nat)
    (user_fct : List Nat → List Nat → Nat → Nat → gaspi_return_t × List Nat)
    (f : Nat → Nat) (b : Bool) (p : Proc) :
    pgaspi_allreduce_user K (with_poll E f b) p bs br elem_cnt elem_size user_fct
      = guarded_call K E
          (if elem_cnt > GPI2_ALLREDUCE_ELEM_MAX then some GASPI_ERR_INV_NUM
            else if size_product elem_size elem_cnt > K.GPI2_REDUX_BUF_SIZE then some GASPI_ERR_INV_SIZE
            else none)
          GASPI_ALLREDUCE_USER
          { f_args := redux_f_args.GASPI_USER user_fct, elem_size := elem_size, elem_cnt := elem_cnt }
          bs br f b p := by
  unfold pgaspi_allreduce_user guarded_call
  split
  · rfl
  · split <;> rfl

theorem idle_resumable (K : Cfg) (p0 : Proc) (h0 : p0.grp.level = 0) (hd : p0.grp.dsize = 0)
    (hm : p0.grp.lastmask = 1) (hp : p0.grp.next_pof2 ≤ 2 ^ 31)
    (hK : GPI2_GRP_LOCAL_SYNC_ADDR p0.grp < K.COLL_MEM_SEND) :
    Resumable K (bump_barrier_cnt p0.grp.barrier_cnt) p0 := by
  refine ⟨by rw [hm]; decide, hp, hK, by rw [h0]; decide, fun _ => hd, ?_⟩
  rw [if_pos h0]

/-- C3. From an idle group (level 0, `dsize = 0`, `lastmask = 1`; `next_pof2` within the
31 bits of the mask and the sync flag below the send staging), take any sequence of
calls of `pgaspi_allreduce`, or of `pgaspi_allreduce_user`, with the same arguments
that return `GASPI_TIMEOUT`, whatever the polls read and whether or not the lock is
acquired in each of them, followed by a call that returns `GASPI_SUCCESS` with the
state `x` and the receive buffer `rb`. Then the one call from the idle state in which
every poll reads the token at once returns `GASPI_SUCCESS` with the same state `x`,
so with the same record of posted writes and applied reductions in the same order,
and with the same receive buffer `rb`; `barrier_cnt` is the one of the idle state
incremented once, and the group is at level 0 again. This holds for every element size
and count, the size check of `pgaspi_allreduce_user` and the engine taking their
product as C computes it (`size_product`, `redux_dsize`). -/
theorem allreduce_resume_refines (K : Cfg) (E : Env) (bs br : List Nat) (elem_cnt op type elem_size : Nat)
    (user_fct : List Nat → List Nat → Nat → Nat → gaspi_return_t × List Nat)
    (fs : List ((Nat → Nat) × Bool)) (f : Nat → Nat) (b : Bool) (p0 q x : Proc) (rb : List Nat)
    (h0 : p0.grp.level = 0) (hd : p0.grp.dsize = 0) (hm : p0.grp.lastmask = 1)
    (hp : p0.grp.next_pof2 ≤ 2 ^ 31) (hK : GPI2_GRP_LOCAL_SYNC_ADDR p0.grp < K.COLL_MEM_SEND) :
    (timeout_calls (fun f b p => pgaspi_allreduce K (with_poll E f b) p bs br elem_cnt op type) fs p0
        = some q →
      pgaspi_allreduce K (with_poll E f b) q bs br elem_cnt op type = some (GASPI_SUCCESS, x, rb) →
      pgaspi_allreduce K (with_poll E (fun _ => bump_barrier_cnt p0.grp.barrier_cnt) true) p0 bs br
          elem_cnt op type = some (GASPI_SUCCESS, x, rb) ∧
        x.grp.barrier_cnt = bump_barrier_cnt p0.grp.barrier_cnt ∧ x.grp.level = 0) ∧
    (timeout_calls (fun f b p =>
          pgaspi_allreduce_user K (with_poll E f b) p bs br elem_cnt elem_size user_fct) fs p0 = some q →
      pgaspi_allreduce_user K (with_poll E f b) q bs br elem_cnt elem_size user_fct
        = some (GASPI_SUCCESS, x, rb) →
      pgaspi_allreduce_user K (with_poll E (fun _ => bump_barrier_cnt p0.grp.barrier_cnt) true) p0 bs br
          elem_cnt elem_size user_fct = some (GASPI_SUCCESS, x, rb) ∧
        x.grp.barrier_cnt = bump_barrier_cnt p0.grp.barrier_cnt ∧ x.grp.level = 0) := by
  have hR := idle_resumable K p0 h0 hd hm hp hK
  have main : ∀ (g : Option gaspi_return_t) (kind : Nat) (ra : redux_args),
      (∀ err, g = some err → err ≠ GASPI_SUCCESS ∧ err ≠ GASPI_TIMEOUT) → kind &&& kind ≠ 0 →
      timeout_calls (guarded_call K E g kind ra bs br) fs p0 = some q →
      guarded_call K E g kind ra bs br f b q = some (GASPI_SUCCESS, x, rb) →
      guarded_call K E g kind ra bs br (fun _ => bump_barrier_cnt p0.grp.barrier_cnt) true p0
          = some (GASPI_SUCCESS, x, rb) ∧
        x.grp.barrier_cnt = bump_barrier_cnt p0.grp.barrier_cnt ∧ x.grp.level = 0 := by
    intro g kind ra hg hk h1 h2
    have hc := guarded_resumes K E (bump_barrier_cnt p0.grp.barrier_cnt) g kind ra bs br hg hk
    obtain ⟨i1, i2⟩ := timeout_calls_resume hc fs p0 q hR h1
    obtain ⟨j1, j2, j3⟩ := (hc f b q GASPI_SUCCESS x rb i1 h2).1 rfl
    exact ⟨i2 x rb j1, j2, j3⟩
  constructor
  · intro h1 h2
    have e1 : (fun f b p => pgaspi_allreduce K (with_poll E f b) p bs br elem_cnt op type)
        = guarded_call K E (if elem_cnt > GPI2_ALLREDUCE_ELEM_MAX then some GASPI_ERR_INV_NUM else none)
          GASPI_ALLREDUCE
          { f_args := redux_f_args.GASPI_OP op type, elem_size := glb_gaspi_typ_size.getD type 0,
            elem_cnt := elem_cnt } bs br := by
      funext f b p
      exact allreduce_guarded K E bs br elem_cnt op type f b p
    rw [e1] at h1
    rw [allreduce_guarded] at h2 ⊢
    refine main _ _ _ ?_ (by decide) h1 h2
    intro err he
    split at he
    · injection he with he
      rw [← he]
      exact ⟨by decide, by decide⟩
    · exact absurd he (by simp)
  · intro h1 h2
    have e1 : (fun f b p => pgaspi_allreduce_user K (with_poll E f b) p bs br elem_cnt elem_size user_fct)
        = guarded_call K E
          (if elem_cnt > GPI2_ALLREDUCE_ELEM_MAX then some GASPI_ERR_INV_NUM
            else if size_product elem_size elem_cnt > K.GPI2_REDUX_BUF_SIZE then some GASPI_ERR_INV_SIZE
            else none)
          GASPI_ALLREDUCE_USER
          { f_args := redux_f_args.GASPI_USER user_fct, elem_size := elem_size, elem_cnt := elem_cnt }
          bs br := by
      funext f b p
      exact allreduce_user_guarded K E bs br elem_cnt elem_size user_fct f b p
    rw [e1] at h1
    rw [allreduce_user_guarded] at h2 ⊢
    refine main _ _ _ ?_ (by decide) h1 h2
    intro err he
    split at he
    · injection he with he
      rw [← he]
      exact ⟨by decide, by decide⟩
    · split at he
      · injection he with he
        rw [← he]
        exact ⟨by decide, by decide⟩
      · exact absurd he (by simp)

set_option maxRecDepth 100000 in
/-- Witness of `allreduce_resume_refines`: rank 0 of four, interrupted three times, for
`pgaspi_allreduce` with one 64-bit element and for `pgaspi_allreduce_user` with two
elements of the size `2^63 + 4`, whose product the size check and the engine take as
8. -/
theorem allreduce_resume_refines_witness :
    (((allreduce_outcome layout (env_token 1)
        (after_calls layout (env_token 1) (le_encode 8 5) (le_encode 8 0) 1 GASPI_OP_SUM GASPI_TYPE_ULONG
          interrupted (member 4 0))
        (le_encode 8 5) (le_encode 8 0) 1 GASPI_OP_SUM GASPI_TYPE_ULONG).1 = GASPI_SUCCESS ∧
      (after_calls layout (env_token 1) (le_encode 8 5) (le_encode 8 0) 1 GASPI_OP_SUM GASPI_TYPE_ULONG
          interrupted (member 4 0)).grp.level = 2) ∧
    pgaspi_allreduce layout (with_poll (env_token 1) (fun _ => bump_barrier_cnt (member 4 0).grp.barrier_cnt) true)
        (member 4 0) (le_encode 8 5) (le_encode 8 0) 1 GASPI_OP_SUM GASPI_TYPE_ULONG
      = some (allreduce_outcome layout (env_token 1)
          (after_calls layout (env_token 1) (le_encode 8 5) (le_encode 8 0) 1 GASPI_OP_SUM GASPI_TYPE_ULONG
            interrupted (member 4 0))
          (le_encode 8 5) (le_encode 8 0) 1 GASPI_OP_SUM GASPI_TYPE_ULONG)) ∧
    (((user_outcome layout (env_token 1)
        (after_user_calls layout (env_token 1) (le_encode 8 5) (le_encode 8 0) 2 wrapping_size
          bytewise_max interrupted (member 4 0))
        (le_encode 8 5) (le_encode 8 0) 2 wrapping_size bytewise_max).1 = GASPI_SUCCESS ∧
      (after_user_calls layout (env_token 1) (le_encode 8 5) (le_encode 8 0) 2 wrapping_size
          bytewise_max interrupted (member 4 0)).grp.level = 2 ∧
      size_product wrapping_size 2 = 8) ∧
    pgaspi_allreduce_user layout
        (with_poll (env_token 1) (fun _ => bump_barrier_cnt (member 4 0).grp.barrier_cnt) true)
        (member 4 0) (le_encode 8 5) (le_encode 8 0) 2 wrapping_size bytewise_max
      = some (user_outcome layout (env_token 1)
          (after_user_calls layout (env_token 1) (le_encode 8 5) (le_encode 8 0) 2 wrapping_size
            bytewise_max interrupted (member 4 0))
          (le_encode 8 5) (le_encode 8 0) 2 wrapping_size bytewise_max)) :=
  ⟨⟨⟨by decide, by decide⟩,
    ((allreduce_resume_refines layout (env_token 1) (le_encode 8 5) (le_encode 8 0) 1 GASPI_OP_SUM
        GASPI_TYPE_ULONG 0 (fun _ _ _ _ => (GASPI_SUCCESS, [])) interrupted (fun _ => 1) true (member 4 0)
        (after_calls layout (env_token 1) (le_encode 8 5) (le_encode 8 0) 1 GASPI_OP_SUM GASPI_TYPE_ULONG
          interrupted (member 4 0))
        (allreduce_outcome layout (env_token 1)
          (after_calls layout (env_token 1) (le_encode 8 5) (le_encode 8 0) 1 GASPI_OP_SUM GASPI_TYPE_ULONG
            interrupted (member 4 0))
          (le_encode 8 5) (le_encode 8 0) 1 GASPI_OP_SUM GASPI_TYPE_ULONG).2.1
        (allreduce_outcome layout (env_token 1)
          (after_calls layout (env_token 1) (le_encode 8 5) (le_encode 8 0) 1 GASPI_OP_SUM GASPI_TYPE_ULONG
            interrupted (member 4 0))
          (le_encode 8 5) (le_encode 8 0) 1 GASPI_OP_SUM GASPI_TYPE_ULONG).2.2
        (by decide) (by decide) (by decide) (by decide) (by decide)).1 (by rfl) (by rfl)).1⟩,
   ⟨⟨by decide, by decide, by decide⟩,
    ((allreduce_resume_refines layout (env_token 1) (le_encode 8 5) (le_encode 8 0) 2 GASPI_OP_SUM
        GASPI_TYPE_ULONG wrapping_size bytewise_max interrupted (fun _ => 1) true (member 4 0)
        (after_user_calls layout (env_token 1) (le_encode 8 5) (le_encode 8 0) 2 wrapping_size
          bytewise_max interrupted (member 4 0))
        (user_outcome layout (env_token 1)
          (after_user_calls layout (env_token 1) (le_encode 8 5) (le_encode 8 0) 2 wrapping_size
            bytewise_max interrupted (member 4 0))
          (le_encode 8 5) (le_encode 8 0) 2 wrapping_size bytewise_max).2.1
        (user_outcome layout (env_token 1)
          (after_user_calls layout (env_token 1) (le_encode 8 5) (le_encode 8 0) 2 wrapping_size
            bytewise_max interrupted (member 4 0))
          (le_encode 8 5) (le_encode 8 0) 2 wrapping_size bytewise_max).2.2
        (by decide) (by decide) (by decide) (by decide) (by decide)).2 (by rfl) (by rfl)).1⟩⟩

/-! ### Commit, create and the sync token -/

theorem find_rank_spec (rg : List Int) (rank : Nat) :
    ∀ (n i : Nat),
      ((∀ k, i ≤ k → k < i + n → rg.getD k (-1) ≠ (rank : Int)) → find_rank rg rank i n = -1) ∧
      (∀ k, i ≤ k → k < i + n → rg.getD k (-1) = (rank : Int) →
        (∀ j, i ≤ j → j < k → rg.getD j (-1) ≠ (rank : Int)) → find_rank rg rank i n = (k : Int)) := by
  intro n
  induction n with
  | zero =>
    intro i
    exact ⟨fun _ => rfl, fun k h1 h2 => absurd h2 (by omega)⟩
  | succ n ih =>
    intro i
    constructor
    · intro h
      unfold find_rank
      rw [if_neg (h i (Nat.le_refl _) (by omega))]
      exact (ih (i + 1)).1 fun k h1 h2 => h k (by omega) (by omega)
    · intro k h1 h2 hk hfirst
      unfold find_rank
      by_cases hki : k = i
      · subst hki
        rw [if_pos hk]
      · rw [if_neg (hfirst i (Nat.le_refl _) (by omega))]
        exact (ih (i + 1)).2 k (by omega) (by omega) hk fun j hj1 hj2 => hfirst j (by omega) hj2

/-- C11. With the lock acquired, `pgaspi_group_commit` returns `GASPI_ERR_INV_GROUP` when
the group has fewer than 2 members while the job has not exactly one rank, and nothing
changes; it returns `GASPI_ERR_INV_GROUP` when the calling rank is at no index below
the size of the group, and only `rank` changes, to `-1`. Both hold whatever the peers
would answer on the control plane, which is not reached. Otherwise, for a group of
fewer than `2^30` members, the call returns and leaves in `rank` the first index `i`
with `rank_grp[i]` equal to the calling rank, which is the only such index when the
members are in strictly ascending order, as `pgaspi_group_add` keeps them. -/
theorem group_commit_checks (s : Glb) (g : Nat) :
    ((s.groups g).tnc < 2 ∧ s.gctx.tnc ≠ 1 →
      ∀ E : CommitEnv, E.lock_ok = true → pgaspi_group_commit E s g = some (GASPI_ERR_INV_GROUP, s)) ∧
    (¬ ((s.groups g).tnc < 2 ∧ s.gctx.tnc ≠ 1) →
      (∀ k, k < (s.groups g).tnc → (s.groups g).rank_grp.getD k (-1) ≠ (s.gctx.rank : Int)) →
      ∀ E : CommitEnv, E.lock_ok = true →
        pgaspi_group_commit E s g
          = some (GASPI_ERR_INV_GROUP, { s with groups := upd s.groups g { s.groups g with rank := -1 } })) ∧
    (¬ ((s.groups g).tnc < 2 ∧ s.gctx.tnc ≠ 1) → (s.groups g).tnc < 2 ^ 30 →
      ∀ i, i < (s.groups g).tnc → (s.groups g).rank_grp.getD i (-1) = (s.gctx.rank : Int) →
        (∀ j, j < i → (s.groups g).rank_grp.getD j (-1) ≠ (s.gctx.rank : Int)) →
        ∀ E : CommitEnv, E.lock_ok = true →
          ∃ r s1, pgaspi_group_commit E s g = some (r, s1) ∧ (s1.groups g).rank = (i : Int)) ∧
    (∀ cap, AddInv cap (s.groups g) → (s.groups g).tnc ≤ cap →
      ∀ i j, i < (s.groups g).tnc → j < (s.groups g).tnc →
        (s.groups g).rank_grp.getD i (-1) = (s.gctx.rank : Int) →
        (s.groups g).rank_grp.getD j (-1) = (s.gctx.rank : Int) → i = j) := by
  refine ⟨?_, ?_, ?_, ?_⟩
  · intro h E hl
    unfold pgaspi_group_commit
    simp only
    rw [if_neg (by rw [hl]; decide), if_pos h]
  · intro h hno E hl
    unfold pgaspi_group_commit
    simp only
    have hf : find_rank (s.groups g).rank_grp s.gctx.rank 0 (s.groups g).tnc = -1 :=
      (find_rank_spec _ _ _ 0).1 fun k _ h2 => hno k (by omega)
    rw [if_neg (by rw [hl]; decide), if_neg h, hf, if_pos rfl]
  · intro h h30 i hi hk hfirst E hl
    have hf : find_rank (s.groups g).rank_grp s.gctx.rank 0 (s.groups g).tnc = (i : Int) :=
      (find_rank_spec _ _ _ 0).2 i (Nat.zero_le _) (by omega) hk fun j _ hj => hfirst j hj
    unfold pgaspi_group_commit
    simp only
    rw [if_neg (by rw [hl]; decide), if_neg h, hf, if_neg (by omega)]
    split
    · rename_i hnone
      exact absurd hnone (set_pof2_ne_none _ (show 1 ≤ (s.groups g).tnc by omega) h30)
    · rename_i c2 hsome
      refine ⟨_, _, rfl, ?_⟩
      simp only [upd_same]
      have hc2 := (set_pof2_spec { s.groups g with rank := (i : Int) }
        (show 1 ≤ (s.groups g).tnc by omega) h30).1
      rw [hsome] at hc2
      injection hc2 with hc2
      have hr : c2.rank = (i : Int) := by rw [hc2]
      have hcl : ∀ (rs : List Nat) (c : gaspi_group_ctx_t),
          (commit_loop E s.gctx rs c).2.rank = c.rank := by
        intro rs
        induction rs with
        | nil => intro c; rfl
        | cons r rs ih =>
          intro c
          unfold commit_loop
          simp only
          split
          · exact ih c
          · split
            · rfl
            · have hto : ∀ k, (_pgaspi_group_commit_to E.grp_connect c k).2.rank = c.rank := by
                intro k
                unfold _pgaspi_group_commit_to
                split <;> rfl
              split
              · exact hto _
              · exact (ih _).trans (hto _)
      exact (hcl _ c2).trans hr
  · intro cap hinv hcap i j hi hj h1 h2
    obtain ⟨hlen, hsorted, _⟩ := hinv
    have hnd : (members (s.groups g)).Nodup := hsorted.nodup
    have hml : (members (s.groups g)).length = (s.groups g).tnc := by
      unfold members
      rw [List.length_take, hlen]
      omega
    have hget : ∀ k, k < (s.groups g).tnc →
        (members (s.groups g)).getD k (-1) = (s.groups g).rank_grp.getD k (-1) := by
      intro k hk
      unfold members
      rw [List.getD_eq_getElem?_getD, List.getD_eq_getElem?_getD, List.getElem?_take_of_lt hk]
    have e1 := hget i hi
    have e2 := hget j hj
    rw [h1] at e1
    rw [h2] at e2
    rw [List.getD_eq_getElem _ _ (by rw [hml]; exact hi)] at e1
    rw [List.getD_eq_getElem _ _ (by rw [hml]; exact hj)] at e2
    exact (List.Nodup.getElem_inj_iff hnd).1 (e1.trans e2.symm)

theorem group_commit_checks_witness :
    (¬ ((group_of_two.groups 0).tnc < 2 ∧ group_of_two.gctx.tnc ≠ 1) ∧ (group_of_two.groups 0).tnc < 2 ^ 30 ∧
      (group_of_two.groups 0).rank_grp.getD 1 (-1) = (group_of_two.gctx.rank : Int)) ∧
    ∃ r s1, pgaspi_group_commit commit_env_ok group_of_two 0 = some (r, s1) ∧ (s1.groups 0).rank = ((1 : Nat) : Int) :=
  ⟨⟨by decide, by decide, by decide⟩,
    (group_commit_checks group_of_two 0).2.2.1 (by decide) (by decide) 1 (by decide) (by decide)
      (by decide) commit_env_ok rfl⟩

/-- The three ways `pgaspi_group_create` ends: no slot, a failure after a slot was found
free, or success. -/
theorem group_create_cases (E : CreateEnv) (s : Glb) :
    pgaspi_group_create E s = (GASPI_ERR_MANY_GRP, none, s) ∨
    (∃ e c, e ≠ GASPI_SUCCESS ∧ c.id = -1 ∧
      find_free_slot s.groups 0 GASPI_MAX_GROUPS ≠ GASPI_MAX_GROUPS ∧
      pgaspi_group_create E s = (e, none,
        { gctx := s.gctx,
          groups := upd s.groups (find_free_slot s.groups 0 GASPI_MAX_GROUPS)
            (_gaspi_release_group_mem E.unregister_ok c).2 })) ∨
    (∃ c, find_free_slot s.groups 0 GASPI_MAX_GROUPS ≠ GASPI_MAX_GROUPS ∧
      ¬ s.gctx.group_cnt ≥ (GASPI_MAX_GROUPS : Int) ∧
      pgaspi_group_create E s = (GASPI_SUCCESS, some (find_free_slot s.groups 0 GASPI_MAX_GROUPS),
        { gctx := { s.gctx with group_cnt := s.gctx.group_cnt + 1 },
          groups := upd s.groups (find_free_slot s.groups 0 GASPI_MAX_GROUPS) c })) := by
  unfold pgaspi_group_create
  simp only
  by_cases h1 : s.gctx.group_cnt ≥ (GASPI_MAX_GROUPS : Int)
  · rw [if_pos h1]
    exact Or.inl rfl
  rw [if_neg h1]
  by_cases h2 : find_free_slot s.groups 0 GASPI_MAX_GROUPS = GASPI_MAX_GROUPS
  · rw [if_pos h2]
    exact Or.inl rfl
  rw [if_neg h2]
  have hid : (s.groups (find_free_slot s.groups 0 GASPI_MAX_GROUPS)).id = -1 :=
    (find_free_slot_spec s.groups GASPI_MAX_GROUPS 0 h2).2.2.1
  by_cases h3 : (!E.page_size_ok) = true
  · rw [if_pos h3]
    exact Or.inr (Or.inl ⟨_, _, by decide, hid, h2, rfl⟩)
  rw [if_neg h3]
  by_cases h4 : (!E.calloc_rrcd_ok) = true
  · rw [if_pos h4]
    exact Or.inr (Or.inl ⟨_, _, by decide, rfl, h2, rfl⟩)
  rw [if_neg h4]
  by_cases h5 : (!E.memalign_ok) = true
  · rw [if_pos h5]
    exact Or.inr (Or.inl ⟨_, _, by decide, rfl, h2, rfl⟩)
  rw [if_neg h5]
  by_cases h6 : (!E.register_ok) = true
  · rw [if_pos h6]
    exact Or.inr (Or.inl ⟨_, _, by decide, rfl, h2, rfl⟩)
  rw [if_neg h6]
  by_cases h7 : (!E.malloc_rank_grp_ok) = true
  · rw [if_pos h7]
    exact Or.inr (Or.inl ⟨_, _, by decide, rfl, h2, rfl⟩)
  rw [if_neg h7]
  by_cases h8 : (!E.calloc_committed_ok) = true
  · rw [if_pos h8]
    exact Or.inr (Or.inl ⟨_, _, by decide, rfl, h2, rfl⟩)
  rw [if_neg h8]
  exact Or.inr (Or.inr ⟨_, h2, h1, rfl⟩)

/-- C12. `pgaspi_group_create` returns `GASPI_ERR_MANY_GRP` and changes nothing when
`group_cnt` is 32 or more, or when no slot is free. When it returns `GASPI_SUCCESS`,
the id it gives is the smallest index of a slot whose `id` was `-1`; in the new state
that slot has the index as its `id` and a `rank_grp` of `tnc` entries, all `-1`,
`group_cnt` is one more, and every other slot is as before. When it returns anything
else, no id is given, the process context with `group_cnt` is unchanged, every slot
whose `id` was `-1` still has `id = -1`, and at most the slot found free changed. -/
theorem group_create_result (E : CreateEnv) (s : Glb) :
    ((s.gctx.group_cnt ≥ (GASPI_MAX_GROUPS : Int) ∨ ∀ i, i < GASPI_MAX_GROUPS → (s.groups i).id ≠ -1) →
      pgaspi_group_create E s = (GASPI_ERR_MANY_GRP, none, s)) ∧
    (∀ g s1, pgaspi_group_create E s = (GASPI_SUCCESS, some g, s1) →
      g < GASPI_MAX_GROUPS ∧ (s.groups g).id = -1 ∧ (∀ j, j < g → (s.groups j).id ≠ -1) ∧
      (s1.groups g).id = (g : Int) ∧ (s1.groups g).rank_grp.length = s.gctx.tnc ∧
      (∀ x ∈ (s1.groups g).rank_grp, x = -1) ∧
      s1.gctx.group_cnt = s.gctx.group_cnt + 1 ∧ (∀ j, j ≠ g → s1.groups j = s.groups j)) ∧
    (∀ r o s1, pgaspi_group_create E s = (r, o, s1) → r ≠ GASPI_SUCCESS →
      o = none ∧ s1.gctx = s.gctx ∧ (∀ j, (s.groups j).id = -1 → (s1.groups j).id = -1) ∧
      (∀ j, j ≠ find_free_slot s.groups 0 GASPI_MAX_GROUPS → s1.groups j = s.groups j)) ∧
    (∀ r o s1, pgaspi_group_create E s = (r, o, s1) → r = GASPI_SUCCESS → ∃ g, o = some g) := by
  have hnofree : (∀ i, i < GASPI_MAX_GROUPS → (s.groups i).id ≠ -1) →
      find_free_slot s.groups 0 GASPI_MAX_GROUPS = GASPI_MAX_GROUPS := by
    intro h
    by_contra hne
    obtain ⟨_, h2, h3, _⟩ := find_free_slot_spec s.groups GASPI_MAX_GROUPS 0 hne
    exact h _ (by omega) h3
  have hrel : ∀ c : gaspi_group_ctx_t, c.id = -1 →
      (_gaspi_release_group_mem E.unregister_ok c).2.id = -1 := by
    intro c hc
    unfold _gaspi_release_group_mem
    split
    · split <;> exact hc
    · exact hc
  refine ⟨?_, ?_, ?_, ?_⟩
  · intro h
    rcases group_create_cases E s with hc | ⟨e, c, _, _, h2, _⟩ | ⟨s1, h2, h1, _⟩
    · exact hc
    · rcases h with h | h
      · unfold pgaspi_group_create
        rw [if_pos h]
      · exact absurd (hnofree h) h2
    · rcases h with h | h
      · exact absurd h h1
      · exact absurd (hnofree h) h2
  · intro g s1 h
    obtain ⟨h1, h2, h3, h4, h5, h6, h7⟩ := group_create_success h
    obtain ⟨_, k2, k3, k4⟩ := find_free_slot_spec s.groups GASPI_MAX_GROUPS 0 (h1 ▸ h2)
    rw [← h1] at k2 k3 k4
    refine ⟨by omega, k3, fun j hj => k4 j (Nat.zero_le _) hj, h7, ?_, ?_, h3, ?_⟩
    · rw [h6, List.length_replicate]
    · intro x hx
      rw [h6] at hx
      exact List.eq_of_mem_replicate hx
    · intro j hj
      rcases group_create_cases E s with hc | ⟨e, c, _, _, _, hc⟩ | ⟨c, _, _, hc⟩
      · rw [hc] at h
        simp at h
      · rw [hc] at h
        simp at h
      · rw [hc] at h
        simp only [Prod.mk.injEq, Option.some.injEq, true_and] at h
        obtain ⟨e1, e2⟩ := h
        subst e2
        show upd s.groups _ _ j = _
        unfold upd
        rw [if_neg (by rw [e1]; exact hj)]
  · intro r o s1 h hr
    rcases group_create_cases E s with hc | ⟨e, c, _, hcid, h2, hc⟩ | ⟨s2, _, _, hc⟩
    · rw [hc] at h
      simp only [Prod.mk.injEq] at h
      obtain ⟨_, e2, e3⟩ := h
      subst e2 e3
      exact ⟨rfl, rfl, fun j hj => hj, fun j _ => rfl⟩
    · rw [hc] at h
      simp only [Prod.mk.injEq] at h
      obtain ⟨_, e2, e3⟩ := h
      subst e2 e3
      refine ⟨rfl, rfl, ?_, ?_⟩
      · intro j hj
        show (upd s.groups _ _ j).id = -1
        unfold upd
        split
        · exact hrel c hcid
        · exact hj
      · intro j hj
        show upd s.groups _ _ j = _
        unfold upd
        rw [if_neg hj]
    · rw [hc] at h
      simp only [Prod.mk.injEq] at h
      exact absurd h.1.symm hr
  · intro r o s1 h hr
    subst hr
    rcases group_create_cases E s with hc | ⟨e, c, he, _, _, hc⟩ | ⟨s2, _, _, hc⟩
    · rw [hc] at h
      simp only [Prod.mk.injEq] at h
      exact absurd h.1 (by decide)
    · rw [hc] at h
      simp only [Prod.mk.injEq] at h
      exact absurd h.1 he
    · rw [hc] at h
      simp only [Prod.mk.injEq] at h
      exact ⟨_, h.2.1.symm⟩

theorem group_create_result_witness :
    (pgaspi_group_create create_env_ok (boot 4 0) = (GASPI_SUCCESS, some 0, fresh_group)) ∧
      (0 < GASPI_MAX_GROUPS ∧ ((boot 4 0).groups 0).id = -1 ∧ (∀ j, j < 0 → ((boot 4 0).groups j).id ≠ -1) ∧
      (fresh_group.groups 0).id = ((0 : Nat) : Int) ∧ (fresh_group.groups 0).rank_grp.length = (boot 4 0).gctx.tnc ∧
      (∀ x ∈ (fresh_group.groups 0).rank_grp, x = -1) ∧
      fresh_group.gctx.group_cnt = (boot 4 0).gctx.group_cnt + 1 ∧
      (∀ j, j ≠ 0 → fresh_group.groups j = (boot 4 0).groups j)) :=
  ⟨rfl, (group_create_result create_env_ok (boot 4 0)).2.1 0 fresh_group rfl⟩

theorem bump_barrier_cnt_spec (c : Nat) (hc : c < 256) :
    bump_barrier_cnt c = (if c < 255 then c + 1 else 1) ∧ bump_barrier_cnt c ≠ 0 ∧
      bump_barrier_cnt c < 256 := by
  unfold bump_barrier_cnt
  by_cases h : c < 255
  · rw [if_neg (by omega), if_pos h]
    omega
  · have : c = 255 := by omega
    subst this
    decide

/-- C13. With an 8-bit `barrier_cnt` of value `c`: on a first entry (`lastmask = 1` for
`pgaspi_barrier`, `level = 0` for the allreduce) the counter, which is the token that
the call writes and waits for, becomes `c + 1` when `c < 255` and `1` when `c = 255`,
so it is never 0 and stays below 256, and the barrier stores it in the local sync
flag; on a resumed entry (`lastmask ≠ 1`, `level ≠ 0`) the counter stays `c`. -/
theorem sync_token_bump (K : Cfg) (p : Proc) (bs : List Nat) (ra : redux_args)
    (hc : p.grp.barrier_cnt < 256) :
    (p.grp.lastmask = 1 →
      (barrier_enter p).grp.barrier_cnt = (if p.grp.barrier_cnt < 255 then p.grp.barrier_cnt + 1 else 1) ∧
      (barrier_enter p).grp.barrier_cnt ≠ 0 ∧ (barrier_enter p).grp.barrier_cnt < 256 ∧
      (barrier_enter p).grp.buf (GPI2_GRP_LOCAL_SYNC_ADDR (barrier_enter p).grp)
        = (barrier_enter p).grp.barrier_cnt) ∧
    (p.grp.lastmask ≠ 1 →
      (barrier_enter p).grp.barrier_cnt = p.grp.barrier_cnt ∧
      (barrier_enter p).grp.buf (GPI2_GRP_LOCAL_SYNC_ADDR (barrier_enter p).grp) = p.grp.barrier_cnt) ∧
    (p.grp.level = 0 →
      (allreduce_enter K p bs ra).grp.barrier_cnt
        = (if p.grp.barrier_cnt < 255 then p.grp.barrier_cnt + 1 else 1) ∧
      (allreduce_enter K p bs ra).grp.barrier_cnt ≠ 0 ∧ (allreduce_enter K p bs ra).grp.barrier_cnt < 256) ∧
    (p.grp.level ≠ 0 → (allreduce_enter K p bs ra).grp.barrier_cnt = p.grp.barrier_cnt) := by
  obtain ⟨b1, b2, b3⟩ := bump_barrier_cnt_spec p.grp.barrier_cnt hc
  have hflag : (barrier_enter p).grp.buf (GPI2_GRP_LOCAL_SYNC_ADDR (barrier_enter p).grp)
      = (barrier_enter p).grp.barrier_cnt := by
    unfold barrier_enter
    simp only
    split <;> exact upd_same _ _ _
  refine ⟨?_, ?_, ?_, ?_⟩
  · intro h
    have e := barrier_enter_cnt p
    rw [if_pos h] at e
    rw [hflag, e]
    exact ⟨b1, b2, b3, rfl⟩
  · intro h
    have e := barrier_enter_cnt p
    rw [if_neg h] at e
    rw [hflag, e]
    exact ⟨rfl, rfl⟩
  · intro h
    have e : (allreduce_enter K p bs ra).grp.barrier_cnt = bump_barrier_cnt p.grp.barrier_cnt := by
      unfold allreduce_enter
      simp only
      rw [if_pos h]
    rw [e]
    exact ⟨b1, b2, b3⟩
  · intro h
    unfold allreduce_enter
    simp only
    rw [if_neg h]

theorem sync_token_bump_witness :
    (member 2 0).grp.barrier_cnt < 256 ∧ (member 2 0).grp.lastmask = 1 ∧
      (barrier_enter (member 2 0)).grp.barrier_cnt
        = (if (member 2 0).grp.barrier_cnt < 255 then (member 2 0).grp.barrier_cnt + 1 else 1) ∧
      (barrier_enter (member 2 0)).grp.barrier_cnt ≠ 0 ∧ (barrier_enter (member 2 0)).grp.barrier_cnt < 256 ∧
      (barrier_enter (member 2 0)).grp.buf (GPI2_GRP_LOCAL_SYNC_ADDR (barrier_enter (member 2 0)).grp)
        = (barrier_enter (member 2 0)).grp.barrier_cnt :=
  ⟨by decide, by decide,
    (sync_token_bump layout (member 2 0) [] { f_args := redux_f_args.GASPI_OP 0 0, elem_size := 0, elem_cnt := 0 }
      (by decide)).1 (by decide)⟩

/-! ### The resumption fields of an idle group -/

theorem L1_body_returned_coll_op {K : Cfg} {E : Env} {ra : redux_args} {p q : Proc} {l : Loc}
    {e : gaspi_return_t} (h : allreduce_L1_body K E ra p l = LoopEnd.returned e q) :
    q.grp.coll_op = p.grp.coll_op := by
  unfold allreduce_L1_body at h
  simp only at h
  split at h
  · split at h
    · split at h
      · injection h with _ h
        rw [← h]
        exact frameW_coll_op (syncOk_frameW (write_and_sync_syncOk K E p _ _ _ _))
      · exact absurd h (by simp)
    · split at h
      · injection h with _ h
        rw [← h]
      · split at h
        · injection h with _ h
          rw [← h]
          rfl
        · exact absurd h (by simp)
  · exact absurd h (by simp)

theorem L2_post_returned_coll_op {K : Cfg} {E : Env} {ra : redux_args} {m idst dst : Nat}
    {w : gaspi_return_t × Proc} {l : Loc} {e : gaspi_return_t} {q : Proc}
    (h : allreduce_L2_post K E ra m idst dst w l = LoopEnd.returned e q) :
    q.grp.coll_op = w.2.grp.coll_op := by
  unfold allreduce_L2_post at h
  split at h
  · injection h with _ h
    rw [← h]
    rfl
  split at h
  · injection h with _ h
    rw [← h]
  simp only at h
  split at h
  · injection h with _ h
    rw [← h]
    rfl
  · exact absurd h (by simp)

theorem L2_loop_returned_coll_op (K : Cfg) (E : Env) (ra : redux_args) :
    ∀ (n m : Nat) (j : Bool) (p : Proc) (l : Loc) (e : gaspi_return_t) (q : Proc),
      allreduce_L2_loop K E ra n m j p l = some (LoopEnd.returned e q) →
      q.grp.coll_op = p.grp.coll_op := by
  intro n
  induction n with
  | zero =>
    intro m j p l e q h
    rw [L2_loop_zero] at h
    split at h <;> exact absurd h (by simp)
  | succ n ih =>
    intro m j p l e q h
    rw [L2_loop_succ] at h
    split at h
    · cases hr : allreduce_L2_round K E ra m j p l with
      | returned e2 q2 =>
        rw [hr] at h
        injection h with h
        injection h with h1 h2
        subst h1 h2
        rw [L2_round_eq] at hr
        exact (L2_post_returned_coll_op hr).trans
          (frameW_coll_op (syncOk_frameW (L2_pre_syncOk K E ra m j p l)))
      | fallthrough y =>
        rw [hr] at h
        exact (ih _ _ _ _ _ _ h).trans (frameW_coll_op (L2_round_fall_inv hr).1)
    · exact absurd h (by simp)

theorem L3_returned_coll_op {K : Cfg} {E : Env} {ra : redux_args} {p q : Proc} {l : Loc}
    {e : gaspi_return_t} (h : allreduce_L3 K E ra p l = LoopEnd.returned e q) :
    q.grp.coll_op = p.grp.coll_op := by
  unfold allreduce_L3 at h
  simp only at h
  split at h
  · split at h
    · split at h
      · injection h with _ h
        rw [← h]
        exact frameW_coll_op (syncOk_frameW (write_and_sync_syncOk K E p _ _ _ _))
      · exact absurd h (by simp)
    · split at h
      · injection h with _ h
        rw [← h]
      · exact absurd h (by simp)
  · exact absurd h (by simp)

/-- What a call of the engine leaves in the group: on `GASPI_SUCCESS` the idle values of
the resumption fields with `coll_op = GASPI_NONE`, otherwise the holder of its entry. -/
theorem from_L3_outcome {K : Cfg} {E : Env} {ra : redux_args} {P x : Proc} {l : Loc}
    {br rb : List Nat} {e : gaspi_return_t}
    (h : allreduce_from_L3 K E ra br (P, l) = some (e, x, rb)) :
    (e = GASPI_SUCCESS → x.grp.coll_op = GASPI_NONE ∧ x.grp.lastmask = 1 ∧ x.grp.level = 0 ∧
      x.grp.bid = 0 ∧ x.grp.dsize = 0) ∧
    (e ≠ GASPI_SUCCESS → x.grp.coll_op = P.grp.coll_op) := by
  unfold allreduce_from_L3 at h
  simp only at h
  cases hr : allreduce_L3 K E ra P l with
  | returned e2 q =>
    rw [hr] at h
    injection h with h
    injection h with h1 h2
    injection h2 with h2 _
    subst h1 h2
    exact ⟨fun he => absurd he (L3_code hr), fun _ => L3_returned_coll_op hr⟩
  | fallthrough y =>
    rw [hr] at h
    simp only at h
    unfold allreduce_finish at h
    cases hp : pgaspi_dev_poll_groups E y.1 with
    | none =>
      rw [hp] at h
      exact absurd h (by simp)
    | some r =>
      rw [hp] at h
      simp only at h
      have hg := (poll_groups_grp (show pgaspi_dev_poll_groups E y.1 = some (r.1, r.2) from hp)).1
      split at h
      · injection h with h
        injection h with h1 h2
        injection h2 with h2 _
        subst h1 h2
        refine ⟨fun he => absurd he (by decide), fun _ => ?_⟩
        rw [hg]
        exact frameW_coll_op (L3_inv hr)
      · injection h with h
        injection h with h1 h2
        injection h2 with h2 _
        subst h1 h2
        exact ⟨fun _ => ⟨rfl, rfl, rfl, rfl, rfl⟩, fun he => absurd rfl he⟩

theorem from_L2_outcome {K : Cfg} {E : Env} {ra : redux_args} {P x : Proc} {l : Loc}
    {br rb : List Nat} {e : gaspi_return_t}
    (h : allreduce_from_L2 K E ra br (P, l) = some (e, x, rb)) :
    (e = GASPI_SUCCESS → x.grp.coll_op = GASPI_NONE ∧ x.grp.lastmask = 1 ∧ x.grp.level = 0 ∧
      x.grp.bid = 0 ∧ x.grp.dsize = 0) ∧
    (e ≠ GASPI_SUCCESS → x.grp.coll_op = P.grp.coll_op) := by
  rw [from_L2_eq] at h
  by_cases ht : l.tmprank ≠ -1
  · rw [if_pos ht] at h
    cases hr : allreduce_L2_loop K E ra P.grp.next_pof2 (P.grp.lastmask &&& 0x7fffffff)
        (decide (P.grp.lastmask >>> 31 ≠ 0)) P l with
    | none =>
      rw [hr] at h
      exact absurd h (by simp [allreduce_after_L2])
    | some r =>
      cases r with
      | returned e2 q2 =>
        rw [hr] at h
        have h3 : some (e2, q2, br) = some (e, x, rb) := h
        injection h3 with h3
        injection h3 with h3 h4
        injection h4 with h4 _
        subst h3 h4
        exact ⟨fun he => absurd he (L2_loop_code K _ ra _ _ _ _ _ _ _ hr),
          fun _ => L2_loop_returned_coll_op K _ ra _ _ _ _ _ _ _ hr⟩
      | fallthrough y =>
        rw [hr] at h
        have h3 : allreduce_from_L3 K E ra br ((enter_L3 y).1, (enter_L3 y).2) = some (e, x, rb) := h
        obtain ⟨a1, a2⟩ := from_L3_outcome h3
        exact ⟨a1, fun he => (a2 he).trans (show y.1.grp.coll_op = _ from
          frameW_coll_op (L2_loop_inv K _ ra _ _ _ _ _ y hr).1)⟩
  · rw [if_neg ht] at h
    have h3 : allreduce_from_L3 K E ra br ((enter_L3 (P, l)).1, (enter_L3 (P, l)).2) = some (e, x, rb) := h
    obtain ⟨a1, a2⟩ := from_L3_outcome h3
    exact ⟨a1, a2⟩

theorem engine_outcome {K : Cfg} {E : Env} {ra : redux_args} {p x : Proc} {bs br rb : List Nat}
    {e : gaspi_return_t} (h : allreduce_from_L0 K E p bs br ra = some (e, x, rb)) :
    (e = GASPI_SUCCESS → x.grp.coll_op = GASPI_NONE ∧ x.grp.lastmask = 1 ∧ x.grp.level = 0 ∧
      x.grp.bid = 0 ∧ x.grp.dsize = 0) ∧
    (e ≠ GASPI_SUCCESS → x.grp.coll_op = p.grp.coll_op) := by
  have hent : (allreduce_enter K p bs ra).grp.coll_op = p.grp.coll_op := by
    unfold allreduce_enter
    simp only
    split <;> rfl
  unfold allreduce_from_L0 at h
  simp only at h
  split at h
  · obtain ⟨a1, a2⟩ := from_L2_outcome h
    exact ⟨a1, fun he => (a2 he).trans hent⟩
  split at h
  · obtain ⟨a1, a2⟩ := from_L3_outcome h
    exact ⟨a1, fun he => (a2 he).trans hent⟩
  unfold allreduce_L1 at h
  cases hb : allreduce_L1_body K E ra (allreduce_enter K p bs ra)
      (allreduce_locals K (allreduce_enter K p bs ra).grp) with
  | returned e2 q2 =>
    rw [hb] at h
    have h3 : some (e2, q2, br) = some (e, x, rb) := h
    injection h3 with h3
    injection h3 with h3 h4
    injection h4 with h4 _
    subst h3 h4
    exact ⟨fun he => absurd he (L1_body_code hb), fun _ => (L1_body_returned_coll_op hb).trans hent⟩
  | fallthrough y =>
    rw [hb] at h
    have h3 : allreduce_from_L2 K E ra br ((enter_L2 y).1, (enter_L2 y).2) = some (e, x, rb) := h
    obtain ⟨a1, a2⟩ := from_L2_outcome h3
    exact ⟨a1, fun he => (a2 he).trans ((show y.1.grp.coll_op = _ from
      frameW_coll_op (L1_body_inv hb).1).trans hent)⟩

theorem barrier_enter_idle_fields (p : Proc) :
    (barrier_enter p).grp.level = p.grp.level ∧ (barrier_enter p).grp.bid = p.grp.bid ∧
      (barrier_enter p).grp.dsize = p.grp.dsize := by
  unfold barrier_enter
  simp only
  split <;> exact ⟨rfl, rfl, rfl⟩

theorem barrier_keeps_idleInv {E : Env} {p q : Proc} {r : gaspi_return_t}
    (hp : IdleInv p.grp) (h : pgaspi_barrier E p = some (r, q)) : IdleInv q.grp := by
  unfold pgaspi_barrier at h
  split at h
  · injection h with h
    injection h with _ h
    rw [← h]
    exact hp
  split at h
  · injection h with h
    injection h with _ h
    rw [← h]
    exact hp
  rename_i hadm
  have hheld : p.grp.coll_op = GASPI_NONE ∨ p.grp.coll_op = GASPI_BARRIER := by
    rcases hp.2.2 with h1 | h1 | h1 | h1
    · exact Or.inl h1
    · exact Or.inr h1
    · rw [h1] at hadm
      exact absurd (by decide) hadm
    · rw [h1] at hadm
      exact absurd (by decide) hadm
  obtain ⟨z1, z2, z3⟩ := hp.1 hheld
  obtain ⟨e1, e2, e3⟩ := barrier_enter_idle_fields p
  have hent : (barrier_enter p).grp.coll_op = GASPI_BARRIER := barrier_enter_coll_op p
  have hround : ∀ x : Proc, RoundFrame (barrier_enter p).grp x.grp →
      x.grp.coll_op = GASPI_BARRIER ∧ x.grp.level = 0 ∧ x.grp.bid = 0 ∧ x.grp.dsize = 0 := by
    intro x hx
    obtain ⟨cr, lm, hx⟩ := hx
    rw [hx]
    exact ⟨hent, e1.trans z1, e2.trans z2, e3.trans z3⟩
  have hheldb : ∀ x : Proc,
      x.grp.coll_op = GASPI_BARRIER ∧ x.grp.level = 0 ∧ x.grp.bid = 0 ∧ x.grp.dsize = 0 →
      IdleInv x.grp := by
    intro x hx
    refine ⟨fun _ => hx.2, fun hn => ?_, Or.inr (Or.inl hx.1)⟩
    rw [hx.1] at hn
    exact absurd hn (by decide)
  rcases barrier_after_cases h with hl | ⟨q1, hl, hfin⟩
  · exact hheldb q (hround q (barrier_loop_returned_frame E _ _ _ _ _ _ hl).1)
  · have h1 := hround q1 (postFrame_round (barrier_loop_fallthrough_frame E _ _ _ _ _ hl).1)
    rcases barrier_finish_cases hfin with ⟨_, hg, _⟩ | ⟨_, _, hg⟩
    · apply hheldb q
      rw [hg]
      exact h1
    · rw [hg]
      exact ⟨fun _ => h1.2, fun _ => rfl, Or.inl rfl⟩

theorem guarded_keeps_idleInv {K : Cfg} {E : Env} {g : Option gaspi_return_t} {kind : Nat}
    {ra : redux_args} {bs br rb : List Nat} {f : Nat → Nat} {b : Bool} {p q : Proc}
    {e : gaspi_return_t} (hk : kind = GASPI_ALLREDUCE ∨ kind = GASPI_ALLREDUCE_USER)
    (hp : IdleInv p.grp) (h : guarded_call K E g kind ra bs br f b p = some (e, q, rb)) :
    IdleInv q.grp := by
  unfold guarded_call at h
  split at h
  · injection h with h
    injection h with _ h
    injection h with h _
    rw [← h]
    exact hp
  split at h
  · injection h with h
    injection h with _ h
    injection h with h _
    rw [← h]
    exact hp
  split at h
  · injection h with h
    injection h with _ h
    injection h with h _
    rw [← h]
    exact hp
  obtain ⟨a1, a2⟩ := engine_outcome (engine_returns h).2
  by_cases he : e = GASPI_SUCCESS
  · obtain ⟨b1, b2, b3, b4, b5⟩ := a1 he
    exact ⟨fun _ => ⟨b3, b4, b5⟩, fun _ => b2, Or.inl b1⟩
  · have hc : q.grp.coll_op = kind := a2 he
    have hne : q.grp.coll_op ≠ GASPI_NONE ∧ q.grp.coll_op ≠ GASPI_BARRIER := by
      rw [hc]
      rcases hk with hk | hk <;> rw [hk] <;> exact ⟨by decide, by decide⟩
    refine ⟨fun hh => ?_, fun hh => absurd hh hne.1, ?_⟩
    · rcases hh with hh | hh
      · exact absurd hh hne.1
      · exact absurd hh hne.2
    · rw [hc]
      rcases hk with hk | hk
      · exact Or.inr (Or.inr (Or.inl hk))
      · exact Or.inr (Or.inr (Or.inr hk))

theorem run_call_keeps_idleInv {c : CollCall} {p q : Proc} (hp : IdleInv p.grp)
    (h : run_call c p = some q) : IdleInv q.grp := by
  cases c with
  | barrier E =>
    change Option.map (fun x => x.2) (pgaspi_barrier E p) = some q at h
    cases hb : pgaspi_barrier E p with
    | none =>
      rw [hb] at h
      exact absurd h (by simp)
    | some x =>
      rw [hb] at h
      simp only [Option.map_some', Option.some.injEq] at h
      rw [← h]
      exact barrier_keeps_idleInv hp (show pgaspi_barrier E p = some (x.1, x.2) from hb)
  | allreduce K E bs br elem_cnt op type =>
    change Option.map (fun x => x.2.1) (pgaspi_allreduce K E p bs br elem_cnt op type) = some q at h
    have hg := allreduce_guarded K E bs br elem_cnt op type E.poll E.lock_ok p
    have hE : with_poll E E.poll E.lock_ok = E := rfl
    rw [hE] at hg
    rw [hg] at h
    cases hb : guarded_call K E (if elem_cnt > GPI2_ALLREDUCE_ELEM_MAX then some GASPI_ERR_INV_NUM else none)
        GASPI_ALLREDUCE
        { f_args := redux_f_args.GASPI_OP op type, elem_size := glb_gaspi_typ_size.getD type 0,
          elem_cnt := elem_cnt } bs br E.poll E.lock_ok p with
    | none =>
      rw [hb] at h
      exact absurd h (by simp)
    | some x =>
      rw [hb] at h
      simp only [Option.map_some', Option.some.injEq] at h
      rw [← h]
      exact guarded_keeps_idleInv (Or.inl rfl) hp
        (show guarded_call K E _ _ _ bs br E.poll E.lock_ok p = some (x.1, x.2.1, x.2.2) from hb)
  | allreduce_user K E bs br elem_cnt elem_size user_fct =>
    change Option.map (fun x => x.2.1)
      (pgaspi_allreduce_user K E p bs br elem_cnt elem_size user_fct) = some q at h
    have hg := allreduce_user_guarded K E bs br elem_cnt elem_size user_fct E.poll E.lock_ok p
    have hE : with_poll E E.poll E.lock_ok = E := rfl
    rw [hE] at hg
    rw [hg] at h
    cases hb : guarded_call K E
        (if elem_cnt > GPI2_ALLREDUCE_ELEM_MAX then some GASPI_ERR_INV_NUM
          else if size_product elem_size elem_cnt > K.GPI2_REDUX_BUF_SIZE then some GASPI_ERR_INV_SIZE
            else none)
        GASPI_ALLREDUCE_USER
        { f_args := redux_f_args.GASPI_USER user_fct, elem_size := elem_size, elem_cnt := elem_cnt }
        bs br E.poll E.lock_ok p with
    | none =>
      rw [hb] at h
      exact absurd h (by simp)
    | some x =>
      rw [hb] at h
      simp only [Option.map_some', Option.some.injEq] at h
      rw [← h]
      exact guarded_keeps_idleInv (Or.inr rfl) hp
        (show guarded_call K E _ _ _ bs br E.poll E.lock_ok p = some (x.1, x.2.1, x.2.2) from hb)

theorem run_calls_keep_idleInv :
    ∀ (cs : List CollCall) (p q : Proc), IdleInv p.grp → run_calls cs p = some q → IdleInv q.grp := by
  intro cs
  induction cs with
  | nil =>
    intro p q hp h
    simp only [run_calls, Option.some.injEq] at h
    rw [← h]
    exact hp
  | cons c cs ih =>
    intro p q hp h
    unfold run_calls at h
    cases hc : run_call c p with
    | none =>
      rw [hc] at h
      exact absurd h (by simp)
    | some x =>
      rw [hc] at h
      exact ih x q (run_call_keeps_idleInv hp hc) h

theorem reset_group_idleInv (c : gaspi_group_ctx_t) : IdleInv (GASPI_RESET_GROUP c) :=
  ⟨fun _ => ⟨rfl, rfl, rfl⟩, fun _ => rfl, Or.inl rfl⟩

theorem group_create_idleInv {E : CreateEnv} {s s1 : Glb} {g : Nat}
    (h : pgaspi_group_create E s = (GASPI_SUCCESS, some g, s1)) : IdleInv (s1.groups g) := by
  unfold pgaspi_group_create at h
  simp only at h
  by_cases h1 : s.gctx.group_cnt ≥ (GASPI_MAX_GROUPS : Int)
  · rw [if_pos h1] at h
    exact absurd (show _ = GASPI_SUCCESS from congrArg Prod.fst h) (fun hh => by cases hh)
  rw [if_neg h1] at h
  by_cases h2 : find_free_slot s.groups 0 GASPI_MAX_GROUPS = GASPI_MAX_GROUPS
  · rw [if_pos h2] at h
    exact absurd (show _ = GASPI_SUCCESS from congrArg Prod.fst h) (fun hh => by cases hh)
  rw [if_neg h2] at h
  by_cases h3 : (!E.page_size_ok) = true
  · rw [if_pos h3] at h
    exact absurd (show _ = GASPI_SUCCESS from congrArg Prod.fst h) (fun hh => by cases hh)
  rw [if_neg h3] at h
  by_cases h4 : (!E.calloc_rrcd_ok) = true
  · rw [if_pos h4] at h
    exact absurd (show _ = GASPI_SUCCESS from congrArg Prod.fst h) (fun hh => by cases hh)
  rw [if_neg h4] at h
  by_cases h5 : (!E.memalign_ok) = true
  · rw [if_pos h5] at h
    exact absurd (show _ = GASPI_SUCCESS from congrArg Prod.fst h) (fun hh => by cases hh)
  rw [if_neg h5] at h
  by_cases h6 : (!E.register_ok) = true
  · rw [if_pos h6] at h
    exact absurd (show _ = GASPI_SUCCESS from congrArg Prod.fst h) (fun hh => by cases hh)
  rw [if_neg h6] at h
  by_cases h7 : (!E.malloc_rank_grp_ok) = true
  · rw [if_pos h7] at h
    exact absurd (show _ = GASPI_SUCCESS from congrArg Prod.fst h) (fun hh => by cases hh)
  rw [if_neg h7] at h
  by_cases h8 : (!E.calloc_committed_ok) = true
  · rw [if_pos h8] at h
    exact absurd (show _ = GASPI_SUCCESS from congrArg Prod.fst h) (fun hh => by cases hh)
  rw [if_neg h8] at h
  injection h with _ h
  injection h with hg hs
  injection hg with hg
  subst hg hs
  simp only [upd, if_true]
  exact ⟨fun _ => ⟨rfl, rfl, rfl⟩, fun _ => rfl, Or.inl rfl⟩

/-! ### The index `tmprank` across the calls -/

theorem L1_body_tmprank {K : Cfg} {E : Env} {ra : redux_args} {p : Proc} {l : Loc} {x : Proc × Loc}
    (h : allreduce_L1_body K E ra p l = LoopEnd.fallthrough x) :
    x.2.tmprank = level1_tmprank (p.grp.tnc - p.grp.next_pof2) p.grp.rank.toNat := by
  unfold allreduce_L1_body at h
  unfold level1_tmprank
  simp only at h
  by_cases h1 : p.grp.rank.toNat < 2 * (p.grp.tnc - p.grp.next_pof2)
  · rw [if_pos h1] at h ⊢
    by_cases h2 : p.grp.rank.toNat % 2 = 0
    · rw [if_pos h2] at h ⊢
      split at h
      · cases h
      · injection h with h3
        subst h3
        rfl
    · rw [if_neg h2] at h ⊢
      split at h
      · cases h
      · split at h
        · cases h
        · injection h with h3
          subst h3
          rfl
  · rw [if_neg h1] at h ⊢
    injection h with h3
    subst h3
    rfl

theorem sameIndex_refl (c : gaspi_group_ctx_t) : SameIndex c c := ⟨rfl, rfl, rfl, rfl⟩

theorem sameIndex_trans {c d e : gaspi_group_ctx_t} (h1 : SameIndex c d) (h2 : SameIndex d e) :
    SameIndex c e :=
  ⟨h2.1.trans h1.1, h2.2.1.trans h1.2.1, h2.2.2.1.trans h1.2.2.1, h2.2.2.2.trans h1.2.2.2⟩

theorem frameW_sameIndex {c d : gaspi_group_ctx_t} (h : FrameW c d) : SameIndex c d := by
  obtain ⟨cr, b, ds, rfl⟩ := h
  exact ⟨rfl, rfl, rfl, rfl⟩

theorem roundFrame_sameIndex {c d : gaspi_group_ctx_t} (h : RoundFrame c d) : SameIndex c d := by
  obtain ⟨cr, lm, rfl⟩ := h
  exact ⟨rfl, rfl, rfl, rfl⟩

theorem sameIndex_level1 {c d : gaspi_group_ctx_t} (h : SameIndex c d) :
    level1_index d = level1_index c := by
  unfold level1_index
  rw [h.1, h.2.1, h.2.2.1]

theorem enter_sameIndex (K : Cfg) (p : Proc) (bs : List Nat) (ra : redux_args) :
    SameIndex p.grp (allreduce_enter K p bs ra).grp := by
  unfold allreduce_enter
  simp only
  split <;> exact ⟨rfl, rfl, rfl, rfl⟩

theorem barrier_enter_sameIndex (p : Proc) : SameIndex p.grp (barrier_enter p).grp := by
  unfold barrier_enter
  simp only
  split <;> exact ⟨rfl, rfl, rfl, rfl⟩

theorem L1_body_returned_index {K : Cfg} {E : Env} {ra : redux_args} {p q : Proc} {l : Loc}
    {e : gaspi_return_t} (h : allreduce_L1_body K E ra p l = LoopEnd.returned e q) :
    SameIndex p.grp q.grp := by
  unfold allreduce_L1_body at h
  simp only at h
  split at h
  · split at h
    · split at h
      · injection h with _ h
        rw [← h]
        exact frameW_sameIndex (syncOk_frameW (write_and_sync_syncOk K E p _ _ _ _))
      · exact absurd h (by simp)
    · split at h
      · injection h with _ h
        rw [← h]
        exact ⟨rfl, rfl, rfl, rfl⟩
      · split at h
        · injection h with _ h
          rw [← h]
          exact ⟨rfl, rfl, rfl, rfl⟩
        · exact absurd h (by simp)
  · exact absurd h (by simp)

theorem L2_post_returned_index {K : Cfg} {E : Env} {ra : redux_args} {m idst dst : Nat}
    {w : gaspi_return_t × Proc} {l : Loc} {e : gaspi_return_t} {q : Proc}
    (h : allreduce_L2_post K E ra m idst dst w l = LoopEnd.returned e q) :
    SameIndex w.2.grp q.grp := by
  unfold allreduce_L2_post at h
  split at h
  · injection h with _ h
    rw [← h]
    exact ⟨rfl, rfl, rfl, rfl⟩
  split at h
  · injection h with _ h
    rw [← h]
    exact ⟨rfl, rfl, rfl, rfl⟩
  simp only at h
  split at h
  · injection h with _ h
    rw [← h]
    exact ⟨rfl, rfl, rfl, rfl⟩
  · exact absurd h (by simp)

theorem L2_loop_returned_index (K : Cfg) (E : Env) (ra : redux_args) :
    ∀ (n m : Nat) (j : Bool) (p : Proc) (l : Loc) (e : gaspi_return_t) (q : Proc),
      allreduce_L2_loop K E ra n m j p l = some (LoopEnd.returned e q) →
      SameIndex p.grp q.grp := by
  intro n
  induction n with
  | zero =>
    intro m j p l e q h
    rw [L2_loop_zero] at h
    split at h <;> exact absurd h (by simp)
  | succ n ih =>
    intro m j p l e q h
    rw [L2_loop_succ] at h
    split at h
    · cases hr : allreduce_L2_round K E ra m j p l with
      | returned e2 q2 =>
        rw [hr] at h
        injection h with h
        injection h with h1 h2
        subst h1 h2
        rw [L2_round_eq] at hr
        exact sameIndex_trans (frameW_sameIndex (syncOk_frameW (L2_pre_syncOk K E ra m j p l)))
          (L2_post_returned_index hr)
      | fallthrough y =>
        rw [hr] at h
        exact sameIndex_trans (frameW_sameIndex (L2_round_fall_inv hr).1) (ih _ _ _ _ _ _ h)
    · exact absurd h (by simp)

theorem L3_returned_index {K : Cfg} {E : Env} {ra : redux_args} {p q : Proc} {l : Loc}
    {e : gaspi_return_t} (h : allreduce_L3 K E ra p l = LoopEnd.returned e q) :
    SameIndex p.grp q.grp := by
  unfold allreduce_L3 at h
  simp only at h
  split at h
  · split at h
    · split at h
      · injection h with _ h
        rw [← h]
        exact frameW_sameIndex (syncOk_frameW (write_and_sync_syncOk K E p _ _ _ _))
      · exact absurd h (by simp)
    · split at h
      · injection h with _ h
        rw [← h]
        exact sameIndex_refl _
      · exact absurd h (by simp)
  · exact absurd h (by simp)

theorem enter_L3_sameIndex (x : Proc × Loc) : SameIndex x.1.grp (enter_L3 x).1.grp :=
  ⟨rfl, rfl, rfl, rfl⟩

/-- The phases from the third on leave the place of the process in the group and the
stored `tmprank`, whatever the call returns. -/
theorem from_L3_index {K : Cfg} {E : Env} {ra : redux_args} {P x : Proc} {l : Loc}
    {br rb : List Nat} {e : gaspi_return_t}
    (h : allreduce_from_L3 K E ra br (P, l) = some (e, x, rb)) : SameIndex P.grp x.grp := by
  unfold allreduce_from_L3 at h
  simp only at h
  cases hr : allreduce_L3 K E ra P l with
  | returned e2 q =>
    rw [hr] at h
    injection h with h
    injection h with h1 h2
    injection h2 with h2 _
    subst h1 h2
    exact L3_returned_index hr
  | fallthrough y =>
    rw [hr] at h
    simp only at h
    unfold allreduce_finish at h
    cases hp : pgaspi_dev_poll_groups E y.1 with
    | none =>
      rw [hp] at h
      exact absurd h (by simp)
    | some r =>
      rw [hp] at h
      simp only at h
      have hg := (poll_groups_grp (show pgaspi_dev_poll_groups E y.1 = some (r.1, r.2) from hp)).1
      have hy := frameW_sameIndex (L3_inv hr)
      rw [← hg] at hy
      split at h
      · injection h with h
        injection h with h1 h2
        injection h2 with h2 _
        subst h1 h2
        exact hy
      · injection h with h
        injection h with h1 h2
        injection h2 with h2 _
        subst h1 h2
        exact ⟨hy.1, hy.2.1, hy.2.2.1, hy.2.2.2⟩

/-- The phases from the second on leave the place of the process in the group and the
stored `tmprank`, whatever the call returns. -/
theorem from_L2_index {K : Cfg} {E : Env} {ra : redux_args} {P x : Proc} {l : Loc}
    {br rb : List Nat} {e : gaspi_return_t}
    (h : allreduce_from_L2 K E ra br (P, l) = some (e, x, rb)) : SameIndex P.grp x.grp := by
  rw [from_L2_eq] at h
  by_cases ht : l.tmprank ≠ -1
  · rw [if_pos ht] at h
    cases hr : allreduce_L2_loop K E ra P.grp.next_pof2 (P.grp.lastmask &&& 0x7fffffff)
        (decide (P.grp.lastmask >>> 31 ≠ 0)) P l with
    | none =>
      rw [hr] at h
      exact absurd h (by simp [allreduce_after_L2])
    | some r =>
      cases r with
      | returned e2 q2 =>
        rw [hr] at h
        have h3 : some (e2, q2, br) = some (e, x, rb) := h
        injection h3 with h3
        injection h3 with h3 h4
        injection h4 with h4 _
        subst h3 h4
        exact L2_loop_returned_index K _ ra _ _ _ _ _ _ _ hr
      | fallthrough y =>
        rw [hr] at h
        have h3 : allreduce_from_L3 K E ra br ((enter_L3 y).1, (enter_L3 y).2) = some (e, x, rb) := h
        have hy := frameW_sameIndex (L2_loop_inv K _ ra _ _ _ _ _ y hr).1
        exact sameIndex_trans (sameIndex_trans hy (enter_L3_sameIndex y)) (from_L3_index h3)
  · rw [if_neg ht] at h
    have h3 : allreduce_from_L3 K E ra br ((enter_L3 (P, l)).1, (enter_L3 (P, l)).2) = some (e, x, rb) := h
    exact sameIndex_trans (enter_L3_sameIndex (P, l)) (from_L3_index h3)

/-- What a call of the engine does with `tmprank`: a call that goes on at level 2 or 3
leaves it; a call that starts with level 1 leaves it when it returns from there, and
otherwise stores the index that level 1 assigns, which the later phases leave. The
place of the process in the group is never changed. -/
theorem engine_index {K : Cfg} {E : Env} {ra : redux_args} {p x : Proc} {bs br rb : List Nat}
    {e : gaspi_return_t} (h : allreduce_from_L0 K E p bs br ra = some (e, x, rb)) :
    x.grp.rank = p.grp.rank ∧ x.grp.tnc = p.grp.tnc ∧ x.grp.next_pof2 = p.grp.next_pof2 ∧
    (x.grp.tmprank = p.grp.tmprank ∨ x.grp.tmprank = level1_index p.grp) ∧
    (p.grp.level = 2 ∨ p.grp.level = 3 → x.grp.tmprank = p.grp.tmprank) ∧
    (e = GASPI_SUCCESS → p.grp.level ≠ 2 → p.grp.level ≠ 3 → x.grp.tmprank = level1_index p.grp) := by
  have hent := enter_sameIndex K p bs ra
  have hlev : (allreduce_enter K p bs ra).grp.level = p.grp.level := by
    unfold allreduce_enter
    simp only
    split <;> rfl
  unfold allreduce_from_L0 at h
  simp only at h
  rw [hlev] at h
  by_cases h2 : p.grp.level = 2
  · rw [if_pos h2] at h
    have hi := sameIndex_trans hent (from_L2_index h)
    exact ⟨hi.1, hi.2.1, hi.2.2.1, Or.inl hi.2.2.2, fun _ => hi.2.2.2, fun _ hh => absurd h2 hh⟩
  rw [if_neg h2] at h
  by_cases h3 : p.grp.level = 3
  · rw [if_pos h3] at h
    have hi := sameIndex_trans hent (from_L3_index h)
    exact ⟨hi.1, hi.2.1, hi.2.2.1, Or.inl hi.2.2.2, fun _ => hi.2.2.2, fun _ _ hh => absurd h3 hh⟩
  rw [if_neg h3] at h
  have hno : p.grp.level = 2 ∨ p.grp.level = 3 → x.grp.tmprank = p.grp.tmprank := by
    intro hh
    rcases hh with hh | hh
    · exact absurd hh h2
    · exact absurd hh h3
  unfold allreduce_L1 at h
  cases hb : allreduce_L1_body K E ra (allreduce_enter K p bs ra)
      (allreduce_locals K (allreduce_enter K p bs ra).grp) with
  | returned e2 q2 =>
    rw [hb] at h
    have h4 : some (e2, q2, br) = some (e, x, rb) := h
    injection h4 with h4
    injection h4 with h4 h5
    injection h5 with h5 _
    subst h4 h5
    have hi := sameIndex_trans hent (L1_body_returned_index hb)
    exact ⟨hi.1, hi.2.1, hi.2.2.1, Or.inl hi.2.2.2, hno, fun he => absurd he (L1_body_code hb)⟩
  | fallthrough y =>
    rw [hb] at h
    have h4 : allreduce_from_L2 K E ra br ((enter_L2 y).1, (enter_L2 y).2) = some (e, x, rb) := h
    have hi := from_L2_index h4
    have hy := sameIndex_trans hent (frameW_sameIndex (L1_body_inv hb).1)
    have ht : (enter_L2 y).1.grp.tmprank = level1_index p.grp := by
      show y.2.tmprank = _
      rw [L1_body_tmprank hb]
      exact sameIndex_level1 hent
    have hs : x.grp.tmprank = level1_index p.grp := hi.2.2.2.trans ht
    exact ⟨hi.1.trans hy.1, hi.2.1.trans hy.2.1, hi.2.2.1.trans hy.2.2.1, Or.inr hs, hno,
      fun _ _ _ => hs⟩

/-- The frame of `pgaspi_allreduce` and `pgaspi_allreduce_user` around the engine, for
`tmprank` and the place of the process in the group. -/
theorem guarded_index {K : Cfg} {E : Env} {g : Option gaspi_return_t} {kind : Nat}
    {ra : redux_args} {bs br rb : List Nat} {f : Nat → Nat} {b : Bool} {p q : Proc}
    {e : gaspi_return_t} (hg : g ≠ some GASPI_SUCCESS)
    (h : guarded_call K E g kind ra bs br f b p = some (e, q, rb)) :
    q.grp.rank = p.grp.rank ∧ q.grp.tnc = p.grp.tnc ∧ q.grp.next_pof2 = p.grp.next_pof2 ∧
    (q.grp.tmprank = p.grp.tmprank ∨ q.grp.tmprank = level1_index p.grp) ∧
    (p.grp.level = 2 ∨ p.grp.level = 3 → q.grp.tmprank = p.grp.tmprank) ∧
    (e = GASPI_SUCCESS → p.grp.level ≠ 2 → p.grp.level ≠ 3 → q.grp.tmprank = level1_index p.grp) := by
  have hsame : ∀ {e2 : gaspi_return_t} {x : List Nat},
      some (e2, p, x) = some (e, q, rb) → e2 ≠ GASPI_SUCCESS →
      q.grp.rank = p.grp.rank ∧ q.grp.tnc = p.grp.tnc ∧ q.grp.next_pof2 = p.grp.next_pof2 ∧
      (q.grp.tmprank = p.grp.tmprank ∨ q.grp.tmprank = level1_index p.grp) ∧
      (p.grp.level = 2 ∨ p.grp.level = 3 → q.grp.tmprank = p.grp.tmprank) ∧
      (e = GASPI_SUCCESS → p.grp.level ≠ 2 → p.grp.level ≠ 3 →
        q.grp.tmprank = level1_index p.grp) := by
    intro e2 x hh hne
    injection hh with hh
    injection hh with h1 hh
    injection hh with hh _
    subst h1 hh
    exact ⟨rfl, rfl, rfl, Or.inl rfl, fun _ => rfl, fun he => absurd he hne⟩
  unfold guarded_call at h
  split at h
  · rename_i err
    exact hsame h fun he => hg (by rw [he])
  split at h
  · exact hsame h (by decide)
  split at h
  · exact hsame h (by decide)
  have hx := engine_index (engine_returns h).2
  exact hx

theorem barrier_index {E : Env} {p q : Proc} {r : gaspi_return_t}
    (h : pgaspi_barrier E p = some (r, q)) : SameIndex p.grp q.grp := by
  unfold pgaspi_barrier at h
  split at h
  · injection h with h
    injection h with _ h
    rw [← h]
    exact sameIndex_refl _
  split at h
  · injection h with h
    injection h with _ h
    rw [← h]
    exact sameIndex_refl _
  have hent := barrier_enter_sameIndex p
  rcases barrier_after_cases h with hl | ⟨q1, hl, hfin⟩
  · exact sameIndex_trans hent
      (roundFrame_sameIndex (barrier_loop_returned_frame E _ _ _ _ _ _ hl).1)
  · have h1 := sameIndex_trans hent (roundFrame_sameIndex
      (postFrame_round (barrier_loop_fallthrough_frame E _ _ _ _ _ hl).1))
    rcases barrier_finish_cases hfin with ⟨_, hg, _⟩ | ⟨_, _, hg⟩
    · rw [hg]
      exact h1
    · rw [hg]
      exact ⟨h1.1, h1.2.1, h1.2.2.1, h1.2.2.2⟩

theorem typed_guard_ne (n : Nat) :
    (if n > GPI2_ALLREDUCE_ELEM_MAX then some GASPI_ERR_INV_NUM else none) ≠ some GASPI_SUCCESS := by
  split
  · exact fun hh => absurd (Option.some.inj hh) (by decide)
  · exact fun hh => by cases hh

theorem user_guard_ne (K : Cfg) (n sz : Nat) :
    (if n > GPI2_ALLREDUCE_ELEM_MAX then some GASPI_ERR_INV_NUM
      else if size_product sz n > K.GPI2_REDUX_BUF_SIZE then some GASPI_ERR_INV_SIZE
        else none) ≠ some GASPI_SUCCESS := by
  split
  · exact fun hh => absurd (Option.some.inj hh) (by decide)
  · split
    · exact fun hh => absurd (Option.some.inj hh) (by decide)
    · exact fun hh => by cases hh

/-- One call of a collective leaves the place of the process in the group; `tmprank` is
left as it is or becomes the index of level 1, and a barrier leaves it. -/
theorem run_call_index {c : CollCall} {p q : Proc} (h : run_call c p = some q) :
    q.grp.rank = p.grp.rank ∧ q.grp.tnc = p.grp.tnc ∧ q.grp.next_pof2 = p.grp.next_pof2 ∧
    (q.grp.tmprank = p.grp.tmprank ∨ q.grp.tmprank = level1_index p.grp) := by
  cases c with
  | barrier E =>
    change Option.map (fun x => x.2) (pgaspi_barrier E p) = some q at h
    cases hb : pgaspi_barrier E p with
    | none =>
      rw [hb] at h
      exact absurd h (by simp)
    | some x =>
      rw [hb] at h
      simp only [Option.map_some', Option.some.injEq] at h
      rw [← h]
      have hi := barrier_index (show pgaspi_barrier E p = some (x.1, x.2) from hb)
      exact ⟨hi.1, hi.2.1, hi.2.2.1, Or.inl hi.2.2.2⟩
  | allreduce K E bs br elem_cnt op type =>
    change Option.map (fun x => x.2.1) (pgaspi_allreduce K E p bs br elem_cnt op type) = some q at h
    have hg := allreduce_guarded K E bs br elem_cnt op type E.poll E.lock_ok p
    have hE : with_poll E E.poll E.lock_ok = E := rfl
    rw [hE] at hg
    rw [hg] at h
    cases hb : guarded_call K E (if elem_cnt > GPI2_ALLREDUCE_ELEM_MAX then some GASPI_ERR_INV_NUM else none)
        GASPI_ALLREDUCE
        { f_args := redux_f_args.GASPI_OP op type, elem_size := glb_gaspi_typ_size.getD type 0,
          elem_cnt := elem_cnt } bs br E.poll E.lock_ok p with
    | none =>
      rw [hb] at h
      exact absurd h (by simp)
    | some x =>
      rw [hb] at h
      simp only [Option.map_some', Option.some.injEq] at h
      rw [← h]
      have hi := guarded_index (typed_guard_ne elem_cnt)
        (show guarded_call K E _ _ _ bs br E.poll E.lock_ok p = some (x.1, x.2.1, x.2.2) from hb)
      exact ⟨hi.1, hi.2.1, hi.2.2.1, hi.2.2.2.1⟩
  | allreduce_user K E bs br elem_cnt elem_size user_fct =>
    change Option.map (fun x => x.2.1)
      (pgaspi_allreduce_user K E p bs br elem_cnt elem_size user_fct) = some q at h
    have hg := allreduce_user_guarded K E bs br elem_cnt elem_size user_fct E.poll E.lock_ok p
    have hE : with_poll E E.poll E.lock_ok = E := rfl
    rw [hE] at hg
    rw [hg] at h
    cases hb : guarded_call K E
        (if elem_cnt > GPI2_ALLREDUCE_ELEM_MAX then some GASPI_ERR_INV_NUM
          else if size_product elem_size elem_cnt > K.GPI2_REDUX_BUF_SIZE then some GASPI_ERR_INV_SIZE
            else none)
        GASPI_ALLREDUCE_USER
        { f_args := redux_f_args.GASPI_USER user_fct, elem_size := elem_size, elem_cnt := elem_cnt }
        bs br E.poll E.lock_ok p with
    | none =>
      rw [hb] at h
      exact absurd h (by simp)
    | some x =>
      rw [hb] at h
      simp only [Option.map_some', Option.some.injEq] at h
      rw [← h]
      have hi := guarded_index (user_guard_ne K elem_cnt elem_size)
        (show guarded_call K E _ _ _ bs br E.poll E.lock_ok p = some (x.1, x.2.1, x.2.2) from hb)
      exact ⟨hi.1, hi.2.1, hi.2.2.1, hi.2.2.2.1⟩

theorem run_calls_index :
    ∀ (cs : List CollCall) (p q : Proc), run_calls cs p = some q →
      q.grp.rank = p.grp.rank ∧ q.grp.tnc = p.grp.tnc ∧ q.grp.next_pof2 = p.grp.next_pof2 ∧
      (q.grp.tmprank = p.grp.tmprank ∨ q.grp.tmprank = level1_index p.grp) := by
  intro cs
  induction cs with
  | nil =>
    intro p q h
    simp only [run_calls, Option.some.injEq] at h
    rw [← h]
    exact ⟨rfl, rfl, rfl, Or.inl rfl⟩
  | cons c cs ih =>
    intro p q h
    unfold run_calls at h
    cases hc : run_call c p with
    | none =>
      rw [hc] at h
      exact absurd h (by simp)
    | some x =>
      rw [hc] at h
      obtain ⟨a1, a2, a3, a4⟩ := run_call_index hc
      obtain ⟨b1, b2, b3, b4⟩ := ih x q h
      have hl : level1_index x.grp = level1_index p.grp := by
        unfold level1_index
        rw [a1, a2, a3]
      refine ⟨b1.trans a1, b2.trans a2, b3.trans a3, ?_⟩
      rcases b4 with b4 | b4
      · rcases a4 with a4 | a4
        · exact Or.inl (b4.trans a4)
        · exact Or.inr (b4.trans a4)
      · exact Or.inr (b4.trans hl)

/-- A typed allreduce that returns `GASPI_SUCCESS` from an idle group leaves in
`tmprank` the index that level 1 gave to the process. -/
theorem allreduce_success_index {K : Cfg} {E : Env} {p q : Proc} {bs br rb : List Nat}
    {elem_cnt op type : Nat} (hl : p.grp.level = 0)
    (h : pgaspi_allreduce K E p bs br elem_cnt op type = some (GASPI_SUCCESS, q, rb)) :
    q.grp.tmprank = level1_index p.grp := by
  have hg := allreduce_guarded K E bs br elem_cnt op type E.poll E.lock_ok p
  have hE : with_poll E E.poll E.lock_ok = E := rfl
  rw [hE] at hg
  rw [hg] at h
  exact (guarded_index (typed_guard_ne elem_cnt) h).2.2.2.2.2 rfl
    (by rw [hl]; decide) (by rw [hl]; decide)

/-- An allreduce with a reduction of the user that returns `GASPI_SUCCESS` from an idle
group leaves in `tmprank` the index that level 1 gave to the process. -/
theorem allreduce_user_success_index {K : Cfg} {E : Env} {p q : Proc} {bs br rb : List Nat}
    {elem_cnt elem_size : Nat}
    {user_fct : List Nat → List Nat → Nat → Nat → gaspi_return_t × List Nat}
    (hl : p.grp.level = 0)
    (h : pgaspi_allreduce_user K E p bs br elem_cnt elem_size user_fct
      = some (GASPI_SUCCESS, q, rb)) :
    q.grp.tmprank = level1_index p.grp := by
  have hg := allreduce_user_guarded K E bs br elem_cnt elem_size user_fct E.poll E.lock_ok p
  have hE : with_poll E E.poll E.lock_ok = E := rfl
  rw [hE] at hg
  rw [hg] at h
  exact (guarded_index (user_guard_ne K elem_cnt elem_size) h).2.2.2.2.2 rfl
    (by rw [hl]; decide) (by rw [hl]; decide)

theorem L1_body_returned_level {K : Cfg} {E : Env} {ra : redux_args} {p q : Proc} {l : Loc}
    {e : gaspi_return_t} (h : allreduce_L1_body K E ra p l = LoopEnd.returned e q) :
    q.grp.level = p.grp.level ∨ q.grp.level = 1 := by
  unfold allreduce_L1_body at h
  simp only at h
  split at h
  · split at h
    · split at h
      · injection h with _ h
        rw [← h]
        exact Or.inl (frameW_level (syncOk_frameW (write_and_sync_syncOk K E p _ _ _ _)))
      · exact absurd h (by simp)
    · split at h
      · injection h with _ h
        rw [← h]
        exact Or.inr rfl
      · split at h
        · injection h with _ h
          rw [← h]
          exact Or.inl rfl
        · exact absurd h (by simp)
  · exact absurd h (by simp)

/-- A call of the engine keeps the index of level 1 stored in `tmprank` at the levels 2
and 3, and leaves it there when it returns `GASPI_SUCCESS`. -/
theorem engine_stored {K : Cfg} {E : Env} {ra : redux_args} {p x : Proc} {bs br rb : List Nat}
    {e : gaspi_return_t} (h : allreduce_from_L0 K E p bs br ra = some (e, x, rb))
    (hi : IndexStored (level1_index p.grp) p.grp) :
    IndexStored (level1_index p.grp) x.grp ∧
      (e = GASPI_SUCCESS → x.grp.tmprank = level1_index p.grp) := by
  obtain ⟨_, _, _, _, a5, a6⟩ := engine_index h
  by_cases hl : p.grp.level = 2 ∨ p.grp.level = 3
  · have ht := (a5 hl).trans (hi hl)
    exact ⟨fun _ => ht, fun _ => ht⟩
  have h2 : p.grp.level ≠ 2 := fun hh => hl (Or.inl hh)
  have h3 : p.grp.level ≠ 3 := fun hh => hl (Or.inr hh)
  refine ⟨?_, fun he => a6 he h2 h3⟩
  have hent := enter_sameIndex K p bs ra
  have hlev : (allreduce_enter K p bs ra).grp.level = p.grp.level := by
    unfold allreduce_enter
    simp only
    split <;> rfl
  unfold allreduce_from_L0 at h
  simp only at h
  rw [hlev, if_neg h2, if_neg h3] at h
  unfold allreduce_L1 at h
  cases hb : allreduce_L1_body K E ra (allreduce_enter K p bs ra)
      (allreduce_locals K (allreduce_enter K p bs ra).grp) with
  | returned e2 q2 =>
    rw [hb] at h
    have h4 : some (e2, q2, br) = some (e, x, rb) := h
    injection h4 with h4
    injection h4 with h4 h5
    injection h5 with h5 _
    subst h4 h5
    intro hx
    rcases L1_body_returned_level hb with h6 | h6
    · rw [h6, hlev] at hx
      exact absurd hx hl
    · rw [h6] at hx
      rcases hx with hx | hx <;> exact absurd hx (by decide)
  | fallthrough y =>
    rw [hb] at h
    have h4 : allreduce_from_L2 K E ra br ((enter_L2 y).1, (enter_L2 y).2) = some (e, x, rb) := h
    have hi2 := from_L2_index h4
    have ht : (enter_L2 y).1.grp.tmprank = level1_index p.grp := by
      show y.2.tmprank = _
      rw [L1_body_tmprank hb]
      exact sameIndex_level1 hent
    exact fun _ => hi2.2.2.2.trans ht

theorem guarded_stored {K : Cfg} {E : Env} {g : Option gaspi_return_t} {kind : Nat}
    {ra : redux_args} {bs br rb : List Nat} {f : Nat → Nat} {b : Bool} {p q : Proc}
    {e : gaspi_return_t} (hg : g ≠ some GASPI_SUCCESS)
    (h : guarded_call K E g kind ra bs br f b p = some (e, q, rb))
    (hi : IndexStored (level1_index p.grp) p.grp) :
    IndexStored (level1_index p.grp) q.grp ∧
      (e = GASPI_SUCCESS → q.grp.tmprank = level1_index p.grp) := by
  have hsame : ∀ {e2 : gaspi_return_t} {x : List Nat},
      some (e2, p, x) = some (e, q, rb) → e2 ≠ GASPI_SUCCESS →
      IndexStored (level1_index p.grp) q.grp ∧
        (e = GASPI_SUCCESS → q.grp.tmprank = level1_index p.grp) := by
    intro e2 x hh hne
    injection hh with hh
    injection hh with h1 hh
    injection hh with hh _
    subst h1 hh
    exact ⟨hi, fun he => absurd he hne⟩
  unfold guarded_call at h
  split at h
  · rename_i err
    exact hsame h fun he => hg (by rw [he])
  split at h
  · exact hsame h (by decide)
  split at h
  · exact hsame h (by decide)
  have hx := engine_stored (engine_returns h).2 hi
  exact hx

theorem barrier_level {E : Env} {p q : Proc} {r : gaspi_return_t}
    (h : pgaspi_barrier E p = some (r, q)) : q.grp.level = p.grp.level := by
  have hround : ∀ {c d : gaspi_group_ctx_t}, RoundFrame c d → d.level = c.level := by
    intro c d hh
    obtain ⟨cr, lm, rfl⟩ := hh
    rfl
  unfold pgaspi_barrier at h
  split at h
  · injection h with h
    injection h with _ h
    rw [← h]
  split at h
  · injection h with h
    injection h with _ h
    rw [← h]
  have hent := (barrier_enter_idle_fields p).1
  rcases barrier_after_cases h with hl | ⟨q1, hl, hfin⟩
  · exact (hround (barrier_loop_returned_frame E _ _ _ _ _ _ hl).1).trans hent
  · have h1 := (hround (postFrame_round (barrier_loop_fallthrough_frame E _ _ _ _ _ hl).1)).trans hent
    rcases barrier_finish_cases hfin with ⟨_, hg, _⟩ | ⟨_, _, hg⟩
    · rw [hg]
      exact h1
    · rw [hg]
      exact h1

/-- One call of a collective keeps the index of level 1 stored at the levels 2 and 3. -/
theorem run_call_stored {c : CollCall} {p q : Proc} (h : run_call c p = some q)
    (hi : IndexStored (level1_index p.grp) p.grp) : IndexStored (level1_index p.grp) q.grp := by
  cases c with
  | barrier E =>
    change Option.map (fun x => x.2) (pgaspi_barrier E p) = some q at h
    cases hb : pgaspi_barrier E p with
    | none =>
      rw [hb] at h
      exact absurd h (by simp)
    | some x =>
      rw [hb] at h
      simp only [Option.map_some', Option.some.injEq] at h
      rw [← h]
      have hx : pgaspi_barrier E p = some (x.1, x.2) := hb
      intro hl
      rw [barrier_level hx] at hl
      exact (barrier_index hx).2.2.2.trans (hi hl)
  | allreduce K E bs br elem_cnt op type =>
    change Option.map (fun x => x.2.1) (pgaspi_allreduce K E p bs br elem_cnt op type) = some q at h
    have hg := allreduce_guarded K E bs br elem_cnt op type E.poll E.lock_ok p
    have hE : with_poll E E.poll E.lock_ok = E := rfl
    rw [hE] at hg
    rw [hg] at h
    cases hb : guarded_call K E (if elem_cnt > GPI2_ALLREDUCE_ELEM_MAX then some GASPI_ERR_INV_NUM else none)
        GASPI_ALLREDUCE
        { f_args := redux_f_args.GASPI_OP op type, elem_size := glb_gaspi_typ_size.getD type 0,
          elem_cnt := elem_cnt } bs br E.poll E.lock_ok p with
    | none =>
      rw [hb] at h
      exact absurd h (by simp)
    | some x =>
      rw [hb] at h
      simp only [Option.map_some', Option.some.injEq] at h
      rw [← h]
      exact (guarded_stored (typed_guard_ne elem_cnt)
        (show guarded_call K E _ _ _ bs br E.poll E.lock_ok p = some (x.1, x.2.1, x.2.2) from hb) hi).1
  | allreduce_user K E bs br elem_cnt elem_size user_fct =>
    change Option.map (fun x => x.2.1)
      (pgaspi_allreduce_user K E p bs br elem_cnt elem_size user_fct) = some q at h
    have hg := allreduce_user_guarded K E bs br elem_cnt elem_size user_fct E.poll E.lock_ok p
    have hE : with_poll E E.poll E.lock_ok = E := rfl
    rw [hE] at hg
    rw [hg] at h
    cases hb : guarded_call K E
        (if elem_cnt > GPI2_ALLREDUCE_ELEM_MAX then some GASPI_ERR_INV_NUM
          else if size_product elem_size elem_cnt > K.GPI2_REDUX_BUF_SIZE then some GASPI_ERR_INV_SIZE
            else none)
        GASPI_ALLREDUCE_USER
        { f_args := redux_f_args.GASPI_USER user_fct, elem_size := elem_size, elem_cnt := elem_cnt }
        bs br E.poll E.lock_ok p with
    | none =>
      rw [hb] at h
      exact absurd h (by simp)
    | some x =>
      rw [hb] at h
      simp only [Option.map_some', Option.some.injEq] at h
      rw [← h]
      exact (guarded_stored (user_guard_ne K elem_cnt elem_size)
        (show guarded_call K E _ _ _ bs br E.poll E.lock_ok p = some (x.1, x.2.1, x.2.2) from hb) hi).1

theorem run_calls_stored :
    ∀ (cs : List CollCall) (p q : Proc), run_calls cs p = some q →
      IndexStored (level1_index p.grp) p.grp → IndexStored (level1_index p.grp) q.grp := by
  intro cs
  induction cs with
  | nil =>
    intro p q h hi
    simp only [run_calls, Option.some.injEq] at h
    rw [← h]
    exact hi
  | cons c cs ih =>
    intro p q h hi
    unfold run_calls at h
    cases hc : run_call c p with
    | none =>
      rw [hc] at h
      exact absurd h (by simp)
    | some x =>
      rw [hc] at h
      obtain ⟨a1, a2, a3, _⟩ := run_call_index hc
      have hl : level1_index x.grp = level1_index p.grp := by
        unfold level1_index
        rw [a1, a2, a3]
      have hx := run_call_stored hc hi
      rw [← hl] at hx
      have hq := ih x q h hx
      rw [hl] at hq
      exact hq

/-- A typed allreduce that returns `GASPI_SUCCESS`, at its first call or when it goes on
after a timeout, leaves in `tmprank` the index that level 1 gave to the process. -/
theorem allreduce_success_stored {K : Cfg} {E : Env} {p q : Proc} {bs br rb : List Nat}
    {elem_cnt op type : Nat} (hi : IndexStored (level1_index p.grp) p.grp)
    (h : pgaspi_allreduce K E p bs br elem_cnt op type = some (GASPI_SUCCESS, q, rb)) :
    q.grp.tmprank = level1_index p.grp := by
  have hg := allreduce_guarded K E bs br elem_cnt op type E.poll E.lock_ok p
  have hE : with_poll E E.poll E.lock_ok = E := rfl
  rw [hE] at hg
  rw [hg] at h
  exact (guarded_stored (typed_guard_ne elem_cnt) h hi).2 rfl

/-- An allreduce with a reduction of the user that returns `GASPI_SUCCESS`, at its first
call or when it goes on after a timeout, leaves in `tmprank` the index that level 1
gave to the process. -/
theorem allreduce_user_success_stored {K : Cfg} {E : Env} {p q : Proc} {bs br rb : List Nat}
    {elem_cnt elem_size : Nat}
    {user_fct : List Nat → List Nat → Nat → Nat → gaspi_return_t × List Nat}
    (hi : IndexStored (level1_index p.grp) p.grp)
    (h : pgaspi_allreduce_user K E p bs br elem_cnt elem_size user_fct
      = some (GASPI_SUCCESS, q, rb)) :
    q.grp.tmprank = level1_index p.grp := by
  have hg := allreduce_user_guarded K E bs br elem_cnt elem_size user_fct E.poll E.lock_ok p
  have hE : with_poll E E.poll E.lock_ok = E := rfl
  rw [hE] at hg
  rw [hg] at h
  exact (guarded_stored (user_guard_ne K elem_cnt elem_size) h hi).2 rfl

/-- A call of `pgaspi_allreduce` or `pgaspi_allreduce_user` that returns `GASPI_SUCCESS`
leaves the group without a holder. -/
theorem guarded_success_idle {K : Cfg} {E : Env} {g : Option gaspi_return_t} {kind : Nat}
    {ra : redux_args} {bs br rb : List Nat} {f : Nat → Nat} {b : Bool} {p q : Proc}
    (hg : g ≠ some GASPI_SUCCESS)
    (h : guarded_call K E g kind ra bs br f b p = some (GASPI_SUCCESS, q, rb)) :
    q.grp.coll_op = GASPI_NONE := by
  unfold guarded_call at h
  split at h
  · rename_i err
    injection h with h
    injection h with h1 _
    exact absurd (by rw [h1]) hg
  split at h
  · injection h with h
    injection h with h1 _
    exact absurd h1 (by decide)
  split at h
  · injection h with h
    injection h with h1 _
    exact absurd h1 (by decide)
  exact ((engine_outcome (engine_returns h).2).1 rfl).1

/-- C14, as the code has it. A barrier that succeeds leaves `lastmask = 1`, not 0, in a
group with `coll_op = NONE`: rank 0 of two, every poll reading the token 1. An allreduce
that succeeds leaves `tmprank` as the rounds set it: rank 1 of two, SUM of one 64-bit
unsigned element, is left with `tmprank = 1`. -/
theorem idle_group_lastmask_is_one :
    pgaspi_barrier (env_token 1) (member 2 0)
        = some (GASPI_SUCCESS, after_barrier (env_token 1) (member 2 0)) ∧
      (after_barrier (env_token 1) (member 2 0)).grp.coll_op = GASPI_NONE ∧
      (after_barrier (env_token 1) (member 2 0)).grp.lastmask = 1 ∧
      (allreduce_outcome layout (env_token 1) (member 2 1) (le_encode 8 5) (le_encode 8 0) 1
        GASPI_OP_SUM GASPI_TYPE_ULONG).1 = GASPI_SUCCESS ∧
      (allreduce_outcome layout (env_token 1) (member 2 1) (le_encode 8 5) (le_encode 8 0) 1
        GASPI_OP_SUM GASPI_TYPE_ULONG).2.1.grp.coll_op = GASPI_NONE ∧
      (allreduce_outcome layout (env_token 1) (member 2 1) (le_encode 8 5) (le_encode 8 0) 1
        GASPI_OP_SUM GASPI_TYPE_ULONG).2.1.grp.tmprank = 1 := by
  refine ⟨by rfl, by rfl, by rfl, by rfl, by rfl, by rfl⟩

/-- C14, amended. A group that `pgaspi_group_create` has just set up satisfies the idle
invariant, and every call of `pgaspi_barrier`, `pgaspi_allreduce` and
`pgaspi_allreduce_user` that returns, whatever it returns, keeps it; so in every state
reached through a sequence of such calls, a group with `coll_op = NONE` has
`lastmask = 1` and `level = bid = dsize = 0`. The index `tmprank` is not reset: the
calls leave the place of the process in the group, so level 1 of every allreduce
assigns the same index, and `tmprank` is the value it had before the calls or that
index; a barrier that returns leaves `tmprank`, and an allreduce of either kind that
returns `GASPI_SUCCESS` from a group with `coll_op = NONE` leaves the group with
`coll_op = NONE` and `tmprank` at the index of level 1. When the calls start from a
group that is not inside an allreduce, as a new group is, or that has the index stored,
every state reached at level 2 or 3 has the index stored, and every allreduce that
returns `GASPI_SUCCESS`, also one that goes on after a timeout, leaves `tmprank` at the
index. The product of the element size and the element count is the one C computes. -/
theorem idle_group_resumption_fields (cs : List CollCall) (p q : Proc)
    (hp : IdleInv p.grp) (hr : run_calls cs p = some q) :
    (∀ (E : CreateEnv) (s s1 : Glb) (g : Nat),
      pgaspi_group_create E s = (GASPI_SUCCESS, some g, s1) → IdleInv (s1.groups g)) ∧
    IdleInv q.grp ∧
    (q.grp.coll_op = GASPI_NONE →
      q.grp.lastmask = 1 ∧ q.grp.level = 0 ∧ q.grp.bid = 0 ∧ q.grp.dsize = 0) ∧
    level1_index q.grp = level1_index p.grp ∧
    (q.grp.tmprank = p.grp.tmprank ∨ q.grp.tmprank = level1_index p.grp) ∧
    (∀ (E : Env) (r : gaspi_return_t) (x : Proc),
      pgaspi_barrier E q = some (r, x) → x.grp.tmprank = q.grp.tmprank) ∧
    (∀ (K : Cfg) (E : Env) (bs br rb : List Nat) (elem_cnt op type : Nat) (x : Proc),
      q.grp.coll_op = GASPI_NONE →
      pgaspi_allreduce K E q bs br elem_cnt op type = some (GASPI_SUCCESS, x, rb) →
      x.grp.coll_op = GASPI_NONE ∧ x.grp.tmprank = level1_index p.grp) ∧
    (∀ (K : Cfg) (E : Env) (bs br rb : List Nat) (elem_cnt elem_size : Nat)
        (user_fct : List Nat → List Nat → Nat → Nat → gaspi_return_t × List Nat) (x : Proc),
      q.grp.coll_op = GASPI_NONE →
      pgaspi_allreduce_user K E q bs br elem_cnt elem_size user_fct
        = some (GASPI_SUCCESS, x, rb) →
      x.grp.coll_op = GASPI_NONE ∧ x.grp.tmprank = level1_index p.grp) ∧
    (IndexStored (level1_index p.grp) p.grp →
      IndexStored (level1_index p.grp) q.grp ∧
      (∀ (K : Cfg) (E : Env) (bs br rb : List Nat) (elem_cnt op type : Nat) (x : Proc),
        pgaspi_allreduce K E q bs br elem_cnt op type = some (GASPI_SUCCESS, x, rb) →
        x.grp.tmprank = level1_index p.grp) ∧
      (∀ (K : Cfg) (E : Env) (bs br rb : List Nat) (elem_cnt elem_size : Nat)
          (user_fct : List Nat → List Nat → Nat → Nat → gaspi_return_t × List Nat) (x : Proc),
        pgaspi_allreduce_user K E q bs br elem_cnt elem_size user_fct
          = some (GASPI_SUCCESS, x, rb) →
        x.grp.tmprank = level1_index p.grp)) := by
  have hq := run_calls_keep_idleInv cs p q hp hr
  obtain ⟨i1, i2, i3, i4⟩ := run_calls_index cs p q hr
  have hl : level1_index q.grp = level1_index p.grp := by
    unfold level1_index
    rw [i1, i2, i3]
  refine ⟨fun E s s1 g h => group_create_idleInv h, hq, fun hn => ?_, hl, i4,
    fun E r x h => (barrier_index h).2.2.2, ?_, ?_, ?_⟩
  · obtain ⟨z1, z2, z3⟩ := hq.1 (Or.inl hn)
    exact ⟨hq.2.1 hn, z1, z2, z3⟩
  · intro K E bs br rb elem_cnt op type x hn h
    refine ⟨?_, (allreduce_success_index (hq.1 (Or.inl hn)).1 h).trans hl⟩
    have hg := allreduce_guarded K E bs br elem_cnt op type E.poll E.lock_ok q
    have hE : with_poll E E.poll E.lock_ok = E := rfl
    rw [hE] at hg
    rw [hg] at h
    exact guarded_success_idle (typed_guard_ne elem_cnt) h
  · intro K E bs br rb elem_cnt elem_size user_fct x hn h
    refine ⟨?_, (allreduce_user_success_index (hq.1 (Or.inl hn)).1 h).trans hl⟩
    have hg := allreduce_user_guarded K E bs br elem_cnt elem_size user_fct E.poll E.lock_ok q
    have hE : with_poll E E.poll E.lock_ok = E := rfl
    rw [hE] at hg
    rw [hg] at h
    exact guarded_success_idle (user_guard_ne K elem_cnt elem_size) h
  · intro hi
    have hs := run_calls_stored cs p q hr hi
    have hs2 : IndexStored (level1_index q.grp) q.grp := by
      rw [hl]
      exact hs
    refine ⟨hs, ?_, ?_⟩
    · intro K E bs br rb elem_cnt op type x h
      exact (allreduce_success_stored hs2 h).trans hl
    · intro K E bs br rb elem_cnt elem_size user_fct x h
      exact (allreduce_user_success_stored hs2 h).trans hl

/-- The amended C14 on rank 1 of two: after a barrier, a typed allreduce and an allreduce
with a reduction of the user on two elements of the size `2^63 + 4`, whose product C
computes as 8, the group has `coll_op = NONE`, the idle values of the resumption fields
and `tmprank = 1`, the index of level 1; a further barrier leaves `tmprank`, and a
further allreduce of either kind leaves it at 1 again. -/
theorem idle_group_resumption_fields_witness :
    IdleInv (member 2 1).grp ∧
      run_calls three_collectives (member 2 1) = some (after_run three_collectives (member 2 1)) ∧
      (after_run three_collectives (member 2 1)).grp.coll_op = GASPI_NONE ∧
      size_product wrapping_size 2 = 8 ∧
      (member 2 1).grp.tmprank = 0 ∧ level1_index (member 2 1).grp = 1 ∧
      (after_run three_collectives (member 2 1)).grp.tmprank = 1 ∧
      IdleInv (after_run three_collectives (member 2 1)).grp ∧
      ((after_run three_collectives (member 2 1)).grp.lastmask = 1 ∧
        (after_run three_collectives (member 2 1)).grp.level = 0 ∧
        (after_run three_collectives (member 2 1)).grp.bid = 0 ∧
        (after_run three_collectives (member 2 1)).grp.dsize = 0) ∧
      ((after_run three_collectives (member 2 1)).grp.tmprank = (member 2 1).grp.tmprank ∨
        (after_run three_collectives (member 2 1)).grp.tmprank = level1_index (member 2 1).grp) ∧
      (after_barrier (env_token 4) (after_run three_collectives (member 2 1))).grp.tmprank
        = (after_run three_collectives (member 2 1)).grp.tmprank ∧
      ((user_outcome layout (env_token 4) (after_run three_collectives (member 2 1))
          [1, 2, 3, 4, 5, 6, 7, 8] [9, 9, 9, 9, 9, 9, 9, 9, 9, 9] 2 wrapping_size
          bytewise_max).2.1.grp.coll_op = GASPI_NONE ∧
        (user_outcome layout (env_token 4) (after_run three_collectives (member 2 1))
          [1, 2, 3, 4, 5, 6, 7, 8] [9, 9, 9, 9, 9, 9, 9, 9, 9, 9] 2 wrapping_size
          bytewise_max).2.1.grp.tmprank = level1_index (member 2 1).grp) ∧
      (allreduce_outcome layout (env_token 4) (after_run three_collectives (member 2 1))
        (le_encode 8 5) (le_encode 8 0) 1 GASPI_OP_SUM GASPI_TYPE_ULONG).2.1.grp.tmprank
        = level1_index (member 2 1).grp :=
  have h := idle_group_resumption_fields three_collectives (member 2 1)
    (after_run three_collectives (member 2 1))
    ⟨fun _ => ⟨by rfl, by rfl, by rfl⟩, fun _ => by rfl, Or.inl (by rfl)⟩ (by rfl)
  ⟨⟨fun _ => ⟨by rfl, by rfl, by rfl⟩, fun _ => by rfl, Or.inl (by rfl)⟩, by rfl, by rfl, by rfl,
    by rfl, by rfl, by rfl, h.2.1, h.2.2.1 (by rfl), h.2.2.2.2.1,
    h.2.2.2.2.2.1 (env_token 4) GASPI_SUCCESS
      (after_barrier (env_token 4) (after_run three_collectives (member 2 1))) (by rfl),
    h.2.2.2.2.2.2.2.1 layout (env_token 4) [1, 2, 3, 4, 5, 6, 7, 8] [9, 9, 9, 9, 9, 9, 9, 9, 9, 9]
      (user_outcome layout (env_token 4) (after_run three_collectives (member 2 1))
          [1, 2, 3, 4, 5, 6, 7, 8] [9, 9, 9, 9, 9, 9, 9, 9, 9, 9] 2 wrapping_size
          bytewise_max).2.2
      2 wrapping_size bytewise_max
      (user_outcome layout (env_token 4) (after_run three_collectives (member 2 1))
          [1, 2, 3, 4, 5, 6, 7, 8] [9, 9, 9, 9, 9, 9, 9, 9, 9, 9] 2 wrapping_size
          bytewise_max).2.1 (by rfl) (by rfl),
    (h.2.2.2.2.2.2.2.2 (fun hl => absurd hl (by decide))).2.1 layout (env_token 4) (le_encode 8 5)
      (le_encode 8 0)
      (allreduce_outcome layout (env_token 4) (after_run three_collectives (member 2 1))
        (le_encode 8 5) (le_encode 8 0) 1 GASPI_OP_SUM GASPI_TYPE_ULONG).2.2
      1 GASPI_OP_SUM GASPI_TYPE_ULONG
      (allreduce_outcome layout (env_token 4) (after_run three_collectives (member 2 1))
        (le_encode 8 5) (le_encode 8 0) 1 GASPI_OP_SUM GASPI_TYPE_ULONG).2.1 (by rfl)⟩

/-! ### Memory -/

theorem readBytes_length (m : Mem) (a n : Nat) : (readBytes m a n).length = n := by
  simp [readBytes]

theorem writeBytes_outside (m : Mem) (a : Nat) (bs : List Nat) (x : Nat)
    (h : ¬ (a ≤ x ∧ x < a + bs.length)) : writeBytes m a bs x = m x := by
  unfold writeBytes
  rw [if_neg h]

theorem readBytes_writeBytes (m : Mem) (a : Nat) (bs : List Nat) :
    readBytes (writeBytes m a bs) a bs.length = bs := by
  apply List.ext_getElem
  · exact readBytes_length _ _ _
  · intro i h1 h2
    simp only [readBytes, List.getElem_map, List.getElem_range, writeBytes]
    rw [if_pos ⟨by omega, by omega⟩]
    have : a + i - a = i := by omega
    rw [this, List.getD_eq_getElem _ _ h2]

theorem readBytes_congr (m1 m2 : Mem) (a n : Nat) (h : ∀ i, i < n → m1 (a + i) = m2 (a + i)) :
    readBytes m1 a n = readBytes m2 a n := by
  unfold readBytes
  apply List.map_congr_left
  intro i hi
  exact h i (List.mem_range.mp hi)

theorem readBytes_writeBytes_disjoint (m : Mem) (a : Nat) (bs : List Nat) (b n : Nat)
    (h : b + n ≤ a ∨ a + bs.length ≤ b) :
    readBytes (writeBytes m a bs) b n = readBytes m b n := by
  apply readBytes_congr
  intro i hi
  apply writeBytes_outside
  omega

theorem le_encode_length : ∀ (n v : Nat), (le_encode n v).length = n := by
  intro n
  induction n with
  | zero => intro v; rfl
  | succ n ih =>
    intro v
    simp only [le_encode, List.length_cons, ih]

theorem le_decode_encode : ∀ (n v : Nat), le_decode (le_encode n v) = v % 256 ^ n := by
  intro n
  induction n with
  | zero =>
    intro v
    simp [le_encode, le_decode, Nat.mod_one]
  | succ n ih =>
    intro v
    simp only [le_encode, le_decode, ih]
    rw [pow_succ, Nat.mul_comm (256 ^ n) 256, Nat.mod_mul]

theorem load64_store64 (m : Mem) (a v : Nat) : load64 (store64 m a v) a = v % 2 ^ 64 := by
  unfold load64 store64
  have h := readBytes_writeBytes m a (le_encode 8 v)
  rw [le_encode_length] at h
  rw [h, le_decode_encode]
  have h2 : (256 : Nat) ^ 8 = 2 ^ 64 := by norm_num
  rw [h2]

theorem load64_store64_disjoint (m : Mem) (a v b : Nat) (h : b + 8 ≤ a ∨ a + 8 ≤ b) :
    load64 (store64 m a v) b = load64 m b := by
  unfold load64 store64
  rw [readBytes_writeBytes_disjoint]
  rw [le_encode_length]
  exact h

/-! ### Completions -/

/-- A completion other than of a receive is posted: with a completion record from
`malloc` and room in the ring buffer of the queue, `_tcp_dev_post_wc` returns 0 and
inserts exactly the one record. -/
theorem post_wc_ok {E : DevEnv} {D : Dev} {g : Nat} {cq : tcp_cq} {rb : ringbuffer}
    (wr_id : Nat) (status : tcp_dev_wc_status) (opcode : tcp_dev_wc_opcode) {h : Nat}
    (hm : E.malloc_wc D.tick = some g) (hcq : D.cqs_map h = some cq) (hrb : cq.rbuf = some rb)
    (hroom : rb.ipos - rb.rpos < rb.mask) (hop : opcode ≠ tcp_dev_wc_opcode.TCP_DEV_WC_RECV) :
    _tcp_dev_post_wc E D wr_id status opcode h
      = some (0, completed D h cq rb { wr_id := wr_id, status := status, opcode := opcode, sender := g }) := by
  unfold _tcp_dev_post_wc
  rw [hm]
  simp only
  rw [hcq]
  simp only
  rw [hrb]
  simp only [insert_ringbuffer]
  rw [if_neg (by omega)]
  simp only [if_neg hop]
  rfl

theorem post_wc_fails {E : DevEnv} {D : Dev} (wr_id : Nat) (status : tcp_dev_wc_status)
    (opcode : tcp_dev_wc_opcode) (h : Nat) (hm : E.malloc_wc D.tick = none) :
    _tcp_dev_post_wc E D wr_id status opcode h = some (1, next_tick D) := by
  unfold _tcp_dev_post_wc
  rw [hm]

theorem devKeeps_refl (D : Dev) : DevKeeps D D :=
  ⟨rfl, rfl, rfl, ⟨0, rfl⟩, fun _ h => h, ⟨[], (List.append_nil _).symm⟩⟩

theorem devKeeps_trans {D D1 D2 : Dev} (h1 : DevKeeps D D1) (h2 : DevKeeps D1 D2) : DevKeeps D D2 := by
  obtain ⟨a1, a2, a3, ⟨n1, a4⟩, a5, ⟨w1, a6⟩⟩ := h1
  obtain ⟨b1, b2, b3, ⟨n2, b4⟩, b5, ⟨w2, b6⟩⟩ := h2
  refine ⟨b1.trans a1, b2.trans a2, b3.trans a3, ⟨n1 + n2, ?_⟩, fun c h => b5 c (a5 c h), ⟨w1 ++ w2, ?_⟩⟩
  · rw [b4, a4, List.drop_drop, Nat.add_comm]
  · rw [b6, a6, List.append_assoc]

theorem devKeeps_tick (D : Dev) : DevKeeps D (next_tick D) :=
  ⟨rfl, rfl, rfl, ⟨0, rfl⟩, fun _ h => h, ⟨[], (List.append_nil _).symm⟩⟩

theorem devKeeps_log (D : Dev) (e : DevEvent) : DevKeeps D (dev_log D e) :=
  ⟨rfl, rfl, rfl, ⟨0, rfl⟩, fun _ h => h, ⟨[e], rfl⟩⟩

/-- The outcomes of `_tcp_dev_post_wc` when it returns: no completion record, or exactly
one insertion, followed for the completion of a receive by the byte on the pipe. -/
theorem post_wc_cases {E : DevEnv} {D D1 : Dev} {wr_id : Nat} {status : tcp_dev_wc_status}
    {opcode : tcp_dev_wc_opcode} {h rc : Nat}
    (hp : _tcp_dev_post_wc E D wr_id status opcode h = some (rc, D1)) :
    (E.malloc_wc D.tick = none ∧ rc = 1 ∧ D1 = next_tick D) ∨
    ∃ g cq rb, E.malloc_wc D.tick = some g ∧ D.cqs_map h = some cq ∧ cq.rbuf = some rb ∧
      rb.ipos - rb.rpos < rb.mask ∧
      ((opcode ≠ tcp_dev_wc_opcode.TCP_DEV_WC_RECV ∧ rc = 0 ∧
          D1 = completed D h cq rb { wr_id := wr_id, status := status, opcode := opcode, sender := g }) ∨
        (opcode = tcp_dev_wc_opcode.TCP_DEV_WC_RECV ∧ ∃ ch, cq.pchannel = some ch ∧
          ((rc = 1 ∧ D1 = next_tick (completed D h cq rb
              { wr_id := wr_id, status := status, opcode := opcode, sender := wr_id })) ∨
           (rc = 0 ∧ D1 = dev_log (next_tick (completed D h cq rb
              { wr_id := wr_id, status := status, opcode := opcode, sender := wr_id }))
              (DevEvent.notified ch.write))))) := by
  unfold _tcp_dev_post_wc at hp
  cases hm : E.malloc_wc D.tick with
  | none =>
    rw [hm] at hp
    simp only [Option.some.injEq, Prod.mk.injEq] at hp
    exact Or.inl ⟨rfl, hp.1.symm, hp.2.symm⟩
  | some g =>
    rw [hm] at hp
    simp only at hp
    cases hcq : D.cqs_map h with
    | none =>
      rw [hcq] at hp
      exact absurd hp (by simp)
    | some cq =>
      rw [hcq] at hp
      obtain ⟨rbuf, num, pch⟩ := cq
      cases rbuf with
      | none => exact absurd hp (by simp)
      | some rb =>
        simp only [insert_ringbuffer] at hp
        by_cases hroom : rb.ipos - rb.rpos ≥ rb.mask
        · rw [if_pos hroom] at hp
          exact absurd hp (by simp)
        rw [if_neg hroom] at hp
        simp only at hp
        refine Or.inr ⟨g, _, rb, rfl, rfl, rfl, by omega, ?_⟩
        by_cases hop : opcode = tcp_dev_wc_opcode.TCP_DEV_WC_RECV
        · simp only [if_pos hop] at hp
          cases pch with
          | none => exact absurd hp (by simp)
          | some ch =>
            simp only at hp
            by_cases hpw : (!E.pipe_write (D.tick + 1)) = true
            · have hp2 : some (1, next_tick (completed D h ⟨some rb, num, some ch⟩ rb
                  { wr_id := wr_id, status := status, opcode := opcode, sender := wr_id })) = some (rc, D1) := by
                rw [← hp]
                show _ = (if (!E.pipe_write (D.tick + 1)) = true then _ else _)
                rw [if_pos hpw]
                rfl
              simp only [Option.some.injEq, Prod.mk.injEq] at hp2
              exact Or.inr ⟨hop, ch, rfl, Or.inl ⟨hp2.1.symm, hp2.2.symm⟩⟩
            · have hp2 : some (0, dev_log (next_tick (completed D h ⟨some rb, num, some ch⟩ rb
                  { wr_id := wr_id, status := status, opcode := opcode, sender := wr_id }))
                  (DevEvent.notified ch.write)) = some (rc, D1) := by
                rw [← hp]
                show _ = (if (!E.pipe_write (D.tick + 1)) = true then _ else _)
                rw [if_neg hpw]
                rfl
              simp only [Option.some.injEq, Prod.mk.injEq] at hp2
              exact Or.inr ⟨hop, ch, rfl, Or.inr ⟨hp2.1.symm, hp2.2.symm⟩⟩
        · simp only [if_neg hop] at hp
          simp only [Option.some.injEq, Prod.mk.injEq] at hp
          exact Or.inl ⟨hop, hp.1.symm, hp.2.symm⟩

theorem completed_keeps (D : Dev) (h : Nat) (cq : tcp_cq) (rb : ringbuffer) (wc : tcp_dev_wc_t) :
    DevKeeps D (completed D h cq rb wc) :=
  ⟨rfl, rfl, rfl, ⟨0, rfl⟩, fun _ h => h, ⟨[DevEvent.posted h wc], rfl⟩⟩

theorem post_wc_keeps {E : DevEnv} {D D1 : Dev} {wr_id : Nat} {status : tcp_dev_wc_status}
    {opcode : tcp_dev_wc_opcode} {h rc : Nat}
    (hp : _tcp_dev_post_wc E D wr_id status opcode h = some (rc, D1)) :
    DevKeeps D D1 ∧ D1.mem = D.mem ∧ D1.conns = D.conns ∧ D1.recvList = D.recvList := by
  rcases post_wc_cases hp with ⟨_, _, h1⟩ | ⟨g, cq, rb, _, _, _, _, h1⟩
  · rw [h1]
    exact ⟨devKeeps_tick D, rfl, rfl, rfl⟩
  · rcases h1 with ⟨_, _, h1⟩ | ⟨_, ch, _, ⟨_, h1⟩ | ⟨_, h1⟩⟩
    · rw [h1]
      exact ⟨completed_keeps _ _ _ _ _, rfl, rfl, rfl⟩
    · rw [h1]
      exact ⟨devKeeps_trans (completed_keeps _ _ _ _ _) (devKeeps_tick _), rfl, rfl, rfl⟩
    · rw [h1]
      exact ⟨devKeeps_trans (completed_keeps _ _ _ _ _)
        (devKeeps_trans (devKeeps_tick _) (devKeeps_log _ _)), rfl, rfl, rfl⟩

/-! ### Requests addressed to the own rank -/

/-- C15. A `POST_RDMA_WRITE` header whose target is the own rank, with source and
destination ranges that do not overlap, a completion record from `malloc` and room in
the queue of the request: `_tcp_dev_process_recv_data` returns 0, the `length` bytes at
`remote_addr` are afterwards the bytes that were at `local_addr`, the source range and
all memory outside the destination range are unchanged, exactly one completion is
posted, with status SUCCESS, opcode RDMA_WRITE and the `wr_id` of the request, on the
`cq_handle` of the request, the delayed queue is as before, and the read half is back
at `RECV_HEADER` with `done = 0`. -/
theorem self_rdma_write (E : DevEnv) (D : Dev) (estate : Nat) (wr : tcp_dev_wr_t) (g : Nat)
    (cq : tcp_cq) (rb : ringbuffer)
    (hhead : (D.conns estate).read.opcode = tcp_dev_state_opcode.RECV_HEADER)
    (hbuf : (D.conns estate).wr_buff = wr)
    (hop : wr.opcode = tcp_dev_wr_opcode.POST_RDMA_WRITE)
    (hself : wr.target = D.rank)
    (hsep : wr.remote_addr + wr.length ≤ wr.local_addr ∨ wr.local_addr + wr.length ≤ wr.remote_addr)
    (hm : E.malloc_wc D.tick = some g)
    (hcq : D.cqs_map wr.cq_handle = some cq) (hrb : cq.rbuf = some rb)
    (hroom : rb.ipos - rb.rpos < rb.mask) :
    ∃ D1, _tcp_dev_process_recv_data E D estate = some (0, D1) ∧
      D1 = _tcp_dev_set_default_read_conn_state E
        (completed { D with mem := writeBytes D.mem wr.remote_addr (readBytes D.mem wr.local_addr wr.length) }
          wr.cq_handle cq rb
          { wr_id := wr.wr_id, status := tcp_dev_wc_status.TCP_WC_SUCCESS,
            opcode := tcp_dev_wc_opcode.TCP_DEV_WC_RDMA_WRITE, sender := g }) estate ∧
      readBytes D1.mem wr.remote_addr wr.length = readBytes D.mem wr.local_addr wr.length ∧
      readBytes D1.mem wr.local_addr wr.length = readBytes D.mem wr.local_addr wr.length ∧
      (∀ a, ¬ (wr.remote_addr ≤ a ∧ a < wr.remote_addr + wr.length) → D1.mem a = D.mem a) ∧
      D1.log = D.log ++ [DevEvent.posted wr.cq_handle
        { wr_id := wr.wr_id, status := tcp_dev_wc_status.TCP_WC_SUCCESS,
          opcode := tcp_dev_wc_opcode.TCP_DEV_WC_RDMA_WRITE, sender := g }] ∧
      D1.cqs_map wr.cq_handle = some { cq with rbuf := some (ring_put rb
        { wr_id := wr.wr_id, status := tcp_dev_wc_status.TCP_WC_SUCCESS,
          opcode := tcp_dev_wc_opcode.TCP_DEV_WC_RDMA_WRITE, sender := g }) } ∧
      (∀ h, h ≠ wr.cq_handle → D1.cqs_map h = D.cqs_map h) ∧
      D1.delayedList = D.delayedList ∧ D1.recvList = D.recvList ∧
      (D1.conns estate).read.opcode = tcp_dev_state_opcode.RECV_HEADER ∧
      (D1.conns estate).read.done = 0 := by
  have hop2 : (D.conns estate).wr_buff.opcode = tcp_dev_wr_opcode.POST_RDMA_WRITE := by
    rw [hbuf]
    exact hop
  have h1 : _tcp_dev_process_recv_data E D estate = recv_post_rdma E D estate := by
    unfold _tcp_dev_process_recv_data
    simp only [hhead, hop2, if_true]
  have hcpy : memcpy D.mem wr.remote_addr wr.local_addr wr.length
      = some (writeBytes D.mem wr.remote_addr (readBytes D.mem wr.local_addr wr.length)) := by
    unfold memcpy
    rw [if_pos (Or.inr hsep)]
  have hpost := post_wc_ok (E := E)
    (D := { D with mem := writeBytes D.mem wr.remote_addr (readBytes D.mem wr.local_addr wr.length) })
    wr.wr_id tcp_dev_wc_status.TCP_WC_SUCCESS tcp_dev_wc_opcode.TCP_DEV_WC_RDMA_WRITE
    hm hcq hrb hroom (by decide)
  have e1 : ¬ tcp_dev_wr_opcode.POST_RDMA_WRITE = tcp_dev_wr_opcode.POST_RDMA_READ := by decide
  have e2 : ¬ tcp_dev_wr_opcode.POST_RDMA_WRITE = tcp_dev_wr_opcode.POST_RDMA_WRITE_INLINED := by
    decide
  have h2 : recv_post_rdma E D estate = some (0, _tcp_dev_set_default_read_conn_state E
        (completed { D with mem := writeBytes D.mem wr.remote_addr (readBytes D.mem wr.local_addr wr.length) }
          wr.cq_handle cq rb
          { wr_id := wr.wr_id, status := tcp_dev_wc_status.TCP_WC_SUCCESS,
            opcode := tcp_dev_wc_opcode.TCP_DEV_WC_RDMA_WRITE, sender := g }) estate) := by
    unfold recv_post_rdma
    simp only [hbuf, hop, hself, if_true, if_neg e1, if_neg e2, hcpy, hpost, post_then]
    rfl
  refine ⟨_, h1.trans h2, rfl, ?_, ?_, ?_, ?_, ?_, ?_, rfl, rfl, ?_, ?_⟩
  · have h := readBytes_writeBytes D.mem wr.remote_addr (readBytes D.mem wr.local_addr wr.length)
    rw [readBytes_length] at h
    exact h
  · apply readBytes_writeBytes_disjoint
    rw [readBytes_length]
    omega
  · intro a ha
    apply writeBytes_outside
    rw [readBytes_length]
    exact ha
  · rfl
  · show upd D.cqs_map wr.cq_handle _ wr.cq_handle = _
    rw [upd_same]
  · intro h hh
    show upd D.cqs_map wr.cq_handle _ h = _
    unfold upd
    rw [if_neg hh]
  · simp only [_tcp_dev_set_default_read_conn_state, set_conn, upd_same]
  · simp only [_tcp_dev_set_default_read_conn_state, set_conn, upd_same]

theorem self_rdma_write_witness :
    ∃ D1, _tcp_dev_process_recv_data dev_env_ok dev_self_write 0 = some (0, D1) ∧
      readBytes D1.mem 16 4 = [0, 1, 2, 3] ∧
      D1.log = [DevEvent.posted 0
        { wr_id := 7, status := tcp_dev_wc_status.TCP_WC_SUCCESS,
          opcode := tcp_dev_wc_opcode.TCP_DEV_WC_RDMA_WRITE, sender := 0 }] ∧
      D1.delayedList = [] ∧
      (D1.conns 0).read.opcode = tcp_dev_state_opcode.RECV_HEADER ∧ (D1.conns 0).read.done = 0 := by
  obtain ⟨D1, h1, _, h3, _, _, h6, _, _, h9, _, h11, h12⟩ :=
    self_rdma_write dev_env_ok dev_self_write 0 self_write_wr 0 cq8 ring8 (by rfl) (by rfl) (by rfl)
      (by rfl) (by decide) (by rfl) (by rfl) (by rfl) (by decide)
  exact ⟨D1, h1, h3.trans (by rfl), h6.trans (by rfl), h9.trans (by rfl), h11, h12⟩

theorem store64_outside (m : Mem) (a v x : Nat) (h : ¬ (a ≤ x ∧ x < a + 8)) :
    store64 m a v x = m x := by
  unfold store64
  apply writeBytes_outside
  rw [le_encode_length]
  exact h

/-- The own-rank shortcut of an atomic: the effect of a `POST_ATOMIC_*` header whose
target is the own rank. -/
theorem post_atomic_self_effect (E : DevEnv) (D : Dev) (estate : Nat) (wr : tcp_dev_wr_t) (g : Nat)
    (cq : tcp_cq) (rb : ringbuffer) (x : Nat)
    (hhead : (D.conns estate).read.opcode = tcp_dev_state_opcode.RECV_HEADER)
    (hbuf : (D.conns estate).wr_buff = wr)
    (hop : wr.opcode = tcp_dev_wr_opcode.POST_ATOMIC_FETCH_AND_ADD ∨
      wr.opcode = tcp_dev_wr_opcode.POST_ATOMIC_CMP_AND_SWP)
    (hself : wr.target = D.rank)
    (hx : load64 D.mem wr.remote_addr = x) (hx64 : x < 2 ^ 64)
    (hsep : wr.local_addr = wr.remote_addr ∨ wr.local_addr + 8 ≤ wr.remote_addr ∨
      wr.remote_addr + 8 ≤ wr.local_addr)
    (hm : E.malloc_wc D.tick = some g)
    (hcq : D.cqs_map wr.cq_handle = some cq) (hrb : cq.rbuf = some rb)
    (hroom : rb.ipos - rb.rpos < rb.mask) :
    ∃ D1, _tcp_dev_process_recv_data E D estate = some (0, D1) ∧
      load64 D1.mem wr.remote_addr =
        (if wr.opcode = tcp_dev_wr_opcode.POST_ATOMIC_FETCH_AND_ADD then (x + wr.compare_add) % 2 ^ 64
         else if x = wr.compare_add then wr.swap % 2 ^ 64 else x) ∧
      (wr.local_addr ≠ wr.remote_addr → load64 D1.mem wr.local_addr = x) ∧
      (∀ a, ¬ (wr.remote_addr ≤ a ∧ a < wr.remote_addr + 8) →
        ¬ (wr.local_addr ≤ a ∧ a < wr.local_addr + 8) → D1.mem a = D.mem a) ∧
      D1.log = D.log ++ [DevEvent.posted wr.cq_handle
        { wr_id := wr.wr_id, status := tcp_dev_wc_status.TCP_WC_SUCCESS,
          opcode := (if wr.opcode = tcp_dev_wr_opcode.POST_ATOMIC_FETCH_AND_ADD
            then tcp_dev_wc_opcode.TCP_DEV_WC_FETCH_ADD else tcp_dev_wc_opcode.TCP_DEV_WC_CMP_SWAP),
          sender := g }] ∧
      D1.delayedList = D.delayedList ∧
      (D1.conns estate).read.opcode = tcp_dev_state_opcode.RECV_HEADER ∧
      (D1.conns estate).read.done = 0 := by
  have h1 : _tcp_dev_process_recv_data E D estate = recv_post_atomic E D estate := by
    unfold _tcp_dev_process_recv_data
    rw [if_pos hhead]
    rcases hop with hop | hop
    · have hop2 : (D.conns estate).wr_buff.opcode = tcp_dev_wr_opcode.POST_ATOMIC_FETCH_AND_ADD := by
        rw [hbuf]
        exact hop
      simp only [hop2]
    · have hop2 : (D.conns estate).wr_buff.opcode = tcp_dev_wr_opcode.POST_ATOMIC_CMP_AND_SWP := by
        rw [hbuf]
        exact hop
      simp only [hop2]
  have hx1 : load64 (store64 D.mem wr.local_addr x) wr.remote_addr = x := by
    rcases hsep with hs | hs
    · rw [hs, load64_store64]
      exact Nat.mod_eq_of_lt hx64
    · rw [load64_store64_disjoint _ _ _ _ (by omega)]
      exact hx
  have hloc : ∀ v, wr.local_addr ≠ wr.remote_addr →
      load64 (store64 (store64 D.mem wr.local_addr x) wr.remote_addr v) wr.local_addr = x := by
    intro v hne
    rw [load64_store64_disjoint _ _ _ _ (by omega), load64_store64]
    exact Nat.mod_eq_of_lt hx64
  have hout : ∀ v a, ¬ (wr.remote_addr ≤ a ∧ a < wr.remote_addr + 8) →
      ¬ (wr.local_addr ≤ a ∧ a < wr.local_addr + 8) →
      store64 (store64 D.mem wr.local_addr x) wr.remote_addr v a = D.mem a := by
    intro v a h1 h2
    rw [store64_outside _ _ _ _ h1, store64_outside _ _ _ _ h2]
  have key : ∀ (m2 : Mem) (op : tcp_dev_wc_opcode), op ≠ tcp_dev_wc_opcode.TCP_DEV_WC_RECV →
      post_then (_tcp_dev_post_wc E { D with mem := m2 } wr.wr_id tcp_dev_wc_status.TCP_WC_SUCCESS op
          wr.cq_handle) (fun D1 => some (0, _tcp_dev_set_default_read_conn_state E D1 estate))
        = some (0, _tcp_dev_set_default_read_conn_state E (completed { D with mem := m2 } wr.cq_handle cq rb
            { wr_id := wr.wr_id, status := tcp_dev_wc_status.TCP_WC_SUCCESS, opcode := op, sender := g })
            estate) := by
    intro m2 op hne
    rw [post_wc_ok (E := E) (D := { D with mem := m2 }) wr.wr_id tcp_dev_wc_status.TCP_WC_SUCCESS op
      hm hcq hrb hroom hne]
    rfl
  have hrd : ∀ D2 : Dev, ((_tcp_dev_set_default_read_conn_state E D2 estate).conns estate).read.opcode
        = tcp_dev_state_opcode.RECV_HEADER ∧
      ((_tcp_dev_set_default_read_conn_state E D2 estate).conns estate).read.done = 0 := by
    intro D2
    simp only [_tcp_dev_set_default_read_conn_state, set_conn, upd_same, and_self]
  rw [h1]
  unfold recv_post_atomic
  simp only [hbuf, hself, if_true, hx]
  rcases hop with hop | hop
  · have e1 : ¬ tcp_dev_wr_opcode.POST_ATOMIC_FETCH_AND_ADD = tcp_dev_wr_opcode.POST_ATOMIC_CMP_AND_SWP := by
      decide
    simp only [hop, if_true, if_neg e1, hx1]
    rw [key _ _ (by decide)]
    refine ⟨_, rfl, ?_, ?_, ?_, rfl, rfl, (hrd _).1, (hrd _).2⟩
    · show load64 (store64 _ wr.remote_addr _) wr.remote_addr = _
      rw [load64_store64, Nat.mod_mod]
    · exact hloc _
    · exact hout _
  · have e1 : ¬ tcp_dev_wr_opcode.POST_ATOMIC_CMP_AND_SWP = tcp_dev_wr_opcode.POST_ATOMIC_FETCH_AND_ADD := by
      decide
    simp only [hop, if_true, if_neg e1, hx1]
    by_cases hc : x = wr.compare_add
    · simp only [if_pos hc]
      rw [key _ _ (by decide)]
      refine ⟨_, rfl, ?_, ?_, ?_, rfl, rfl, (hrd _).1, (hrd _).2⟩
      · show load64 (store64 _ wr.remote_addr _) wr.remote_addr = _
        rw [load64_store64]
      · exact hloc _
      · exact hout _
    · simp only [if_neg hc]
      rw [key _ _ (by decide)]
      refine ⟨_, rfl, hx1, ?_, ?_, rfl, rfl, (hrd _).1, (hrd _).2⟩
      · intro hne
        show load64 (store64 D.mem wr.local_addr x) wr.local_addr = x
        rw [load64_store64]
        exact Nat.mod_eq_of_lt hx64
      · intro a _ h2
        exact store64_outside _ _ _ _ h2

/-- C16. A `POST_ATOMIC_FETCH_AND_ADD` or `POST_ATOMIC_CMP_AND_SWP` header whose target
is the own rank, on a 64-bit word at `remote_addr` that holds `x`, with the word at
`local_addr` either the same word or disjoint from it, a completion record from
`malloc` and room in the queue of the request: `_tcp_dev_process_recv_data` returns 0;
the word at `remote_addr` is afterwards `(x + compare_add) mod 2^64` for the fetch-and-add
and, for the compare-and-swap, `swap` if `x = compare_add` and `x` otherwise; the word
at `local_addr`, when it is another word, holds `x`; all memory outside the two words
is unchanged; and exactly one completion is posted, with status SUCCESS, the opcode
of the atomic and the `wr_id` of the request, on the `cq_handle` of the request. -/
theorem self_atomic (E : DevEnv) (D : Dev) (estate : Nat) (wr : tcp_dev_wr_t) (g : Nat)
    (cq : tcp_cq) (rb : ringbuffer) (x : Nat)
    (hhead : (D.conns estate).read.opcode = tcp_dev_state_opcode.RECV_HEADER)
    (hbuf : (D.conns estate).wr_buff = wr)
    (hop : wr.opcode = tcp_dev_wr_opcode.POST_ATOMIC_FETCH_AND_ADD ∨
      wr.opcode = tcp_dev_wr_opcode.POST_ATOMIC_CMP_AND_SWP)
    (hself : wr.target = D.rank)
    (hx : load64 D.mem wr.remote_addr = x) (hx64 : x < 2 ^ 64)
    (hsep : wr.local_addr = wr.remote_addr ∨ wr.local_addr + 8 ≤ wr.remote_addr ∨
      wr.remote_addr + 8 ≤ wr.local_addr)
    (hm : E.malloc_wc D.tick = some g)
    (hcq : D.cqs_map wr.cq_handle = some cq) (hrb : cq.rbuf = some rb)
    (hroom : rb.ipos - rb.rpos < rb.mask) :
    ∃ D1, _tcp_dev_process_recv_data E D estate = some (0, D1) ∧
      load64 D1.mem wr.remote_addr =
        (if wr.opcode = tcp_dev_wr_opcode.POST_ATOMIC_FETCH_AND_ADD then (x + wr.compare_add) % 2 ^ 64
         else if x = wr.compare_add then wr.swap % 2 ^ 64 else x) ∧
      (wr.local_addr ≠ wr.remote_addr → load64 D1.mem wr.local_addr = x) ∧
      (∀ a, ¬ (wr.remote_addr ≤ a ∧ a < wr.remote_addr + 8) →
        ¬ (wr.local_addr ≤ a ∧ a < wr.local_addr + 8) → D1.mem a = D.mem a) ∧
      D1.log = D.log ++ [DevEvent.posted wr.cq_handle
        { wr_id := wr.wr_id, status := tcp_dev_wc_status.TCP_WC_SUCCESS,
          opcode := (if wr.opcode = tcp_dev_wr_opcode.POST_ATOMIC_FETCH_AND_ADD
            then tcp_dev_wc_opcode.TCP_DEV_WC_FETCH_ADD else tcp_dev_wc_opcode.TCP_DEV_WC_CMP_SWAP),
          sender := g }] ∧
      D1.delayedList = D.delayedList ∧
      (D1.conns estate).read.opcode = tcp_dev_state_opcode.RECV_HEADER ∧
      (D1.conns estate).read.done = 0 :=
  post_atomic_self_effect E D estate wr g cq rb x hhead hbuf hop hself hx hx64 hsep hm hcq hrb hroom

theorem self_atomic_witness :
    ∃ D1, _tcp_dev_process_recv_data dev_env_ok dev_self_fetch_add 0 = some (0, D1) ∧
      load64 dev_self_fetch_add.mem 16 = 0x1716151413121110 ∧
      load64 D1.mem 16 = 0x1716151413121115 ∧
      load64 D1.mem 32 = 0x1716151413121110 ∧
      D1.log = [DevEvent.posted 0
        { wr_id := 9, status := tcp_dev_wc_status.TCP_WC_SUCCESS,
          opcode := tcp_dev_wc_opcode.TCP_DEV_WC_FETCH_ADD, sender := 0 }] := by
  obtain ⟨D1, h1, h2, h3, _, h5, _⟩ :=
    self_atomic dev_env_ok dev_self_fetch_add 0 self_fetch_add_wr 0 cq8 ring8 0x1716151413121110
      (by rfl) (by rfl) (Or.inl (by rfl)) (by rfl) (by rfl) (by decide) (by decide) (by rfl) (by rfl)
      (by rfl) (by decide)
  exact ⟨D1, h1, by rfl, h2.trans (by rfl), h3 (by decide), h5.trans (by rfl)⟩

/-! ### Completion of a write half -/

/-- C20, as the code has it. Rank 0 of two posts a send of 4 bytes to rank 1; the scan of
the delayed queue writes the header and puts the write half of the connection to rank
1 into `SEND_SEND` with `EPOLLOUT` armed; when the transfer is complete,
`_tcp_dev_process_sent_data` returns 0 and disables the write half, but posts no
completion: the record of actions and the queue of the request are as before. -/
theorem sent_data_send_posts_nothing :
    (dev_send_done.conns 1).write.opcode = tcp_dev_state_opcode.SEND_SEND ∧
      (dev_send_done.conns 1).write.wr_id = 7 ∧ (dev_send_done.conns 1).write.cq_handle = 0 ∧
      (dev_send_done.conns 1).write.done = (dev_send_done.conns 1).write.length ∧
      dev_send_done.epollout (dev_send_done.conns 1).fd = true ∧
      cq_ipos dev_send_done 0 = some 0 ∧
      ∃ D1, _tcp_dev_process_sent_data dev_env_ok dev_send_done 1 = some (0, D1) ∧
        D1.log = dev_send_done.log ∧ cq_ipos D1 0 = some 0 ∧
        (D1.conns 1).write.opcode = tcp_dev_state_opcode.SEND_DISABLED ∧
        D1.epollout (D1.conns 1).fd = false :=
  ⟨by rfl, by rfl, by rfl, by rfl, by rfl, by rfl, _, by rfl, by rfl, by rfl, by rfl, by rfl⟩

/-- C20, amended. When the transfer of a write half is complete,
`_tcp_dev_process_sent_data` posts a completion only for `SEND_RDMA_WRITE`: with a
completion record from `malloc`, room in the queue of the write half and a successful
`epoll_ctl` it returns 0 after exactly one completion with status SUCCESS, opcode
RDMA_WRITE and the `wr_id` of the write half on its `cq_handle`. In every other state
of the write half, `SEND_RDMA_READ` and `SEND_SEND` among them, it posts nothing and
with a successful `epoll_ctl` returns 0. In both cases the write half is left at
`SEND_DISABLED` with `wr_id = 0`, `cq_handle = CQ_HANDLE_NONE`, `addr = 0`,
`length = 0`, `done = 0`, and `EPOLLOUT` is no longer part of the interest of the
socket. -/
theorem sent_data_outcome (E : DevEnv) (D : Dev) (estate : Nat) :
    (∀ g cq rb, (D.conns estate).write.opcode = tcp_dev_state_opcode.SEND_RDMA_WRITE →
      E.malloc_wc D.tick = some g → D.cqs_map (D.conns estate).write.cq_handle = some cq →
      cq.rbuf = some rb → rb.ipos - rb.rpos < rb.mask → E.epoll_ctl (D.tick + 1) = true →
      ∃ D1, _tcp_dev_process_sent_data E D estate = some (0, D1) ∧
        D1.log = D.log ++ [DevEvent.posted (D.conns estate).write.cq_handle
          { wr_id := (D.conns estate).write.wr_id, status := tcp_dev_wc_status.TCP_WC_SUCCESS,
            opcode := tcp_dev_wc_opcode.TCP_DEV_WC_RDMA_WRITE, sender := g }] ∧
        cq_ipos D1 (D.conns estate).write.cq_handle = some (rb.ipos + 1) ∧
        (D1.conns estate).write = write_disabled E ∧
        D1.epollout (D.conns estate).fd = false) ∧
    ((D.conns estate).write.opcode ≠ tcp_dev_state_opcode.SEND_RDMA_WRITE →
      E.epoll_ctl D.tick = true →
      ∃ D1, _tcp_dev_process_sent_data E D estate = some (0, D1) ∧
        D1.log = D.log ∧ D1.cqs_map = D.cqs_map ∧
        (D1.conns estate).write = write_disabled E ∧
        D1.epollout (D.conns estate).fd = false) := by
  constructor
  · intro g cq rb hop hm hcq hrb hroom hep
    unfold _tcp_dev_process_sent_data
    simp only [if_pos hop]
    rw [post_wc_ok (E := E) (D := D) _ _ _ hm hcq hrb hroom (by decide)]
    have hep2 : E.epoll_ctl (completed D (D.conns estate).write.cq_handle cq rb
        { wr_id := (D.conns estate).write.wr_id, status := tcp_dev_wc_status.TCP_WC_SUCCESS,
          opcode := tcp_dev_wc_opcode.TCP_DEV_WC_RDMA_WRITE, sender := g }).tick = true := hep
    simp only [post_then, ne_eq, not_true_eq_false, if_false, hep2, Bool.not_true,
      Bool.false_eq_true]
    refine ⟨_, rfl, rfl, ?_, ?_, ?_⟩
    · simp only [cq_ipos, set_conn, completed, dev_log, next_tick, upd_same, ring_put]
    · simp only [set_conn, upd_same]
      rfl
    · simp only [set_conn, completed, dev_log, next_tick, upd_same]
  · intro hop hep
    unfold _tcp_dev_process_sent_data
    simp only [if_neg hop, post_then, ne_eq, not_true_eq_false, if_false, hep, Bool.not_true,
      Bool.false_eq_true]
    refine ⟨_, rfl, rfl, rfl, ?_, ?_⟩
    · simp only [set_conn, upd_same]
      rfl
    · simp only [set_conn, next_tick, upd_same]

theorem sent_data_outcome_witness :
    ((dev_write_done.conns 1).write.opcode = tcp_dev_state_opcode.SEND_RDMA_WRITE ∧
      ∃ D1, _tcp_dev_process_sent_data dev_env_ok dev_write_done 1 = some (0, D1) ∧
        D1.log = dev_write_done.log ++ [DevEvent.posted (dev_write_done.conns 1).write.cq_handle
          { wr_id := (dev_write_done.conns 1).write.wr_id, status := tcp_dev_wc_status.TCP_WC_SUCCESS,
            opcode := tcp_dev_wc_opcode.TCP_DEV_WC_RDMA_WRITE, sender := 0 }] ∧
        cq_ipos D1 (dev_write_done.conns 1).write.cq_handle = some (ring8.ipos + 1) ∧
        (D1.conns 1).write = write_disabled dev_env_ok ∧
        D1.epollout (dev_write_done.conns 1).fd = false) ∧
    ((dev_send_done.conns 1).write.opcode = tcp_dev_state_opcode.SEND_SEND ∧
      ∃ D1, _tcp_dev_process_sent_data dev_env_ok dev_send_done 1 = some (0, D1) ∧
        D1.log = dev_send_done.log ∧ D1.cqs_map = dev_send_done.cqs_map ∧
        (D1.conns 1).write = write_disabled dev_env_ok ∧
        D1.epollout (dev_send_done.conns 1).fd = false) :=
  ⟨⟨by rfl, (sent_data_outcome dev_env_ok dev_write_done 1).1 0 cq8 ring8 (by rfl) (by rfl) (by rfl)
      (by rfl) (by decide) (by rfl)⟩,
    ⟨by rfl, (sent_data_outcome dev_env_ok dev_send_done 1).2 (by decide) (by rfl)⟩⟩

/-! ### The scan of the delayed queue -/

theorem eraseIdx_middle {α : Type} (kept : List α) (x : α) (rest : List α) :
    (kept ++ x :: rest).eraseIdx kept.length = kept ++ rest := by
  induction kept with
  | nil => rfl
  | cons a l ih =>
    show a :: (l ++ x :: rest).eraseIdx l.length = a :: (l ++ rest)
    rw [ih]

theorem blocked_mono {D D1 : Dev} {tbl : Nat → Option Nat} {T : Nat} (hk : DevKeeps D D1)
    (hb : Blocked D tbl T) : Blocked D1 tbl T := by
  obtain ⟨k1, _, _, ⟨n, k4⟩, k5, _⟩ := hk
  rcases hb with ⟨h1, h2⟩ | ⟨h1, c, h2, h3⟩
  · refine Or.inl ⟨h1.trans k1.symm, ?_⟩
    rw [k4, h2]
    exact List.drop_nil
  · refine Or.inr ⟨?_, c, h2, k5 c h3⟩
    rw [k1]
    exact h1

theorem logAdds_refl (P : DevEvent → Prop) (D : Dev) : LogAdds P D D :=
  ⟨[], (List.append_nil _).symm, fun _ h => absurd h (List.not_mem_nil _)⟩

theorem logAdds_trans {P : DevEvent → Prop} {D D1 D2 : Dev} (h1 : LogAdds P D D1)
    (h2 : LogAdds P D1 D2) : LogAdds P D D2 := by
  obtain ⟨n1, a1, a2⟩ := h1
  obtain ⟨n2, b1, b2⟩ := h2
  refine ⟨n1 ++ n2, ?_, ?_⟩
  · rw [b1, a1, List.append_assoc]
  · intro e he
    rcases List.mem_append.mp he with h | h
    · exact a2 e h
    · exact b2 e h

theorem logAdds_tick (P : DevEvent → Prop) (D : Dev) : LogAdds P D (next_tick D) :=
  ⟨[], (List.append_nil _).symm, fun _ h => absurd h (List.not_mem_nil _)⟩

theorem logAdds_log {P : DevEvent → Prop} (D : Dev) (e : DevEvent) (h : P e) :
    LogAdds P D (dev_log D e) :=
  ⟨[e], rfl, fun x hx => by
    rw [List.mem_singleton] at hx
    rw [hx]
    exact h⟩

theorem logAdds_of_log_eq {P : DevEvent → Prop} {D D1 : Dev} (h : D1.log = D.log) : LogAdds P D D1 :=
  ⟨[], by rw [h, List.append_nil], fun _ h => absurd h (List.not_mem_nil _)⟩

/-- A completion posted with status SUCCESS adds only regular actions. -/
theorem post_wc_regular {E : DevEnv} {D D1 : Dev} {wr_id : Nat} {opcode : tcp_dev_wc_opcode}
    {h rc : Nat} (wr : tcp_dev_wr_t)
    (hp : _tcp_dev_post_wc E D wr_id tcp_dev_wc_status.TCP_WC_SUCCESS opcode h = some (rc, D1)) :
    LogAdds (Regular wr) D D1 := by
  have hreg : ∀ s, Regular wr (DevEvent.posted h
      { wr_id := wr_id, status := tcp_dev_wc_status.TCP_WC_SUCCESS, opcode := opcode, sender := s }) :=
    fun s => ⟨rfl, fun fd w hw => by cases hw⟩
  have hnot : ∀ fd, Regular wr (DevEvent.notified fd) := fun fd => ⟨rfl, fun fd w hw => by cases hw⟩
  rcases post_wc_cases hp with ⟨_, _, h1⟩ | ⟨g, cq, rb, _, _, _, _, h1⟩
  · rw [h1]
    exact logAdds_tick _ _
  · rcases h1 with ⟨_, _, h1⟩ | ⟨_, ch, _, ⟨_, h1⟩ | ⟨_, h1⟩⟩
    · rw [h1]
      exact ⟨[_], rfl, fun x hx => by
        rw [List.mem_singleton] at hx
        rw [hx]
        exact hreg g⟩
    · rw [h1]
      exact ⟨[_], rfl, fun x hx => by
        rw [List.mem_singleton] at hx
        rw [hx]
        exact hreg wr_id⟩
    · rw [h1]
      refine @logAdds_trans _ D (completed D h cq rb _) _ ⟨[_], rfl, fun x hx => ?_⟩
        (logAdds_trans (logAdds_tick _ _) (logAdds_log _ _ (hnot _)))
      rw [List.mem_singleton] at hx
      rw [hx]
      exact hreg wr_id

theorem post_step_cases {r : Option (Nat × Dev)} {k : Dev → Option DevStep} {st : DevStep}
    (h : post_step r k = some st) :
    ∃ rc D1, r = some (rc, D1) ∧ ((rc ≠ 0 ∧ st = DevStep.ret 1 D1) ∨ (rc = 0 ∧ k D1 = some st)) := by
  unfold post_step at h
  cases r with
  | none => exact absurd h (by simp)
  | some x =>
    obtain ⟨rc, D1⟩ := x
    simp only at h
    by_cases hrc : rc ≠ 0
    · rw [if_pos hrc] at h
      injection h with h
      exact ⟨rc, D1, rfl, Or.inl ⟨hrc, h.symm⟩⟩
    · rw [if_neg hrc] at h
      exact ⟨rc, D1, rfl, Or.inr ⟨by omega, h⟩⟩

theorem regular_header (wr : tcp_dev_wr_t) (fd : Nat) : Regular wr (DevEvent.header fd wr) :=
  ⟨rfl, fun _ _ hw => by
    injection hw with _ hw
    exact hw.symm⟩

theorem regular_closed (wr : tcp_dev_wr_t) (fd : Nat) : Regular wr (DevEvent.closed fd) :=
  ⟨rfl, fun _ _ hw => by cases hw⟩

theorem regular_freed (wr : tcp_dev_wr_t) (a : Nat) : Regular wr (DevEvent.freed a) :=
  ⟨rfl, fun _ _ hw => by cases hw⟩

theorem regular_payload (wr : tcp_dev_wr_t) (fd a n : Nat) : Regular wr (DevEvent.payload fd a n) :=
  ⟨rfl, fun _ _ hw => by cases hw⟩

/-- The branch of the scan that writes to the socket of a target: it never leaves the
request in the queue with a return to the loop, it keeps what a step keeps, and it adds
only regular actions. -/
theorem delayed_send_spec {E : DevEnv} {D : Dev} {state : Nat} {wr : tcp_dev_wr_t} {st : DevStep}
    (h : delayed_send E D state wr = some st) :
    DevKeeps D (step_dev st) ∧ LogAdds (Regular wr) D (step_dev st) ∧
      ∀ D1, st ≠ DevStep.next false D1 := by
  unfold delayed_send at h
  simp only at h
  cases hs : E.sock_write D.tick with
  | none =>
    rw [hs] at h
    exact absurd h (by simp)
  | some b =>
    rw [hs] at h
    cases b with
    | false =>
      simp only [Option.some.injEq] at h
      rw [← h]
      exact ⟨devKeeps_trans (devKeeps_tick _) (devKeeps_log _ _),
        logAdds_trans (logAdds_tick _ _) (logAdds_log _ _ (regular_closed _ _)),
        fun _ hh => by cases hh⟩
    | true =>
      simp only at h
      have k1 : DevKeeps D (dev_log (next_tick D) (DevEvent.header (D.conns state).fd wr)) :=
        devKeeps_trans (devKeeps_tick _) (devKeeps_log _ _)
      have l1 : LogAdds (Regular wr) D (dev_log (next_tick D) (DevEvent.header (D.conns state).fd wr)) :=
        logAdds_trans (logAdds_tick _ _) (logAdds_log _ _ (regular_header _ _))
      split at h
      · -- the payload is inlined
        split at h
        · exact absurd h (by simp)
        · simp only [Option.some.injEq] at h
          rw [← h]
          exact ⟨devKeeps_trans k1 (devKeeps_trans (devKeeps_tick _) (devKeeps_log _ _)),
            logAdds_trans l1 (logAdds_trans (logAdds_tick _ _) (logAdds_log _ _ (regular_closed _ _))),
            fun _ hh => by cases hh⟩
        · have k2 : ∀ D2 : Dev, D2 = (if wr.length = 0 then
                dev_log (next_tick D) (DevEvent.header (D.conns state).fd wr)
              else dev_log (next_tick (dev_log (next_tick D) (DevEvent.header (D.conns state).fd wr)))
                (DevEvent.payload (D.conns state).fd wr.local_addr wr.length)) →
              DevKeeps D D2 ∧ LogAdds (Regular wr) D D2 := by
            intro D2 hD2
            by_cases hl : wr.length = 0
            · rw [if_pos hl] at hD2
              rw [hD2]
              exact ⟨k1, l1⟩
            · rw [if_neg hl] at hD2
              rw [hD2]
              exact ⟨devKeeps_trans k1 (devKeeps_trans (devKeeps_tick _) (devKeeps_log _ _)),
                logAdds_trans l1 (logAdds_trans (logAdds_tick _ _)
                  (logAdds_log _ _ (regular_payload _ _ _ _)))⟩
          obtain ⟨rc, D3, hp, hc⟩ := post_step_cases h
          obtain ⟨k3, l3⟩ := k2 _ rfl
          have k4 := (post_wc_keeps hp).1
          have l4 := post_wc_regular wr hp
          rcases hc with ⟨_, hst⟩ | ⟨_, hst⟩
          · rw [hst]
            exact ⟨devKeeps_trans k3 k4, logAdds_trans l3 l4, fun _ hh => by cases hh⟩
          · simp only [Option.some.injEq] at hst
            rw [← hst]
            exact ⟨devKeeps_trans k3 (devKeeps_trans k4 (devKeeps_log _ _)),
              logAdds_trans l3 (logAdds_trans l4 (logAdds_log _ _ (regular_freed _ _))),
              fun _ hh => by cases hh⟩
      · split at h
        · -- the write half is set up for the payload
          have hopne : ∀ op : tcp_dev_state_opcode,
              (if wr.opcode = tcp_dev_wr_opcode.NOTIFICATION_RDMA_WRITE then tcp_dev_state_opcode.SEND_RDMA_WRITE
                else if wr.opcode = tcp_dev_wr_opcode.RESPONSE_RDMA_READ then tcp_dev_state_opcode.SEND_RDMA_READ
                else tcp_dev_state_opcode.SEND_SEND) = op → op ≠ tcp_dev_state_opcode.SEND_DISABLED := by
            intro op hop
            rw [← hop]
            split
            · decide
            · split <;> decide
          generalize hop : (if wr.opcode = tcp_dev_wr_opcode.NOTIFICATION_RDMA_WRITE
              then tcp_dev_state_opcode.SEND_RDMA_WRITE
              else if wr.opcode = tcp_dev_wr_opcode.RESPONSE_RDMA_READ then tcp_dev_state_opcode.SEND_RDMA_READ
              else tcp_dev_state_opcode.SEND_SEND) = op at h
          have hne := hopne op hop
          split at h
          · exact absurd h (by simp)
          · simp only [Option.some.injEq] at h
            rw [← h]
            refine ⟨?_, ?_, fun _ hh => by cases hh⟩
            · refine devKeeps_trans k1 ⟨rfl, rfl, rfl, ⟨0, rfl⟩, ?_, ⟨[], (List.append_nil _).symm⟩⟩
              intro c hc
              by_cases hcs : c = state
              · simp only [step_dev, next_tick, set_conn, dev_log, upd, if_pos hcs]
                exact hne
              · simp only [step_dev, next_tick, set_conn, dev_log, upd, if_neg hcs]
                exact hc
            · exact logAdds_trans l1 (logAdds_of_log_eq rfl)
        · simp only [Option.some.injEq] at h
          rw [← h]
          exact ⟨k1, l1, fun _ hh => by cases hh⟩

theorem no_state_iff (rank : Nat) (tbl : Nat → Option Nat) (wr : tcp_dev_wr_t) :
    no_state rank tbl wr = true ↔ (tbl wr.target = none ∧
      ¬ (wr.opcode = tcp_dev_wr_opcode.NOTIFICATION_SEND ∧ wr.target = rank)) := by
  unfold no_state
  exact decide_eq_true_iff

/-- What one step of the scan does, by the branch it takes.

* It keeps what a step keeps.
* At a request without connection state it returns 1 with nothing recorded, or goes on
  with the request removed after exactly one completion with status
  `TCP_WC_REM_OP_ERROR`, the `wr_id` and on the `cq_handle` of the request.
* At any other request it adds only regular actions.
* A request that is removed had a target that was not blocked, and a request that is
  left in the queue leaves the state as it was, with a target that is blocked; both
  for a target other than the own rank, and for the own rank when the request is a
  `NOTIFICATION_SEND`. -/
theorem delayed_entry_spec {E : DevEnv} {D : Dev} {tbl : Nat → Option Nat} {wr : tcp_dev_wr_t}
    {st : DevStep} (h : delayed_entry E D tbl wr = some st) :
    DevKeeps D (step_dev st) ∧
    (no_state D.rank tbl wr = true →
      (∃ D1, st = DevStep.ret 1 D1 ∧ D1.log = D.log) ∨
      (∃ D1 g, st = DevStep.next true D1 ∧
        D1.log = D.log ++ [DevEvent.posted wr.cq_handle
          { wr_id := wr.wr_id, status := tcp_dev_wc_status.TCP_WC_REM_OP_ERROR,
            opcode := tcp_dev_wc_opcode.TCP_DEV_WC_RDMA_WRITE, sender := g }])) ∧
    (no_state D.rank tbl wr = false → LogAdds (Regular wr) D (step_dev st)) ∧
    (∀ D1, st = DevStep.next true D1 →
      (wr.target = D.rank → wr.opcode = tcp_dev_wr_opcode.NOTIFICATION_SEND) →
      ¬ Blocked D tbl wr.target) ∧
    (∀ D1, st = DevStep.next false D1 → D1 = D ∧ no_state D.rank tbl wr = false ∧
      ((wr.target = D.rank → wr.opcode = tcp_dev_wr_opcode.NOTIFICATION_SEND) →
        Blocked D tbl wr.target)) := by
  unfold delayed_entry at h
  by_cases ha : tbl wr.target = none ∧
      ¬ (wr.opcode = tcp_dev_wr_opcode.NOTIFICATION_SEND ∧ wr.target = D.rank)
  · -- no connection state
    rw [if_pos ha] at h
    have hns : no_state D.rank tbl wr = true := (no_state_iff _ _ _).mpr ha
    obtain ⟨rc, D1, hp, hc⟩ := post_step_cases h
    have hblk : (wr.target = D.rank → wr.opcode = tcp_dev_wr_opcode.NOTIFICATION_SEND) →
        ¬ Blocked D tbl wr.target := by
      intro hgood hb
      rcases hb with ⟨b1, _⟩ | ⟨_, c, b2, _⟩
      · exact ha.2 ⟨hgood b1, b1⟩
      · rw [ha.1] at b2
        exact absurd b2 (by simp)
    rcases hc with ⟨hrc, hst⟩ | ⟨hrc, hst⟩
    · rw [hst]
      have hD1 : D1 = next_tick D := by
        rcases post_wc_cases hp with ⟨_, _, h1⟩ | ⟨g, cq, rb, _, _, _, _, h1⟩
        · exact h1
        · rcases h1 with ⟨_, h0, _⟩ | ⟨hop, _⟩
          · exact absurd h0 hrc
          · exact absurd hop (by decide)
      exact ⟨(post_wc_keeps hp).1, (fun _ => Or.inl ⟨D1, rfl, by rw [hD1]; rfl⟩),
        (fun hf => absurd hns (by rw [hf]; decide)), (fun _ hh => by cases hh), (fun _ hh => by cases hh)⟩
    · simp only [Option.some.injEq] at hst
      rw [← hst]
      have hD1 : ∃ g, D1.log = D.log ++ [DevEvent.posted wr.cq_handle
          { wr_id := wr.wr_id, status := tcp_dev_wc_status.TCP_WC_REM_OP_ERROR,
            opcode := tcp_dev_wc_opcode.TCP_DEV_WC_RDMA_WRITE, sender := g }] := by
        rcases post_wc_cases hp with ⟨_, h0, _⟩ | ⟨g, cq, rb, _, _, _, _, h1⟩
        · rw [hrc] at h0
          exact absurd h0 (by decide)
        · rcases h1 with ⟨_, _, h1⟩ | ⟨hop, _⟩
          · exact ⟨g, by rw [h1]; rfl⟩
          · exact absurd hop (by decide)
      obtain ⟨g, hg⟩ := hD1
      exact ⟨(post_wc_keeps hp).1, fun _ => Or.inr ⟨D1, g, rfl, hg⟩,
        (fun hf => absurd hns (by rw [hf]; decide)), fun _ _ => hblk, (fun _ hh => by cases hh)⟩
  · rw [if_neg ha] at h
    have hns : no_state D.rank tbl wr = false := by
      cases hv : no_state D.rank tbl wr with
      | false => rfl
      | true => exact absurd ((no_state_iff _ _ _).mp hv) ha
    have hns2 : ¬ no_state D.rank tbl wr = true := by
      rw [hns]
      decide
    by_cases hb : wr.opcode = tcp_dev_wr_opcode.NOTIFICATION_SEND ∧ wr.target = D.rank
    · -- a send to the own rank
      rw [if_pos hb] at h
      cases hrl : D.recvList with
      | nil =>
        rw [hrl] at h
        simp only [Option.some.injEq] at h
        rw [← h]
        refine ⟨devKeeps_refl D, fun hh => absurd hh hns2, fun _ => logAdds_refl _ _,
          (fun _ hh => by cases hh), ?_⟩
        intro D1 hh
        injection hh with _ hh
        exact ⟨hh.symm, hns, fun _ => Or.inl ⟨hb.2, hrl⟩⟩
      | cons rwr rest =>
        rw [hrl] at h
        simp only at h
        have hblk : ¬ Blocked D tbl wr.target := by
          intro hbl
          rcases hbl with ⟨_, b2⟩ | ⟨b1, _⟩
          · rw [hrl] at b2
            exact absurd b2 (by simp)
          · exact b1 hb.2
        by_cases hlen : rwr.length < wr.length
        · rw [if_pos hlen] at h
          simp only [Option.some.injEq] at h
          rw [← h]
          exact ⟨devKeeps_refl D, fun hh => absurd hh hns2, fun _ => logAdds_refl _ _,
            (fun _ hh => by cases hh), (fun _ hh => by cases hh)⟩
        rw [if_neg hlen] at h
        cases hcp : memcpy D.mem rwr.local_addr wr.local_addr wr.length with
        | none =>
          rw [hcp] at h
          exact absurd h (by simp)
        | some m =>
          rw [hcp] at h
          simp only at h
          have k0 : DevKeeps D { D with recvList := rest, mem := m } :=
            ⟨rfl, rfl, rfl, ⟨1, by rw [hrl]; rfl⟩, fun _ hh => hh, ⟨[], (List.append_nil _).symm⟩⟩
          have l0 : LogAdds (Regular wr) D { D with recvList := rest, mem := m } :=
            logAdds_of_log_eq rfl
          obtain ⟨rc, D1, hp, hc⟩ := post_step_cases h
          have k1 := devKeeps_trans k0 (post_wc_keeps hp).1
          have l1 := logAdds_trans l0 (post_wc_regular wr hp)
          rcases hc with ⟨_, hst⟩ | ⟨_, hst⟩
          · rw [hst]
            exact ⟨k1, fun hh => absurd hh hns2, fun _ => l1, (fun _ hh => by cases hh),
              (fun _ hh => by cases hh)⟩
          · obtain ⟨rc2, D2, hp2, hc2⟩ := post_step_cases hst
            have k2 := devKeeps_trans k1 (post_wc_keeps hp2).1
            have l2 := logAdds_trans l1 (post_wc_regular wr hp2)
            rcases hc2 with ⟨_, hst2⟩ | ⟨_, hst2⟩
            · rw [hst2]
              exact ⟨k2, fun hh => absurd hh hns2, fun _ => l2, (fun _ hh => by cases hh),
                (fun _ hh => by cases hh)⟩
            · simp only [Option.some.injEq] at hst2
              rw [← hst2]
              refine ⟨?_, fun hh => absurd hh hns2, fun _ => ?_, fun _ _ _ => hblk,
                (fun _ hh => by cases hh)⟩
              · show DevKeeps D (if wr.compare_add = 1 then _ else _)
                split
                · exact devKeeps_trans k2 (devKeeps_log _ _)
                · exact k2
              · show LogAdds (Regular wr) D (if wr.compare_add = 1 then _ else _)
                split
                · exact logAdds_trans l2 (logAdds_log _ _ (regular_freed _ _))
                · exact l2
    · -- a request for a connection
      rw [if_neg hb] at h
      cases htb : tbl wr.target with
      | none =>
        rw [htb] at h
        exact absurd h (by simp)
      | some state =>
        rw [htb] at h
        simp only at h
        have hne : (wr.target = D.rank → wr.opcode = tcp_dev_wr_opcode.NOTIFICATION_SEND) →
            wr.target ≠ D.rank := fun hgood heq => hb ⟨hgood heq, heq⟩
        by_cases hdis : (D.conns state).write.opcode = tcp_dev_state_opcode.SEND_DISABLED
        · rw [if_pos hdis] at h
          obtain ⟨s1, s2, s3⟩ := delayed_send_spec h
          refine ⟨s1, fun hh => absurd hh hns2, fun _ => s2, fun _ _ hgood hbl => ?_,
            fun D1 hh => absurd hh (s3 D1)⟩
          rcases hbl with ⟨b1, _⟩ | ⟨_, c, b2, b3⟩
          · exact hne hgood b1
          · rw [htb] at b2
            injection b2 with b2
            rw [← b2] at b3
            exact b3 hdis
        · rw [if_neg hdis] at h
          simp only [Option.some.injEq] at h
          rw [← h]
          refine ⟨devKeeps_refl D, fun hh => absurd hh hns2, fun _ => logAdds_refl _ _,
            (fun _ hh => by cases hh), ?_⟩
          intro D1 hh
          injection hh with _ hh
          exact ⟨hh.symm, hns, fun hgood => Or.inr ⟨hne hgood, state, htb, hdis⟩⟩

theorem delayed_loop_cons {E : DevEnv} {tbl : Nat → Option Nat} {wr : tcp_dev_wr_t}
    {rest : List tcp_dev_wr_t} {k : Nat} {D : Dev} {out : Int × Dev}
    (h : delayed_loop E tbl (wr :: rest) k D = some out) :
    (∃ code D1, delayed_entry E D tbl wr = some (DevStep.ret code D1) ∧ out = (code, D1)) ∨
    (∃ D1, delayed_entry E D tbl wr = some (DevStep.next true D1) ∧
      delayed_loop E tbl rest k { D1 with delayedList := D1.delayedList.eraseIdx k } = some out) ∨
    (∃ D1, delayed_entry E D tbl wr = some (DevStep.next false D1) ∧
      delayed_loop E tbl rest (k + 1) D1 = some out) := by
  unfold delayed_loop at h
  cases he : delayed_entry E D tbl wr with
  | none =>
    rw [he] at h
    exact absurd h (by simp)
  | some st =>
    rw [he] at h
    cases st with
    | ret code D1 =>
      simp only [Option.some.injEq] at h
      exact Or.inl ⟨code, D1, rfl, h.symm⟩
    | next del D1 =>
      cases del with
      | true => exact Or.inr (Or.inl ⟨D1, rfl, h⟩)
      | false => exact Or.inr (Or.inr ⟨D1, rfl, h⟩)

theorem for_target_cons (T : Nat) (wr : tcp_dev_wr_t) (q : List tcp_dev_wr_t) :
    for_target T (wr :: q) = if wr.target = T then wr :: for_target T q else for_target T q := by
  unfold for_target
  rw [List.filter_cons]
  by_cases h : wr.target = T
  · simp only [h, decide_True, if_true]
  · simp only [h, decide_False, if_false, Bool.false_eq_true]

/-- The order kept by the loop of the scan: what it leaves of the nodes still to visit is
a sublist of them, and for a target `T`, other than the own rank or with nothing but
`NOTIFICATION_SEND` requests, the requests left are the last ones of the requests for
`T`, all of them when `T` is blocked. -/
theorem delayed_loop_order (E : DevEnv) (tbl : Nat → Option Nat) (T : Nat) :
    ∀ (pend kept : List tcp_dev_wr_t) (D : Dev) (out : Int × Dev),
      D.delayedList = kept ++ pend →
      (T = D.rank → ∀ e ∈ pend, e.target = T → e.opcode = tcp_dev_wr_opcode.NOTIFICATION_SEND) →
      delayed_loop E tbl pend kept.length D = some out →
      ∃ left, out.2.delayedList = kept ++ left ∧ left.Sublist pend ∧
        (∃ n, for_target T left = (for_target T pend).drop n) ∧
        (Blocked D tbl T → for_target T left = for_target T pend) := by
  intro pend
  induction pend with
  | nil =>
    intro kept D out hq _ h
    simp only [delayed_loop, Option.some.injEq] at h
    rw [← h]
    exact ⟨[], hq, List.Sublist.refl _, ⟨0, rfl⟩, fun _ => rfl⟩
  | cons wr rest ih =>
    intro kept D out hq hT h
    have hgood : wr.target = T → wr.target = D.rank → wr.opcode = tcp_dev_wr_opcode.NOTIFICATION_SEND :=
      fun h1 h2 => hT (h1.symm.trans h2) wr (List.mem_cons_self _ _) h1
    rcases delayed_loop_cons h with ⟨code, D1, he, ho⟩ | ⟨D1, he, hl⟩ | ⟨D1, he, hl⟩
    · -- the function returns
      have hk := (delayed_entry_spec he).1
      rw [ho]
      exact ⟨wr :: rest, hk.2.2.1.trans hq, List.Sublist.refl _, ⟨0, rfl⟩, fun _ => rfl⟩
    · -- the node is removed
      obtain ⟨hk, _, _, hnb, _⟩ := delayed_entry_spec he
      have hk : DevKeeps D D1 := hk
      have hq2 : ({ D1 with delayedList := D1.delayedList.eraseIdx kept.length } : Dev).delayedList
          = kept ++ rest := by
        show D1.delayedList.eraseIdx kept.length = kept ++ rest
        rw [hk.2.2.1, hq, eraseIdx_middle]
      have hT2 : T = ({ D1 with delayedList := D1.delayedList.eraseIdx kept.length } : Dev).rank →
          ∀ e ∈ rest, e.target = T → e.opcode = tcp_dev_wr_opcode.NOTIFICATION_SEND := by
        intro h1 e he2
        exact hT (h1.trans hk.1) e (List.mem_cons_of_mem _ he2)
      obtain ⟨left, i1, i2, ⟨n, i3⟩, i4⟩ := ih kept _ out hq2 hT2 hl
      refine ⟨left, i1, List.Sublist.cons _ i2, ?_, ?_⟩
      · rw [for_target_cons]
        by_cases hw : wr.target = T
        · rw [if_pos hw]
          exact ⟨n + 1, i3⟩
        · rw [if_neg hw]
          exact ⟨n, i3⟩
      · intro hb
        rw [for_target_cons]
        by_cases hw : wr.target = T
        · rw [← hw] at hb
          exact absurd hb (hnb D1 rfl (hgood hw))
        · rw [if_neg hw]
          have hb1 : Blocked D1 tbl T := blocked_mono hk hb
          exact i4 hb1
    · -- the node stays
      obtain ⟨_, _, _, _, hstay⟩ := delayed_entry_spec he
      obtain ⟨hD1, _, hbl⟩ := hstay D1 rfl
      rw [hD1] at hl
      have hq2 : D.delayedList = (kept ++ [wr]) ++ rest := by
        rw [hq, List.append_assoc]
        rfl
      have hlen : (kept ++ [wr]).length = kept.length + 1 := by
        rw [List.length_append]
        rfl
      rw [← hlen] at hl
      have hT2 : T = D.rank → ∀ e ∈ rest, e.target = T → e.opcode = tcp_dev_wr_opcode.NOTIFICATION_SEND :=
        fun h1 e he2 => hT h1 e (List.mem_cons_of_mem _ he2)
      obtain ⟨left, i1, i2, ⟨n, i3⟩, i4⟩ := ih (kept ++ [wr]) D out hq2 hT2 hl
      refine ⟨wr :: left, ?_, List.Sublist.cons₂ _ i2, ?_, ?_⟩
      · rw [i1, List.append_assoc]
        rfl
      · rw [for_target_cons, for_target_cons]
        by_cases hw : wr.target = T
        · rw [if_pos hw, if_pos hw]
          refine ⟨0, ?_⟩
          rw [i4 (hw ▸ hbl (hgood hw))]
          rfl
        · rw [if_neg hw, if_neg hw]
          exact ⟨n, i3⟩
      · intro hb
        rw [for_target_cons, for_target_cons]
        by_cases hw : wr.target = T
        · rw [if_pos hw, if_pos hw, i4 hb]
        · rw [if_neg hw, if_neg hw]
          exact i4 hb
/-! ### The requests for the own rank in the delayed queue -/

theorem post_wc_queue {E : DevEnv} {D : Dev} {wr_id : Nat} {status : tcp_dev_wc_status}
    {opcode : tcp_dev_wc_opcode} {h : Nat} {x : Nat × Dev}
    (hp : _tcp_dev_post_wc E D wr_id status opcode h = some x) :
    x.2.rank = D.rank ∧ x.2.delayedList = D.delayedList := by
  have hk := (post_wc_keeps (show _ = some (x.1, x.2) from hp)).1
  exact ⟨hk.1, hk.2.2.1⟩

theorem post_then_queue {r : Option (Nat × Dev)} {k : Dev → Option (Int × Dev)} {out : Int × Dev}
    {R : Nat} {L : List tcp_dev_wr_t}
    (hr : ∀ x, r = some x → x.2.rank = R ∧ x.2.delayedList = L)
    (hk : ∀ D1 out, D1.rank = R ∧ D1.delayedList = L → k D1 = some out →
      out.2.rank = R ∧ out.2.delayedList = L)
    (h : post_then r k = some out) : out.2.rank = R ∧ out.2.delayedList = L := by
  unfold post_then at h
  cases r with
  | none => exact absurd h (by simp)
  | some x =>
    simp only at h
    split at h
    · injection h with h
      rw [← h]
      exact hr x rfl
    · exact hk x.2 out (hr x rfl) h

theorem alloc_queue (E : DevEnv) (D : Dev) :
    (_tcp_dev_alloc_remote_states E D).2.rank = D.rank ∧
      (_tcp_dev_alloc_remote_states E D).2.delayedList = D.delayedList := by
  unfold _tcp_dev_alloc_remote_states
  split
  · exact ⟨rfl, rfl⟩
  · split <;> exact ⟨rfl, rfl⟩

theorem add_new_conn_queue (E : DevEnv) (D : Dev) (rank : Int) (sock : Nat) :
    (_tcp_dev_add_new_conn E D rank sock).2.rank = D.rank ∧
      (_tcp_dev_add_new_conn E D rank sock).2.delayedList = D.delayedList := by
  unfold _tcp_dev_add_new_conn
  split
  · exact ⟨rfl, rfl⟩
  · simp only
    split <;> exact ⟨rfl, rfl⟩

theorem connect_all_loop_queue (E : DevEnv) :
    ∀ (l : List Nat) (D : Dev) (out : Option Nat × Dev), connect_all_loop E l D = some out →
      out.2.rank = D.rank ∧ out.2.delayedList = D.delayedList := by
  intro l
  induction l with
  | nil =>
    intro D out h
    simp only [connect_all_loop, Option.some.injEq] at h
    rw [← h]
    exact ⟨rfl, rfl⟩
  | cons i rest ih =>
    intro D out h
    unfold connect_all_loop at h
    split at h
    · exact absurd h (by simp)
    · split at h
      · exact ih D out h
      · split at h
        · simp only [Option.some.injEq] at h
          rw [← h]
          exact ⟨rfl, rfl⟩
        · rename_i conn_sock _
          simp only at h
          split at h
          · simp only [Option.some.injEq] at h
            rw [← h]
            exact ⟨rfl, rfl⟩
          · split at h
            · rename_i D3 hadd
              simp only [Option.some.injEq] at h
              rw [← h]
              have ha := add_new_conn_queue E
                (dev_log (next_tick (next_tick D)) (DevEvent.header conn_sock
                  { wr_id := D.tnc, cq_handle := E.CQ_HANDLE_NONE, source := D.rank, local_addr := 0,
                    target := i, remote_addr := 0, length := E.sizeof_wr,
                    opcode := if D.rank = 0 then tcp_dev_wr_opcode.REGISTER_MASTER
                              else tcp_dev_wr_opcode.REGISTER_WORKER,
                    compare_add := 0, swap := 0 })) (i : Int) conn_sock
              rw [hadd] at ha
              exact ha
            · rename_i nstate D3 hadd
              have ha := add_new_conn_queue E
                (dev_log (next_tick (next_tick D)) (DevEvent.header conn_sock
                  { wr_id := D.tnc, cq_handle := E.CQ_HANDLE_NONE, source := D.rank, local_addr := 0,
                    target := i, remote_addr := 0, length := E.sizeof_wr,
                    opcode := if D.rank = 0 then tcp_dev_wr_opcode.REGISTER_MASTER
                              else tcp_dev_wr_opcode.REGISTER_WORKER,
                    compare_add := 0, swap := 0 })) (i : Int) conn_sock
              rw [hadd] at ha
              have hi := ih _ out h
              exact ⟨hi.1.trans ha.1, hi.2.trans ha.2⟩

theorem connect_all_queue {E : DevEnv} {D : Dev} {out : Nat × Dev}
    (h : _tcp_dev_connect_all E D = some out) :
    out.2.rank = D.rank ∧ out.2.delayedList = D.delayedList := by
  unfold _tcp_dev_connect_all at h
  split at h
  · exact absurd h (by simp)
  · rename_i r D1 hl
    simp only [Option.some.injEq] at h
    rw [← h]
    exact connect_all_loop_queue E _ D _ hl
  · rename_i D1 hl
    simp only [Option.some.injEq] at h
    rw [← h]
    exact connect_all_loop_queue E _ D _ hl

theorem recv_register_queue {E : DevEnv} {D : Dev} {estate : Nat} {out : Int × Dev}
    (h : recv_register E D estate = some out) :
    out.2.rank = D.rank ∧ out.2.delayedList = D.delayedList := by
  have ha := alloc_queue E D
  unfold recv_register at h
  simp only at h
  split at h
  · injection h with h
    rw [← h]
    exact ha
  · split at h
    · split at h
      · exact absurd h (by simp)
      · rename_i rc D3 hc
        have hq := connect_all_queue hc
        split at h
        · injection h with h
          rw [← h]
          exact ⟨hq.1.trans ha.1, hq.2.trans ha.2⟩
        · injection h with h
          rw [← h]
          exact ⟨hq.1.trans ha.1, hq.2.trans ha.2⟩
    · injection h with h
      rw [← h]
      exact ha

theorem recv_post_rdma_queue {E : DevEnv} {D : Dev} {estate : Nat} {out : Int × Dev}
    (h : recv_post_rdma E D estate = some out) :
    out.2.rank = D.rank ∧ (out.2.delayedList = D.delayedList ∨
      ∃ wr, out.2.delayedList = D.delayedList ++ [wr] ∧ wr.target ≠ D.rank) := by
  unfold recv_post_rdma at h
  simp only at h
  split at h
  · split at h
    · exact absurd h (by simp)
    · have hq : out.2.rank = D.rank ∧ out.2.delayedList = D.delayedList := by
        refine post_then_queue (fun x hx => ?_) (fun D2 out2 h2 hk => ?_) h
        · have hq := post_wc_queue hx
          exact hq
        · injection hk with hk
          rw [← hk]
          split <;> exact h2
      exact ⟨hq.1, Or.inl hq.2⟩
  · rename_i hne
    injection h with h
    rw [← h]
    exact ⟨rfl, Or.inr ⟨_, rfl, hne⟩⟩

theorem recv_post_atomic_queue {E : DevEnv} {D : Dev} {estate : Nat} {out : Int × Dev}
    (h : recv_post_atomic E D estate = some out) :
    out.2.rank = D.rank ∧ (out.2.delayedList = D.delayedList ∨
      ∃ wr, out.2.delayedList = D.delayedList ++ [wr] ∧ wr.target ≠ D.rank) := by
  unfold recv_post_atomic at h
  simp only at h
  split at h
  · have hq : out.2.rank = D.rank ∧ out.2.delayedList = D.delayedList := by
      refine post_then_queue (fun x hx => ?_) (fun D2 out2 h2 hk => ?_) h
      · have hq := post_wc_queue hx
        exact hq
      · injection hk with hk
        rw [← hk]
        exact h2
    exact ⟨hq.1, Or.inl hq.2⟩
  · rename_i hne
    injection h with h
    rw [← h]
    exact ⟨rfl, Or.inr ⟨_, rfl, hne⟩⟩

theorem recv_post_send_queue {E : DevEnv} {D : Dev} {estate : Nat} {out : Int × Dev}
    (h : recv_post_send E D estate = some out) :
    out.2.rank = D.rank ∧ ∃ wr, out.2.delayedList = D.delayedList ++ [wr] ∧
      wr.opcode = tcp_dev_wr_opcode.NOTIFICATION_SEND := by
  unfold recv_post_send at h
  injection h with h
  rw [← h]
  exact ⟨rfl, _, rfl, rfl⟩

theorem recv_request_rdma_read_queue {E : DevEnv} {D : Dev} {estate : Nat} {out : Int × Dev}
    (h : recv_request_rdma_read E D estate = some out) :
    out.2.rank = D.rank ∧ ∃ wr, out.2.delayedList = D.delayedList ++ [wr] ∧
      wr.target = (D.conns estate).wr_buff.source := by
  unfold recv_request_rdma_read at h
  injection h with h
  rw [← h]
  exact ⟨rfl, _, rfl, rfl⟩

theorem recv_request_atomic_queue {E : DevEnv} {D : Dev} {estate : Nat} {out : Int × Dev}
    (h : recv_request_atomic E D estate = some out) :
    out.2.rank = D.rank ∧ ∃ wr, out.2.delayedList = D.delayedList ++ [wr] ∧
      wr.target = (D.conns estate).wr_buff.source := by
  unfold recv_request_atomic at h
  injection h with h
  rw [← h]
  exact ⟨rfl, _, rfl, rfl⟩

theorem recv_notification_send_queue {D : Dev} {estate : Nat} {out : Int × Dev}
    (h : recv_notification_send D estate = some out) :
    out.2.rank = D.rank ∧ (out.2.delayedList = D.delayedList ∨
      ∃ wr, out.2.delayedList = D.delayedList ++ [wr] ∧
        wr.target = (D.conns estate).wr_buff.source) := by
  unfold recv_notification_send at h
  simp only at h
  split at h
  · split at h
    · injection h with h
      rw [← h]
      exact ⟨rfl, Or.inl rfl⟩
    · injection h with h
      rw [← h]
      exact ⟨rfl, Or.inr ⟨_, rfl, rfl⟩⟩
  · injection h with h
    rw [← h]
    exact ⟨rfl, Or.inl rfl⟩

/-- What a call of `_tcp_dev_process_recv_data` does with the delayed queue: it leaves
the own rank, and it leaves the queue or adds one request at its end, which is a
`NOTIFICATION_SEND`, or has a target other than the own rank, or answers a request or a
send of a peer and has the source of that header as its target. -/
theorem recv_data_queue {E : DevEnv} {D D1 : Dev} {estate : Nat} {r : Int}
    (h : _tcp_dev_process_recv_data E D estate = some (r, D1)) :
    D1.rank = D.rank ∧
      (D1.delayedList = D.delayedList ∨
        ∃ wr, D1.delayedList = D.delayedList ++ [wr] ∧
          (wr.opcode = tcp_dev_wr_opcode.NOTIFICATION_SEND ∨ wr.target ≠ D.rank ∨
            (wr.target = (D.conns estate).wr_buff.source ∧
              ((D.conns estate).wr_buff.opcode = tcp_dev_wr_opcode.REQUEST_RDMA_READ ∨
               (D.conns estate).wr_buff.opcode = tcp_dev_wr_opcode.REQUEST_ATOMIC_CMP_AND_SWP ∨
               (D.conns estate).wr_buff.opcode = tcp_dev_wr_opcode.REQUEST_ATOMIC_FETCH_AND_ADD ∨
               (D.conns estate).wr_buff.opcode = tcp_dev_wr_opcode.NOTIFICATION_SEND)))) := by
  have hsame : ∀ {out : Int × Dev}, out.2.rank = D.rank ∧ out.2.delayedList = D.delayedList →
      some out = some (r, D1) → D1.rank = D.rank ∧
      (D1.delayedList = D.delayedList ∨
        ∃ wr, D1.delayedList = D.delayedList ++ [wr] ∧
          (wr.opcode = tcp_dev_wr_opcode.NOTIFICATION_SEND ∨ wr.target ≠ D.rank ∨
            (wr.target = (D.conns estate).wr_buff.source ∧
              ((D.conns estate).wr_buff.opcode = tcp_dev_wr_opcode.REQUEST_RDMA_READ ∨
               (D.conns estate).wr_buff.opcode = tcp_dev_wr_opcode.REQUEST_ATOMIC_CMP_AND_SWP ∨
               (D.conns estate).wr_buff.opcode = tcp_dev_wr_opcode.REQUEST_ATOMIC_FETCH_AND_ADD ∨
               (D.conns estate).wr_buff.opcode = tcp_dev_wr_opcode.NOTIFICATION_SEND)))) := by
    intro out ho he
    injection he with he
    rw [he] at ho
    exact ⟨ho.1, Or.inl ho.2⟩
  have hpost : ∀ {wr_id : Nat} {st : tcp_dev_wc_status} {op : tcp_dev_wc_opcode} {cqh : Nat}
      {D0 : Dev} {out : Int × Dev},
      post_then (_tcp_dev_post_wc E D0 wr_id st op cqh)
        (fun D1 => some (0, _tcp_dev_set_default_read_conn_state E D1 estate)) = some out →
      D0.rank = D.rank ∧ D0.delayedList = D.delayedList →
      out.2.rank = D.rank ∧ out.2.delayedList = D.delayedList := by
    intro wr_id st op cqh D0 out hp h0
    refine post_then_queue (fun x hx => ?_) (fun D2 out2 h2 hk => ?_) hp
    · have hq := post_wc_queue hx
      exact ⟨hq.1.trans h0.1, hq.2.trans h0.2⟩
    · injection hk with hk
      rw [← hk]
      exact h2
  unfold _tcp_dev_process_recv_data at h
  simp only at h
  have hout : ∀ {out : Int × Dev}, some out = some (r, D1) → out.2 = D1 := by
    intro out he
    injection he with he
    rw [he]
  split at h
  · split at h
    · exact hsame (recv_register_queue h) rfl
    · exact hsame (recv_register_queue h) rfl
    · obtain ⟨q1, q2⟩ := recv_post_rdma_queue h
      rw [hout rfl] at q1 q2
      rcases q2 with q2 | ⟨wr, q2, q3⟩
      · exact ⟨q1, Or.inl q2⟩
      · exact ⟨q1, Or.inr ⟨wr, q2, Or.inr (Or.inl q3)⟩⟩
    · obtain ⟨q1, q2⟩ := recv_post_rdma_queue h
      rw [hout rfl] at q1 q2
      rcases q2 with q2 | ⟨wr, q2, q3⟩
      · exact ⟨q1, Or.inl q2⟩
      · exact ⟨q1, Or.inr ⟨wr, q2, Or.inr (Or.inl q3)⟩⟩
    · obtain ⟨q1, q2⟩ := recv_post_rdma_queue h
      rw [hout rfl] at q1 q2
      rcases q2 with q2 | ⟨wr, q2, q3⟩
      · exact ⟨q1, Or.inl q2⟩
      · exact ⟨q1, Or.inr ⟨wr, q2, Or.inr (Or.inl q3)⟩⟩
    · obtain ⟨q1, q2⟩ := recv_post_atomic_queue h
      rw [hout rfl] at q1 q2
      rcases q2 with q2 | ⟨wr, q2, q3⟩
      · exact ⟨q1, Or.inl q2⟩
      · exact ⟨q1, Or.inr ⟨wr, q2, Or.inr (Or.inl q3)⟩⟩
    · obtain ⟨q1, q2⟩ := recv_post_atomic_queue h
      rw [hout rfl] at q1 q2
      rcases q2 with q2 | ⟨wr, q2, q3⟩
      · exact ⟨q1, Or.inl q2⟩
      · exact ⟨q1, Or.inr ⟨wr, q2, Or.inr (Or.inl q3)⟩⟩
    · obtain ⟨q1, wr, q2, q3⟩ := recv_post_send_queue h
      rw [hout rfl] at q1 q2
      exact ⟨q1, Or.inr ⟨wr, q2, Or.inl q3⟩⟩
    · obtain ⟨q1, wr, q2, q3⟩ := recv_post_send_queue h
      rw [hout rfl] at q1 q2
      exact ⟨q1, Or.inr ⟨wr, q2, Or.inl q3⟩⟩
    · exact hsame ⟨rfl, rfl⟩ h
    · unfold recv_payload_header at h
      exact hsame ⟨rfl, rfl⟩ h
    · rename_i hop
      obtain ⟨q1, wr, q2, q3⟩ := recv_request_rdma_read_queue h
      rw [hout rfl] at q1 q2
      exact ⟨q1, Or.inr ⟨wr, q2, Or.inr (Or.inr ⟨q3, Or.inl hop⟩)⟩⟩
    · unfold recv_payload_header at h
      exact hsame ⟨rfl, rfl⟩ h
    · rename_i hop
      obtain ⟨q1, wr, q2, q3⟩ := recv_request_atomic_queue h
      rw [hout rfl] at q1 q2
      exact ⟨q1, Or.inr ⟨wr, q2, Or.inr (Or.inr ⟨q3, Or.inr (Or.inl hop)⟩)⟩⟩
    · rename_i hop
      obtain ⟨q1, wr, q2, q3⟩ := recv_request_atomic_queue h
      rw [hout rfl] at q1 q2
      exact ⟨q1, Or.inr ⟨wr, q2, Or.inr (Or.inr ⟨q3, Or.inr (Or.inr (Or.inl hop))⟩)⟩⟩
    · unfold recv_response_atomic at h
      simp only at h
      exact hsame (hpost h ⟨rfl, rfl⟩) rfl
    · unfold recv_response_atomic at h
      simp only at h
      exact hsame (hpost h ⟨rfl, rfl⟩) rfl
    · rename_i hop
      obtain ⟨q1, q2⟩ := recv_notification_send_queue h
      rw [hout rfl] at q1 q2
      rcases q2 with q2 | ⟨wr, q2, q3⟩
      · exact ⟨q1, Or.inl q2⟩
      · exact ⟨q1, Or.inr ⟨wr, q2, Or.inr (Or.inr ⟨q3, Or.inr (Or.inr (Or.inr hop))⟩)⟩⟩
    · exact hsame (hpost h ⟨rfl, rfl⟩) rfl
    · exact hsame ⟨rfl, rfl⟩ h
  · split at h
    · exact hsame ⟨rfl, rfl⟩ h
    · split at h
      · exact hsame (hpost h ⟨rfl, rfl⟩) rfl
      · split at h
        · exact hsame (hpost h ⟨rfl, rfl⟩) rfl
        · exact hsame ⟨rfl, rfl⟩ h

/-- The handler of a header keeps the queue one in which the requests for the own rank
are `NOTIFICATION_SEND` requests, when a request or a send that a peer passes on does
not name the own rank as its source: a posting of the own process to the own rank is
queued only when it is a send, and an answer is queued for the source of the header. -/
theorem recv_data_own_sends {E : DevEnv} {D D1 : Dev} {estate : Nat} {r : Int}
    (hinv : OwnSends D)
    (hsrc : (D.conns estate).wr_buff.opcode = tcp_dev_wr_opcode.REQUEST_RDMA_READ ∨
        (D.conns estate).wr_buff.opcode = tcp_dev_wr_opcode.REQUEST_ATOMIC_CMP_AND_SWP ∨
        (D.conns estate).wr_buff.opcode = tcp_dev_wr_opcode.REQUEST_ATOMIC_FETCH_AND_ADD ∨
        (D.conns estate).wr_buff.opcode = tcp_dev_wr_opcode.NOTIFICATION_SEND →
      (D.conns estate).wr_buff.source ≠ D.rank)
    (h : _tcp_dev_process_recv_data E D estate = some (r, D1)) : OwnSends D1 := by
  obtain ⟨q1, q2⟩ := recv_data_queue h
  intro e he ht
  rw [q1] at ht
  rcases q2 with q2 | ⟨wr, q2, q3⟩
  · rw [q2] at he
    exact hinv e he ht
  · rw [q2] at he
    rcases List.mem_append.mp he with he | he
    · exact hinv e he ht
    · rw [List.mem_singleton] at he
      rw [he] at ht ⊢
      rcases q3 with q3 | q3 | ⟨q3, q4⟩
      · exact q3
      · exact absurd ht q3
      · exact absurd (q3.symm.trans ht) (hsrc q4)

theorem boot_own_sends (tnc rank : Nat) : OwnSends (dev_boot tnc rank) :=
  fun _ he => absurd he (List.not_mem_nil _)

theorem delayed_loop_rank (E : DevEnv) (tbl : Nat → Option Nat) :
    ∀ (pend : List tcp_dev_wr_t) (k : Nat) (D : Dev) (out : Int × Dev),
      delayed_loop E tbl pend k D = some out → out.2.rank = D.rank := by
  intro pend
  induction pend with
  | nil =>
    intro k D out h
    simp only [delayed_loop, Option.some.injEq] at h
    rw [← h]
  | cons wr rest ih =>
    intro k D out h
    rcases delayed_loop_cons h with ⟨code, D1, he, ho⟩ | ⟨D1, he, hl⟩ | ⟨D1, he, hl⟩
    · rw [ho]
      exact (delayed_entry_spec he).1.1
    · exact (ih _ _ _ hl).trans (delayed_entry_spec he).1.1
    · exact (ih _ _ _ hl).trans (delayed_entry_spec he).1.1

/-- C17. For every state of the transport and every scan of the delayed queue that
returns, with any return value: the queue after the scan is a sublist of the queue
before it, so the requests that remain keep their order; and for every target `T` the
requests for `T` that remain are the last ones of the requests for `T`, so that the
scan removes, and passes on, a request for `T` only when every request queued before
it for `T` is removed as well. For the own rank as `T` the queue is one that the
transport builds, in which the requests for the own rank are `NOTIFICATION_SEND`
requests: the queue is empty at the start, the handler of a header queues a request for
the own rank only for a send of the own process to itself (`recv_data_own_sends`), and
the scan leaves the own rank and keeps this property of the queue, which is the last
part of the statement. -/
theorem delayed_scan_order (E : DevEnv) (D D1 : Dev) (r : Int) (T : Nat)
    (hscan : _tcp_dev_process_delayed E D = some (r, D1))
    (hT : T = D.rank → ∀ e ∈ D.delayedList, e.target = T →
      e.opcode = tcp_dev_wr_opcode.NOTIFICATION_SEND) :
    D1.delayedList.Sublist D.delayedList ∧
      (∃ n, for_target T D1.delayedList = (for_target T D.delayedList).drop n) ∧
      D1.rank = D.rank ∧
      (T = D1.rank → ∀ e ∈ D1.delayedList, e.target = T →
        e.opcode = tcp_dev_wr_opcode.NOTIFICATION_SEND) := by
  have hmain : D1.delayedList.Sublist D.delayedList ∧
      (∃ n, for_target T D1.delayedList = (for_target T D.delayedList).drop n) ∧
      D1.rank = D.rank := by
    unfold _tcp_dev_process_delayed at hscan
    by_cases hlen : D.delayedList.length = 0
    · rw [if_pos hlen] at hscan
      simp only [Option.some.injEq, Prod.mk.injEq] at hscan
      rw [← hscan.2]
      exact ⟨List.Sublist.refl _, ⟨0, rfl⟩, rfl⟩
    rw [if_neg hlen] at hscan
    cases hrs : D.rank_state with
    | none =>
      rw [hrs] at hscan
      simp only [Option.some.injEq, Prod.mk.injEq] at hscan
      rw [← hscan.2]
      exact ⟨List.Sublist.refl _, ⟨0, rfl⟩, rfl⟩
    | some tbl =>
      rw [hrs] at hscan
      obtain ⟨left, h1, h2, h3, _⟩ :=
        delayed_loop_order E tbl T D.delayedList [] D (r, D1) rfl hT hscan
      have h1 : D1.delayedList = left := h1
      rw [h1]
      exact ⟨h2, h3, delayed_loop_rank E tbl _ _ _ _ hscan⟩
  refine ⟨hmain.1, hmain.2.1, hmain.2.2, fun ht e he => ?_⟩
  exact hT (ht.trans hmain.2.2) e (hmain.1.subset he)

/-- C17 on rank 0 of two with two writes to rank 1 in the queue: the scan passes on the
first, which makes the write half of the connection busy, and leaves the second. And
with a send of 4 bytes to the own rank queued behind a posted receive of 2 bytes and
before a write to rank 1, which has lost its connection: the scan returns 1 and leaves
both requests, in their order. -/
theorem delayed_scan_order_witness :
    kinds dev_two_writes.delayedList = [(tcp_dev_wr_opcode.NOTIFICATION_RDMA_WRITE, 1),
        (tcp_dev_wr_opcode.NOTIFICATION_RDMA_WRITE, 1)] ∧
      (after_scan dev_two_writes).delayedList = dev_two_writes.delayedList.drop 1 ∧
      ((after_scan dev_two_writes).delayedList.Sublist dev_two_writes.delayedList ∧
        ∃ n, for_target 1 (after_scan dev_two_writes).delayedList
          = (for_target 1 dev_two_writes.delayedList).drop n) ∧
      kinds dev_short_recv.delayedList = [(tcp_dev_wr_opcode.NOTIFICATION_SEND, 0),
        (tcp_dev_wr_opcode.NOTIFICATION_RDMA_WRITE, 1)] ∧
      OwnSends dev_short_recv ∧
      ((after_scan dev_short_recv).delayedList.Sublist dev_short_recv.delayedList ∧
        ∃ n, for_target 0 (after_scan dev_short_recv).delayedList
          = (for_target 0 dev_short_recv.delayedList).drop n) :=
  have h1 := delayed_scan_order dev_env_ok dev_two_writes (after_scan dev_two_writes) 0 1 (by rfl)
    (fun h => absurd h (by decide))
  have hown : OwnSends dev_short_recv := by
    intro e he ht
    have hl : dev_short_recv.delayedList
        = [{ wr_zero tcp_dev_wr_opcode.NOTIFICATION_SEND with wr_id := 7, length := 4 },
           { wr_zero tcp_dev_wr_opcode.NOTIFICATION_RDMA_WRITE with
             wr_id := 1, target := 1, remote_addr := 16, length := 4 }] := by rfl
    rw [hl] at he
    rcases List.mem_cons.mp he with he | he
    · rw [he]
      rfl
    · rw [List.mem_singleton] at he
      rw [he] at ht
      exact absurd ht (by decide)
  have h2 := delayed_scan_order dev_env_ok dev_short_recv (after_scan dev_short_recv) 1 0 (by rfl)
    (fun _ e he ht => hown e he ht)
  ⟨by rfl, by rfl, ⟨h1.1, h1.2.1⟩, by rfl, hown, ⟨h2.1, h2.2.1⟩⟩

theorem post_step_ret {r : Option (Nat × Dev)} {k : Dev → Option DevStep} {code : Int} {D1 : Dev}
    (h : post_step r k = some (DevStep.ret code D1))
    (hk : ∀ D0, k D0 = some (DevStep.ret code D1) → code = 1) : code = 1 := by
  obtain ⟨rc, D0, _, hc⟩ := post_step_cases h
  rcases hc with ⟨_, hst⟩ | ⟨_, hst⟩
  · injection hst with h1 _
  · exact hk D0 hst

theorem delayed_send_ret {E : DevEnv} {D D1 : Dev} {state : Nat} {wr : tcp_dev_wr_t} {code : Int}
    (h : delayed_send E D state wr = some (DevStep.ret code D1)) : code = 1 := by
  unfold delayed_send at h
  simp only at h
  cases hs : E.sock_write D.tick with
  | none =>
    rw [hs] at h
    exact absurd h (by simp)
  | some b =>
    rw [hs] at h
    cases b with
    | false =>
      simp only [Option.some.injEq] at h
      injection h with h1 _
      exact h1.symm
    | true =>
      simp only at h
      split at h
      · split at h
        · exact absurd h (by simp)
        · simp only [Option.some.injEq] at h
          injection h with h1 _
          exact h1.symm
        · exact post_step_ret h (fun _ hh => by simp at hh)
      · split at h
        · generalize (if wr.opcode = tcp_dev_wr_opcode.NOTIFICATION_RDMA_WRITE
              then tcp_dev_state_opcode.SEND_RDMA_WRITE
              else if wr.opcode = tcp_dev_wr_opcode.RESPONSE_RDMA_READ then tcp_dev_state_opcode.SEND_RDMA_READ
              else tcp_dev_state_opcode.SEND_SEND) = op at h
          split at h
          · exact absurd h (by simp)
          · exact absurd h (by simp)
        · exact absurd h (by simp)

/-- A return from inside the loop of the scan is a return of 1. -/
theorem delayed_entry_ret {E : DevEnv} {D D1 : Dev} {tbl : Nat → Option Nat} {wr : tcp_dev_wr_t}
    {code : Int} (h : delayed_entry E D tbl wr = some (DevStep.ret code D1)) : code = 1 := by
  unfold delayed_entry at h
  split at h
  · exact post_step_ret h (fun _ hh => by simp at hh)
  split at h
  · split at h
    · exact absurd h (by simp)
    · split at h
      · simp only [Option.some.injEq] at h
        injection h with h1 _
        exact h1.symm
      · split at h
        · exact absurd h (by simp)
        · exact post_step_ret h (fun _ hh => post_step_ret hh (fun _ h3 => by simp at h3))
  · split at h
    · exact absurd h (by simp)
    · split at h
      · exact delayed_send_ret h
      · exact absurd h (by simp)

theorem filterMap_none {α β : Type} (f : α → Option β) :
    ∀ l : List α, (∀ e ∈ l, f e = none) → l.filterMap f = [] := by
  intro l
  induction l with
  | nil => intro _; rfl
  | cons a l ih =>
    intro h
    rw [List.filterMap_cons, h a (List.mem_cons_self _ _)]
    exact ih (fun e he => h e (List.mem_cons_of_mem _ he))

/-- The completions with status `TCP_WC_REM_OP_ERROR` of a loop of the scan that
returns: the nodes still to visit split into the ones the loop went through and the
rest, which begins with the node at which the loop returned 1 and is empty when it
returned 0. There is one completion for each request without connection state among
the nodes gone through, in their order; these requests are removed, and no header is
written for them; the rest stays in the queue. -/
theorem delayed_loop_errors (E : DevEnv) (tbl : Nat → Option Nat) :
    ∀ (pend kept : List tcp_dev_wr_t) (D D2 : Dev) (r : Int),
      D.delayedList = kept ++ pend →
      delayed_loop E tbl pend kept.length D = some (r, D2) →
      ∃ new visited rest left, pend = visited ++ rest ∧ (r = 0 → rest = []) ∧
        (r ≠ 0 → r = 1 ∧ rest ≠ []) ∧ D2.log = D.log ++ new ∧
        new.filterMap rem_op_error
          = ((visited.filter (no_state D.rank tbl)).map (fun e => (e.cq_handle, e.wr_id))) ∧
        (∀ fd w, DevEvent.header fd w ∈ new → w ∈ pend ∧ no_state D.rank tbl w = false) ∧
        D2.delayedList = kept ++ left ++ rest ∧ left.Sublist visited ∧
        (∀ e ∈ left, no_state D.rank tbl e = false) := by
  intro pend
  induction pend with
  | nil =>
    intro kept D D2 r hq h
    simp only [delayed_loop, Option.some.injEq, Prod.mk.injEq] at h
    rw [← h.2]
    refine ⟨[], [], [], [], rfl, fun _ => rfl, fun hr => absurd h.1.symm hr,
      (List.append_nil _).symm, rfl, fun _ _ hh => absurd hh (List.not_mem_nil _), ?_,
      List.Sublist.refl _, fun _ hh => absurd hh (List.not_mem_nil _)⟩
    rw [hq, List.append_nil, List.append_nil]
  | cons wr rest ih =>
    intro kept D D2 r hq h
    rcases delayed_loop_cons h with ⟨code, D1, he, ho⟩ | ⟨D1, he, hl⟩ | ⟨D1, he, hl⟩
    · -- the function returns at the node
      have h1 := delayed_entry_ret he
      injection ho with h2 h3
      subst h3
      obtain ⟨hk, herr, hreg, _, _⟩ := delayed_entry_spec he
      have hk : DevKeeps D D2 := hk
      have hstep : ∃ new1, D2.log = D.log ++ new1 ∧ new1.filterMap rem_op_error = [] ∧
          (∀ fd w, DevEvent.header fd w ∈ new1 → w = wr ∧ no_state D.rank tbl wr = false) := by
        cases hns : no_state D.rank tbl wr with
        | true =>
          rcases herr hns with ⟨D0, h0, hlog⟩ | ⟨D0, g, h0, _⟩
          · injection h0 with _ h0
            rw [← h0] at hlog
            exact ⟨[], by rw [hlog, List.append_nil], rfl,
              fun _ _ hh => absurd hh (List.not_mem_nil _)⟩
          · cases h0
        | false =>
          obtain ⟨new1, l1, l2⟩ := hreg hns
          refine ⟨new1, l1, ?_, ?_⟩
          · exact filterMap_none _ _ (fun e he => (l2 e he).1)
          · intro fd w hw
            exact ⟨(l2 _ hw).2 fd w rfl, rfl⟩
      obtain ⟨new1, s1, s2, s3⟩ := hstep
      refine ⟨new1, [], wr :: rest, [], rfl, ?_, ?_, s1, s2, ?_, ?_, List.Sublist.refl _,
        fun _ hh => absurd hh (List.not_mem_nil _)⟩
      · intro hr
        rw [h2, h1] at hr
        exact absurd hr (by decide)
      · intro _
        exact ⟨h2.trans h1, fun hh => by cases hh⟩
      · intro fd w hw
        obtain ⟨a1, a2⟩ := s3 fd w hw
        rw [a1]
        exact ⟨List.mem_cons_self _ _, a2⟩
      · rw [hk.2.2.1, hq, List.append_nil]
    · -- the node is removed
      obtain ⟨hk, herr, hreg, _, _⟩ := delayed_entry_spec he
      have hk : DevKeeps D D1 := hk
      have hq2 : ({ D1 with delayedList := D1.delayedList.eraseIdx kept.length } : Dev).delayedList
          = kept ++ rest := by
        show D1.delayedList.eraseIdx kept.length = kept ++ rest
        rw [hk.2.2.1, hq, eraseIdx_middle]
      obtain ⟨new, visited, rest2, left, i0, ia, ib, i1, i2, i3, i4, i5, i6⟩ := ih kept _ D2 r hq2 hl
      have i1 : D2.log = D1.log ++ new := i1
      have hrk : ({ D1 with delayedList := D1.delayedList.eraseIdx kept.length } : Dev).rank = D.rank :=
        hk.1
      rw [hrk] at i2 i3 i6
      have hstep : ∃ new1, D1.log = D.log ++ new1 ∧
          new1.filterMap rem_op_error
            = (if no_state D.rank tbl wr = true then [(wr.cq_handle, wr.wr_id)] else []) ∧
          (∀ fd w, DevEvent.header fd w ∈ new1 → w = wr ∧ no_state D.rank tbl wr = false) := by
        cases hns : no_state D.rank tbl wr with
        | true =>
          rcases herr hns with ⟨D0, h0, _⟩ | ⟨D0, g, h0, hlog⟩
          · cases h0
          · injection h0 with _ h0
            rw [← h0] at hlog
            refine ⟨_, hlog, rfl, ?_⟩
            intro fd w hw
            rw [List.mem_singleton] at hw
            cases hw
        | false =>
          obtain ⟨new1, l1, l2⟩ := hreg hns
          refine ⟨new1, l1, ?_, ?_⟩
          · exact filterMap_none _ _ (fun e he => (l2 e he).1)
          · intro fd w hw
            exact ⟨(l2 _ hw).2 fd w rfl, rfl⟩
      obtain ⟨new1, s1, s2, s3⟩ := hstep
      refine ⟨new1 ++ new, wr :: visited, rest2, left, ?_, ia, ib, ?_, ?_, ?_, i4,
        List.Sublist.cons _ i5, i6⟩
      · rw [i0]
        rfl
      · rw [i1, s1, List.append_assoc]
      · rw [List.filterMap_append, s2, i2, List.filter_cons]
        by_cases hns : no_state D.rank tbl wr = true
        · rw [if_pos hns, if_pos hns]
          rfl
        · rw [if_neg hns, if_neg hns]
          rfl
      · intro fd w hw
        rcases List.mem_append.mp hw with hw | hw
        · obtain ⟨a1, a2⟩ := s3 fd w hw
          rw [a1]
          exact ⟨List.mem_cons_self _ _, a2⟩
        · obtain ⟨a1, a2⟩ := i3 fd w hw
          exact ⟨List.mem_cons_of_mem _ a1, a2⟩
    · -- the node stays
      obtain ⟨_, _, _, _, hstay⟩ := delayed_entry_spec he
      obtain ⟨hD1, hns, _⟩ := hstay D1 rfl
      rw [hD1] at hl
      have hq2 : D.delayedList = (kept ++ [wr]) ++ rest := by
        rw [hq, List.append_assoc]
        rfl
      have hlen : (kept ++ [wr]).length = kept.length + 1 := by
        rw [List.length_append]
        rfl
      rw [← hlen] at hl
      obtain ⟨new, visited, rest2, left, i0, ia, ib, i1, i2, i3, i4, i5, i6⟩ :=
        ih (kept ++ [wr]) D D2 r hq2 hl
      refine ⟨new, wr :: visited, rest2, wr :: left, ?_, ia, ib, i1, ?_, ?_, ?_,
        List.Sublist.cons₂ _ i5, ?_⟩
      · rw [i0]
        rfl
      · rw [i2, List.filter_cons, hns]
        rfl
      · intro fd w hw
        obtain ⟨a1, a2⟩ := i3 fd w hw
        exact ⟨List.mem_cons_of_mem _ a1, a2⟩
      · rw [i4, List.append_assoc, List.append_assoc, List.append_assoc]
        rfl
      · intro e hh
        rcases List.mem_cons.mp hh with hh | hh
        · rw [hh]
          exact hns
        · exact i6 e hh

/-- The step of the scan at a request without connection state, with a completion record
from `malloc` and room in the queue of the request. -/
theorem delayed_entry_no_state {E : DevEnv} {D : Dev} {tbl : Nat → Option Nat} {wr : tcp_dev_wr_t}
    {g : Nat} {cq : tcp_cq} {rb : ringbuffer}
    (hns : no_state D.rank tbl wr = true) (hm : E.malloc_wc D.tick = some g)
    (hcq : D.cqs_map wr.cq_handle = some cq) (hrb : cq.rbuf = some rb)
    (hroom : rb.ipos - rb.rpos < rb.mask) :
    delayed_entry E D tbl wr
      = some (DevStep.next true (completed D wr.cq_handle cq rb (rem_error_wc wr g))) := by
  unfold delayed_entry
  rw [if_pos ((no_state_iff _ _ _).mp hns),
    post_wc_ok (E := E) (D := D) _ _ _ hm hcq hrb hroom (by decide)]
  rfl

theorem delayed_loop_removed {E : DevEnv} {D D1 : Dev} {tbl : Nat → Option Nat} {wr : tcp_dev_wr_t}
    (rest : List tcp_dev_wr_t) (k : Nat) (he : delayed_entry E D tbl wr = some (DevStep.next true D1)) :
    delayed_loop E tbl (wr :: rest) k D
      = delayed_loop E tbl rest k { D1 with delayedList := D1.delayedList.eraseIdx k } := by
  show (match delayed_entry E D tbl wr with
    | none => none
    | some (DevStep.ret code D1) => some (code, D1)
    | some (DevStep.next true D1) =>
      delayed_loop E tbl rest k { D1 with delayedList := D1.delayedList.eraseIdx k }
    | some (DevStep.next false D1) => delayed_loop E tbl rest (k + 1) D1) = _
  rw [he]
/-- C18, as the code has it. A scan that returns 1 before it has handled a request
without connection state leaves that request in the queue and posts no completion for
it. Rank 0 of two posted a receive of 2 bytes and a send of 4 bytes to itself, rank 1
closed its connection, and rank 0 posted a write to rank 1: the scan returns 1 at the
`NOTIFICATION_SEND`, which is longer than the receive, and leaves the state as it was,
with the write to rank 1 still queued. And when `malloc` gives no completion record,
the scan returns 1 at the request without connection state itself: it stays in the
queue and nothing is recorded. -/
theorem delayed_scan_stops_early :
    kinds dev_short_recv.delayedList = [(tcp_dev_wr_opcode.NOTIFICATION_SEND, 0),
        (tcp_dev_wr_opcode.NOTIFICATION_RDMA_WRITE, 1)] ∧
      dev_short_recv.rank = 0 ∧ table_of dev_short_recv 1 = none ∧
      dev_short_recv.recvList.map (fun e => e.length) = [2] ∧
      dev_short_recv.delayedList.map (fun e => e.length) = [4, 4] ∧
      kinds (dev_short_recv.delayedList.filter (no_state 0 (table_of dev_short_recv)))
        = [(tcp_dev_wr_opcode.NOTIFICATION_RDMA_WRITE, 1)] ∧
      (∃ D1, _tcp_dev_process_delayed dev_env_ok dev_short_recv = some (1, D1) ∧
        D1.delayedList = dev_short_recv.delayedList ∧ D1.log = dev_short_recv.log) ∧
      kinds (after_recv dev_peer_gone 0).delayedList
        = [(tcp_dev_wr_opcode.NOTIFICATION_RDMA_WRITE, 1)] ∧
      table_of (after_recv dev_peer_gone 0) 1 = none ∧
      (∃ D1, _tcp_dev_process_delayed dev_env_no_mem (after_recv dev_peer_gone 0) = some (1, D1) ∧
        D1.delayedList = (after_recv dev_peer_gone 0).delayedList ∧
        D1.log = (after_recv dev_peer_gone 0).log) :=
  ⟨by rfl, by rfl, by rfl, by rfl, by rfl, by rfl, ⟨_, by rfl, by rfl, by rfl⟩, by rfl, by rfl,
    ⟨_, by rfl, by rfl, by rfl⟩⟩

/-- C18, amended. With the table `tbl` of connection states, for a request `wr` of the
delayed queue whose target has no connection state and which is not a
`NOTIFICATION_SEND` for the own rank: when the scan arrives at `wr`, with a completion
record from `malloc` and room in the queue of the request, it posts exactly one
completion, with status `TCP_WC_REM_OP_ERROR` and the `wr_id` of the request, on the
`cq_handle` of the request, records nothing else, so writes to no socket, removes the
node from the queue, and goes on with the next node. Over a whole scan that returns 0,
the completions with status `TCP_WC_REM_OP_ERROR` are, in the order of the queue, one
for each such request; every header written to a socket is the one of a queued request
of another kind; and no such request is left in the queue. Over a scan that returns
any value, the queue splits into the nodes the scan went through and the rest, which
is empty when it returns 0 and begins with the node at which it returns 1: the same
holds of the nodes gone through, and the rest stays in the queue, with no completion
of that status for a request in it. -/
theorem delayed_no_state_completion (E : DevEnv) (D : Dev) (tbl : Nat → Option Nat)
    (hrs : D.rank_state = some tbl) :
    (∀ (wr : tcp_dev_wr_t) (rest : List tcp_dev_wr_t) (k g : Nat) (cq : tcp_cq) (rb : ringbuffer),
      no_state D.rank tbl wr = true → E.malloc_wc D.tick = some g →
      D.cqs_map wr.cq_handle = some cq → cq.rbuf = some rb → rb.ipos - rb.rpos < rb.mask →
      delayed_entry E D tbl wr
        = some (DevStep.next true (completed D wr.cq_handle cq rb (rem_error_wc wr g))) ∧
      delayed_loop E tbl (wr :: rest) k D
        = delayed_loop E tbl rest k
            { completed D wr.cq_handle cq rb (rem_error_wc wr g) with
              delayedList := D.delayedList.eraseIdx k } ∧
      (completed D wr.cq_handle cq rb (rem_error_wc wr g)).log
        = D.log ++ [DevEvent.posted wr.cq_handle (rem_error_wc wr g)]) ∧
    (∀ D2, _tcp_dev_process_delayed E D = some (0, D2) →
      ∃ new, D2.log = D.log ++ new ∧
        new.filterMap rem_op_error
          = (D.delayedList.filter (no_state D.rank tbl)).map (fun e => (e.cq_handle, e.wr_id)) ∧
        (∀ fd w, DevEvent.header fd w ∈ new → w ∈ D.delayedList ∧ no_state D.rank tbl w = false) ∧
        D2.delayedList.Sublist D.delayedList ∧
        ∀ e ∈ D2.delayedList, no_state D.rank tbl e = false) ∧
    (∀ r D2, _tcp_dev_process_delayed E D = some (r, D2) →
      ∃ new visited rest left, D.delayedList = visited ++ rest ∧ (r = 0 → rest = []) ∧
        (r ≠ 0 → r = 1 ∧ rest ≠ []) ∧ D2.log = D.log ++ new ∧
        new.filterMap rem_op_error
          = (visited.filter (no_state D.rank tbl)).map (fun e => (e.cq_handle, e.wr_id)) ∧
        (∀ fd w, DevEvent.header fd w ∈ new → w ∈ D.delayedList ∧ no_state D.rank tbl w = false) ∧
        D2.delayedList = left ++ rest ∧ left.Sublist visited ∧
        ∀ e ∈ left, no_state D.rank tbl e = false) := by
  have hall : ∀ r D2, _tcp_dev_process_delayed E D = some (r, D2) →
      ∃ new visited rest left, D.delayedList = visited ++ rest ∧ (r = 0 → rest = []) ∧
        (r ≠ 0 → r = 1 ∧ rest ≠ []) ∧ D2.log = D.log ++ new ∧
        new.filterMap rem_op_error
          = (visited.filter (no_state D.rank tbl)).map (fun e => (e.cq_handle, e.wr_id)) ∧
        (∀ fd w, DevEvent.header fd w ∈ new → w ∈ D.delayedList ∧ no_state D.rank tbl w = false) ∧
        D2.delayedList = left ++ rest ∧ left.Sublist visited ∧
        ∀ e ∈ left, no_state D.rank tbl e = false := by
    intro r D2 hscan
    unfold _tcp_dev_process_delayed at hscan
    by_cases hlen : D.delayedList.length = 0
    · rw [if_pos hlen] at hscan
      simp only [Option.some.injEq, Prod.mk.injEq] at hscan
      rw [← hscan.2]
      have hnil : D.delayedList = [] := List.length_eq_zero.mp hlen
      refine ⟨[], [], [], [], hnil, fun _ => rfl, fun hr => absurd hscan.1.symm hr,
        (List.append_nil _).symm, rfl, fun _ _ hh => absurd hh (List.not_mem_nil _), hnil,
        List.Sublist.refl _, fun _ hh => absurd hh (List.not_mem_nil _)⟩
    rw [if_neg hlen, hrs] at hscan
    obtain ⟨new, visited, rest, left, i0, ia, ib, i1, i2, i3, i4, i5, i6⟩ :=
      delayed_loop_errors E tbl D.delayedList [] D D2 r rfl hscan
    have i4 : D2.delayedList = left ++ rest := i4
    exact ⟨new, visited, rest, left, i0, ia, ib, i1, i2, i3, i4, i5, i6⟩
  refine ⟨?_, ?_, hall⟩
  · intro wr rest k g cq rb hns hm hcq hrb hroom
    have he := delayed_entry_no_state hns hm hcq hrb hroom
    exact ⟨he, delayed_loop_removed rest k he, rfl⟩
  · intro D2 hscan
    obtain ⟨new, visited, rest, left, i0, ia, ib, i1, i2, i3, i4, i5, i6⟩ := hall 0 D2 hscan
    have hr := ia rfl
    subst hr
    rw [List.append_nil] at i0 i4
    rw [i0, i4]
    rw [i0] at i3
    exact ⟨new, i1, i2, i3, i5, i6⟩

/-- The amended C18 on rank 0 of two after rank 1 closed its connection and the group
write of a barrier round to rank 1 was queued: the scan returns 0, posts the one
completion with status `TCP_WC_REM_OP_ERROR` for the write, and leaves no request
without connection state. On the state in which a send to the own rank that is longer
than the posted receive is queued before a write to rank 1, the scan returns 1 with no
node gone through and the whole queue left. -/
theorem delayed_no_state_completion_witness :
    (after_recv dev_peer_gone 0).rank_state = some (table_of (after_recv dev_peer_gone 0)) ∧
      kinds ((after_recv dev_peer_gone 0).delayedList.filter
          (no_state (after_recv dev_peer_gone 0).rank (table_of (after_recv dev_peer_gone 0))))
        = [(tcp_dev_wr_opcode.NOTIFICATION_RDMA_WRITE, 1)] ∧
      _tcp_dev_process_delayed dev_env_ok (after_recv dev_peer_gone 0)
        = some (0, after_scan (after_recv dev_peer_gone 0)) ∧
      (∃ new, (after_scan (after_recv dev_peer_gone 0)).log = (after_recv dev_peer_gone 0).log ++ new ∧
        new.filterMap rem_op_error
          = ((after_recv dev_peer_gone 0).delayedList.filter
              (no_state (after_recv dev_peer_gone 0).rank
                (table_of (after_recv dev_peer_gone 0)))).map (fun e => (e.cq_handle, e.wr_id)) ∧
        ∀ e ∈ (after_scan (after_recv dev_peer_gone 0)).delayedList,
          no_state (after_recv dev_peer_gone 0).rank (table_of (after_recv dev_peer_gone 0)) e = false) ∧
      dev_short_recv.rank_state = some (table_of dev_short_recv) ∧
      _tcp_dev_process_delayed dev_env_ok dev_short_recv = some (1, after_scan dev_short_recv) ∧
      ∃ new visited rest left, dev_short_recv.delayedList = visited ++ rest ∧ rest ≠ [] ∧
        (after_scan dev_short_recv).log = dev_short_recv.log ++ new ∧
        new.filterMap rem_op_error
          = (visited.filter (no_state dev_short_recv.rank (table_of dev_short_recv))).map
              (fun e => (e.cq_handle, e.wr_id)) ∧
        (after_scan dev_short_recv).delayedList = left ++ rest ∧ left.Sublist visited := by
  obtain ⟨new, h1, h2, _, _, h5⟩ :=
    (delayed_no_state_completion dev_env_ok (after_recv dev_peer_gone 0)
      (table_of (after_recv dev_peer_gone 0)) (by rfl)).2.1
      (after_scan (after_recv dev_peer_gone 0)) (by rfl)
  obtain ⟨new2, visited, rest, left, i0, _, ib, i1, i2, _, i4, i5, _⟩ :=
    (delayed_no_state_completion dev_env_ok dev_short_recv (table_of dev_short_recv) (by rfl)).2.2
      1 (after_scan dev_short_recv) (by rfl)
  exact ⟨by rfl, by rfl, by rfl, ⟨new, h1, h2, h5⟩, by rfl, by rfl,
    ⟨new2, visited, rest, left, i0, (ib (by decide)).2, i1, i2, i4, i5⟩⟩

/-! ### A group write to a peer without connection state -/

theorem post_group_write_posted {E : Env} {p p1 : Proc} {la len dst ra : Nat}
    (h : pgaspi_dev_post_group_write E p la len dst ra = (0, p1)) :
    p1 = { p with gctx := { p.gctx with ne_count_grp := p.gctx.ne_count_grp + 1 },
                  log := p.log ++ [Event.write
                    { cq_handle := E.scq_num, source := p.gctx.rank, local_addr := la, length := len,
                      swap := 0, compare_add := 0, opcode := tcp_dev_wr_opcode.POST_RDMA_WRITE,
                      target := dst, remote_addr := ra, wr_id := dst }] } := by
  unfold pgaspi_dev_post_group_write at h
  simp only at h
  split at h
  · injection h with h1 _
    exact absurd h1 (by decide)
  · injection h with _ h2
    exact h2.symm

/-- C19, as the code has it. Rank 0 of two posts the group write of a barrier round to
rank 1 after rank 1 closed its connection, so that `rank_state[1]` is `NULL`. The scan
of the delayed queue posts a completion with status `TCP_WC_REM_OP_ERROR` and
`wr_id = 1` to the group queue. `pgaspi_dev_poll_groups` consumes it, finds no valid
state for rank 1, and skips it: it returns 1, the number of completions, and
`qp_state_vec[GASPI_COLL_QP][1]` is not set to corrupt; the end of the barrier returns
`GASPI_SUCCESS`. -/
theorem poll_skips_cleared_peer :
    pgaspi_dev_post_group_write (env_token 1) (member 2 0) 0 1 1 2 = (0, proc_posted) ∧
      (last_write proc_posted).opcode = tcp_dev_wr_opcode.POST_RDMA_WRITE ∧
      (last_write proc_posted).target = 1 ∧ (last_write proc_posted).wr_id = 1 ∧
      tcp_dev_is_valid_state (peer_closed dev_connected 1) 1 = false ∧
      dev_cleared_peer.log = [DevEvent.header 101
          { wr_zero tcp_dev_wr_opcode.REGISTER_MASTER with wr_id := 2, cq_handle := 65, target := 1, length := 64 },
        DevEvent.posted 0
          { wr_id := 1, status := tcp_dev_wc_status.TCP_WC_REM_OP_ERROR,
            opcode := tcp_dev_wc_opcode.TCP_DEV_WC_RDMA_WRITE, sender := 0 }] ∧
      (dev_env dev_cleared_peer 0 (env_token 1)).cq proc_posted.cq_rpos
        = some { wr_id := 1, status := tcp_dev_wc_status.TCP_WC_REM_OP_ERROR,
                 opcode := tcp_dev_wc_opcode.TCP_DEV_WC_RDMA_WRITE, sender := 0 } ∧
      (∃ q, pgaspi_dev_poll_groups (dev_env dev_cleared_peer 0 (env_token 1)) proc_posted = some (1, q) ∧
        q.gctx.qp_corrupt 1 = false ∧ q.gctx.ne_count_grp = 0 ∧ q.cq_rpos = proc_posted.cq_rpos + 1) ∧
      (∃ q, barrier_finish (dev_env dev_cleared_peer 0 (env_token 1)) proc_posted
        = some (GASPI_SUCCESS, q) ∧ q.gctx.qp_corrupt 1 = false) :=
  ⟨by rfl, by rfl, by rfl, by rfl, by rfl, by rfl, by rfl, ⟨_, by rfl, by rfl, by rfl, by rfl⟩,
    ⟨_, by rfl, by rfl⟩⟩

theorem poll_one_failed {E : Env} {p : Proc} {wc : tcp_dev_wc_t}
    (hn : p.gctx.ne_count_grp = 1) (hc : E.cq p.cq_rpos = some wc)
    (hs : wc.status ≠ tcp_dev_wc_status.TCP_WC_SUCCESS) :
    pgaspi_dev_poll_groups E p =
      if E.valid_state wc.wr_id then some (-1, set_corrupt { p with cq_rpos := p.cq_rpos + 1 } wc.wr_id)
      else some (1, { p with cq_rpos := p.cq_rpos + 1,
                             gctx := { p.gctx with ne_count_grp := p.gctx.ne_count_grp - 1 } }) := by
  unfold pgaspi_dev_poll_groups
  simp only [hn]
  have hl : poll_groups_loop E 1 p.cq_rpos =
      if E.valid_state wc.wr_id then some (some wc.wr_id, p.cq_rpos + 1)
      else some (none, p.cq_rpos + 1) := by
    unfold poll_groups_loop
    rw [hc]
    simp only [if_pos hs]
    cases hv : E.valid_state wc.wr_id with
    | true => simp [poll_groups_loop]
    | false => simp [poll_groups_loop]
  rw [hl]
  cases hv : E.valid_state wc.wr_id with
  | true => simp
  | false => simp

/-- C19, amended. A group write posted with `pgaspi_dev_post_group_write` to a peer `dst`
whose connection state is cleared, read as a header by the transport with an empty
delayed queue, is queued, and the scan of the delayed queue posts for it exactly one
completion, with status `TCP_WC_REM_OP_ERROR` and `wr_id = dst`, to the group queue.
The `pgaspi_dev_poll_groups` that consumes it skips it while `rank_state[dst]` is still
`NULL`: it returns the number of completions, marks no queue corrupt, and the end of a
barrier returns `GASPI_SUCCESS`. Only when `dst` has a connection state again at that
time does it set `qp_state_vec[GASPI_COLL_QP][dst]` to corrupt and return -1, so that
the end of a barrier returns `GASPI_ERR_DEVICE`. -/
theorem cleared_peer_group_write (Eapp : Env) (p p1 : Proc) (la len dst ra : Nat) (E : DevEnv)
    (D : Dev) (estate : Nat) (tbl : Nat → Option Nat) (g : Nat) (cq : tcp_cq) (rb : ringbuffer)
    (hpost : pgaspi_dev_post_group_write Eapp p la len dst ra = (0, p1))
    (hcnt : p.gctx.ne_count_grp = 0) (hpos : p.cq_rpos = rb.ipos)
    (hdst : dst ≠ D.rank)
    (hhead : (D.conns estate).read.opcode = tcp_dev_state_opcode.RECV_HEADER)
    (hbuf : (D.conns estate).wr_buff = last_write p1)
    (hrs : D.rank_state = some tbl) (hnull : tbl dst = none) (hq : D.delayedList = [])
    (hm : E.malloc_wc D.tick = some g)
    (hcq : D.cqs_map Eapp.scq_num = some cq) (hrb : cq.rbuf = some rb)
    (hroom : rb.ipos - rb.rpos < rb.mask) :
    ∃ D1 D2, _tcp_dev_process_recv_data E D estate = some (0, D1) ∧
      kinds D1.delayedList = [(tcp_dev_wr_opcode.NOTIFICATION_RDMA_WRITE, dst)] ∧
      _tcp_dev_process_delayed E D1 = some (0, D2) ∧
      D2.log = D.log ++ [DevEvent.posted Eapp.scq_num
        { wr_id := dst, status := tcp_dev_wc_status.TCP_WC_REM_OP_ERROR,
          opcode := tcp_dev_wc_opcode.TCP_DEV_WC_RDMA_WRITE, sender := g }] ∧
      D2.delayedList = [] ∧ D2.rank_state = some tbl ∧
      (dev_env D2 Eapp.scq_num Eapp).cq p1.cq_rpos
        = some { wr_id := dst, status := tcp_dev_wc_status.TCP_WC_REM_OP_ERROR,
                 opcode := tcp_dev_wc_opcode.TCP_DEV_WC_RDMA_WRITE, sender := g } ∧
      (∃ q, pgaspi_dev_poll_groups (dev_env D2 Eapp.scq_num Eapp) p1 = some (1, q) ∧
        q.gctx.qp_corrupt = p.gctx.qp_corrupt ∧
        ∃ q2, barrier_finish (dev_env D2 Eapp.scq_num Eapp) p1 = some (GASPI_SUCCESS, q2) ∧
          q2.gctx.qp_corrupt = p.gctx.qp_corrupt) ∧
      (∀ c, ∃ q,
        pgaspi_dev_poll_groups
            (dev_env { D2 with rank_state := some (upd tbl dst (some c)) } Eapp.scq_num Eapp) p1
          = some (-1, q) ∧
        q.gctx.qp_corrupt dst = true ∧
        barrier_finish (dev_env { D2 with rank_state := some (upd tbl dst (some c)) } Eapp.scq_num Eapp) p1
          = some (GASPI_ERR_DEVICE, q)) := by
  have hp1 := post_group_write_posted hpost
  have hlw : last_write p1 =
      { cq_handle := Eapp.scq_num, source := p.gctx.rank, local_addr := la,
        length := len, swap := 0, compare_add := 0, opcode := tcp_dev_wr_opcode.POST_RDMA_WRITE,
        target := dst, remote_addr := ra, wr_id := dst } := by
    rw [hp1]
    simp [last_write]
  rw [hlw] at hbuf
  have hn1 : p1.gctx.ne_count_grp = 1 := by
    rw [hp1]
    show p.gctx.ne_count_grp + 1 = 1
    rw [hcnt]
  have hpos1 : p1.cq_rpos = rb.ipos := by
    rw [hp1]
    exact hpos
  have hcor1 : p1.gctx.qp_corrupt = p.gctx.qp_corrupt := by
    rw [hp1]
  -- the header is processed
  obtain ⟨wrN, hN⟩ : ∃ w : tcp_dev_wr_t, w =
      { wr_id := dst, cq_handle := Eapp.scq_num, source := p.gctx.rank, target := dst,
        local_addr := la, remote_addr := ra, length := len, swap := 0,
        opcode := tcp_dev_wr_opcode.NOTIFICATION_RDMA_WRITE, compare_add := 0 } := ⟨_, rfl⟩
  have hNt : wrN.target = dst := by rw [hN]
  have hNo : wrN.opcode = tcp_dev_wr_opcode.NOTIFICATION_RDMA_WRITE := by rw [hN]
  have hNc : wrN.cq_handle = Eapp.scq_num := by rw [hN]
  have hNi : wrN.wr_id = dst := by rw [hN]
  have hop2 : (D.conns estate).wr_buff.opcode = tcp_dev_wr_opcode.POST_RDMA_WRITE := by
    rw [hbuf]
  have e1 : ¬ tcp_dev_wr_opcode.POST_RDMA_WRITE = tcp_dev_wr_opcode.POST_RDMA_READ := by decide
  obtain ⟨D1, hD1⟩ : ∃ d : Dev, d = _tcp_dev_set_default_read_conn_state E (delayed_insert D wrN) estate :=
    ⟨_, rfl⟩
  have hrecv : _tcp_dev_process_recv_data E D estate = some (0, D1) := by
    rw [hD1, hN]
    unfold _tcp_dev_process_recv_data
    simp only [hhead, hop2, if_true]
    unfold recv_post_rdma
    simp only [hbuf, if_neg hdst, if_neg e1, if_true]
  have d1 : D1.rank = D.rank := by rw [hD1]; rfl
  have d2 : D1.rank_state = some tbl := by rw [hD1]; exact hrs
  have d3 : D1.delayedList = [wrN] := by
    rw [hD1]
    show D.delayedList ++ [wrN] = [wrN]
    rw [hq]
    rfl
  have d4 : D1.tick = D.tick := by rw [hD1]; rfl
  have d5 : D1.cqs_map = D.cqs_map := by rw [hD1]; rfl
  have d6 : D1.log = D.log := by rw [hD1]; rfl
  -- the queue is scanned
  have hns : no_state D1.rank tbl wrN = true := by
    rw [no_state_iff, hNt]
    refine ⟨hnull, fun hh => ?_⟩
    have h1 := hh.1
    rw [hNo] at h1
    cases h1
  have he := @delayed_entry_no_state E D1 tbl wrN g cq rb hns
    (by rw [d4]; exact hm) (by rw [d5, hNc]; exact hcq) hrb hroom
  obtain ⟨D2, hD2⟩ : ∃ d : Dev, d =
      { completed D1 wrN.cq_handle cq rb (rem_error_wc wrN g) with
        delayedList := (completed D1 wrN.cq_handle cq rb (rem_error_wc wrN g)).delayedList.eraseIdx 0 } :=
    ⟨_, rfl⟩
  have hscan : _tcp_dev_process_delayed E D1 = some (0, D2) := by
    unfold _tcp_dev_process_delayed
    rw [if_neg (by rw [d3]; exact Nat.succ_ne_zero 0), d2]
    simp only
    rw [d3, delayed_loop_removed [] 0 he, hD2]
    rfl
  have c1 : D2.log = D.log ++ [DevEvent.posted Eapp.scq_num
      { wr_id := dst, status := tcp_dev_wc_status.TCP_WC_REM_OP_ERROR,
        opcode := tcp_dev_wc_opcode.TCP_DEV_WC_RDMA_WRITE, sender := g }] := by
    rw [hD2]
    show D1.log ++ [DevEvent.posted wrN.cq_handle (rem_error_wc wrN g)] = _
    rw [d6, hNc]
    unfold rem_error_wc
    rw [hNi]
  have c2 : D2.delayedList = [] := by
    rw [hD2]
    show D1.delayedList.eraseIdx 0 = []
    rw [d3]
    rfl
  have c3 : D2.rank_state = some tbl := by
    rw [hD2]
    exact d2
  have c4 : D2.cqs_map Eapp.scq_num = some { cq with rbuf := some (ring_put rb
      { wr_id := dst, status := tcp_dev_wc_status.TCP_WC_REM_OP_ERROR,
        opcode := tcp_dev_wc_opcode.TCP_DEV_WC_RDMA_WRITE, sender := g }) } := by
    rw [hD2]
    show upd D1.cqs_map wrN.cq_handle _ Eapp.scq_num = _
    rw [hNc, upd_same]
    unfold rem_error_wc
    rw [hNi]
  have hcqv : ∀ D3 : Dev, D3.cqs_map = D2.cqs_map →
      (dev_env D3 Eapp.scq_num Eapp).cq p1.cq_rpos
        = some { wr_id := dst, status := tcp_dev_wc_status.TCP_WC_REM_OP_ERROR,
                 opcode := tcp_dev_wc_opcode.TCP_DEV_WC_RDMA_WRITE, sender := g } := by
    intro D3 h3
    show (match D3.cqs_map Eapp.scq_num with
      | none => none
      | some q => _) = _
    rw [h3, c4]
    simp only [ring_put, hpos1, Nat.lt_succ_self, if_true, upd_same]
  have hfin : ∀ (Ep : Env) (r : Int) (q : Proc), pgaspi_dev_poll_groups Ep p1 = some (r, q) →
      barrier_finish Ep p1 = if r < 0 then some (GASPI_ERR_DEVICE, q)
        else some (GASPI_SUCCESS,
          { q with grp := { q.grp with togle := q.grp.togle ^^^ 0x1, coll_op := GASPI_NONE, lastmask := 0x1 } }) := by
    intro Ep r q hpq
    unfold barrier_finish
    rw [hpq]
  refine ⟨D1, D2, hrecv, ?_, hscan, c1, c2, c3, hcqv D2 rfl, ?_, ?_⟩
  · rw [d3]
    show [(wrN.opcode, wrN.target)] = _
    rw [hNo, hNt]
  · have hv : (dev_env D2 Eapp.scq_num Eapp).valid_state dst = false := by
      show tcp_dev_is_valid_state D2 dst = false
      unfold tcp_dev_is_valid_state
      rw [c3]
      show (tbl dst).isSome = false
      rw [hnull]
      rfl
    have hpoll := poll_one_failed (E := dev_env D2 Eapp.scq_num Eapp) hn1 (hcqv D2 rfl) (fun hh => by cases hh)
    simp only [hv, Bool.false_eq_true, if_false] at hpoll
    have hfin2 := hfin _ _ _ hpoll
    rw [if_neg (by decide)] at hfin2
    exact ⟨_, hpoll, hcor1, _, hfin2, hcor1⟩
  · intro c
    have hv : (dev_env { D2 with rank_state := some (upd tbl dst (some c)) } Eapp.scq_num Eapp).valid_state dst
        = true := by
      show (upd tbl dst (some c) dst).isSome = true
      rw [upd_same]
      rfl
    have hpoll := poll_one_failed
      (E := dev_env { D2 with rank_state := some (upd tbl dst (some c)) } Eapp.scq_num Eapp) hn1
      (hcqv _ rfl) (fun hh => by cases hh)
    simp only [hv, if_true] at hpoll
    have hfin2 := hfin _ _ _ hpoll
    rw [if_pos (by decide)] at hfin2
    refine ⟨_, hpoll, ?_, hfin2⟩
    show upd _ dst true dst = true
    rw [upd_same]

theorem cleared_peer_group_write_witness :
    ∃ D1 D2, _tcp_dev_process_recv_data dev_env_ok dev_peer_gone 0 = some (0, D1) ∧
      _tcp_dev_process_delayed dev_env_ok D1 = some (0, D2) ∧
      D2.log = dev_peer_gone.log ++ [DevEvent.posted 0
        { wr_id := 1, status := tcp_dev_wc_status.TCP_WC_REM_OP_ERROR,
          opcode := tcp_dev_wc_opcode.TCP_DEV_WC_RDMA_WRITE, sender := 0 }] ∧
      (∃ q, pgaspi_dev_poll_groups (dev_env D2 0 (env_token 1)) proc_posted = some (1, q) ∧
        q.gctx.qp_corrupt = (member 2 0).gctx.qp_corrupt) ∧
      (∃ q, pgaspi_dev_poll_groups
            (dev_env { D2 with rank_state := some (upd (table_of dev_peer_gone) 1 (some 1)) } 0
              (env_token 1)) proc_posted = some (-1, q) ∧
        q.gctx.qp_corrupt 1 = true) := by
  obtain ⟨D1, D2, h1, _, h3, h4, _, _, _, ⟨q, h8, h9, _⟩, h10⟩ :=
    cleared_peer_group_write (env_token 1) (member 2 0) proc_posted 0 1 1 2 dev_env_ok dev_peer_gone 0
      (table_of dev_peer_gone) 0 cq8 ring8 (by rfl) (by rfl) (by rfl) (by decide) (by rfl) (by rfl)
      (by rfl) (by rfl) (by rfl) (by rfl) (by rfl) (by rfl) (by decide)
  obtain ⟨q3, h11, h12, _⟩ := h10 1
  exact ⟨D1, D2, h1, h3, h4, ⟨q, h8, h9⟩, ⟨q3, h11, h12⟩⟩

/-! ### Matching of a send with the posted receives -/

theorem first_fit_none (n : Nat) : ∀ (l : List tcp_dev_wr_t),
    first_fit n l = none ↔ ∀ x ∈ l, x.length < n := by
  intro l
  induction l with
  | nil => simp [first_fit]
  | cons r rs ih =>
    unfold first_fit
    by_cases h : n ≤ r.length
    · rw [if_pos h]
      constructor
      · intro hh; cases hh
      · intro hh
        exact absurd (hh r (List.mem_cons_self _ _)) (by omega)
    · rw [if_neg h]
      cases hf : first_fit n rs with
      | none =>
        simp only [true_iff]
        intro x hx
        rcases List.mem_cons.mp hx with hx | hx
        · subst hx; omega
        · exact (ih.mp hf) x hx
      | some y =>
        constructor
        · intro hh; cases hh
        · intro hh
          have : first_fit n rs = none := ih.mpr (fun x hx => hh x (List.mem_cons_of_mem _ hx))
          rw [hf] at this
          cases this

theorem first_fit_some (n : Nat) : ∀ (l : List tcp_dev_wr_t) (r : tcp_dev_wr_t) (rest : List tcp_dev_wr_t),
    first_fit n l = some (r, rest) →
    ∃ pre post, l = pre ++ r :: post ∧ rest = pre ++ post ∧ (∀ x ∈ pre, x.length < n) ∧
      n ≤ r.length := by
  intro l
  induction l with
  | nil => intro r rest h; simp [first_fit] at h
  | cons a as ih =>
    intro r rest h
    unfold first_fit at h
    by_cases hn : n ≤ a.length
    · rw [if_pos hn] at h
      simp only [Option.some.injEq, Prod.mk.injEq] at h
      obtain ⟨h1, h2⟩ := h
      subst h1; subst h2
      exact ⟨[], as, rfl, rfl, (fun _ hx => by cases hx), hn⟩
    · rw [if_neg hn] at h
      cases hf : first_fit n as with
      | none => rw [hf] at h; cases h
      | some y =>
        obtain ⟨x, rest2⟩ := y
        rw [hf] at h
        simp only [Option.some.injEq, Prod.mk.injEq] at h
        obtain ⟨h1, h2⟩ := h
        subst h1; subst h2
        obtain ⟨pre, post, e1, e2, e3, e4⟩ := ih x rest2 hf
        refine ⟨a :: pre, post, by rw [e1]; rfl, by rw [e2]; rfl, ?_, e4⟩
        intro z hz
        rcases List.mem_cons.mp hz with hz | hz
        · subst hz; omega
        · exact e3 z hz

/-- C21, as stated, fails: with a receive of 10 bytes posted before one of 5 bytes, a send
of 4 bytes is matched with the receive of 10 bytes, the first one that takes it; the
receive of 5 bytes, which takes it too and is shorter, stays posted. -/
theorem notification_send_takes_first_fit :
    dev_two_recvs.recvList = [recv_wr 1 100 10, recv_wr 2 200 5] ∧
    (dev_two_recvs.conns 1).wr_buff = send_notification ∧
    _tcp_dev_process_recv_data dev_env_ok dev_two_recvs 1 = some (0, after_recv dev_two_recvs 1) ∧
    (after_recv dev_two_recvs 1).recvList = [recv_wr 2 200 5] ∧
    ((after_recv dev_two_recvs 1).conns 1).read.addr = 100 ∧
    ¬ smallest_fit 4 dev_two_recvs.recvList (recv_wr 1 100 10) := by
  refine ⟨by rfl, by rfl, by rfl, by rfl, by rfl, ?_⟩
  intro h
  have h2 := h.2.2 (recv_wr 2 200 5) (by decide) (by decide)
  revert h2
  decide

/-- C21 (amended). For every posted-receive list and every incoming `NOTIFICATION_SEND` of
length `n` for which some posted receive has length at least `n`,
`_tcp_dev_process_recv_data` returns 0 and matches the first posted receive, in the order
of posting, whose length is at least `n`: every receive posted before it is shorter
than `n`; the matched receive is removed and the others stay in their order; a
`RESPONSE_SEND` with the source and target of the send exchanged is appended to the
delayed queue; and the read half becomes `RECV_SEND` with length `n`, the buffer
address and queue of the matched receive, and nothing done. -/
theorem notification_send_match (E : DevEnv) (D : Dev) (estate : Nat) (swr : tcp_dev_wr_t)
    (hhead : (D.conns estate).read.opcode = tcp_dev_state_opcode.RECV_HEADER)
    (hbuf : (D.conns estate).wr_buff = swr)
    (hop : swr.opcode = tcp_dev_wr_opcode.NOTIFICATION_SEND)
    (hfit : ∃ r ∈ D.recvList, swr.length ≤ r.length) :
    ∃ pre rwr post D1,
      D.recvList = pre ++ rwr :: post ∧ (∀ x ∈ pre, x.length < swr.length) ∧
      swr.length ≤ rwr.length ∧
      _tcp_dev_process_recv_data E D estate = some (0, D1) ∧
      D1.recvList = pre ++ post ∧
      D1.delayedList = D.delayedList ++ [response_send swr] ∧
      (D1.conns estate).read.opcode = tcp_dev_state_opcode.RECV_SEND ∧
      (D1.conns estate).read.length = swr.length ∧
      (D1.conns estate).read.addr = rwr.local_addr ∧
      (D1.conns estate).read.cq_handle = rwr.cq_handle ∧
      (D1.conns estate).read.done = 0 ∧
      D1.mem = D.mem ∧ D1.log = D.log := by
  have h1 : _tcp_dev_process_recv_data E D estate = recv_notification_send D estate := by
    unfold _tcp_dev_process_recv_data
    rw [if_pos hhead]
    simp only [hbuf, hop]
  obtain ⟨r0, hr0, hr0n⟩ := hfit
  have hne : D.recvList.length ≠ 0 := by
    intro h0
    rw [List.length_eq_zero] at h0
    rw [h0] at hr0
    cases hr0
  cases hf : first_fit swr.length D.recvList with
  | none =>
    have := (first_fit_none swr.length D.recvList).mp hf r0 hr0
    omega
  | some y =>
    obtain ⟨rwr, rest⟩ := y
    obtain ⟨pre, post, e1, e2, e3, e4⟩ := first_fit_some swr.length D.recvList rwr rest hf
    have h2 : recv_notification_send D estate = some (0, set_conn
        (delayed_insert { D with recvList := rest } (response_send swr)) estate
        { D.conns estate with
          read := { wr_id := ((D.conns estate).rank % 2 ^ 64).toNat, cq_handle := rwr.cq_handle,
                    opcode := tcp_dev_state_opcode.RECV_SEND, addr := rwr.local_addr,
                    length := swr.length, done := 0 } }) := by
      unfold recv_notification_send
      rw [if_pos hne]
      simp only [hbuf, hf]
      rfl
    refine ⟨pre, rwr, post, _, e1, e3, e4, h1.trans h2, ?_, ?_, ?_, ?_, ?_, ?_, ?_, ?_, ?_⟩
    · exact e2
    · rfl
    all_goals simp only [set_conn, delayed_insert, upd_same]

/-- The amended C21 applies to the example of two posted receives: the send of 4 bytes is
matched with the receive of 10 bytes that was posted first. -/
theorem notification_send_match_witness :
    ∃ pre rwr post D1,
      dev_two_recvs.recvList = pre ++ rwr :: post ∧ (∀ x ∈ pre, x.length < send_notification.length) ∧
      send_notification.length ≤ rwr.length ∧
      _tcp_dev_process_recv_data dev_env_ok dev_two_recvs 1 = some (0, D1) ∧
      D1.recvList = pre ++ post ∧
      D1.delayedList = dev_two_recvs.delayedList ++ [response_send send_notification] ∧
      (D1.conns 1).read.opcode = tcp_dev_state_opcode.RECV_SEND ∧
      (D1.conns 1).read.length = send_notification.length ∧
      (D1.conns 1).read.addr = rwr.local_addr ∧
      (D1.conns 1).read.cq_handle = rwr.cq_handle ∧
      (D1.conns 1).read.done = 0 ∧
      D1.mem = dev_two_recvs.mem ∧ D1.log = dev_two_recvs.log :=
  notification_send_match dev_env_ok dev_two_recvs 1 send_notification (by rfl) (by rfl) (by rfl)
    ⟨recv_wr 1 100 10, by decide, by decide⟩

/-! ### The ring buffer of a completion queue -/

theorem ring_slot_in_cells (elems pos : Nat) (h : 1 ≤ elems) :
    pos &&& (elems + 1) < elems * 2 + 1 := by
  have := @Nat.and_le_right pos (elems + 1)
  omega

theorem insert_ringbuffer_count {rb rb1 : ringbuffer} {wc : tcp_dev_wc_t}
    (h : insert_ringbuffer rb wc = some rb1) :
    rb1.ipos - rb1.rpos ≤ rb.mask ∧ rb1.mask = rb.mask ∧ rb1.ncells = rb.ncells := by
  unfold insert_ringbuffer at h
  by_cases hf : rb.ipos - rb.rpos ≥ rb.mask
  · rw [if_pos hf] at h; cases h
  · rw [if_neg hf] at h
    simp only [Option.some.injEq] at h
    subst h
    refine ⟨?_, rfl, rfl⟩
    show rb.ipos + 1 - rb.rpos ≤ rb.mask
    omega

/-- C22 fails on the queue that `tcp_dev_create_cq` builds for 4 elements (mask 5 over 9
cells): three completions with `wr_id` 1, 2 and 3 are posted, none is refused, and the
third is stored in the slot `2 & 5 = 0` of the first, which was not removed; the three
removals that follow give the `wr_id` 3, 2 and 3. -/
theorem ring_of_four_overwrites :
    (ring_of dev_cq4 0).map (fun rb => (rb.mask, rb.ncells, rb.ipos, rb.rpos)) = some (5, 9, 0, 0) ∧
    _tcp_dev_post_wc dev_env_ok dev_cq4 1 tcp_dev_wc_status.TCP_WC_SUCCESS
      tcp_dev_wc_opcode.TCP_DEV_WC_RDMA_WRITE 0 = some (0, after_post dev_cq4 1 0) ∧
    _tcp_dev_post_wc dev_env_ok (after_post dev_cq4 1 0) 2 tcp_dev_wc_status.TCP_WC_SUCCESS
      tcp_dev_wc_opcode.TCP_DEV_WC_RDMA_WRITE 0 = some (0, after_post (after_post dev_cq4 1 0) 2 0) ∧
    _tcp_dev_post_wc dev_env_ok (after_post (after_post dev_cq4 1 0) 2 0) 3
      tcp_dev_wc_status.TCP_WC_SUCCESS tcp_dev_wc_opcode.TCP_DEV_WC_RDMA_WRITE 0 =
      some (0, after_post (after_post (after_post dev_cq4 1 0) 2 0) 3 0) ∧
    (ring_of (after_post (after_post (after_post dev_cq4 1 0) 2 0) 3 0) 0).map
      (fun rb => (rb.ipos, rb.rpos, 0 &&& rb.mask, 1 &&& rb.mask, 2 &&& rb.mask)) =
      some (3, 0, 0, 1, 0) ∧
    drained 0 3 (after_post (after_post (after_post dev_cq4 1 0) 2 0) 3 0) = [3, 2, 3] := by
  refine ⟨by rfl, by rfl, by rfl, by rfl, by rfl, by rfl⟩

/-! ### The remote atomic chain -/

theorem set_default_fields (E : DevEnv) (D : Dev) (estate : Nat) :
    (_tcp_dev_set_default_read_conn_state E D estate).mem = D.mem ∧
    (_tcp_dev_set_default_read_conn_state E D estate).log = D.log ∧
    (_tcp_dev_set_default_read_conn_state E D estate).delayedList = D.delayedList :=
  ⟨rfl, rfl, rfl⟩

theorem recv_post_atomic_remote (E : DevEnv) (D : Dev) (estate : Nat) (wr : tcp_dev_wr_t)
    (hhead : (D.conns estate).read.opcode = tcp_dev_state_opcode.RECV_HEADER)
    (hbuf : (D.conns estate).wr_buff = wr)
    (hop : wr.opcode = tcp_dev_wr_opcode.POST_ATOMIC_FETCH_AND_ADD ∨
      wr.opcode = tcp_dev_wr_opcode.POST_ATOMIC_CMP_AND_SWP)
    (hremote : wr.target ≠ D.rank) :
    _tcp_dev_process_recv_data E D estate =
      some (0, _tcp_dev_set_default_read_conn_state E (delayed_insert D (atomic_request wr)) estate) := by
  have h1 : _tcp_dev_process_recv_data E D estate = recv_post_atomic E D estate := by
    unfold _tcp_dev_process_recv_data
    rw [if_pos hhead]
    rcases hop with hop | hop
    · have hop2 : (D.conns estate).wr_buff.opcode = tcp_dev_wr_opcode.POST_ATOMIC_FETCH_AND_ADD := by
        rw [hbuf]
        exact hop
      simp only [hop2]
    · have hop2 : (D.conns estate).wr_buff.opcode = tcp_dev_wr_opcode.POST_ATOMIC_CMP_AND_SWP := by
        rw [hbuf]
        exact hop
      simp only [hop2]
  rw [h1]
  unfold recv_post_atomic
  simp only [hbuf, if_neg hremote]
  obtain ⟨a1, a2, a3, a4, a5, a6, a7, a8, a9, a10⟩ := wr
  rcases hop with hop | hop
  · simp only at hop
    subst hop
    rfl
  · simp only at hop
    subst hop
    rfl

theorem recv_request_atomic_effect (E : DevEnv) (D : Dev) (estate : Nat) (wr : tcp_dev_wr_t) (x : Nat)
    (hhead : (D.conns estate).read.opcode = tcp_dev_state_opcode.RECV_HEADER)
    (hbuf : (D.conns estate).wr_buff = atomic_request wr)
    (hop : wr.opcode = tcp_dev_wr_opcode.POST_ATOMIC_FETCH_AND_ADD ∨
      wr.opcode = tcp_dev_wr_opcode.POST_ATOMIC_CMP_AND_SWP)
    (hx : load64 D.mem wr.remote_addr = x) :
    ∃ m, _tcp_dev_process_recv_data E D estate =
        some (0, _tcp_dev_set_default_read_conn_state E
          (delayed_insert { D with mem := m } (atomic_response wr x)) estate) ∧
      load64 m wr.remote_addr = atomic_value wr x ∧
      ∀ a, ¬ (wr.remote_addr ≤ a ∧ a < wr.remote_addr + 8) → m a = D.mem a := by
  have hreq : (atomic_request wr).opcode = tcp_dev_wr_opcode.REQUEST_ATOMIC_FETCH_AND_ADD ∨
      (atomic_request wr).opcode = tcp_dev_wr_opcode.REQUEST_ATOMIC_CMP_AND_SWP := by
    rcases hop with hop | hop
    · left; simp only [atomic_request, hop, if_true]
    · right
      simp only [atomic_request, hop]
      rfl
  have h1 : _tcp_dev_process_recv_data E D estate = recv_request_atomic E D estate := by
    unfold _tcp_dev_process_recv_data
    rw [if_pos hhead]
    rcases hreq with h | h
    · have hop2 : (D.conns estate).wr_buff.opcode = tcp_dev_wr_opcode.REQUEST_ATOMIC_FETCH_AND_ADD := by
        rw [hbuf]
        exact h
      simp only [hop2]
    · have hop2 : (D.conns estate).wr_buff.opcode = tcp_dev_wr_opcode.REQUEST_ATOMIC_CMP_AND_SWP := by
        rw [hbuf]
        exact h
      simp only [hop2]
  rw [h1]
  unfold recv_request_atomic
  simp only [hbuf]
  have hra : (atomic_request wr).remote_addr = wr.remote_addr := rfl
  obtain ⟨a1, a2, a3, a4, a5, a6, a7, a8, a9, a10⟩ := wr
  simp only at hx hop
  rcases hop with hop | hop
  · subst hop
    refine ⟨store64 D.mem a7 ((x + a9) % 2 ^ 64), ?_, ?_, ?_⟩
    · subst hx
      rfl
    · show load64 (store64 D.mem a7 _) a7 = (x + a9) % 2 ^ 64
      rw [load64_store64, Nat.mod_mod]
    · intro a ha
      exact store64_outside _ _ _ _ ha
  · subst hop
    by_cases hc : x = a9
    · refine ⟨store64 D.mem a7 a10, ?_, ?_, ?_⟩
      · subst hx
        simp only [atomic_request, atomic_response]
        have e1 : ¬ tcp_dev_wr_opcode.POST_ATOMIC_CMP_AND_SWP = tcp_dev_wr_opcode.POST_ATOMIC_FETCH_AND_ADD := by
          decide
        simp only [if_neg e1, if_true, if_pos hc]
      · show load64 (store64 D.mem a7 a10) a7 = atomic_value _ x
        rw [load64_store64]
        simp only [atomic_value]
        rw [if_neg (by decide), if_pos hc]
      · intro a ha
        exact store64_outside _ _ _ _ ha
    · refine ⟨D.mem, ?_, ?_, ?_⟩
      · subst hx
        simp only [atomic_request, atomic_response]
        have e1 : ¬ tcp_dev_wr_opcode.POST_ATOMIC_CMP_AND_SWP = tcp_dev_wr_opcode.POST_ATOMIC_FETCH_AND_ADD := by
          decide
        simp only [if_neg e1, if_true, if_neg hc]
      · show load64 D.mem a7 = atomic_value _ x
        simp only [atomic_value]
        rw [if_neg (by decide), if_neg hc]
        exact hx
      · intro a _
        rfl

theorem recv_response_atomic_effect (E : DevEnv) (D : Dev) (estate : Nat) (wr : tcp_dev_wr_t) (x g : Nat)
    (cq : tcp_cq) (rb : ringbuffer)
    (hhead : (D.conns estate).read.opcode = tcp_dev_state_opcode.RECV_HEADER)
    (hbuf : (D.conns estate).wr_buff = atomic_response wr x)
    (hop : wr.opcode = tcp_dev_wr_opcode.POST_ATOMIC_FETCH_AND_ADD ∨
      wr.opcode = tcp_dev_wr_opcode.POST_ATOMIC_CMP_AND_SWP)
    (hm : E.malloc_wc D.tick = some g)
    (hcq : D.cqs_map wr.cq_handle = some cq) (hrb : cq.rbuf = some rb)
    (hroom : rb.ipos - rb.rpos < rb.mask) :
    _tcp_dev_process_recv_data E D estate =
      some (0, _tcp_dev_set_default_read_conn_state E
        (completed { D with mem := store64 D.mem wr.local_addr x } wr.cq_handle cq rb (atomic_wc wr g))
        estate) := by
  have hresp : (atomic_response wr x).opcode = tcp_dev_wr_opcode.RESPONSE_ATOMIC_FETCH_AND_ADD ∨
      (atomic_response wr x).opcode = tcp_dev_wr_opcode.RESPONSE_ATOMIC_CMP_AND_SWP := by
    rcases hop with hop | hop
    · left; simp only [atomic_response, hop, if_true]
    · right
      simp only [atomic_response, hop]
      rfl
  have h1 : _tcp_dev_process_recv_data E D estate = recv_response_atomic E D estate := by
    unfold _tcp_dev_process_recv_data
    rw [if_pos hhead]
    rcases hresp with h | h
    · have hop2 : (D.conns estate).wr_buff.opcode = tcp_dev_wr_opcode.RESPONSE_ATOMIC_FETCH_AND_ADD := by
        rw [hbuf]
        exact h
      simp only [hop2]
    · have hop2 : (D.conns estate).wr_buff.opcode = tcp_dev_wr_opcode.RESPONSE_ATOMIC_CMP_AND_SWP := by
        rw [hbuf]
        exact h
      simp only [hop2]
  rw [h1]
  unfold recv_response_atomic
  simp only [hbuf]
  have key : ∀ (op : tcp_dev_wc_opcode), op ≠ tcp_dev_wc_opcode.TCP_DEV_WC_RECV →
      post_then (_tcp_dev_post_wc E { D with mem := store64 D.mem wr.local_addr x } wr.wr_id
          tcp_dev_wc_status.TCP_WC_SUCCESS op wr.cq_handle)
          (fun D1 => some (0, _tcp_dev_set_default_read_conn_state E D1 estate))
        = some (0, _tcp_dev_set_default_read_conn_state E
            (completed { D with mem := store64 D.mem wr.local_addr x } wr.cq_handle cq rb
              { wr_id := wr.wr_id, status := tcp_dev_wc_status.TCP_WC_SUCCESS, opcode := op, sender := g })
            estate) := by
    intro op hne
    rw [@post_wc_ok E { D with mem := store64 D.mem wr.local_addr x } g cq rb wr.wr_id
      tcp_dev_wc_status.TCP_WC_SUCCESS op wr.cq_handle hm hcq hrb hroom hne]
    rfl
  rcases hop with hop | hop
  · have e : (atomic_response wr x).opcode = tcp_dev_wr_opcode.RESPONSE_ATOMIC_FETCH_AND_ADD := by
      simp only [atomic_response, hop, if_true]
    rw [e]
    rw [if_neg (by decide)]
    have k := key tcp_dev_wc_opcode.TCP_DEV_WC_FETCH_ADD (by decide)
    have ew : atomic_wc wr g =
        ⟨wr.wr_id, tcp_dev_wc_status.TCP_WC_SUCCESS, tcp_dev_wc_opcode.TCP_DEV_WC_FETCH_ADD, g⟩ := by
      simp only [atomic_wc, hop, if_true]
    rw [ew]
    exact k
  · have e : (atomic_response wr x).opcode = tcp_dev_wr_opcode.RESPONSE_ATOMIC_CMP_AND_SWP := by
      simp only [atomic_response, hop]
      rfl
    rw [e]
    rw [if_pos rfl]
    have k := key tcp_dev_wc_opcode.TCP_DEV_WC_CMP_SWAP (by decide)
    have ew : atomic_wc wr g =
        ⟨wr.wr_id, tcp_dev_wc_status.TCP_WC_SUCCESS, tcp_dev_wc_opcode.TCP_DEV_WC_CMP_SWAP, g⟩ := by
      simp only [atomic_wc, hop]
      rfl
    rw [ew]
    exact k

/-- C24. An atomic `wr` (fetch-and-add or compare-and-swap) for another rank, on a word of
the target that holds `x`. The handler of the requester for the posted header enqueues
the `REQUEST_ATOMIC_*` and changes neither memory nor the record of actions. The
handler of the target for that request sets the word to the value of the atomic,
changes no other byte, and enqueues the `RESPONSE_ATOMIC_*` with source and target and
local and remote address exchanged and `x` in `compare_add`. The handler of the
requester for that response stores `x` at the `local_addr` of the posted request and
posts exactly one completion, with status SUCCESS and the `wr_id`, opcode and
`cq_handle` of the posted request. A transport whose own rank is the target and which
takes the shortcut on the same request, with `x` in its word, ends with the same value
in the word, with `x` at `local_addr` when that is another word, and with the same one
completion. -/
theorem remote_atomic_chain (EA EB ES : DevEnv) (A B A2 S : Dev) (ea eb ea2 es : Nat)
    (wr : tcp_dev_wr_t) (g gs : Nat) (cq cqs : tcp_cq) (rb rbs : ringbuffer) (x : Nat)
    (hop : wr.opcode = tcp_dev_wr_opcode.POST_ATOMIC_FETCH_AND_ADD ∨
      wr.opcode = tcp_dev_wr_opcode.POST_ATOMIC_CMP_AND_SWP)
    (hheadA : (A.conns ea).read.opcode = tcp_dev_state_opcode.RECV_HEADER)
    (hbufA : (A.conns ea).wr_buff = wr)
    (hremote : wr.target ≠ A.rank)
    (hheadB : (B.conns eb).read.opcode = tcp_dev_state_opcode.RECV_HEADER)
    (hbufB : (B.conns eb).wr_buff = atomic_request wr)
    (hx : load64 B.mem wr.remote_addr = x) (hx64 : x < 2 ^ 64)
    (hheadA2 : (A2.conns ea2).read.opcode = tcp_dev_state_opcode.RECV_HEADER)
    (hbufA2 : (A2.conns ea2).wr_buff = atomic_response wr x)
    (hm : EA.malloc_wc A2.tick = some g)
    (hcq : A2.cqs_map wr.cq_handle = some cq) (hrb : cq.rbuf = some rb)
    (hroom : rb.ipos - rb.rpos < rb.mask)
    (hheadS : (S.conns es).read.opcode = tcp_dev_state_opcode.RECV_HEADER)
    (hbufS : (S.conns es).wr_buff = wr)
    (hself : wr.target = S.rank)
    (hxS : load64 S.mem wr.remote_addr = x)
    (hsep : wr.local_addr = wr.remote_addr ∨ wr.local_addr + 8 ≤ wr.remote_addr ∨
      wr.remote_addr + 8 ≤ wr.local_addr)
    (hmS : ES.malloc_wc S.tick = some gs)
    (hcqS : S.cqs_map wr.cq_handle = some cqs) (hrbS : cqs.rbuf = some rbs)
    (hroomS : rbs.ipos - rbs.rpos < rbs.mask) :
    ∃ A1 B1 A3 S1,
      _tcp_dev_process_recv_data EA A ea = some (0, A1) ∧
      A1.delayedList = A.delayedList ++ [atomic_request wr] ∧ A1.mem = A.mem ∧ A1.log = A.log ∧
      _tcp_dev_process_recv_data EB B eb = some (0, B1) ∧
      B1.delayedList = B.delayedList ++ [atomic_response wr x] ∧ B1.log = B.log ∧
      (atomic_response wr x).target = wr.source ∧ (atomic_response wr x).source = wr.target ∧
      (atomic_response wr x).remote_addr = wr.local_addr ∧
      (atomic_response wr x).local_addr = wr.remote_addr ∧
      load64 B1.mem wr.remote_addr = atomic_value wr x ∧
      (∀ a, ¬ (wr.remote_addr ≤ a ∧ a < wr.remote_addr + 8) → B1.mem a = B.mem a) ∧
      _tcp_dev_process_recv_data EA A2 ea2 = some (0, A3) ∧
      load64 A3.mem wr.local_addr = x ∧
      (∀ a, ¬ (wr.local_addr ≤ a ∧ a < wr.local_addr + 8) → A3.mem a = A2.mem a) ∧
      A3.log = A2.log ++ [DevEvent.posted wr.cq_handle (atomic_wc wr g)] ∧
      A3.delayedList = A2.delayedList ∧
      _tcp_dev_process_recv_data ES S es = some (0, S1) ∧
      load64 S1.mem wr.remote_addr = load64 B1.mem wr.remote_addr ∧
      (wr.local_addr ≠ wr.remote_addr → load64 S1.mem wr.local_addr = load64 A3.mem wr.local_addr) ∧
      S1.log = S.log ++ [DevEvent.posted wr.cq_handle (atomic_wc wr gs)] := by
  obtain ⟨m, hB, hBv, hBo⟩ := recv_request_atomic_effect EB B eb wr x hheadB hbufB hop hx
  obtain ⟨S1, hS, hSv, hSl, _, hSlog, _⟩ :=
    post_atomic_self_effect ES S es wr gs cqs rbs x hheadS hbufS hop hself hxS hx64 hsep hmS hcqS
      hrbS hroomS
  have hA3 : load64 (store64 A2.mem wr.local_addr x) wr.local_addr = x := by
    rw [load64_store64]
    exact Nat.mod_eq_of_lt hx64
  refine ⟨_, _, _, S1, recv_post_atomic_remote EA A ea wr hheadA hbufA hop hremote, rfl, rfl, rfl,
    hB, rfl, rfl, rfl, rfl, rfl, rfl, hBv, hBo,
    recv_response_atomic_effect EA A2 ea2 wr x g cq rb hheadA2 hbufA2 hop hm hcq hrb hroom,
    hA3, ?_, rfl, rfl, hS, ?_, ?_, hSlog⟩
  · intro a ha
    exact store64_outside _ _ _ _ ha
  · rw [hSv]
    exact hBv.symm
  · intro hne
    rw [hSl hne]
    exact hA3.symm

/-- C24 applies to a fetch-and-add of 5 by rank 0 on the word at address 16 of rank 1:
the word of rank 1 changes from 0x1716151413121110 to 0x1716151413121115, the old value
arrives at address 32 of rank 0 with one completion for `wr_id = 9`, and the shortcut
on rank 1 gives the same. -/
theorem remote_atomic_chain_witness :
    ∃ A1 B1 A3 S1 : Dev,
      _tcp_dev_process_recv_data dev_env_ok (header_read dev_connected 0 remote_fetch_add_wr) 0
        = some (0, A1) ∧
      A1.delayedList = [atomic_request remote_fetch_add_wr] ∧
      _tcp_dev_process_recv_data dev_env_ok
        (header_read (dev_boot 2 1) 0 (atomic_request remote_fetch_add_wr)) 0 = some (0, B1) ∧
      B1.delayedList = [atomic_response remote_fetch_add_wr 0x1716151413121110] ∧
      load64 B1.mem 16 = 0x1716151413121115 ∧
      _tcp_dev_process_recv_data dev_env_ok
        (header_read (after_scan (after_recv (header_read dev_connected 0 remote_fetch_add_wr) 0)) 1
          (atomic_response remote_fetch_add_wr 0x1716151413121110)) 1 = some (0, A3) ∧
      load64 A3.mem 32 = 0x1716151413121110 ∧
      _tcp_dev_process_recv_data dev_env_ok (header_read dev_with_cq_1 0 remote_fetch_add_wr) 0
        = some (0, S1) ∧
      load64 S1.mem 16 = 0x1716151413121115 ∧ load64 S1.mem 32 = 0x1716151413121110 := by
  obtain ⟨A1, B1, A3, S1, h1, h2, _, _, h5, h6, _, _, _, _, _, h12, _, h14, h15, _, _, _, h19, h20,
      h21, _⟩ :=
    remote_atomic_chain dev_env_ok dev_env_ok dev_env_ok
      (header_read dev_connected 0 remote_fetch_add_wr)
      (header_read (dev_boot 2 1) 0 (atomic_request remote_fetch_add_wr))
      (header_read (after_scan (after_recv (header_read dev_connected 0 remote_fetch_add_wr) 0)) 1
          (atomic_response remote_fetch_add_wr 0x1716151413121110))
      (header_read dev_with_cq_1 0 remote_fetch_add_wr)
      0 0 1 0 remote_fetch_add_wr 0 0 cq8 cq8 ring8 ring8 0x1716151413121110
      (Or.inl (by rfl)) (by rfl) (by rfl) (by decide) (by rfl) (by rfl) (by rfl) (by decide)
      (by rfl) (by rfl) (by rfl) (by rfl) (by rfl) (by decide)
      (by rfl) (by rfl) (by rfl) (by rfl) (by decide) (by rfl) (by rfl) (by rfl) (by decide)
  exact ⟨A1, B1, A3, S1, h1, h2.trans (by rfl), h5, h6.trans (by rfl), h12.trans (by rfl), h14,
    h15, h19, (h20.trans h12).trans (by rfl), (h21 (by decide)).trans h15⟩

/-! ### Validity of a group after a deletion -/

/-- C30 fails after the deletion of a group below the highest one: with the groups 0, 1
and 2 created, the ranks 0 and 1 added to the group 2, and the group 1 deleted, the slots
0 and 2 are live and `group_cnt` is 2, the number of live slots; `pgaspi_group_size` and
`pgaspi_group_ranks` return `GASPI_ERR_INV_GROUP` for the live group 2 and
`GASPI_SUCCESS` for the deleted group 1. -/
theorem group_size_after_delete :
    (pgaspi_group_create create_env_ok (boot 4 0)).1 = GASPI_SUCCESS ∧
    ((groups_after_delete.groups 0).id, (groups_after_delete.groups 1).id,
      (groups_after_delete.groups 2).id) = (0, -1, 2) ∧
    (groups_after_delete.groups 2).tnc = 2 ∧
    groups_after_delete.gctx.group_cnt = 2 ∧
    live_count groups_after_delete.groups = 2 ∧
    pgaspi_group_size groups_after_delete 2 = (GASPI_ERR_INV_GROUP, none) ∧
    pgaspi_group_ranks groups_after_delete 2 = (GASPI_ERR_INV_GROUP, []) ∧
    pgaspi_group_size groups_after_delete 1 = (GASPI_SUCCESS, some 0) ∧
    pgaspi_group_ranks groups_after_delete 1 = (GASPI_SUCCESS, []) := by
  refine ⟨by rfl, by rfl, by rfl, by rfl, by decide, by rfl, by rfl, by rfl, by rfl⟩

/-! ### The pairing of source and destination in a barrier round -/

theorem src_dst_pairing (T mask r : Nat) (hm : mask < T) (hr : r < T) :
    ((r + T - mask) % T + mask) % T = r := by
  by_cases h : mask ≤ r
  · have e : r + T - mask = (r - mask) + T := by omega
    have hs : (r + T - mask) % T = r - mask := by
      rw [e, Nat.add_mod_right]
      exact Nat.mod_eq_of_lt (by omega)
    have e2 : r - mask + mask = r := by omega
    rw [hs, e2, Nat.mod_eq_of_lt hr]
  · have hs : (r + T - mask) % T = r + T - mask := Nat.mod_eq_of_lt (by omega)
    have e : r + T - mask + mask = r + T := by omega
    rw [hs, e, Nat.add_mod_right, Nat.mod_eq_of_lt hr]

theorem src_unique (T mask r s : Nat) (hm : mask < T) (hs : s < T)
    (h : (s + mask) % T = r) : s = (r + T - mask) % T := by
  by_cases hlt : s + mask < T
  · rw [Nat.mod_eq_of_lt hlt] at h
    have e : r + T - mask = s + T := by omega
    rw [e, Nat.add_mod_right, Nat.mod_eq_of_lt hs]
  · have h2 : (s + mask) % T = s + mask - T := by
      rw [Nat.mod_eq_sub_mod (by omega)]
      exact Nat.mod_eq_of_lt (by omega)
    rw [h2] at h
    have h3 : (r + T - mask) % T = r + T - mask := Nat.mod_eq_of_lt (by omega)
    rw [h3]
    omega

theorem round_masks_from (T i : Nat) (h : T ≤ 2 ^ i) :
    ((List.range' i (31 - i)).map (fun k => 2 ^ k)).filter (fun m => decide (m < T)) = [] := by
  rw [List.filter_eq_nil_iff]
  intro m hm
  rw [List.mem_map] at hm
  obtain ⟨k, hk, rfl⟩ := hm
  rw [List.mem_range'] at hk
  obtain ⟨j, -, rfl⟩ := hk
  have : 2 ^ i ≤ 2 ^ (i + 1 * j) := Nat.pow_le_pow_right (by norm_num) (by omega)
  simp only [decide_eq_true_eq]
  omega

theorem sn_barrier_loop_ok (E : SnEnv) (r T : Nat) (hT : T ≤ 2 ^ 30)
    (hw : ∀ d, E.writen_ok d = true) (hrd : ∀ d, E.readn_ok d = true) :
    ∀ (n i : Nat) (evs : List SnEvent), 31 ≤ n + i →
      sn_barrier_loop E r T n (2 ^ i) evs = some (0, evs ++
        (((List.range' i (31 - i)).map (fun k => 2 ^ k)).filter (fun m => decide (m < T))).flatMap
          (sn_round T r)) := by
  intro n
  induction n with
  | zero =>
    intro i evs hn
    have h31 : (2 : Nat) ^ 30 ≤ 2 ^ i := Nat.pow_le_pow_right (by norm_num) (by omega)
    unfold sn_barrier_loop
    rw [if_neg (by omega), round_masks_from T i (by omega)]
    simp
  | succ n ih =>
    intro i evs hn
    unfold sn_barrier_loop
    by_cases hlt : 2 ^ i < T
    · have hi : i < 30 := by
        by_contra hc
        have : (2 : Nat) ^ 30 ≤ 2 ^ i := Nat.pow_le_pow_right (by norm_num) (by omega)
        omega
      have hsh : (2 : Nat) ^ i <<< 1 = 2 ^ (i + 1) := by
        rw [Nat.shiftLeft_eq]
        ring
      have hov : ¬ ((2 : Nat) ^ i <<< 1 ≥ 2 ^ 31) := by
        rw [hsh]
        have : (2 : Nat) ^ (i + 1) ≤ 2 ^ 30 := Nat.pow_le_pow_right (by norm_num) (by omega)
        have : (2 : Nat) ^ 30 < 2 ^ 31 := by norm_num
        omega
      rw [if_pos hlt]
      simp only [hw, hrd, Bool.not_true, Bool.false_eq_true, if_false]
      rw [if_neg hov, hsh, ih (i + 1) _ (by omega)]
      have e : 31 - i = (31 - (i + 1)) + 1 := by omega
      rw [e, List.range'_succ, List.map_cons, List.filter_cons_of_pos (by simpa using hlt),
        List.flatMap_cons, ← List.append_assoc]
      rfl
    · rw [if_neg hlt, round_masks_from T i (by omega)]
      simp

theorem sn_barrier_ok (E : SnEnv) (r T : Nat) (hT : T ≤ 2 ^ 30)
    (hw : ∀ d, E.writen_ok d = true) (hrd : ∀ d, E.readn_ok d = true) :
    gaspi_sn_barrier E r T = some (0, (round_masks T).flatMap (sn_round T r)) := by
  have h := sn_barrier_loop_ok E r T hT hw hrd 32 0 [] (by omega)
  rw [List.nil_append] at h
  exact h

/-! ### The actions of a barrier round -/

theorem quiet_refl (p : Proc) : Quiet p p := ⟨rfl, postFrame_refl _, rfl⟩

theorem quiet_trans {p q r : Proc} (h1 : Quiet p q) (h2 : Quiet q r) : Quiet p r :=
  ⟨h2.1.trans h1.1, postFrame_trans h1.2.1 h2.2.1, h2.2.2.trans h1.2.2⟩

theorem connect_if_needed_quiet (E : Env) (p : Proc) (dst : Nat) :
    Quiet p (connect_if_needed E p dst).2 := by
  unfold connect_if_needed pgaspi_connect
  split
  · split
    · exact quiet_refl p
    · exact ⟨rfl, postFrame_refl _, rfl⟩
  · exact quiet_refl p

theorem commit_if_needed_quiet (E : Env) (p : Proc) (dst : Nat) :
    Quiet p (commit_if_needed E p dst).2 := by
  unfold commit_if_needed _pgaspi_group_commit_to
  split
  · split
    · exact quiet_refl p
    · exact ⟨rfl, ⟨_, rfl⟩, rfl⟩
  · exact quiet_refl p

theorem post_or_corrupt_success {E : Env} {p : Proc} {a n dst b : Nat}
    (h : (post_or_corrupt E p a n dst b).1 = GASPI_SUCCESS) :
    (post_or_corrupt E p a n dst b).2.log = p.log ++ [Event.write (group_wr E.scq_num p.gctx.rank a n dst b)] ∧
      (post_or_corrupt E p a n dst b).2.grp = p.grp ∧
      (post_or_corrupt E p a n dst b).2.gctx.rank = p.gctx.rank := by
  unfold post_or_corrupt at h ⊢
  by_cases hw : (pgaspi_dev_post_group_write E p a n dst b).1 ≠ 0
  · rw [if_pos hw] at h
    cases h
  · rw [if_neg hw]
    unfold pgaspi_dev_post_group_write at hw ⊢
    simp only at hw ⊢
    split
    · rename_i hq
      rw [if_pos hq] at hw
      exact absurd (Nat.succ_ne_zero 0) hw
    · exact ⟨rfl, rfl, rfl⟩

theorem postFrame_sync {c d : gaspi_group_ctx_t} (h : PostFrame c d) :
    GPI2_GRP_LOCAL_SYNC_ADDR d = GPI2_GRP_LOCAL_SYNC_ADDR c ∧
      GPI2_GRP_REMOTE_SYNC_ADDR d = GPI2_GRP_REMOTE_SYNC_ADDR c ∧
      (∀ s, GPI2_GRP_SYNC_POLL_ADDR d s = GPI2_GRP_SYNC_POLL_ADDR c s) ∧
      d.barrier_cnt = c.barrier_cnt ∧ d.tnc = c.tnc ∧ d.rank = c.rank ∧ d.togle = c.togle ∧
      d.rank_grp = c.rank_grp := by
  obtain ⟨cr, rfl⟩ := h
  exact ⟨rfl, rfl, fun _ => rfl, rfl, rfl, rfl, rfl, rfl⟩

theorem andThen_success {r : gaspi_return_t × Proc} {f : Proc → gaspi_return_t × Proc}
    (h : (andThen r f).1 = GASPI_SUCCESS) :
    r.1 = GASPI_SUCCESS ∧ andThen r f = f r.2 := by
  unfold andThen at h ⊢
  by_cases hr : r.1 ≠ GASPI_SUCCESS
  · rw [if_pos hr] at h
    exact absurd h hr
  · rw [if_neg hr]
    exact ⟨not_not.mp hr, rfl⟩

theorem barrier_post_success {E : Env} {p : Proc} {dst : Nat}
    (h : (barrier_post E p dst).1 = GASPI_SUCCESS) :
    (barrier_post E p dst).2.log = p.log ++ [Event.write (sync_wr E p dst)] ∧
      PostFrame p.grp (barrier_post E p dst).2.grp := by
  unfold barrier_post at h ⊢
  obtain ⟨-, e1⟩ := andThen_success h
  rw [e1] at h ⊢
  obtain ⟨-, e2⟩ := andThen_success h
  rw [e2] at h ⊢
  have q1 := connect_if_needed_quiet E p dst
  have q2 := commit_if_needed_quiet E (connect_if_needed E p dst).2 dst
  have q := quiet_trans q1 q2
  obtain ⟨l1, l2, l3⟩ := post_or_corrupt_success h
  obtain ⟨s1, s2, -⟩ := postFrame_sync q.2.1
  refine ⟨?_, ?_⟩
  · rw [l1, q.1, q.2.2, s1, s2]
    rfl
  · rw [l2]
    exact q.2.1

theorem barrier_round_log {E : Env} {mask : Nat} {p q : Proc}
    (h : barrier_round E mask false p = LoopEnd.fallthrough q) :
    q.log = p.log ++ [Event.write (sync_wr E p (barrier_dst p.grp mask)),
        Event.polled (GPI2_GRP_SYNC_POLL_ADDR p.grp (barrier_src p.grp mask)) p.grp.barrier_cnt] ∧
      PostFrame p.grp q.grp := by
  unfold barrier_round at h
  simp only at h
  have hpre : barrier_pre E mask false p = barrier_post E p (barrier_dst p.grp mask) := by
    unfold barrier_pre
    simp
  rw [hpre] at h
  by_cases h1 : (barrier_post E p (barrier_dst p.grp mask)).1 ≠ GASPI_SUCCESS
  · rw [if_pos h1] at h
    cases h
  · rw [if_neg h1] at h
    obtain ⟨l1, f1⟩ := barrier_post_success (not_not.mp h1)
    obtain ⟨-, -, s3, s4, -⟩ := postFrame_sync f1
    split at h
    · cases h
    · injection h with h2
      subst h2
      refine ⟨?_, ?_⟩
      · simp only [observe, l1, s3, s4, List.append_assoc, List.singleton_append]
      · exact f1

theorem round_masks_spec (T m : Nat) (h : m ∈ round_masks T) : (∃ k, m = 2 ^ k) ∧ m < T := by
  unfold round_masks at h
  rw [List.mem_filter, List.mem_map] at h
  obtain ⟨⟨k, -, hk⟩, h2⟩ := h
  exact ⟨⟨k, hk.symm⟩, by simpa using h2⟩

/-- C25. In a group of `T ≥ 2` members, for a round with `mask < T`, a member `r` and the
member `s` at the index `src = (r - mask + T) mod T` that `r` polls in that round, both
with the same togle: the destination index `(s + mask) mod T` of `s` is `r`, and `s` is
the only member with that destination; the round of `s` posts a one-byte write to the
rank at index `r` of the group, to the offset `2 * src + togle` of the staging buffer
of that rank, and the round of `r` polls exactly that offset. On the control plane,
`gaspi_sn_barrier` on rank `r` of `T ≤ 2^30`, with every transfer complete, returns 0
after writing to `(r + m) mod T` and reading from `(r - m + T) mod T` for the powers
of two `m < T` in ascending order, and the rank it reads from in a round is the only
one that writes to `r` in that round. -/
theorem barrier_round_pairing (Er Es : Env) (E : SnEnv) (pr ps qr qs : Proc) (T mask : Nat)
    (hT : 2 ≤ T) (hT30 : T ≤ 2 ^ 30) (hmask : mask < T)
    (hr : pr.grp.tnc = T) (hs : ps.grp.tnc = T)
    (hrank : pr.grp.rank.toNat < T)
    (hsrc : ps.grp.rank.toNat = barrier_src pr.grp mask)
    (htog : ps.grp.togle = pr.grp.togle)
    (hrun_r : barrier_round Er mask false pr = LoopEnd.fallthrough qr)
    (hrun_s : barrier_round Es mask false ps = LoopEnd.fallthrough qs)
    (hw : ∀ d, E.writen_ok d = true) (hrd : ∀ d, E.readn_ok d = true) :
    barrier_src pr.grp mask = (pr.grp.rank.toNat + T - mask) % T ∧
    barrier_src pr.grp mask < T ∧
    (barrier_src pr.grp mask + mask) % T = pr.grp.rank.toNat ∧
    (∀ s, s < T → (s + mask) % T = pr.grp.rank.toNat → s = barrier_src pr.grp mask) ∧
    (∃ wr e w2, qs.log = ps.log ++ [Event.write wr, e] ∧
      wr.target = (ps.grp.rank_grp.getD pr.grp.rank.toNat (-1)).toNat ∧ wr.length = 1 ∧
      wr.remote_addr = 2 * barrier_src pr.grp mask + pr.grp.togle ∧
      qr.log = pr.log ++ [Event.write w2, Event.polled wr.remote_addr pr.grp.barrier_cnt]) ∧
    (∀ r, r < T →
      gaspi_sn_barrier E r T = some (0, (round_masks T).flatMap (sn_round T r)) ∧
      ∀ m ∈ round_masks T, (∃ k, m = 2 ^ k) ∧ m < T ∧ ((r + T - m) % T + m) % T = r ∧
        ∀ s, s < T → (s + m) % T = r → s = (r + T - m) % T) := by
  have hsrcdef : barrier_src pr.grp mask = (pr.grp.rank.toNat + T - mask) % T := by
    unfold barrier_src
    rw [hr]
  have hpos : 0 < T := by omega
  refine ⟨hsrcdef, ?_, ?_, ?_, ?_, ?_⟩
  · rw [hsrcdef]
    exact Nat.mod_lt _ hpos
  · rw [hsrcdef]
    exact src_dst_pairing T mask _ hmask hrank
  · intro s hs1 hs2
    rw [hsrcdef]
    exact src_unique T mask _ s hmask hs1 hs2
  · obtain ⟨ls, -⟩ := barrier_round_log hrun_s
    obtain ⟨lr, -⟩ := barrier_round_log hrun_r
    refine ⟨sync_wr Es ps (barrier_dst ps.grp mask), _, sync_wr Er pr (barrier_dst pr.grp mask),
      ls, ?_, rfl, ?_, ?_⟩
    · show barrier_dst ps.grp mask = _
      unfold barrier_dst
      rw [hs, hsrc, hsrcdef, src_dst_pairing T mask _ hmask hrank]
    · show GPI2_GRP_REMOTE_SYNC_ADDR ps.grp = _
      unfold GPI2_GRP_REMOTE_SYNC_ADDR
      rw [hsrc, htog]
      rfl
    · rw [lr]
      have e : GPI2_GRP_SYNC_POLL_ADDR pr.grp (barrier_src pr.grp mask)
          = (sync_wr Es ps (barrier_dst ps.grp mask)).remote_addr := by
        show _ = GPI2_GRP_REMOTE_SYNC_ADDR ps.grp
        unfold GPI2_GRP_REMOTE_SYNC_ADDR GPI2_GRP_SYNC_POLL_ADDR
        rw [hsrc, htog]
      rw [e]
  · intro r hr1
    refine ⟨sn_barrier_ok E r T hT30 hw hrd, ?_⟩
    intro m hm
    obtain ⟨hk, hlt⟩ := round_masks_spec T m hm
    exact ⟨hk, hlt, src_dst_pairing T m r hlt hr1, fun s hs1 hs2 => src_unique T m r s hlt hs1 hs2⟩

/-- C25 applies to the round with mask 2 of a barrier of four ranks: rank 1 polls the
slot of member 3, whose destination in that round is rank 1. -/
theorem barrier_round_pairing_witness :
    barrier_src (barrier_enter (member 4 1)).grp 2 = 3 ∧
    (3 + 2) % 4 = (barrier_enter (member 4 1)).grp.rank.toNat ∧
    (∃ wr e w2, (after_round (env_token 1) 2 (barrier_enter (member 4 3))).log = [Event.write wr, e] ∧
      wr.target = 1 ∧ wr.length = 1 ∧ wr.remote_addr = 6 ∧
      (after_round (env_token 1) 2 (barrier_enter (member 4 1))).log
        = [Event.write w2, Event.polled 6 1]) ∧
    gaspi_sn_barrier sn_env_ok 1 4 = some (0, [SnEvent.writen 2, SnEvent.readn 0,
      SnEvent.writen 3, SnEvent.readn 3]) := by
  obtain ⟨h1, _, h3, _, ⟨wr, e, w2, a1, a2, a3, a4, a5⟩, h6⟩ :=
    barrier_round_pairing (env_token 1) (env_token 1) sn_env_ok
      (barrier_enter (member 4 1)) (barrier_enter (member 4 3))
      (after_round (env_token 1) 2 (barrier_enter (member 4 1)))
      (after_round (env_token 1) 2 (barrier_enter (member 4 3))) 4 2
      (by decide) (by decide) (by decide) (by rfl) (by rfl) (by decide) (by rfl) (by rfl) (by rfl)
      (by rfl) (fun _ => rfl) (fun _ => rfl)
  have hs : barrier_src (barrier_enter (member 4 1)).grp 2 = 3 := by rfl
  refine ⟨hs, by rfl, ⟨wr, e, w2, a1, a2.trans (by rfl), a3, ?_, ?_⟩, (h6 1 (by decide)).1.trans (by rfl)⟩
  · rw [a4, hs]
    rfl
  · rw [a5, a4, hs]
    rfl

/-! ### The wait of an even member in the third phase of the allreduce -/

set_option maxRecDepth 100000 in
/-- C26 fails in a group of three (`next_pof2 = 2`, `rest = 1`, the pair of members 0 and
1): every rank calls `pgaspi_allreduce` with SUM of one 64-bit unsigned element, rank `r`
sending `r`, and every posted write is delivered. The last write of member 1, at level
3, is the sync byte for rank 0 at the offset `2 * 1 + togle = 2`; member 0 waits at
level 3 on the offset `2 * 0 + togle = 0`, which still holds 0 while the offset 2 holds
the token 1. The ranks 1 and 2 return `GASPI_SUCCESS` with 3; rank 0 returns
`GASPI_TIMEOUT` on every call and its receive buffer stays untouched. -/
theorem allreduce_three_even_waits_on_own_slot :
    (allreduce_three 3).map (fun m => (m.last, m.recv)) =
      [(some GASPI_TIMEOUT, [0, 0, 0, 0, 0, 0, 0, 0]), (some GASPI_SUCCESS, [3, 0, 0, 0, 0, 0, 0, 0]),
       (some GASPI_SUCCESS, [3, 0, 0, 0, 0, 0, 0, 0])] ∧
    (allreduce_three 6).map (fun m => (m.last, m.recv)) =
      (allreduce_three 3).map (fun m => (m.last, m.recv)) ∧
    ((allreduce_three 3).map (fun m => last_write m.proc)).get? 1 = some (group_wr 0 1 6 1 0 2) ∧
    (allreduce_three 6).head?.map (fun m =>
        [m.proc.grp.level, m.proc.grp.barrier_cnt, m.proc.grp.togle, m.proc.grp.rank.toNat,
          GPI2_GRP_SYNC_POLL_ADDR m.proc.grp m.proc.grp.rank.toNat,
          m.proc.grp.buf 0, m.proc.grp.buf 2]) = some [3, 1, 0, 0, 0, 0, 1] := by
  decide

/-! ### The indices of the butterfly -/

theorem idst_eq (c : gaspi_group_ctx_t) (t mask : Nat) :
    allreduce_idst c (t : Int) mask = level2_idst (c.tnc - c.next_pof2) (t ^^^ mask) := by
  unfold allreduce_idst level2_idst
  simp only [Int.toNat_ofNat]
  split
  · omega
  · rfl

theorem level1_to_butterfly (T P r : Nat) (hle : P ≤ T) (hlt : T < 2 * P) (hr : r < T)
    (hp : level1_tmprank (T - P) r ≠ -1) :
    ∃ t, t < P ∧ level1_tmprank (T - P) r = (t : Int) ∧ level2_idst (T - P) t = r := by
  unfold level1_tmprank at hp ⊢
  unfold level2_idst
  have hsh : r >>> 1 = r / 2 := by
    rw [Nat.shiftRight_eq_div_pow, pow_one]
  by_cases h1 : r < 2 * (T - P)
  · rw [if_pos h1] at hp ⊢
    by_cases h2 : r % 2 = 0
    · rw [if_pos h2] at hp
      exact absurd rfl hp
    · rw [if_neg h2]
      refine ⟨r / 2, by omega, by rw [hsh], ?_⟩
      rw [if_pos (by omega)]
      omega
  · rw [if_neg h1]
    refine ⟨r - (T - P), by omega, rfl, ?_⟩
    rw [if_neg (by omega)]
    omega

theorem butterfly_to_member (T P t : Nat) (hle : P ≤ T) (hlt : T < 2 * P) (ht : t < P) :
    level2_idst (T - P) t < T ∧ level1_tmprank (T - P) (level2_idst (T - P) t) = (t : Int) := by
  unfold level2_idst
  by_cases h1 : t < T - P
  · rw [if_pos h1]
    refine ⟨by omega, ?_⟩
    unfold level1_tmprank
    rw [if_pos (by omega), if_neg (by omega)]
    have hsh : (2 * t + 1) >>> 1 = t := by
      rw [Nat.shiftRight_eq_div_pow, pow_one]
      omega
    rw [hsh]
  · rw [if_neg h1]
    refine ⟨by omega, ?_⟩
    unfold level1_tmprank
    rw [if_neg (by omega)]
    have e : t + (T - P) - (T - P) = t := by omega
    rw [e]

theorem xor_partner (e k t : Nat) (hk : 2 ^ k < 2 ^ e) (ht : t < 2 ^ e) :
    t ^^^ 2 ^ k < 2 ^ e ∧ (t ^^^ 2 ^ k) ^^^ 2 ^ k = t := by
  refine ⟨Nat.xor_lt_two_pow ht hk, ?_⟩
  rw [Nat.xor_assoc, Nat.xor_self, Nat.xor_zero]

/-- C27. For a group of size `T` with `P = next_pof2 = 2 ^ pof2_exp`, `P ≤ T < 2 * P` and
`rest = T - P`: level 1 of `_gaspi_allreduce` leaves in `tmprank` the index that the
claim names (`r >> 1` for an odd `r < 2 * rest`, `r - rest` for `r ≥ 2 * rest`, `-1` for
an even `r < 2 * rest`), and the `idst` of level 2 is the remap of the claim applied to
`tmprank XOR mask`. Every participating member index below `T` gets an index below `P`
which the remap takes back to the member; every index below `P` is remapped to a
member index below `T` which level 1 takes back to the index: the assignment is a
bijection between the participating members and `[0, P)` and the remap is its inverse.
For every `mask = 2 ^ k < P` and every `t < P` the partner `t XOR mask` is below `P`,
has `t` as its own partner, and is remapped to a member index below `T`. -/
theorem butterfly_indices (K : Cfg) (c : gaspi_group_ctx_t)
    (hP : c.next_pof2 = 2 ^ c.pof2_exp) (hle : c.next_pof2 ≤ c.tnc)
    (hlt : c.tnc < 2 * c.next_pof2) :
    (∀ (E : Env) (ra : redux_args) (p : Proc) (l : Loc) (x : Proc × Loc), p.grp = c →
      allreduce_L1_body K E ra p l = LoopEnd.fallthrough x →
      x.2.tmprank = level1_tmprank (c.tnc - c.next_pof2) c.rank.toNat) ∧
    (∀ t mask : Nat,
      allreduce_idst c (t : Int) mask = level2_idst (c.tnc - c.next_pof2) (t ^^^ mask)) ∧
    (∀ r, r < 2 * (c.tnc - c.next_pof2) → r % 2 = 0 →
      level1_tmprank (c.tnc - c.next_pof2) r = -1) ∧
    (∀ r, r < c.tnc → level1_tmprank (c.tnc - c.next_pof2) r ≠ -1 →
      ∃ t, t < c.next_pof2 ∧ level1_tmprank (c.tnc - c.next_pof2) r = (t : Int) ∧
        level2_idst (c.tnc - c.next_pof2) t = r) ∧
    (∀ t, t < c.next_pof2 →
      level2_idst (c.tnc - c.next_pof2) t < c.tnc ∧
      level1_tmprank (c.tnc - c.next_pof2) (level2_idst (c.tnc - c.next_pof2) t) = (t : Int)) ∧
    (∀ k t, 2 ^ k < c.next_pof2 → t < c.next_pof2 →
      t ^^^ 2 ^ k < c.next_pof2 ∧ (t ^^^ 2 ^ k) ^^^ 2 ^ k = t ∧
      allreduce_idst c (t : Int) (2 ^ k) < c.tnc) := by
  refine ⟨?_, idst_eq c, ?_, ?_, ?_, ?_⟩
  · intro E ra p l x hp hx
    have := L1_body_tmprank hx
    rw [hp] at this
    exact this
  · intro r h1 h2
    unfold level1_tmprank
    rw [if_pos h1, if_pos h2]
  · intro r hr hne
    exact level1_to_butterfly c.tnc c.next_pof2 r hle hlt hr hne
  · intro t ht
    exact butterfly_to_member c.tnc c.next_pof2 t hle hlt ht
  · intro k t hk ht
    rw [hP] at hk ht
    obtain ⟨x1, x2⟩ := xor_partner c.pof2_exp k t hk ht
    rw [← hP] at x1
    refine ⟨x1, x2, ?_⟩
    rw [idst_eq]
    exact (butterfly_to_member c.tnc c.next_pof2 _ hle hlt x1).1

/-- C27 applies to the group of six ranks (`P = 4`, `rest = 2`): member 3 gets the index 1
of the butterfly, whose partner for the mask 2 is the index 3, the member 5. -/
theorem butterfly_indices_witness :
    level1_tmprank 2 3 = 1 ∧ level2_idst 2 1 = 3 ∧ (1 ^^^ 2 ^ 1 < 4) ∧
    allreduce_idst (member 6 3).grp 1 (2 ^ 1) = 5 ∧
    (∀ t, t < 4 → level2_idst 2 t < 6 ∧ level1_tmprank 2 (level2_idst 2 t) = (t : Int)) := by
  obtain ⟨_, h2, _, _, h5, h6⟩ :=
    butterfly_indices layout (member 6 3).grp (by decide) (by decide) (by decide)
  exact ⟨by decide, by decide, (h6 1 1 (by decide) (by decide)).1, (h2 1 (2 ^ 1)).trans (by decide),
    h5⟩

/-! ### The schedule of the topology broadcast -/

theorem and_two_pow_eq_zero (s i : Nat) : s &&& 2 ^ i = 0 ↔ s.testBit i = false := by
  constructor
  · intro h
    have h2 : (s &&& 2 ^ i).testBit i = false := by
      rw [h]
      exact Nat.zero_testBit i
    rw [Nat.testBit_and, Nat.testBit_two_pow_self, Bool.and_true] at h2
    exact h2
  · intro h
    apply Nat.eq_of_testBit_eq
    intro j
    rw [Nat.testBit_and, Nat.zero_testBit, Nat.testBit_two_pow]
    by_cases hij : i = j
    · subst hij
      rw [h]
      rfl
    · simp [hij]

theorem lsb_bits {s k : Nat} (h : s % 2 ^ (k + 1) = 2 ^ k) :
    s.testBit k = true ∧ ∀ i, i < k → s.testBit i = false := by
  constructor
  · have := Nat.testBit_mod_two_pow s (k + 1) k
    rw [h, Nat.testBit_two_pow_self] at this
    simpa using this.symm
  · intro i hi
    have := Nat.testBit_mod_two_pow s (k + 1) i
    rw [h, Nat.testBit_two_pow_of_ne (by omega)] at this
    have hd : decide (i < k + 1) = true := by simp; omega
    rw [hd, Bool.true_and] at this
    exact this.symm

theorem exists_lsb : ∀ s : Nat, 1 ≤ s → ∃ k, s % 2 ^ (k + 1) = 2 ^ k := by
  intro s
  induction s using Nat.strong_induction_on with
  | _ s ih =>
    intro hs
    by_cases hodd : s % 2 = 1
    · exact ⟨0, by simpa using hodd⟩
    · have he : s = 2 * (s / 2) := by omega
      obtain ⟨k, hk⟩ := ih (s / 2) (by omega) (by omega)
      refine ⟨k + 1, ?_⟩
      rw [he, pow_succ 2 (k + 1), Nat.mul_comm (2 ^ (k + 1)) 2, Nat.mul_mod_mul_left, hk, pow_succ]
      ring

theorem lsb_unique {r a b : Nat} (ha : r % 2 ^ (a + 1) = 2 ^ a) (hb : r % 2 ^ (b + 1) = 2 ^ b) :
    a = b := by
  by_contra hne
  have key : ∀ {x y : Nat}, x < y → r % 2 ^ (x + 1) = 2 ^ x → r % 2 ^ (y + 1) = 2 ^ y → False := by
    intro x y hxy hx hy
    have d1 : 2 ^ (x + 1) ∣ 2 ^ (y + 1) := Nat.pow_dvd_pow 2 (by omega)
    have d2 : 2 ^ (x + 1) ∣ 2 ^ y := Nat.pow_dvd_pow 2 (by omega)
    have e := Nat.mod_mod_of_dvd r d1
    rw [hy, hx, Nat.mod_eq_zero_of_dvd d2] at e
    have : 0 < 2 ^ x := Nat.two_pow_pos x
    omega
  rcases Nat.lt_or_gt_of_ne hne with h | h
  · exact key h ha hb
  · exact key h hb ha

theorem lsb_le {s k : Nat} (h : s % 2 ^ (k + 1) = 2 ^ k) : 2 ^ k ≤ s := by
  rw [← h]
  exact Nat.mod_le _ _

theorem lsb_dvd {s k : Nat} (h : s % 2 ^ (k + 1) = 2 ^ k) : 2 ^ k ∣ s := by
  have d : 2 ^ k ∣ 2 ^ (k + 1) := Nat.pow_dvd_pow 2 (by omega)
  have e := Nat.mod_mod_of_dvd s d
  rw [h, Nat.mod_self] at e
  exact Nat.dvd_of_mod_eq_zero e.symm

theorem shl_two_pow (i : Nat) : (2 : Nat) ^ i <<< 1 = 2 ^ (i + 1) := by
  rw [Nat.shiftLeft_eq]
  ring

theorem shr_two_pow_succ (i : Nat) : (2 : Nat) ^ (i + 1) >>> 1 = 2 ^ i := by
  rw [Nat.shiftRight_eq_div_pow, pow_one, pow_succ]
  omega

theorem topology_recv_loop_rank (E : SnEnv) (tnc s k : Nat) (hrecv : E.recv_topology = 0)
    (hk : s % 2 ^ (k + 1) = 2 ^ k) (hs : s < tnc) (h30 : tnc < 2 ^ 30) :
    ∀ (d i n : Nat), i + d = k → d < n →
      topology_recv_loop E tnc s n (2 ^ i) = some (none, 2 ^ k, [SnEvent.recv_topology (2 ^ k)]) := by
  have hle := lsb_le hk
  obtain ⟨hbit, hlow⟩ := lsb_bits hk
  intro d
  induction d with
  | zero =>
    intro i n hi hn
    obtain ⟨n1, rfl⟩ : ∃ n1, n = n1 + 1 := ⟨n - 1, by omega⟩
    have hik : i = k := by omega
    subst hik
    unfold topology_recv_loop
    have hand : s &&& 2 ^ i ≠ 0 := by
      intro h0
      rw [and_two_pow_eq_zero, hbit] at h0
      cases h0
    rw [if_pos (by omega), if_pos hand, if_neg (by rw [hrecv]; exact fun h => h rfl)]
  | succ d ih =>
    intro i n hi hn
    obtain ⟨n1, rfl⟩ : ∃ n1, n = n1 + 1 := ⟨n - 1, by omega⟩
    unfold topology_recv_loop
    have hik : i < k := by omega
    have hpi : (2 : Nat) ^ (i + 1) ≤ 2 ^ k := Nat.pow_le_pow_right (by norm_num) (by omega)
    have hpi2 : (2 : Nat) ^ i < 2 ^ (i + 1) := Nat.pow_lt_pow_right (by norm_num) (by omega)
    have hand : ¬ (s &&& 2 ^ i ≠ 0) := by
      rw [not_not, and_two_pow_eq_zero]
      exact hlow i hik
    have hov : ¬ ((2 : Nat) ^ i <<< 1 ≥ 2 ^ 31) := by
      rw [shl_two_pow]
      have : (2 : Nat) ^ 30 < 2 ^ 31 := by norm_num
      omega
    rw [if_pos (by omega), if_neg hand, if_neg hov, shl_two_pow]
    exact ih (i + 1) n1 (by omega) (by omega)

theorem topology_recv_loop_zero (E : SnEnv) (tnc : Nat) (h30 : tnc < 2 ^ 30) :
    ∀ (d i n : Nat), (∀ j, i ≤ j → j < i + d → 2 ^ j ≤ tnc) → tnc < 2 ^ (i + d) → d < n →
      topology_recv_loop E tnc 0 n (2 ^ i) = some (none, 2 ^ (i + d), []) := by
  intro d
  induction d with
  | zero =>
    intro i n _ hex hn
    obtain ⟨n1, rfl⟩ : ∃ n1, n = n1 + 1 := ⟨n - 1, by omega⟩
    unfold topology_recv_loop
    rw [if_neg (by rw [Nat.add_zero] at hex; omega)]
    rfl
  | succ d ih =>
    intro i n hlow hex hn
    obtain ⟨n1, rfl⟩ : ∃ n1, n = n1 + 1 := ⟨n - 1, by omega⟩
    unfold topology_recv_loop
    have hi := hlow i (Nat.le_refl _) (by omega)
    have hov : ¬ ((2 : Nat) ^ i <<< 1 ≥ 2 ^ 31) := by
      rw [shl_two_pow]
      have h1 : (2 : Nat) ^ (i + 1) = 2 * 2 ^ i := by ring
      have : (2 : Nat) ^ 31 = 2 * 2 ^ 30 := by norm_num
      omega
    rw [if_pos hi, if_neg (by rw [Nat.zero_and]; exact fun h => h rfl), if_neg hov, shl_two_pow]
    have e : i + (d + 1) = (i + 1) + d := by omega
    rw [e]
    apply ih (i + 1) n1 _ (by rw [← e]; exact hex) (by omega)
    intro j hj1 hj2
    exact hlow j (by omega) (by omega)

theorem exists_exit_exponent (tnc : Nat) (h1 : 1 ≤ tnc) (h30 : tnc < 2 ^ 30) :
    ∃ K, K ≤ 30 ∧ 1 ≤ K ∧ tnc < 2 ^ K ∧ ∀ j, j < K → 2 ^ j ≤ tnc := by
  have hex : ∃ K, tnc < 2 ^ K := ⟨30, h30⟩
  refine ⟨Nat.find hex, ?_, ?_, Nat.find_spec hex, ?_⟩
  · exact Nat.find_min' hex h30
  · by_contra h0
    have hz : Nat.find hex = 0 := by omega
    have := Nat.find_spec hex
    rw [hz] at this
    simp at this
    omega
  · intro j hj
    have := Nat.find_min hex hj
    omega

theorem topology_send_loop_ok (E : SnEnv) (tnc s : Nat) (hsend : ∀ d, E.send_topology d = 0) :
    ∀ (K n : Nat) (evs : List SnEvent), K < n →
      topology_send_loop E tnc s n (2 ^ K >>> 1) evs
        = some (GASPI_SUCCESS, evs ++ topology_sends tnc s K) := by
  intro K
  induction K with
  | zero =>
    intro n evs hn
    obtain ⟨n1, rfl⟩ : ∃ n1, n = n1 + 1 := ⟨n - 1, by omega⟩
    unfold topology_send_loop
    rw [if_neg (by decide)]
    simp [topology_sends]
  | succ K ih =>
    intro n evs hn
    obtain ⟨n1, rfl⟩ : ∃ n1, n = n1 + 1 := ⟨n - 1, by omega⟩
    unfold topology_send_loop
    rw [shr_two_pow_succ, if_pos (Nat.two_pow_pos K)]
    by_cases hd : s + 2 ^ K < tnc
    · rw [if_pos hd]
      simp only [hsend]
      rw [if_neg (by decide), if_neg (by decide), if_neg (by omega), ih n1 _ (by omega)]
      simp only [topology_sends, if_pos hd, List.append_assoc]
    · rw [if_neg hd, ih n1 _ (by omega)]
      simp only [topology_sends, if_neg hd, List.nil_append]

theorem broadcast_run_rank (E : SnEnv) (tnc s k : Nat) (hrecv : E.recv_topology = 0)
    (hsend : ∀ d, E.send_topology d = 0) (hk : s % 2 ^ (k + 1) = 2 ^ k) (hs : s < tnc)
    (h30 : tnc < 2 ^ 30) :
    gaspi_sn_broadcast_topology E tnc s
      = some (GASPI_SUCCESS, SnEvent.recv_topology (2 ^ k) :: topology_sends tnc s k) := by
  have hle := lsb_le hk
  have hk30 : k < 30 := by
    by_contra hc
    have : (2 : Nat) ^ 30 ≤ 2 ^ k := Nat.pow_le_pow_right (by norm_num) (by omega)
    omega
  have h1 := topology_recv_loop_rank E tnc s k hrecv hk hs h30 k 0 32 (by omega) (by omega)
  rw [pow_zero] at h1
  unfold gaspi_sn_broadcast_topology
  rw [h1]
  simp only
  rw [topology_send_loop_ok E tnc s hsend k 32 _ (by omega)]
  rfl

theorem broadcast_run_zero (E : SnEnv) (tnc K : Nat) (hsend : ∀ d, E.send_topology d = 0)
    (h30 : tnc < 2 ^ 30) (hK30 : K ≤ 30) (hex : tnc < 2 ^ K) (hlow : ∀ j, j < K → 2 ^ j ≤ tnc) :
    gaspi_sn_broadcast_topology E tnc 0 = some (GASPI_SUCCESS, topology_sends tnc 0 K) := by
  have h1 := topology_recv_loop_zero E tnc h30 K 0 32 (fun j _ hj => hlow j (by omega))
    (by rw [Nat.zero_add]; exact hex) (by omega)
  rw [pow_zero, Nat.zero_add] at h1
  unfold gaspi_sn_broadcast_topology
  rw [h1]
  simp only
  rw [topology_send_loop_ok E tnc 0 hsend K 32 _ (by omega)]
  rfl

theorem send_dsts_append (a b : List SnEvent) : send_dsts (a ++ b) = send_dsts a ++ send_dsts b := by
  unfold send_dsts
  exact List.filterMap_append _ _ _

theorem count_sends_zero (tnc s r : Nat) :
    ∀ K, (∀ j, j < K → s + 2 ^ j < tnc → s + 2 ^ j ≠ r) →
      (send_dsts (topology_sends tnc s K)).count r = 0 := by
  intro K
  induction K with
  | zero => intro _; rfl
  | succ K ih =>
    intro h
    unfold topology_sends
    rw [send_dsts_append, List.count_append, ih (fun j hj => h j (by omega))]
    by_cases hd : s + 2 ^ K < tnc
    · rw [if_pos hd]
      have hne := h K (by omega) hd
      show List.count r [s + 2 ^ K] + 0 = 0
      rw [List.count_singleton]
      simp [hne]
    · rw [if_neg hd]
      rfl

theorem count_sends_one (tnc s r : Nat) :
    ∀ K j, j < K → s + 2 ^ j = r → r < tnc →
      (send_dsts (topology_sends tnc s K)).count r = 1 := by
  intro K
  induction K with
  | zero => intro j hj; omega
  | succ K ih =>
    intro j hj hjr hr
    unfold topology_sends
    rw [send_dsts_append, List.count_append]
    by_cases hjK : j = K
    · subst hjK
      rw [if_pos (by omega), count_sends_zero tnc s r j]
      · show List.count r [s + 2 ^ j] + 0 = 1
        rw [List.count_singleton]
        simp [hjr]
      · intro i hi _ heq
        have : (2 : Nat) ^ i < 2 ^ j := Nat.pow_lt_pow_right (by norm_num) hi
        omega
    · rw [ih j (by omega) hjr hr]
      have hlt : (2 : Nat) ^ j < 2 ^ K := Nat.pow_lt_pow_right (by norm_num) (by omega)
      by_cases hd : s + 2 ^ K < tnc
      · rw [if_pos hd]
        show List.count r [s + 2 ^ K] + 1 = 1
        rw [List.count_singleton]
        have : ¬ (s + 2 ^ K = r) := by omega
        simp [this]
      · rw [if_neg hd]
        rfl

theorem send_reaches {s r j kr : Nat} (hs : 2 ^ (j + 1) ∣ s) (hr : r % 2 ^ (kr + 1) = 2 ^ kr)
    (h : s + 2 ^ j = r) : j = kr := by
  apply lsb_unique _ hr
  rw [← h, Nat.add_mod, Nat.mod_eq_zero_of_dvd hs, Nat.zero_add, Nat.mod_mod]
  exact Nat.mod_eq_of_lt (Nat.pow_lt_pow_right (by norm_num) (by omega))

theorem sender_dvd {s r kr : Nat} (hr : r % 2 ^ (kr + 1) = 2 ^ kr) (h : s + 2 ^ kr = r) :
    2 ^ (kr + 1) ∣ s := by
  have e := Nat.div_add_mod r (2 ^ (kr + 1))
  rw [hr] at e
  refine ⟨r / 2 ^ (kr + 1), ?_⟩
  omega

theorem topology_sends_shape (tnc s : Nat) :
    ∀ K, recv_steps (topology_sends tnc s K) = [] ∧
      ∀ d ∈ send_dsts (topology_sends tnc s K), d < tnc ∧ s < d := by
  intro K
  induction K with
  | zero =>
    exact ⟨rfl, fun d hd => by cases hd⟩
  | succ K ih =>
    unfold topology_sends
    by_cases hd : s + 2 ^ K < tnc
    · rw [if_pos hd]
      refine ⟨ih.1, ?_⟩
      intro d hmem
      rcases List.mem_cons.mp hmem with h | h
      · have := Nat.two_pow_pos K
        omega
      · exact ih.2 d h
    · rw [if_neg hd]
      exact ih

theorem count_from_sender (tnc s r k K : Nat) (hr : r % 2 ^ (k + 1) = 2 ^ k) (hrt : r < tnc)
    (hdiv : ∀ j, j < K → 2 ^ (j + 1) ∣ s) (hK : s + 2 ^ k = r → k < K) :
    (send_dsts (topology_sends tnc s K)).count r = if s + 2 ^ k = r then 1 else 0 := by
  by_cases h : s + 2 ^ k = r
  · rw [if_pos h]
    exact count_sends_one tnc s r K k (hK h) h hrt
  · rw [if_neg h]
    apply count_sends_zero
    intro j hj _ heq
    have := send_reaches (hdiv j hj) hr heq
    subst this
    exact h heq

/-- C23. For a job of `tnc ≥ 1` ranks, with `tnc * 65` in the range of `int` as the code
needs it for the length of the topology, and with every receive and send of the
topology succeeding, `gaspi_sn_broadcast_topology` returns `GASPI_SUCCESS` on every
rank and its calls form a tree rooted at rank 0. Rank 0 only sends. A rank `r` in
`[1, tnc)` starts with its one call of `gaspi_sn_recv_topology`, at the step whose mask
`2 ^ k` is the lowest set bit of `r` (`r mod 2 ^ (k + 1) = 2 ^ k`), and only sends after
it; among the calls of all ranks there is exactly one send to `r`, and the rank
`r - 2 ^ k` makes it. The sends of a rank `s` go to ranks between `s + 1` and
`tnc - 1`. -/
theorem broadcast_topology_tree (E : SnEnv) (tnc : Nat) (h1 : 1 ≤ tnc) (h65 : tnc * 65 < 2 ^ 31)
    (hrecv : E.recv_topology = 0) (hsend : ∀ d, E.send_topology d = 0) :
    (∃ K, gaspi_sn_broadcast_topology E tnc 0 = some (GASPI_SUCCESS, topology_sends tnc 0 K)) ∧
    (∀ r, 1 ≤ r → r < tnc → ∃ k, r % 2 ^ (k + 1) = 2 ^ k ∧
      gaspi_sn_broadcast_topology E tnc r
        = some (GASPI_SUCCESS, SnEvent.recv_topology (2 ^ k) :: topology_sends tnc r k) ∧
      r - 2 ^ k < tnc ∧
      ∀ s evs, s < tnc → gaspi_sn_broadcast_topology E tnc s = some (GASPI_SUCCESS, evs) →
        (send_dsts evs).count r = if s + 2 ^ k = r then 1 else 0) ∧
    (∀ s K, recv_steps (topology_sends tnc s K) = [] ∧
      ∀ d ∈ send_dsts (topology_sends tnc s K), d < tnc ∧ s < d) := by
  have h30 : tnc < 2 ^ 30 := by
    have : (2 : Nat) ^ 31 = 2 * 2 ^ 30 := by norm_num
    omega
  obtain ⟨K, hK30, -, hex, hlow⟩ := exists_exit_exponent tnc h1 h30
  have run0 := broadcast_run_zero E tnc K hsend h30 hK30 hex hlow
  refine ⟨⟨K, run0⟩, ?_, topology_sends_shape tnc⟩
  intro r hr1 hrt
  obtain ⟨k, hk⟩ := exists_lsb r hr1
  refine ⟨k, hk, broadcast_run_rank E tnc r k hrecv hsend hk hrt h30, by omega, ?_⟩
  intro s evs hs hrun
  by_cases hs0 : s = 0
  · subst hs0
    rw [run0] at hrun
    injection hrun with hrun
    injection hrun with _ hev
    subst hev
    apply count_from_sender tnc 0 r k K hk hrt (fun j _ => Nat.dvd_zero _)
    intro h
    by_contra hc
    have : (2 : Nat) ^ K ≤ 2 ^ k := Nat.pow_le_pow_right (by norm_num) (by omega)
    omega
  · obtain ⟨ks, hks⟩ := exists_lsb s (by omega)
    rw [broadcast_run_rank E tnc s ks hrecv hsend hks hs h30] at hrun
    injection hrun with hrun
    injection hrun with _ hev
    subst hev
    show (send_dsts (topology_sends tnc s ks)).count r = _
    have hdvd := lsb_dvd hks
    apply count_from_sender tnc s r k ks hk hrt
    · intro j hj
      exact Nat.dvd_trans (Nat.pow_dvd_pow 2 (by omega)) hdvd
    · intro h
      by_contra hc
      have d1 := sender_dvd hk h
      have d2 : 2 ^ (ks + 1) ∣ s := Nat.dvd_trans (Nat.pow_dvd_pow 2 (by omega)) d1
      have := Nat.mod_eq_zero_of_dvd d2
      have := Nat.two_pow_pos ks
      omega

/-- C23 applies to a job of six ranks: rank 0 sends to the ranks 4, 2 and 1, rank 2
receives at the step with mask 2 and then sends to rank 3, and among all ranks only rank
4 sends to rank 5. -/
theorem broadcast_topology_tree_witness :
    gaspi_sn_broadcast_topology sn_env_ok 6 0 = some (GASPI_SUCCESS,
      [SnEvent.send_topology 4 4, SnEvent.send_topology 2 2, SnEvent.send_topology 1 1]) ∧
    gaspi_sn_broadcast_topology sn_env_ok 6 2 = some (GASPI_SUCCESS,
      [SnEvent.recv_topology 2, SnEvent.send_topology 3 1]) ∧
    (∀ s evs, s < 6 → gaspi_sn_broadcast_topology sn_env_ok 6 s = some (GASPI_SUCCESS, evs) →
      (send_dsts evs).count 5 = if s + 2 ^ 0 = 5 then 1 else 0) := by
  obtain ⟨_, h2, _⟩ := broadcast_topology_tree sn_env_ok 6 (by decide) (by decide) rfl (fun _ => rfl)
  obtain ⟨k, hk, _, _, h5⟩ := h2 5 (by decide) (by decide)
  have hk0 : k = 0 := lsb_unique hk (by decide)
  subst hk0
  exact ⟨by rfl, by rfl, h5⟩

/-! ### The stage indices of an uninterrupted allreduce -/

theorem same_refl (p : Proc) : Same p p := ⟨frameW_refl _, rfl⟩

theorem same_trans {p q r : Proc} (h1 : Same p q) (h2 : Same q r) : Same p r :=
  ⟨frameW_trans h1.1 h2.1, h2.2.trans h1.2⟩

theorem quiet_same {p q : Proc} (h : Quiet p q) : Same p q := ⟨postFrame_frameW h.2.1, h.2.2⟩

theorem same_stage_write {p q : Proc} (h : Same p q) (K : Cfg) (E : Env) (sp ds dst bid : Nat) :
    stage_write K E q sp ds dst bid = stage_write K E p sp ds dst bid := by
  obtain ⟨⟨cr, b, d, hg⟩, hr⟩ := h
  unfold stage_write sync_wr GPI2_GRP_LOCAL_SYNC_ADDR GPI2_GRP_REMOTE_SYNC_ADDR
  rw [hg, hr]

theorem same_stage_reduce {p q : Proc} (h : Same p q) (K : Cfg) (sp ds src bid : Nat) :
    stage_reduce K q sp ds src bid = stage_reduce K p sp ds src bid := by
  obtain ⟨⟨cr, b, d, hg⟩, -⟩ := h
  unfold stage_reduce GPI2_GRP_SYNC_POLL_ADDR
  rw [hg]

theorem same_butterfly {p q : Proc} (h : Same p q) (K : Cfg) (E : Env) (ds : Nat) (t : Int) :
    ∀ n k bid sp, butterfly_events K E q ds t n k bid sp = butterfly_events K E p ds t n k bid sp := by
  intro n
  induction n with
  | zero => intro k bid sp; rfl
  | succ n ih =>
    intro k bid sp
    unfold butterfly_events
    rw [same_stage_write h, same_stage_reduce h, ih, idst_frame h.1]
    obtain ⟨⟨cr, b, d, hg⟩, -⟩ := h
    rw [hg]

theorem same_fields {p q : Proc} (h : Same p q) :
    q.grp.rank = p.grp.rank ∧ q.grp.tnc = p.grp.tnc ∧ q.grp.next_pof2 = p.grp.next_pof2 ∧
      q.grp.pof2_exp = p.grp.pof2_exp ∧ q.grp.togle = p.grp.togle ∧
      q.grp.rank_grp = p.grp.rank_grp ∧ q.grp.barrier_cnt = p.grp.barrier_cnt ∧
      q.grp.lastmask = p.grp.lastmask := by
  obtain ⟨⟨cr, b, d, hg⟩, -⟩ := h
  rw [hg]
  exact ⟨rfl, rfl, rfl, rfl, rfl, rfl, rfl, rfl⟩

theorem write_and_sync_log {K : Cfg} {E : Env} {p : Proc} {sp sz dst bid : Nat}
    (h : (_gaspi_allreduce_write_and_sync K E p sp sz dst bid).1 = GASPI_SUCCESS) :
    (_gaspi_allreduce_write_and_sync K E p sp sz dst bid).2.log
        = p.log ++ stage_write K E p sp sz dst bid ∧
      Same p (_gaspi_allreduce_write_and_sync K E p sp sz dst bid).2 := by
  unfold _gaspi_allreduce_write_and_sync at h ⊢
  obtain ⟨-, e1⟩ := andThen_success h
  rw [e1] at h ⊢
  obtain ⟨-, e2⟩ := andThen_success h
  rw [e2] at h ⊢
  obtain ⟨h3, e3⟩ := andThen_success h
  rw [e3] at h ⊢
  have q1 := connect_if_needed_quiet E p dst
  have q2 := commit_if_needed_quiet E (connect_if_needed E p dst).2 dst
  have q := quiet_trans q1 q2
  generalize (commit_if_needed E (connect_if_needed E p dst).2 dst).2 = p2 at h h3 q ⊢
  obtain ⟨l3, g3, r3⟩ := post_or_corrupt_success h3
  generalize (post_or_corrupt E p2 sp sz dst
    (K.COLL_MEM_RECV + (TOGGLE_SIZE * bid + p2.grp.togle) * K.GPI2_REDUX_BUF_SIZE)).2 = p3
    at h l3 g3 r3 ⊢
  obtain ⟨l4, g4, r4⟩ := post_or_corrupt_success h
  have s2 : Same p p2 := quiet_same q
  have s3 : Same p p3 := ⟨by rw [g3]; exact s2.1, r3.trans s2.2⟩
  have s3f : Same p (set_sync_flag p3) := same_trans s3 ⟨⟨_, _, _, rfl⟩, rfl⟩
  refine ⟨?_, ⟨by rw [g4]; exact s3f.1, r4.trans s3f.2⟩⟩
  rw [l4]
  obtain ⟨-, t1, -, -, t5, -⟩ := same_fields s2
  obtain ⟨u0, u1, -, -, u5, -⟩ := same_fields s3
  show p3.log ++ [Event.write (group_wr E.scq_num p3.gctx.rank (GPI2_GRP_LOCAL_SYNC_ADDR p3.grp) 1 dst
    (GPI2_GRP_REMOTE_SYNC_ADDR p3.grp))] = _
  rw [l3, q.1, q.2.2, t5, s3.2]
  unfold stage_write sync_wr stage_addr GPI2_GRP_LOCAL_SYNC_ADDR GPI2_GRP_REMOTE_SYNC_ADDR TOGGLE_SIZE
  rw [u0, u1, u5]
  simp only [List.append_assoc, List.singleton_append]

theorem apply_redux_log (K : Cfg) (p : Proc) (sp bid : Nat) (ra : redux_args) :
    (_gaspi_apply_redux K p sp K.COLL_MEM_RECV bid ra).2.2.log
        = p.log ++ [Event.redux bid sp (stage_addr K p.grp.togle bid) (sp + redux_dsize ra)] ∧
      Same p (_gaspi_apply_redux K p sp K.COLL_MEM_RECV bid ra).2.2 ∧
      (_gaspi_apply_redux K p sp K.COLL_MEM_RECV bid ra).2.1 = sp + redux_dsize ra :=
  ⟨rfl, ⟨⟨_, _, _, rfl⟩, rfl⟩, rfl⟩

theorem wait_reduce_log (K : Cfg) (p : Proc) (sp bid src : Nat) (ra : redux_args) :
    (_gaspi_apply_redux K (observe p (GPI2_GRP_SYNC_POLL_ADDR p.grp src)) sp K.COLL_MEM_RECV bid ra).2.2.log
        = p.log ++ stage_reduce K p sp (redux_dsize ra) src bid ∧
      Same p (_gaspi_apply_redux K (observe p (GPI2_GRP_SYNC_POLL_ADDR p.grp src)) sp
        K.COLL_MEM_RECV bid ra).2.2 := by
  refine ⟨?_, ⟨⟨_, _, _, rfl⟩, rfl⟩⟩
  show (p.log ++ [_]) ++ [_] = _
  rw [List.append_assoc]
  rfl

theorem L2_round_log {K : Cfg} {E : Env} {ra : redux_args} {m : Nat} {p : Proc} {l : Loc}
    {x : Proc × Loc} (h : allreduce_L2_round K E ra m false p l = LoopEnd.fallthrough x) :
    x.1.log = p.log ++
        (stage_write K E p l.send_ptr (redux_dsize ra)
            (p.grp.rank_grp.getD (allreduce_idst p.grp l.tmprank m) (-1)).toNat l.bid ++
          stage_reduce K p l.send_ptr (redux_dsize ra)
            (allreduce_idst p.grp l.tmprank m) l.bid) ∧
      Same p x.1 ∧
      x.2 = { l with send_ptr := l.send_ptr + redux_dsize ra, bid := l.bid + 1 } := by
  unfold allreduce_L2_round at h
  simp only at h
  have hpre : allreduce_L2_pre K E ra m false p l
      = _gaspi_allreduce_write_and_sync K E p l.send_ptr (redux_dsize ra)
          (p.grp.rank_grp.getD (allreduce_idst p.grp l.tmprank m) (-1)).toNat l.bid := by
    unfold allreduce_L2_pre
    simp
  rw [hpre] at h
  by_cases h1 : (_gaspi_allreduce_write_and_sync K E p l.send_ptr (redux_dsize ra)
      (p.grp.rank_grp.getD (allreduce_idst p.grp l.tmprank m) (-1)).toNat l.bid).1 ≠ GASPI_SUCCESS
  · rw [if_pos h1] at h
    cases h
  · rw [if_neg h1] at h
    obtain ⟨lw, sw⟩ := write_and_sync_log (not_not.mp h1)
    generalize (_gaspi_allreduce_write_and_sync K E p l.send_ptr (redux_dsize ra)
      (p.grp.rank_grp.getD (allreduce_idst p.grp l.tmprank m) (-1)).toNat l.bid).2 = w at h lw sw
    split at h
    · cases h
    · split at h
      · cases h
      · injection h with h2
        subst h2
        obtain ⟨lr, sr⟩ := wait_reduce_log K w l.send_ptr l.bid (allreduce_idst p.grp l.tmprank m) ra
        refine ⟨?_, same_trans sw sr, rfl⟩
        show (_gaspi_apply_redux K _ l.send_ptr K.COLL_MEM_RECV l.bid ra).2.2.log = _
        rw [lr, lw, same_stage_reduce sw, List.append_assoc]

theorem L2_loop_log (K : Cfg) (E : Env) (ra : redux_args) (e : Nat) :
    ∀ (n k : Nat) (p : Proc) (l : Loc) (x : Proc × Loc), p.grp.next_pof2 = 2 ^ e → k ≤ e →
      allreduce_L2_loop K E ra n (2 ^ k) false p l = some (LoopEnd.fallthrough x) →
      x.1.log = p.log ++
          butterfly_events K E p (redux_dsize ra) l.tmprank (e - k) k l.bid l.send_ptr ∧
        Same p x.1 ∧
        x.2 = { l with send_ptr := l.send_ptr + (e - k) * (redux_dsize ra),
                       bid := l.bid + (e - k) } := by
  intro n
  induction n with
  | zero =>
    intro k p l x hp hk h
    unfold allreduce_L2_loop at h
    split at h
    · cases h
    · rename_i hlt
      rw [hp] at hlt
      have hke : k = e := by
        by_contra hne
        exact hlt (Nat.pow_lt_pow_right (by norm_num) (by omega))
      subst hke
      injection h with h
      injection h with h
      subst h
      simp [butterfly_events, same_refl]
  | succ n ih =>
    intro k p l x hp hk h
    unfold allreduce_L2_loop at h
    by_cases hlt : 2 ^ k < p.grp.next_pof2
    · rw [if_pos hlt] at h
      have hke : k < e := by
        rw [hp] at hlt
        by_contra hne
        have : (2 : Nat) ^ e ≤ 2 ^ k := Nat.pow_le_pow_right (by norm_num) (by omega)
        omega
      cases hr : allreduce_L2_round K E ra (2 ^ k) false p l with
      | returned r q =>
        rw [hr] at h
        cases h
      | fallthrough y =>
        rw [hr] at h
        simp only at h
        rw [shl_two_pow] at h
        obtain ⟨ly, sy, ey⟩ := L2_round_log hr
        obtain ⟨-, -, f3, -⟩ := same_fields sy
        obtain ⟨lx, sx, ex⟩ := ih (k + 1) y.1 y.2 x (by rw [f3, hp]) (by omega) h
        have e1 : e - k = (e - (k + 1)) + 1 := by omega
        refine ⟨?_, same_trans sy sx, ?_⟩
        · rw [lx, ly, same_butterfly sy, e1, ey]
          simp only [butterfly_events, List.append_assoc]
        · rw [ex, ey, e1]
          simp only [Loc.mk.injEq, and_true]
          constructor
          · rw [Nat.add_mul]
            omega
          · omega
    · rw [if_neg hlt] at h
      rw [hp] at hlt
      have hke : k = e := by
        by_contra hne
        exact hlt (Nat.pow_lt_pow_right (by norm_num) (by omega))
      subst hke
      injection h with h
      injection h with h
      subst h
      simp [butterfly_events, same_refl]

theorem shape_refl (p : Proc) : Shape p p := ⟨rfl, rfl, rfl, rfl, rfl, rfl, rfl, rfl, rfl⟩

theorem shape_trans {p q r : Proc} (h1 : Shape p q) (h2 : Shape q r) : Shape p r := by
  obtain ⟨a1, a2, a3, a4, a5, a6, a7, a8, a9⟩ := h1
  obtain ⟨b1, b2, b3, b4, b5, b6, b7, b8, b9⟩ := h2
  exact ⟨b1.trans a1, b2.trans a2, b3.trans a3, b4.trans a4, b5.trans a5, b6.trans a6, b7.trans a7,
    b8.trans a8, b9.trans a9⟩

theorem same_shape {p q : Proc} (h : Same p q) : Shape p q := by
  obtain ⟨f1, f2, f3, f4, f5, f6, f7, f8⟩ := same_fields h
  exact ⟨h.2, f1, f2, f3, f4, f5, f6, f7, f8⟩

theorem shape_idst {p q : Proc} (h : Shape p q) (t : Int) (m : Nat) :
    allreduce_idst q.grp t m = allreduce_idst p.grp t m := by
  obtain ⟨-, -, a3, a4, -⟩ := h
  unfold allreduce_idst
  rw [a3, a4]

theorem shape_stage_write {p q : Proc} (h : Shape p q) (K : Cfg) (E : Env) (sp ds dst bid : Nat) :
    stage_write K E q sp ds dst bid = stage_write K E p sp ds dst bid := by
  obtain ⟨a1, a2, a3, a4, a5, a6, a7, a8, a9⟩ := h
  unfold stage_write sync_wr GPI2_GRP_LOCAL_SYNC_ADDR GPI2_GRP_REMOTE_SYNC_ADDR
  rw [a1, a2, a3, a6]

theorem shape_stage_reduce {p q : Proc} (h : Shape p q) (K : Cfg) (sp ds src bid : Nat) :
    stage_reduce K q sp ds src bid = stage_reduce K p sp ds src bid := by
  obtain ⟨a1, a2, a3, a4, a5, a6, a7, a8, a9⟩ := h
  unfold stage_reduce GPI2_GRP_SYNC_POLL_ADDR
  rw [a6, a8]

theorem shape_butterfly {p q : Proc} (h : Shape p q) (K : Cfg) (E : Env) (ds : Nat) (t : Int) :
    ∀ n k bid sp, butterfly_events K E q ds t n k bid sp = butterfly_events K E p ds t n k bid sp := by
  intro n
  induction n with
  | zero => intro k bid sp; rfl
  | succ n ih =>
    intro k bid sp
    unfold butterfly_events
    rw [shape_stage_write h, shape_stage_reduce h, ih, shape_idst h, h.2.2.2.2.2.2.1]

theorem L1_body_log {K : Cfg} {E : Env} {ra : redux_args} {p : Proc} {l : Loc} {x : Proc × Loc}
    (h : allreduce_L1_body K E ra p l = LoopEnd.fallthrough x) :
    Same p x.1 ∧
    (p.grp.rank.toNat < 2 * (p.grp.tnc - p.grp.next_pof2) → p.grp.rank.toNat % 2 = 0 →
      x.1.log = p.log ++ stage_write K E p l.send_ptr (redux_dsize ra)
          (p.grp.rank_grp.getD (p.grp.rank.toNat + 1) (-1)).toNat l.bid ∧
        x.2 = { l with tmprank := -1, bid := l.bid + 1 }) ∧
    (p.grp.rank.toNat < 2 * (p.grp.tnc - p.grp.next_pof2) → p.grp.rank.toNat % 2 ≠ 0 →
      x.1.log = p.log ++ stage_reduce K p l.send_ptr (redux_dsize ra)
          (p.grp.rank.toNat - 1) l.bid ∧
        x.2 = { send_ptr := l.send_ptr + redux_dsize ra,
                tmprank := ((p.grp.rank.toNat >>> 1 : Nat) : Int), bid := l.bid + 1 }) ∧
    (¬ p.grp.rank.toNat < 2 * (p.grp.tnc - p.grp.next_pof2) →
      x.1.log = p.log ∧
        x.2 = { l with tmprank := ((p.grp.rank.toNat - (p.grp.tnc - p.grp.next_pof2) : Nat) : Int),
                       bid := if p.grp.tnc - p.grp.next_pof2 ≠ 0 then l.bid + 1 else l.bid }) := by
  unfold allreduce_L1_body at h
  simp only at h
  by_cases h1 : p.grp.rank.toNat < 2 * (p.grp.tnc - p.grp.next_pof2)
  · rw [if_pos h1] at h
    by_cases h2 : p.grp.rank.toNat % 2 = 0
    · rw [if_pos h2] at h
      split at h
      · cases h
      · rename_i hw
        obtain ⟨lw, sw⟩ := write_and_sync_log (not_not.mp hw)
        injection h with h3
        subst h3
        exact ⟨sw, fun _ _ => ⟨lw, rfl⟩, fun _ hn => absurd h2 hn, fun hn => absurd h1 hn⟩
    · rw [if_neg h2] at h
      split at h
      · cases h
      · split at h
        · cases h
        · injection h with h3
          subst h3
          obtain ⟨lr, sr⟩ := wait_reduce_log K p l.send_ptr l.bid (p.grp.rank.toNat - 1) ra
          exact ⟨sr, fun _ hn => absurd hn h2, fun _ _ => ⟨lr, rfl⟩, fun hn => absurd h1 hn⟩
  · rw [if_neg h1] at h
    injection h with h3
    subst h3
    exact ⟨same_refl p, fun hn => absurd hn h1, fun hn => absurd hn h1, fun _ => ⟨rfl, rfl⟩⟩

theorem L3_log {K : Cfg} {E : Env} {ra : redux_args} {p : Proc} {l : Loc} {y : Proc × Loc}
    (h : allreduce_L3 K E ra p l = LoopEnd.fallthrough y) :
    Same p y.1 ∧
    (p.grp.rank.toNat < 2 * (p.grp.tnc - p.grp.next_pof2) → p.grp.rank.toNat % 2 ≠ 0 →
      y.1.log = p.log ++ stage_write K E p l.send_ptr (redux_dsize ra)
          (p.grp.rank_grp.getD (p.grp.rank.toNat - 1) (-1)).toNat l.bid) ∧
    (p.grp.rank.toNat < 2 * (p.grp.tnc - p.grp.next_pof2) → p.grp.rank.toNat % 2 = 0 →
      y.1.log = p.log ++ [Event.polled (GPI2_GRP_SYNC_POLL_ADDR p.grp p.grp.rank.toNat)
          p.grp.barrier_cnt] ∧
        y.2.send_ptr = stage_addr K p.grp.togle (l.bid + p.grp.pof2_exp)) ∧
    (¬ p.grp.rank.toNat < 2 * (p.grp.tnc - p.grp.next_pof2) → y.1.log = p.log) := by
  unfold allreduce_L3 at h
  simp only at h
  by_cases h1 : p.grp.rank.toNat < 2 * (p.grp.tnc - p.grp.next_pof2)
  · rw [if_pos h1] at h
    by_cases h2 : p.grp.rank.toNat % 2 ≠ 0
    · rw [if_pos h2] at h
      split at h
      · cases h
      · rename_i hw
        obtain ⟨lw, sw⟩ := write_and_sync_log (not_not.mp hw)
        injection h with h3
        subst h3
        exact ⟨sw, fun _ _ => lw, fun _ hn => absurd hn h2, fun hn => absurd h1 hn⟩
    · rw [if_neg h2] at h
      split at h
      · cases h
      · injection h with h3
        subst h3
        exact ⟨same_refl p, fun _ hn => absurd hn h2, fun _ _ => ⟨rfl, rfl⟩, fun hn => absurd h1 hn⟩
  · rw [if_neg h1] at h
    injection h with h3
    subst h3
    exact ⟨same_refl p, fun hn => absurd hn h1, fun hn => absurd hn h1, fun _ => rfl⟩

theorem finish_log {E : Env} {ra : redux_args} {p q : Proc} {l : Loc} {br rb : List Nat}
    (h : allreduce_finish E ra p l br = some (GASPI_SUCCESS, q, rb)) :
    q.log = p.log ∧
      rb = readBytes q.grp.buf l.send_ptr (redux_dsize ra) ++
        br.drop (redux_dsize ra) := by
  unfold allreduce_finish at h
  cases hp : pgaspi_dev_poll_groups E p with
  | none =>
    rw [hp] at h
    cases h
  | some y =>
    obtain ⟨pret, p1⟩ := y
    rw [hp] at h
    simp only at h
    obtain ⟨g1, l1⟩ := poll_groups_grp hp
    split at h
    · injection h with h
      injection h with h _
      cases h
    · injection h with h
      injection h with _ h
      injection h with h2 h3
      subst h2
      subst h3
      exact ⟨l1, rfl⟩

theorem from_L3_log {K : Cfg} {E : Env} {ra : redux_args} {P q : Proc} {l : Loc} {br rb : List Nat}
    (h : allreduce_from_L3 K E ra br (P, l) = some (GASPI_SUCCESS, q, rb)) :
    (P.grp.rank.toNat < 2 * (P.grp.tnc - P.grp.next_pof2) → P.grp.rank.toNat % 2 ≠ 0 →
      q.log = P.log ++ stage_write K E P l.send_ptr (redux_dsize ra)
          (P.grp.rank_grp.getD (P.grp.rank.toNat - 1) (-1)).toNat l.bid) ∧
    (P.grp.rank.toNat < 2 * (P.grp.tnc - P.grp.next_pof2) → P.grp.rank.toNat % 2 = 0 →
      q.log = P.log ++ [Event.polled (GPI2_GRP_SYNC_POLL_ADDR P.grp P.grp.rank.toNat)
          P.grp.barrier_cnt] ∧
        rb = readBytes q.grp.buf (stage_addr K P.grp.togle (l.bid + P.grp.pof2_exp))
            (redux_dsize ra) ++ br.drop (redux_dsize ra)) ∧
    (¬ P.grp.rank.toNat < 2 * (P.grp.tnc - P.grp.next_pof2) → q.log = P.log) := by
  unfold allreduce_from_L3 at h
  simp only at h
  cases h3 : allreduce_L3 K E ra P l with
  | returned e q1 =>
    rw [h3] at h
    simp only at h
    injection h with h
    injection h with h _
    exact absurd h (L3_code h3)
  | fallthrough y =>
    rw [h3] at h
    simp only at h
    obtain ⟨lf, rf⟩ := finish_log h
    obtain ⟨-, c1, c2, c3⟩ := L3_log h3
    refine ⟨fun a b => lf.trans (c1 a b), fun a b => ⟨lf.trans (c2 a b).1, ?_⟩, fun a => lf.trans (c3 a)⟩
    rw [rf, (c2 a b).2]

theorem enter_idle (K : Cfg) (p : Proc) (bs : List Nat) (ra : redux_args) (h : p.grp.level = 0) :
    (allreduce_enter K p bs ra).grp.level = 0 ∧ (allreduce_enter K p bs ra).log = p.log ∧
      (allreduce_enter K p bs ra).grp.lastmask = p.grp.lastmask ∧
      (allreduce_enter K p bs ra).grp.next_pof2 = p.grp.next_pof2 ∧
      (allreduce_enter K p bs ra).grp.pof2_exp = p.grp.pof2_exp ∧
      (allreduce_enter K p bs ra).grp.rank = p.grp.rank ∧
      (allreduce_enter K p bs ra).grp.tnc = p.grp.tnc ∧
      (allreduce_enter K p bs ra).grp.togle = p.grp.togle := by
  unfold allreduce_enter
  simp only [if_pos h]
  refine ⟨?_, ?_, ?_, ?_, ?_, ?_, ?_, ?_⟩ <;> first | exact h | rfl | trivial

theorem enter_L2_shape (x : Proc × Loc) : Shape x.1 (enter_L2 x).1 ∧ (enter_L2 x).1.log = x.1.log ∧
    (enter_L2 x).2 = x.2 :=
  ⟨⟨rfl, rfl, rfl, rfl, rfl, rfl, rfl, rfl, rfl⟩, rfl, rfl⟩

theorem enter_L3_shape (x : Proc × Loc) : Shape x.1 (enter_L3 x).1 ∧ (enter_L3 x).1.log = x.1.log ∧
    (enter_L3 x).2 = x.2 :=
  ⟨⟨rfl, rfl, rfl, rfl, rfl, rfl, rfl, rfl, rfl⟩, rfl, rfl⟩

theorem from_L2_log {K : Cfg} {E : Env} {ra : redux_args} {P q : Proc} {l : Loc} {br rb : List Nat}
    (hm : P.grp.lastmask = 1) (hp : P.grp.next_pof2 = 2 ^ P.grp.pof2_exp)
    (h : allreduce_from_L2 K E ra br (P, l) = some (GASPI_SUCCESS, q, rb)) :
    ∃ P3 l3, Shape P P3 ∧ allreduce_from_L3 K E ra br (P3, l3) = some (GASPI_SUCCESS, q, rb) ∧
      (l.tmprank ≠ -1 →
        P3.log = P.log ++ butterfly_events K E P (redux_dsize ra) l.tmprank
            P.grp.pof2_exp 0 l.bid l.send_ptr ∧
          l3 = { l with send_ptr := l.send_ptr + P.grp.pof2_exp * (redux_dsize ra),
                        bid := l.bid + P.grp.pof2_exp }) ∧
      (l.tmprank = -1 → P3.log = P.log ∧ l3 = l) := by
  rw [from_L2_eq] at h
  by_cases ht : l.tmprank ≠ -1
  · rw [if_pos ht] at h
    have hmask : P.grp.lastmask &&& 0x7fffffff = 2 ^ 0 := by rw [hm]; rfl
    have hjmp : decide (P.grp.lastmask >>> 31 ≠ 0) = false := by rw [hm]; rfl
    rw [hmask, hjmp] at h
    cases hr : allreduce_L2_loop K E ra P.grp.next_pof2 (2 ^ 0) false P l with
    | none =>
      rw [hr] at h
      exact absurd h (by simp [allreduce_after_L2])
    | some r =>
      cases r with
      | returned e q1 =>
        rw [hr] at h
        simp only [allreduce_after_L2] at h
        injection h with h
        injection h with h _
        exact absurd h (L2_loop_code K E ra _ _ _ _ _ _ _ hr)
      | fallthrough x =>
        rw [hr] at h
        simp only [allreduce_after_L2] at h
        obtain ⟨lx, sx, ex⟩ := L2_loop_log K E ra P.grp.pof2_exp _ 0 P l x hp (by omega) hr
        obtain ⟨s3, l3, e3⟩ := enter_L3_shape x
        refine ⟨(enter_L3 x).1, (enter_L3 x).2, shape_trans (same_shape sx) s3, h, ?_, ?_⟩
        · intro _
          rw [l3, e3, lx, ex]
          exact ⟨rfl, rfl⟩
        · intro hn
          exact absurd hn ht
  · rw [if_neg ht] at h
    simp only [allreduce_after_L2] at h
    obtain ⟨s3, l3, e3⟩ := enter_L3_shape (P, l)
    refine ⟨(enter_L3 (P, l)).1, (enter_L3 (P, l)).2, s3, h, ?_, ?_⟩
    · intro hn
      exact absurd hn ht
    · intro _
      exact ⟨l3, e3⟩

theorem locals_idle (K : Cfg) (c : gaspi_group_ctx_t) (h : c.level = 0) :
    allreduce_locals K c = { send_ptr := send_base K c, bid := 0, tmprank := c.tmprank } := by
  unfold allreduce_locals
  rw [if_neg (by rw [h]; decide)]

/-- C28. A call of `_gaspi_allreduce` that starts at level 0 with `lastmask = 1` in a group
with `next_pof2 = 2 ^ pof2_exp` and returns `GASPI_SUCCESS` has done exactly the actions
of `allreduce_events`. A member that takes part in the butterfly uses in round `k`
(`k = 0 .. pof2_exp - 1`) the stage index `(rest > 0 ? 1 : 0) + k`, for the write to
its partner and for the reduction from its own stage alike; an odd member below
`2 * rest` then writes to its even partner with the stage index `1 + pof2_exp`, and an
even member below `2 * rest` copies its result from the stage `1 + pof2_exp` of its own
buffer. A write with a stage index goes to the offset of the buffer of the partner
from which a reduction with the same stage index at the same togle reads. -/
theorem allreduce_stage_indices (K : Cfg) (E : Env) (p q : Proc) (bs br rb : List Nat)
    (ra : redux_args) (hlevel : p.grp.level = 0) (hmask : p.grp.lastmask = 1)
    (hP : p.grp.next_pof2 = 2 ^ p.grp.pof2_exp)
    (hrun : _gaspi_allreduce K E p bs br ra = some (GASPI_SUCCESS, q, rb)) :
    q.log = p.log ++ allreduce_events K E (allreduce_enter K p bs ra) (redux_dsize ra)
        (send_base K (allreduce_enter K p bs ra).grp) ∧
    (p.grp.rank.toNat < 2 * (p.grp.tnc - p.grp.next_pof2) → p.grp.rank.toNat % 2 = 0 →
      rb = readBytes q.grp.buf (stage_addr K p.grp.togle (1 + p.grp.pof2_exp))
          (redux_dsize ra) ++ br.drop (redux_dsize ra)) ∧
    (∀ (p2 : Proc) (sp sp2 ds dst src bid : Nat), p2.grp.togle = p.grp.togle →
      ∃ w s a, stage_write K E p sp ds dst bid = [Event.write w, s] ∧
        w.remote_addr = stage_addr K p.grp.togle bid ∧
        stage_reduce K p2 sp2 ds src bid = [a, Event.redux bid sp2 w.remote_addr (sp2 + ds)]) := by
  have third : ∀ (p2 : Proc) (sp sp2 ds dst src bid : Nat), p2.grp.togle = p.grp.togle →
      ∃ w s a, stage_write K E p sp ds dst bid = [Event.write w, s] ∧
        w.remote_addr = stage_addr K p.grp.togle bid ∧
        stage_reduce K p2 sp2 ds src bid = [a, Event.redux bid sp2 w.remote_addr (sp2 + ds)] := by
    intro p2 sp sp2 ds dst src bid ht
    refine ⟨group_wr E.scq_num p.gctx.rank sp ds dst (stage_addr K p.grp.togle bid),
      Event.write (sync_wr E p dst),
      Event.polled (GPI2_GRP_SYNC_POLL_ADDR p2.grp src) p2.grp.barrier_cnt, rfl, rfl, ?_⟩
    unfold stage_reduce
    rw [ht]
    rfl
  obtain ⟨e1, e2, e3, e4, e5, e6, e7, e8⟩ := enter_idle K p bs ra hlevel
  have hrun := (engine_returns hrun).2
  unfold allreduce_from_L0 at hrun
  simp only at hrun
  generalize allreduce_enter K p bs ra = P2 at hrun e1 e2 e3 e4 e5 e6 e7 e8 ⊢
  have hl0 := locals_idle K P2.grp e1
  rw [if_neg (by rw [e1]; decide), if_neg (by rw [e1]; decide)] at hrun
  unfold allreduce_L1 at hrun
  cases hb : allreduce_L1_body K E ra P2 (allreduce_locals K P2.grp) with
  | returned e q1 =>
    rw [hb] at hrun
    simp only at hrun
    injection hrun with hrun
    injection hrun with hrun _
    exact absurd hrun (L1_body_code hb)
  | fallthrough x =>
    rw [hb] at hrun
    simp only at hrun
    rw [hl0] at hb
    obtain ⟨s1, a1, a2, a3⟩ := L1_body_log hb
    simp only at a1 a2 a3
    obtain ⟨s2, l2, x2⟩ := enter_L2_shape x
    have sh2 : Shape P2 (enter_L2 x).1 := shape_trans (same_shape s1) s2
    obtain ⟨-, f2, f3, f4, f5, f6, f7, f8, f9⟩ := id sh2
    obtain ⟨P3, l3, s3, h3, b1, b2⟩ := from_L2_log (f9.trans (e3.trans hmask))
      (by rw [f4, f5, e4, e5]; exact hP) hrun
    have sh3 : Shape P2 P3 := shape_trans sh2 s3
    obtain ⟨-, g2, g3, g4, g5, g6, g7, g8, g9⟩ := id sh3
    obtain ⟨c1, c2, c3⟩ := from_L3_log h3
    rw [g2, g3, g4] at c1 c2 c3
    have hnat : ∀ n : Nat, ((n : Nat) : Int) ≠ -1 := by
      intro n h
      have := Int.natCast_nonneg n
      omega
    refine ⟨?_, ?_, third⟩
    · unfold allreduce_events
      simp only
      by_cases hA : P2.grp.rank.toNat < 2 * (P2.grp.tnc - P2.grp.next_pof2)
      · by_cases hE : P2.grp.rank.toNat % 2 = 0
        · rw [if_pos hA, if_pos hE]
          obtain ⟨la, xa⟩ := a1 hA hE
          have ht : x.2.tmprank = -1 := by rw [xa]
          obtain ⟨lb, -⟩ := b2 ht
          obtain ⟨lc, -⟩ := c2 hA hE
          rw [lc, lb, l2, la, e2]
          unfold GPI2_GRP_SYNC_POLL_ADDR
          rw [g6, g8]
          simp only [List.append_assoc]
        · rw [if_pos hA, if_neg hE]
          obtain ⟨la, xa⟩ := a2 hA hE
          have ht : x.2.tmprank ≠ -1 := by
            rw [xa]
            exact hnat _
          obtain ⟨lb, l3e⟩ := b1 ht
          have lc := c1 hA hE
          rw [lc, lb, l2, la, e2, l3e, xa]
          simp only
          rw [shape_stage_write sh3, shape_butterfly sh2, f5, g7]
          simp only [List.append_assoc, Nat.zero_add]
      · rw [if_neg hA]
        obtain ⟨la, xa⟩ := a3 hA
        have ht : x.2.tmprank ≠ -1 := by
          rw [xa]
          exact hnat _
        obtain ⟨lb, -⟩ := b1 ht
        have lc := c3 hA
        rw [lc, lb, l2, la, e2, xa]
        simp only
        rw [shape_butterfly sh2, f5]
        try simp only [Nat.zero_add]
    · intro hA hE
      rw [← e6, ← e7, ← e4] at hA
      rw [← e6] at hE
      obtain ⟨-, xa⟩ := a1 hA hE
      have ht : x.2.tmprank = -1 := by rw [xa]
      obtain ⟨-, l3e⟩ := b2 ht
      obtain ⟨-, lr⟩ := c2 hA hE
      rw [lr, l3e, xa, g6, g5, e8, e5]

/-- C28 applies to member 3 of a group of six (`rest = 2`, `pof2_exp = 2`), an odd member
below `2 * rest`: it reduces with the stage indices 0, 1 and 2 and writes to the stages 1,
2 and 3 of its partners. -/
theorem allreduce_stage_indices_witness :
    (engine_result layout (env_token 1) (member 6 3) (le_encode 8 3) (le_encode 8 0) sum_ulong).2.1.log
      = allreduce_events layout (env_token 1)
          (allreduce_enter layout (member 6 3) (le_encode 8 3) sum_ulong) 8
          (send_base layout (allreduce_enter layout (member 6 3) (le_encode 8 3) sum_ulong).grp) ∧
    redux_bids (engine_result layout (env_token 1) (member 6 3) (le_encode 8 3) (le_encode 8 0)
      sum_ulong).2.1.log = [0, 1, 2] ∧
    data_offsets (engine_result layout (env_token 1) (member 6 3) (le_encode 8 3) (le_encode 8 0)
      sum_ulong).2.1.log = [stage_addr layout 0 1, stage_addr layout 0 2, stage_addr layout 0 3] := by
  obtain ⟨h1, _, _⟩ :=
    allreduce_stage_indices layout (env_token 1) (member 6 3)
      (engine_result layout (env_token 1) (member 6 3) (le_encode 8 3) (le_encode 8 0) sum_ulong).2.1
      (le_encode 8 3) (le_encode 8 0)
      (engine_result layout (env_token 1) (member 6 3) (le_encode 8 3) (le_encode 8 0) sum_ulong).2.2
      sum_ulong (by rfl) (by rfl) (by rfl) (by rfl)
  exact ⟨h1, by rfl, by rfl⟩

/-! ### A barrier that passes on the tokens of an earlier barrier -/

/-- The round masks at which `d` has a bit add up to the low bits of `d`. -/
theorem bit_sum (d : Nat) : ∀ n,
    (((List.range n).map (fun k => 2 ^ k)).filter (fun m => decide (d &&& m ≠ 0))).sum = d % 2 ^ n := by
  intro n
  induction n with
  | zero => simp [Nat.mod_one]
  | succ n ih =>
    rw [List.range_succ, List.map_append, List.filter_append, List.sum_append, ih]
    have hm : d % 2 ^ (n + 1) = d % 2 ^ n + 2 ^ n * (d / 2 ^ n % 2) := by
      rw [pow_succ, Nat.mod_mul]
    have ht := @Nat.testBit_to_div_mod n d
    rw [hm]
    by_cases hb : d.testBit n = true
    · have h1 : d &&& 2 ^ n ≠ 0 := by
        intro h0
        rw [and_two_pow_eq_zero] at h0
        rw [h0] at hb
        exact Bool.noConfusion hb
      have h2 : d / 2 ^ n % 2 = 1 := by
        rw [hb] at ht
        exact of_decide_eq_true ht.symm
      simp [h1, h2]
    · have hb2 : d.testBit n = false := by simpa using hb
      have h1 : d &&& 2 ^ n = 0 := (and_two_pow_eq_zero d n).2 hb2
      have h2 : d / 2 ^ n % 2 = 0 := by
        rw [hb2] at ht
        have := of_decide_eq_false ht.symm
        omega
      simp [h1, h2]

/-- Every offset `d` below the group size `T ≤ 2^31` is the sum of distinct round masks of
the barrier: of the masks `2^k < T` at which `d` has a bit. -/
theorem offset_is_sum_of_round_masks (T d : Nat) (hT : T ≤ 2 ^ 31) (hd : d < T) :
    ∃ S : List Nat, List.Sublist S (round_masks T) ∧ S.Nodup ∧ S.sum = d := by
  refine ⟨(round_masks T).filter (fun m => decide (d &&& m ≠ 0)), List.filter_sublist _, ?_, ?_⟩
  · apply List.Nodup.filter
    unfold round_masks
    apply List.Nodup.filter
    apply List.Nodup.map
    · intro a b h
      exact Nat.pow_right_injective (le_refl 2) h
    · exact List.nodup_range 31
  · unfold round_masks
    rw [List.filter_filter]
    have hc : ((List.range 31).map (fun k => 2 ^ k)).filter
          (fun a => decide (d &&& a ≠ 0) && decide (a < T)) =
        ((List.range 31).map (fun k => 2 ^ k)).filter (fun m => decide (d &&& m ≠ 0)) := by
      apply List.filter_congr
      intro m hm
      rw [List.mem_map] at hm
      obtain ⟨k, -, rfl⟩ := hm
      by_cases h0 : d &&& 2 ^ k = 0
      · simp [h0]
      · have hb : d.testBit k = true := by
          by_contra hne
          have : d.testBit k = false := by simpa using hne
          exact h0 ((and_two_pow_eq_zero d k).2 this)
        have hle : 2 ^ k ≤ d := Nat.testBit_implies_ge hb
        have hlt : 2 ^ k < T := by omega
        simp [h0, hlt]
    rw [hc, bit_sum d 31]
    exact Nat.mod_eq_of_lt (by omega)

set_option maxRecDepth 100000 in
/-- C29 fails when `barrier_cnt` comes back to the value of an earlier barrier at the same
`togle`. Four ranks run a barrier (token 1, `togle` 0) and three allreduces on
`GASPI_GROUP_ALL`: rank 0 then still holds the token 1 of the barrier in the slot 6 of
member 3, and rank 2 in the slot 2 of member 1, the slots that the allreduces (partners
`r xor 1` and `r xor 2`) never write, while the slots of `togle` 0 that the allreduces
write hold the token 3. The counter has the period 255 and `togle` the period 2: 510 bumps from 1 give 1
again, 506 bumps from 4 give 255. In `after_510` the ranks 0 and 2 alone call
`pgaspi_barrier`: both return `GASPI_SUCCESS` with the token 1, while the ranks 1 and 3
have made no call (their counter is 255, and their record has the 28 entries it had). -/
theorem barrier_passes_on_stale_token :
    four_collectives.map sync_state =
      [(some GASPI_SUCCESS, [4, 0, 7, 28, 0, 0, 3, 4, 3, 4, 1, 0]),
       (some GASPI_SUCCESS, [4, 0, 7, 28, 3, 4, 0, 0, 0, 0, 3, 4]),
       (some GASPI_SUCCESS, [4, 0, 7, 28, 3, 4, 1, 0, 0, 0, 3, 4]),
       (some GASPI_SUCCESS, [4, 0, 7, 28, 0, 0, 3, 4, 3, 4, 0, 0])] ∧
    Nat.iterate bump_barrier_cnt 510 1 = 1 ∧
    Nat.iterate bump_barrier_cnt 506 4 = 255 ∧
    (collective call_barrier [0, 2] 2 after_510).map sync_state =
      [(some GASPI_SUCCESS, [1, 1, 7, 32, 0, 0, 3, 4, 1, 4, 1, 0]),
       (some GASPI_SUCCESS, [255, 0, 7, 28, 1, 4, 0, 0, 0, 0, 3, 4]),
       (some GASPI_SUCCESS, [1, 1, 7, 32, 1, 4, 1, 0, 0, 0, 3, 4]),
       (some GASPI_SUCCESS, [255, 0, 7, 28, 0, 0, 3, 4, 1, 4, 0, 0])] := by
  decide!

end GPI2
